import Mathlib

/-!
# Tungsten `Curves.cpp`: quadratic B-spline curve primitives

A shallow embedding of `src/core/primitives/Curves.cpp`.

Number model.  The source computes in IEEE binary32 (`float`).  There are two
layers.  In the first a finite float is an element of an arbitrary linearly
ordered field `F` and `+ - *` are exact; it serves the properties that the code
enforces by its own comparisons and assignments, which rounding cannot affect.
In the second (section "Binary32 arithmetic") every operation is followed by
a rounding; it serves the properties that depend on the computed values.  Two
library pieces the source relies on are made explicit in both:

* a division whose divisor is zero yields a non-finite value (`±Inf` or `NaN`);
  it is modelled by `fdiv`, which returns `none` in that case, and each place
  that consumes the quotient spells out what the IEEE comparison does with it;
* `std::sqrt` is a parameter `sqrt : F → F`; theorems that depend on what a
  square root is say so in a hypothesis.

`Vec2f`, `Vec3f`, `Vec4f` and `Box3f` come from headers outside this file; they
are modelled as plain records with component-wise arithmetic.
-/

namespace Tungsten

/-! ## Vectors and boxes -/

/-- Modelled from the spec: `Vec2f` of `math/Vec.hpp` (header not part of the
source), a pair of floats. -/
structure Vec2 (F : Type) where
  x : F
  y : F
  deriving DecidableEq

/-- Modelled from the spec: `Vec3f` of `math/Vec.hpp`, a triple of floats. -/
structure Vec3 (F : Type) where
  x : F
  y : F
  z : F
  deriving DecidableEq

/-- Modelled from the spec: `Vec4f` of `math/Vec.hpp`; for a curve node this is
position `xyz` and radius `w`. -/
structure Vec4 (F : Type) where
  x : F
  y : F
  z : F
  w : F
  deriving DecidableEq

/-- Modelled from the spec: `Box3f` of `math/Box.hpp`, an axis-aligned box given
by its two corners. -/
structure Box3 (F : Type) where
  min : Vec3 F
  max : Vec3 F
  deriving DecidableEq

section Defs

variable {F : Type} [LinearOrderedField F]

/-- The source's `Vec2f::dot`. -/
def Vec2.dot (a b : Vec2 F) : F := a.x * b.x + a.y * b.y

/-- The source's `Vec2f::lengthSq`. -/
def Vec2.lengthSq (a : Vec2 F) : F := a.x * a.x + a.y * a.y

/-- The source's `Vec2f::length`, the square root of `lengthSq`. -/
def Vec2.length (sqrt : F → F) (a : Vec2 F) : F := sqrt a.lengthSq

/-- The source's `Vec3f::dot`. -/
def Vec3.dot (a b : Vec3 F) : F := a.x * b.x + a.y * b.y + a.z * b.z

/-- Component-wise difference of two `Vec3f`. -/
def Vec3.sub (a b : Vec3 F) : Vec3 F := ⟨a.x - b.x, a.y - b.y, a.z - b.z⟩

/-- Cross product of two `Vec3f` (used to state handedness). -/
def Vec3.cross (a b : Vec3 F) : Vec3 F :=
  ⟨a.y * b.z - a.z * b.y, a.z * b.x - a.x * b.z, a.x * b.y - a.y * b.x⟩

/-- The source's `Vec4f::xy`. -/
def Vec4.xy (q : Vec4 F) : Vec2 F := ⟨q.x, q.y⟩

/-- The source's `Vec4f::xyz`. -/
def Vec4.xyz (q : Vec4 F) : Vec3 F := ⟨q.x, q.y, q.z⟩

/-- IEEE division: `none` stands for the non-finite result (`±Inf` or `NaN`) of
dividing by zero. -/
def fdiv (a b : F) : Option F := if b = 0 then none else some (a / b)

/-! ## Segment geometry (source lines 18-44) -/

/-- The source's `quadraticBSpline<float>` (line 19). -/
def quadraticBSpline (p0 p1 p2 t : F) : F :=
  (1/2 * p0 - p1 + 1/2 * p2) * t * t + (p1 - p0) * t + 1/2 * (p0 + p1)

/-- The source's `quadraticBSplineDeriv<float>` (line 25). -/
def quadraticBSplineDeriv (p0 p1 p2 t : F) : F :=
  (p0 - 2 * p1 + p2) * t + (p1 - p0)

/-- The source's `quadraticBSpline<Vec4f>` (the template of line 19 at `Vec4f`, used on line
130): the scalar formula in each component. -/
def quadraticBSpline4 (q0 q1 q2 : Vec4 F) (t : F) : Vec4 F :=
  ⟨quadraticBSpline q0.x q1.x q2.x t, quadraticBSpline q0.y q1.y q2.y t,
   quadraticBSpline q0.z q1.z q2.z t, quadraticBSpline q0.w q1.w q2.w t⟩

/-- The source's `minMaxQuadratic` (line 30).  The pair is `(xMin, xMax)`.  When the divisor
of `tFlat` is zero the float `tFlat` is `±Inf` or `NaN` and the test
`tFlat > 0 && tFlat < 1` is false. -/
def minMaxQuadratic (p0 p1 p2 : F) : F × F :=
  let xMin := (p0 + p1) * (1/2)
  let xMax := (p1 + p2) * (1/2)
  let (xMin, xMax) := if xMin > xMax then (xMax, xMin) else (xMin, xMax)
  match fdiv (p0 - p1) (p0 - 2 * p1 + p2) with
  | some tFlat =>
    if tFlat > 0 ∧ tFlat < 1 then
      let xFlat := quadraticBSpline p0 p1 p2 tFlat
      (min xMin xFlat, max xMax xFlat)
    else (xMin, xMax)
  | none => (xMin, xMax)

/-- The parameters at which `minMaxQuadratic` samples the spline: the two ends
and the flat point when it lies strictly inside `(0,1)`. -/
def IsSamplePoint (p0 p1 p2 u : F) : Prop :=
  u = 0 ∨ u = 1 ∨
    (0 < u ∧ u < 1 ∧ p0 - 2 * p1 + p2 ≠ 0 ∧ u = (p0 - p1) / (p0 - 2 * p1 + p2) ∧
      quadraticBSplineDeriv p0 p1 p2 u = 0)

/-- The source's `curveBox` (line 150): per-axis extrema widened by the largest radius. -/
def curveBox (q0 q1 q2 : Vec4 F) : Box3 F :=
  let xMinMax := minMaxQuadratic q0.x q1.x q2.x
  let yMinMax := minMaxQuadratic q0.y q1.y q2.y
  let zMinMax := minMaxQuadratic q0.z q1.z q2.z
  let maxW := max (max q0.w q1.w) q2.w
  ⟨⟨xMinMax.1 - maxW, yMinMax.1 - maxW, zMinMax.1 - maxW⟩,
   ⟨xMinMax.2 + maxW, yMinMax.2 + maxW, zMinMax.2 + maxW⟩⟩

/-- Membership of a point in a `Box3f` (closed box). -/
def Box3.contains (b : Box3 F) (p : Vec3 F) : Prop :=
  b.min.x ≤ p.x ∧ p.x ≤ b.max.x ∧ b.min.y ≤ p.y ∧ p.y ≤ b.max.y ∧
  b.min.z ≤ p.z ∧ p.z ≤ b.max.z

end Defs

/-! ## The adaptive intersector `pointOnSpline` (source lines 46-142) -/

/-- The source's `MaxDepth` (line 49). -/
def MaxDepth : Nat := 5

/-- The source's `StackNode` (line 51): one sub-interval `[tMin, tMin + tSpan]` of the
segment with the end points and radii of its chord. -/
structure StackNode (F : Type) where
  p0 : Vec2 F
  p1 : Vec2 F
  w0 : F
  w1 : F
  tMin : F
  tSpan : F
  depth : Nat
  deriving DecidableEq

/-- The three output parameters `t`, `uv`, `width` of `pointOnSpline`
(references in the source, so their values before the call are an input). -/
structure Hit (F : Type) where
  t : F
  uv : Vec2 F
  width : F
  deriving DecidableEq

/-- The variables that change in the `while` loop of `pointOnSpline`: the
current node, the explicit stack (`stackBuf` below the pointer `stack`, most
recently pushed node first), the output parameters and `closestDepth`. -/
structure LoopState (F : Type) where
  cur : StackNode F
  stack : List (StackNode F)
  out : Hit F
  closestDepth : F
  deriving DecidableEq

/-- How one pass through the loop body ends: at `continue` or at the bottom with
a pop (`next`), or at `break` (`done`). -/
inductive Control (F : Type) where
  | next : LoopState F → Control F
  | done : LoopState F → Control F
  deriving DecidableEq

section Defs

variable {F : Type} [LinearOrderedField F]

/-- One axis of the culling bound (lines 86-95): `(pMin, pMax)` of the chord end
values `a`, `b`, widened by the flat value when the flat parameter lies
strictly inside the sub-interval `(lo, hi)`.  `tFlat` is the quotient of line
71; when it is non-finite (`none`) the test `tFlat > lo && tFlat < hi` is false
(`NaN` compares false, `+Inf < hi` and `-Inf > lo` are false). -/
def cullAxis (p0 p1 p2 a b lo hi : F) : F × F :=
  match fdiv (p0 - p1) (p0 - 2 * p1 + p2) with
  | some tFlat =>
    if tFlat > lo ∧ tFlat < hi then
      let xFlat := quadraticBSpline p0 p1 p2 tFlat
      (min (min a b) xFlat, max (max a b) xFlat)
    else (min a b, max a b)
  | none => (min a b, max a b)

/-- The bound test of lines 86-98 for the node `cur`. -/
def cullPass (q0 q1 q2 : Vec4 F) (cur : StackNode F) : Prop :=
  let bx := cullAxis q0.x q1.x q2.x cur.p0.x cur.p1.x cur.tMin (cur.tMin + cur.tSpan)
  let bndY := cullAxis q0.y q1.y q2.y cur.p0.y cur.p1.y cur.tMin (cur.tMin + cur.tSpan)
  let testWidth := max cur.w0 cur.w1
  bx.1 ≤ testWidth ∧ bndY.1 ≤ testWidth ∧ bx.2 ≥ -testWidth ∧ bndY.2 ≥ -testWidth

instance (q0 q1 q2 : Vec4 F) (cur : StackNode F) : Decidable (cullPass q0 q1 q2 cur) := by
  unfold cullPass; infer_instance

/-- The trim test of lines 100-103: the tangents at the two ends of the
sub-interval against the chord end points. -/
def trimPass (q0 q1 q2 : Vec4 F) (cur : StackNode F) : Prop :=
  let d1x := q0.x - 2 * q1.x + q2.x
  let d1y := q0.y - 2 * q1.y + q2.y
  let d2x := q1.x - q0.x
  let d2y := q1.y - q0.y
  let tangent0 : Vec2 F := ⟨d2x + d1x * cur.tMin, d2y + d1y * cur.tMin⟩
  let tangent1 : Vec2 F :=
    ⟨d2x + d1x * (cur.tMin + cur.tSpan), d2y + d1y * (cur.tMin + cur.tSpan)⟩
  tangent0.dot cur.p0 ≤ 0 ∧ tangent1.dot cur.p1 ≥ 0

instance (q0 q1 q2 : Vec4 F) (cur : StackNode F) : Decidable (trimPass q0 q1 q2 cur) := by
  unfold trimPass; infer_instance

/-- The chord direction `v` of line 104. -/
def chordDir (cur : StackNode F) : Vec2 F := ⟨cur.p1.x - cur.p0.x, cur.p1.y - cur.p0.y⟩

/-- The closest-approach fraction `segmentT` of line 106; `none` when
`lengthSq` is zero, where the float is `NaN` or `±Inf`. -/
def segmentT (cur : StackNode F) : Option F :=
  fdiv (-(cur.p0.dot (chordDir cur))) (chordDir cur).lengthSq

/-- The 2D cross product `signedUnnormalized` of line 108. -/
def signedUnnormalized (cur : StackNode F) : F :=
  cur.p0.x * (chordDir cur).y - cur.p0.y * (chordDir cur).x

/-- The silhouette distance of lines 107-114 for a finite `segmentT`; `none`
when the quotient of line 114 has a zero divisor. -/
def chordDistance (sqrt : F → F) (cur : StackNode F) (segT : F) : Option F :=
  if segT ≤ 0 then some (cur.p0.length sqrt)
  else if segT ≥ 1 then some (cur.p1.length sqrt)
  else fdiv |signedUnnormalized cur| (sqrt (chordDir cur).lengthSq)

/-- Lines 116-125 for a finite `segmentT` and a finite `distance`: the hit that
the leaf writes to the output parameters, if it accepts. -/
def acceptHit (q0 q1 q2 : Vec4 F) (tMin tMax : F) (cur : StackNode F) (segT distance : F) :
    Option (Hit F) :=
  let newT := segT * cur.tSpan + cur.tMin
  let currentWidth := quadraticBSpline q0.w q1.w q2.w newT
  let currentDepth := quadraticBSpline q0.z q1.z q2.z newT
  if currentDepth < tMax ∧ currentDepth > tMin ∧ distance < currentWidth ∧
      newT ≥ 0 ∧ newT ≤ 1 then
    let halfDistance := 1/2 * distance / currentWidth
    some ⟨currentDepth,
          ⟨newT, if signedUnnormalized cur < 0 then 1/2 - halfDistance
                 else halfDistance + 1/2⟩,
          currentWidth⟩
  else none

/-- The leaf test of lines 100-126: `some hit` when the leaf `cur` assigns the
output parameters, `none` when it leaves them alone.

A non-finite `segmentT` (zero `lengthSq`) never accepts: if it is `NaN`, both
branch tests fail, `distance` is `fabs(..)/sqrt(lengthSq)` with the `NaN` or
`±Inf` that gives, and `newT` is `NaN`, so `newT >= 0` fails; if it is `±Inf`,
`newT` is `±Inf` or `NaN` and `newT >= 0 && newT <= 1` fails.  A non-finite
`distance` is `+Inf` or `NaN`, for which `distance < currentWidth` fails. -/
def leafTest (sqrt : F → F) (q0 q1 q2 : Vec4 F) (tMin tMax : F) (cur : StackNode F) :
    Option (Hit F) :=
  if trimPass q0 q1 q2 cur then
    match segmentT cur with
    | none => none
    | some segT =>
      match chordDistance sqrt cur segT with
      | none => none
      | some distance => acceptHit q0 q1 q2 tMin tMax cur segT distance
  else none

/-- Lines 136-138: leave the loop when the stack is empty, else pop. -/
def popOrBreak (s : LoopState F) : Control F :=
  match s.stack with
  | [] => Control.done s
  | top :: rest => Control.next { s with cur := top, stack := rest }

/-- One pass through the body of the `while (true)` loop (lines 86-138). -/
def loopBody (sqrt : F → F) (q0 q1 q2 : Vec4 F) (tMin tMax : F) (s : LoopState F) :
    Control F :=
  let cur := s.cur
  if cullPass q0 q1 q2 cur then
    if cur.depth ≥ MaxDepth then
      match leafTest sqrt q0 q1 q2 tMin tMax cur with
      | some h => popOrBreak { s with out := h, closestDepth := h.t }
      | none => popOrBreak s
    else
      let newSpan := cur.tSpan * (1/2)
      let splitT := cur.tMin + newSpan
      let qSplit := quadraticBSpline4 q0 q1 q2 splitT
      Control.next
        { s with
          stack := ⟨cur.p0, qSplit.xy, cur.w0, qSplit.w, cur.tMin, newSpan, cur.depth + 1⟩
                    :: s.stack
          cur := ⟨qSplit.xy, cur.p1, qSplit.w, cur.w1, splitT, newSpan, cur.depth + 1⟩ }
  else popOrBreak s

/-- The `while (true)` loop, run for at most `fuel` passes: `none` when the
fuel runs out before the loop breaks. -/
def loop (sqrt : F → F) (q0 q1 q2 : Vec4 F) (tMin tMax : F) :
    Nat → LoopState F → Option (LoopState F)
  | 0, _ => none
  | fuel + 1, s =>
    match loopBody sqrt q0 q1 q2 tMin tMax s with
    | Control.next s' => loop sqrt q0 q1 q2 tMin tMax fuel s'
    | Control.done s' => some s'

/-- The state on entry to the loop (lines 70-83). -/
def initState (q0 q1 q2 : Vec4 F) (tMax : F) (out : Hit F) : LoopState F :=
  { cur := ⟨⟨(q0.x + q1.x) * (1/2), (q0.y + q1.y) * (1/2)⟩,
            ⟨(q1.x + q2.x) * (1/2), (q1.y + q2.y) * (1/2)⟩,
            (q0.w + q1.w) * (1/2), (q1.w + q2.w) * (1/2), 0, 1, 0⟩
    stack := []
    out := out
    closestDepth := tMax }

/-- Passes through the loop body that are enough for every call: a node of
depth `d` stands for at most `2 ^ (6 - d) - 1` passes. -/
def loopFuel : Nat := 63

/-- The source's `pointOnSpline` (line 46).  `out` holds the values of the reference
parameters `t`, `uv`, `width` before the call; the result is the returned
`bool` with their values after the call, or `none` if the loop did not end
within `loopFuel` passes. -/
def pointOnSpline (sqrt : F → F) (q0 q1 q2 : Vec4 F) (tMin tMax : F) (out : Hit F) :
    Option (Bool × Hit F) :=
  match loop sqrt q0 q1 q2 tMin tMax loopFuel (initState q0 q1 q2 tMax out) with
  | some s => some (decide (s.closestDepth < tMax), s.out)
  | none => none

/-- The state a pass hands on, whichever way it ends. -/
def Control.state : Control F → LoopState F
  | Control.next s => s
  | Control.done s => s

/-- The outputs after one pass: untouched, or written by the leaf test of the
current node, which then passed the bound test at depth `MaxDepth` or more. -/
def StepOut (sqrt : F → F) (q0 q1 q2 : Vec4 F) (tMin tMax : F) (s s' : LoopState F) : Prop :=
  (s'.out = s.out ∧ s'.closestDepth = s.closestDepth) ∨
  (cullPass q0 q1 q2 s.cur ∧ MaxDepth ≤ s.cur.depth ∧
    leafTest sqrt q0 q1 q2 tMin tMax s.cur = some s'.out ∧ s'.closestDepth = s'.out.t)

/-- The state in which pass number `n` (counted from zero) through the loop body
begins, when the loop started in `s` and has not ended before. -/
def stateAfter (sqrt : F → F) (q0 q1 q2 : Vec4 F) (tMin tMax : F) :
    Nat → LoopState F → Option (LoopState F)
  | 0, s => some s
  | n + 1, s =>
    match loopBody sqrt q0 q1 q2 tMin tMax s with
    | Control.next s' => stateAfter sqrt q0 q1 q2 tMin tMax n s'
    | Control.done _ => none

/-- Work left for one node: a node of depth `d` is processed itself and may be
split into two nodes of depth `d + 1` as long as `d < MaxDepth`. -/
def nodeWork (f : StackNode F) : Nat := 2 ^ (6 - f.depth) - 1

/-- Upper bound on the passes left in a loop state. -/
def workLeft (s : LoopState F) : Nat := nodeWork s.cur + (s.stack.map nodeWork).sum

/-- Depths stay within `MaxDepth`. -/
def DepthOK (s : LoopState F) : Prop :=
  s.cur.depth ≤ MaxDepth ∧ ∀ f ∈ s.stack, f.depth ≤ MaxDepth

/-- The left half `[tMin, tMin + tSpan/2]` of a node, as pushed on line 131. -/
def leftHalf (q0 q1 q2 : Vec4 F) (cur : StackNode F) : StackNode F :=
  ⟨cur.p0, (quadraticBSpline4 q0 q1 q2 (cur.tMin + cur.tSpan * (1/2))).xy, cur.w0,
    (quadraticBSpline4 q0 q1 q2 (cur.tMin + cur.tSpan * (1/2))).w, cur.tMin,
    cur.tSpan * (1/2), cur.depth + 1⟩

/-- The right half `[tMin + tSpan/2, tMin + tSpan]` of a node, as assigned to
`cur` on line 132. -/
def rightHalf (q0 q1 q2 : Vec4 F) (cur : StackNode F) : StackNode F :=
  ⟨(quadraticBSpline4 q0 q1 q2 (cur.tMin + cur.tSpan * (1/2))).xy, cur.p1,
    (quadraticBSpline4 q0 q1 q2 (cur.tMin + cur.tSpan * (1/2))).w, cur.w1,
    cur.tMin + cur.tSpan * (1/2), cur.tSpan * (1/2), cur.depth + 1⟩

/-- All chords of a loop state start and end at the point `P`. -/
def AllAt (P : Vec2 F) (s : LoopState F) : Prop :=
  (s.cur.p0 = P ∧ s.cur.p1 = P) ∧ ∀ f ∈ s.stack, f.p0 = P ∧ f.p1 = P

/-- A node that the loop processes as a leaf and whose leaf test writes `h`. -/
def AcceptingLeaf (sqrt : F → F) (q0 q1 q2 : Vec4 F) (tMin tMax : F) (out : Hit F)
    (leaf : StackNode F) (h : Hit F) : Prop :=
  (∃ k sl, stateAfter sqrt q0 q1 q2 tMin tMax k (initState q0 q1 q2 tMax out) = some sl ∧
    sl.cur = leaf) ∧
  leaf.depth = MaxDepth ∧ cullPass q0 q1 q2 leaf ∧
  leafTest sqrt q0 q1 q2 tMin tMax leaf = some h

/-! ### Example inputs -/

/-- A projected segment that crosses the ray twice: `x(u) = 16u² - 16u + 3`
vanishes at `u = 1/4` and `u = 3/4`, `y = 0`, depth `9 - 2u`, radius `1/8`. -/
def twiceQ0 : Vec4 F := ⟨11, 0, 10, 1/8⟩

/-- Second control point of the segment that crosses the ray twice. -/
def twiceQ1 : Vec4 F := ⟨-5, 0, 8, 1/8⟩

/-- Third control point of the segment that crosses the ray twice. -/
def twiceQ2 : Vec4 F := ⟨11, 0, 6, 1/8⟩

/-- Output parameters before a call in the examples. -/
def hit0 : Hit F := ⟨0, ⟨0, 0⟩, 0⟩

/-- The leaf `[3/4, 25/32]` of the segment that crosses the ray twice. -/
def twiceLeaf : StackNode F := ⟨⟨0, 0⟩, ⟨17/64, 0⟩, 1/8, 1/8, 3/4, 1/32, 5⟩

end Defs

/-! ## Projection and the intersection facade (source lines 144-148, 262-293) -/

/-- The parts of `Ray` that `Curves::intersect` reads and writes. -/
structure Ray (F : Type) where
  pos : Vec3 F
  dir : Vec3 F
  nearT : F
  farT : F
  deriving DecidableEq

/-- What the callback of `_bvh->trace` reads and writes between two calls: the
far bound of the ray, the record `isect` and the flag `didIntersect`. -/
structure TraceState (F : Type) where
  farT : F
  isect : Hit F
  didIntersect : Bool
  deriving DecidableEq

section Defs

variable {F : Type} [LinearOrderedField F]

/-- The source's `project` (line 144). -/
def project (o lx ly lz : Vec3 F) (q : Vec4 F) : Vec4 F :=
  let p := q.xyz.sub o
  ⟨lx.dot p, ly.dot p, lz.dot p, q.w⟩

/-- The frame of lines 264-273: the pair `(lx, ly)` for the direction `lz`.
The two quotients of line 271 go through `fdiv`, so a division by zero would
show as `none`. -/
def buildFrame (sqrt : F → F) (lz : Vec3 F) : Option (Vec3 F × Vec3 F) :=
  let d := sqrt (lz.x * lz.x + lz.z * lz.z)
  if d = 0 then
    some (⟨1, 0, 0⟩, ⟨0, 0, -lz.y⟩)
  else
    match fdiv lz.z d, fdiv (-lz.x) d with
    | some lxx, some lxz =>
      let lx : Vec3 F := ⟨lxx, 0, lxz⟩
      some (lx, ⟨lx.z * lz.y, d, -lz.y * lx.x⟩)
    | _, _ => none

/-- One call of the callback of lines 278-287 for the candidate segment `id`:
the flag tells whether `pointOnSpline` returned true.  Reading `_nodeData`
outside its range has no defined result and is `none`. -/
def visit (sqrt : F → F) (nodeData : List (Vec4 F)) (o lx ly lz : Vec3 F) (nearT : F)
    (st : TraceState F) (id : Nat) : Option (Bool × TraceState F) :=
  if 2 ≤ id then
    match nodeData[id - 2]?, nodeData[id - 1]?, nodeData[id]? with
    | some n0, some n1, some n2 =>
      let q0 := project o lx ly lz n0
      let q1 := project o lx ly lz n1
      let q2 := project o lx ly lz n2
      match pointOnSpline sqrt q0 q1 q2 nearT st.farT st.isect with
      | some (true, h) => some (true, ⟨h.t, h, true⟩)
      | some (false, h) => some (false, { st with isect := h })
      | none => none
    | _, _, _ => none
  else none

/-- The BVH traversal of line 278, as the callback applied to the candidate
segments `ids` in the order the BVH hands them over. -/
def traverse (sqrt : F → F) (nodeData : List (Vec4 F)) (o lx ly lz : Vec3 F) (nearT : F) :
    TraceState F → List Nat → Option (TraceState F)
  | st, [] => some st
  | st, id :: ids =>
    match visit sqrt nodeData o lx ly lz nearT st id with
    | some (_, st') => traverse sqrt nodeData o lx ly lz nearT st' ids
    | none => none

/-- The hits accepted during a traversal, in the order of acceptance. -/
def acceptedHits (sqrt : F → F) (nodeData : List (Vec4 F)) (o lx ly lz : Vec3 F) (nearT : F) :
    TraceState F → List Nat → List (Hit F)
  | _, [] => []
  | st, id :: ids =>
    match visit sqrt nodeData o lx ly lz nearT st id with
    | some (true, st') => st'.isect :: acceptedHits sqrt nodeData o lx ly lz nearT st' ids
    | some (false, st') => acceptedHits sqrt nodeData o lx ly lz nearT st' ids
    | none => []

/-- The candidate segments are ones that `prepareForRender` hands to the BVH:
each `id` has its three nodes `id - 2`, `id - 1`, `id` inside `_nodeData`. -/
def ValidIds (nodeData : List (Vec4 F)) (ids : List Nat) : Prop :=
  ∀ id ∈ ids, 2 ≤ id ∧ id < nodeData.length

/-- The source's `Curves::intersect` (line 262) for a traversal that visits `ids`: the
returned `bool`, the ray afterwards and the record `isect` afterwards. -/
def intersect (sqrt : F → F) (nodeData : List (Vec4 F)) (ray : Ray F) (ids : List Nat)
    (isect : Hit F) : Option (Bool × Ray F × Hit F) :=
  match buildFrame sqrt ray.dir with
  | none => none
  | some (lx, ly) =>
    match traverse sqrt nodeData ray.pos lx ly ray.dir ray.nearT ⟨ray.farT, isect, false⟩ ids with
    | some st => some (st.didIntersect, { ray with farT := st.farT }, st.isect)
    | none => none

/-! ### The segment that crosses the ray twice, in space -/

/-- The nodes of the segment that crosses the ray twice, as `_nodeData`. -/
def twiceNodes : List (Vec4 F) := [twiceQ0, twiceQ1, twiceQ2]

/-- The ray from the origin along `+z` with the depth interval `(0, 100)`. -/
def zRay : Ray F := ⟨⟨0, 0, 0⟩, ⟨0, 0, 1⟩, 0, 100⟩

/-! ### The straight-cylinder scenario -/

/-- The three nodes of the straight cylinder of radius `r` along the z axis. -/
def cylNodes (r : F) : List (Vec4 F) := [⟨0, 0, 0, r⟩, ⟨0, 0, 1, r⟩, ⟨0, 0, 2, r⟩]

/-- A ray along `+z` that starts at `(x, 0, -5)`. -/
def cylRay (x nearT farT : F) : Ray F := ⟨⟨x, 0, -5⟩, ⟨0, 0, 1⟩, nearT, farT⟩

end Defs

/-! ## Curve boundaries in `loadCurves` (source lines 197-206) -/

/-- The value that a `uint32` variable holds after the integer `n` is assigned
to it, as for the loop variables `start` and `t` of lines 304-308 and 360-364. -/
def u32 (n : Nat) : Nat := n % 2 ^ 32

/-- The loop of lines 201-202: `prev` is `_curveEnds[i - 1]`, or `0` for the
first curve, and the list holds the `uint16` entries of `segmentLength` from
index `i` on.  The element type of `_curveEnds` is declared in `Curves.hpp`,
which is not part of the source, so it is a parameter: `store v` is the value
that an entry holds after the integer `v` is assigned to it (`v % 2 ^ 32` for
an unsigned 32-bit entry, `v` itself for a type that holds `v`). -/
def curveEndsFromSegments (store : Nat → Nat) : Nat → List Nat → List Nat
  | _, [] => []
  | prev, s :: rest =>
    store (s + 1 + prev) :: curveEndsFromSegments store (store (s + 1 + prev)) rest

/-- The loop of lines 204-205, with `store` as in `curveEndsFromSegments`: the
product is formed in `size_t` and assigned to the entry. -/
def curveEndsDefault (store : Nat → Nat) (curveCount defaultSegments : Nat) : List Nat :=
  (List.range curveCount).map (fun i => store ((i + 1) * defaultSegments))

/-- Lines 197-206 of `loadCurves`: the curve boundaries `_curveEnds`, from the
flag `hasSegments`, the per-curve segment counts `segmentLength` (one per
curve, read only when the flag is set) and the header fields `curveCount` and
`defaultSegments`. -/
def curveEnds (store : Nat → Nat) (hasSegments : Bool) (curveCount : Nat)
    (segmentLength : List Nat) (defaultSegments : Nat) : List Nat :=
  if hasSegments then curveEndsFromSegments store 0 segmentLength
  else curveEndsDefault store curveCount defaultSegments

/-- The cumulative sum of `segmentCount[j] + 1` over `j ≤ i`. -/
def nodesUpTo (segmentLength : List Nat) (i : Nat) : Nat :=
  ((segmentLength.take (i + 1)).map (· + 1)).sum

section Defs
variable {F : Type} [LinearOrderedField F]

/-- Every node on the stack lies deeper than the number of nodes below it. -/
def StackBound : List (StackNode F) → Prop
  | [] => True
  | f :: rest => rest.length < f.depth ∧ StackBound rest

/-- The stack holds at most as many nodes as the current node is deep. -/
def StackOK (s : LoopState F) : Prop :=
  StackBound s.stack ∧ s.stack.length ≤ s.cur.depth

end Defs

section Defs
variable {F : Type} [LinearOrderedField F]

/-- A node that stands for the sub-interval `[tMin, tMin + tSpan]` of `[0,1]`
with `tSpan = 2 ^ (-depth)` and carries the exact spline values at its two
ends. -/
def NodeWF (q0 q1 q2 : Vec4 F) (f : StackNode F) : Prop :=
  0 ≤ f.tMin ∧ 0 < f.tSpan ∧ f.tMin + f.tSpan ≤ 1 ∧ f.tSpan = (1/2) ^ f.depth ∧
  f.p0 = (quadraticBSpline4 q0 q1 q2 f.tMin).xy ∧
  f.p1 = (quadraticBSpline4 q0 q1 q2 (f.tMin + f.tSpan)).xy ∧
  f.w0 = (quadraticBSpline4 q0 q1 q2 f.tMin).w ∧
  f.w1 = (quadraticBSpline4 q0 q1 q2 (f.tMin + f.tSpan)).w

/-- The nodes of a stack tile the parameters below `lo` without gaps: each node
ends where the node above it starts. -/
def Chain : F → List (StackNode F) → Prop
  | _, [] => True
  | lo, f :: rest => f.tMin + f.tSpan = lo ∧ Chain f.tMin rest

/-- All nodes of a loop state are well formed and the stack continues the
current node to the left. -/
def LoopWF (q0 q1 q2 : Vec4 F) (s : LoopState F) : Prop :=
  NodeWF q0 q1 q2 s.cur ∧ (∀ f ∈ s.stack, NodeWF q0 q1 q2 f) ∧ Chain s.cur.tMin s.stack

end Defs

section Defs
variable {F : Type} [LinearOrderedField F]

/-! ### A bent segment -/

/-- A projected segment that bends around the ray: `x(u) = u - 1/2`,
`y(u) = 1 + 4 (u - 1/2)²`, depth `21/2 + u`, radius `9/8`; it is closest to the
ray, at distance `1`, for `u = 1/2`. -/
def bendQ0 : Vec4 F := ⟨-1, 4, 10, 9/8⟩

/-- Second control point of the bent segment. -/
def bendQ1 : Vec4 F := ⟨0, 0, 11, 9/8⟩

/-- Third control point of the bent segment. -/
def bendQ2 : Vec4 F := ⟨1, 4, 12, 9/8⟩

/-- The leaf `[15/32, 1/2]` of the bent segment. -/
def bendLeaf : StackNode F := ⟨⟨-1/32, 257/256⟩, ⟨0, 1⟩, 9/8, 9/8, 15/32, 1/32, 5⟩

/-- The loop state of the bent segment in which the leaf `[15/32, 1/2]` is
processed (pass 20). -/
def bendState20 : LoopState F :=
  ⟨bendLeaf,
    [⟨⟨-1/16, 65/64⟩, ⟨-1/32, 257/256⟩, 9/8, 9/8, 7/16, 1/32, 5⟩,
     ⟨⟨-1/8, 17/16⟩, ⟨-1/16, 65/64⟩, 9/8, 9/8, 3/8, 1/16, 4⟩,
     ⟨⟨-1/4, 5/4⟩, ⟨-1/8, 17/16⟩, 9/8, 9/8, 1/4, 1/8, 3⟩,
     ⟨⟨-1/2, 2⟩, ⟨-1/4, 5/4⟩, 9/8, 9/8, 0, 1/4, 2⟩],
    ⟨707/65, ⟨49/130, 1/18⟩, 9/8⟩, 707/65⟩

end Defs

section Defs

variable {F : Type} [LinearOrderedField F]

/-- A projected segment with radii `0, 1, 0`: `x = 5/8`, `y(u) = 2u - 1`, radius
`1/2 + u - u²`, which is `1/2` at both ends and `3/4` at `u = 1/2`. -/
def bulgeQ0 : Vec4 F := ⟨5/8, -2, 10, 0⟩

/-- Second control point of the segment whose radius bulges. -/
def bulgeQ1 : Vec4 F := ⟨5/8, 0, 10, 1⟩

/-- Third control point of the segment whose radius bulges. -/
def bulgeQ2 : Vec4 F := ⟨5/8, 2, 10, 0⟩

end Defs

section Defs
variable {F : Type} [LinearOrderedField F]

/-! ## Segments, their boxes and the overall bounds (source lines 239-244, 344-382) -/

/-- Modelled from the spec: `Box3f()` and `Box3f::grow(const Box3f &)` of
`math/Box.hpp` (header not part of the source).  `none` is the empty box that
`Box3f()` makes; growing the empty box by `b` gives `b`, growing a box gives the
component-wise minimum of the lower corners and maximum of the upper corners. -/
def Box3.grow (acc : Option (Box3 F)) (b : Box3 F) : Option (Box3 F) :=
  match acc with
  | none => some b
  | some a =>
    some ⟨⟨Min.min a.min.x b.min.x, Min.min a.min.y b.min.y, Min.min a.min.z b.min.z⟩,
          ⟨Max.max a.max.x b.max.x, Max.max a.max.y b.max.y, Max.max a.max.z b.max.z⟩⟩

/-- The box `a` covers the box `b`. -/
def Box3.containsBox (a b : Box3 F) : Prop :=
  (a.min.x ≤ b.min.x ∧ a.min.y ≤ b.min.y ∧ a.min.z ≤ b.min.z) ∧
  (b.max.x ≤ a.max.x ∧ b.max.y ≤ a.max.y ∧ b.max.z ≤ a.max.z)

/-- The union of a list of boxes: the smallest box that covers them all. -/
def boxUnion (bs : List (Box3 F)) : Option (Box3 F) := bs.foldl Box3.grow none

/-- The entry `_nodeData[i]`. -/
def nodeAt (nodeData : List (Vec4 F)) (i : Nat) : Vec4 F := nodeData.getD i ⟨0, 0, 0, 0⟩

/-- The box `curveBox(_nodeData[t - 2], _nodeData[t - 1], _nodeData[t])` of the
triple that ends at `t` (lines 243 and 365-370). -/
def segmentBox (nodeData : List (Vec4 F)) (t : Nat) : Box3 F :=
  curveBox (nodeAt nodeData (t - 2)) (nodeAt nodeData (t - 1)) (nodeAt nodeData t)

/-- The source's `Curves::computeBounds` (line 239): the loop runs over
`i = 2, ..., size - 1`. -/
def computeBounds (nodeData : List (Vec4 F)) : Option (Box3 F) :=
  (List.range' 2 (nodeData.length - 2)).foldl
    (fun acc i => Box3.grow acc (segmentBox nodeData i)) none

/-- The variable `start` of lines 360-362 for curve `i`. -/
def curveStart (curveEnds : List Nat) (i : Nat) : Nat :=
  if i > 0 then curveEnds.getD (i - 1) 0 else 0

/-- The values of `t` in the loop of line 364 for curve `i`: from
`start + 2`, computed in `uint32`, up to `_curveEnds[i] - 1`. -/
def curveSegmentIds (curveEnds : List Nat) (i : Nat) : List Nat :=
  List.range' (u32 (curveStart curveEnds i + 2))
    (curveEnds.getD i 0 - u32 (curveStart curveEnds i + 2))

/-- The segment ids that `prepareForRender` hands to the BVH (lines 359-375),
in the order of the two loops. -/
def segmentIds (curveEnds : List Nat) : List Nat :=
  (List.range curveEnds.length).flatMap (curveSegmentIds curveEnds)

/-- The boxes that `prepareForRender` hands to the BVH, one per segment. -/
def primBoxes (nodeData : List (Vec4 F)) (curveEnds : List Nat) : List (Box3 F) :=
  (segmentIds curveEnds).map (segmentBox nodeData)

/-- Two curves of three nodes each, all of radius `1`: the first runs from
`x = 0` to `x = 4`, the second from `x = 4` back to `x = 0`. -/
def twoCurvesNodes : List (Vec4 F) :=
  [⟨0, 0, 0, 1⟩, ⟨0, 0, 0, 1⟩, ⟨4, 0, 0, 1⟩, ⟨4, 0, 0, 1⟩, ⟨0, 0, 0, 1⟩, ⟨0, 0, 0, 1⟩]

/-- The boundaries of the two curves of three nodes each. -/
def twoCurvesEnds : List Nat := [3, 6]

end Defs

/-! ## Binary32 arithmetic

The source computes in IEEE binary32 (`float`).  The definitions above take
`+ - * /` as exact.  The definitions below are the same expressions with a
rounding `rnd` applied to the result of every operation, as IEEE arithmetic
does when every operation is carried out in `float` (no fused multiply-add, no
wider intermediate format); with `rnd := id` they are the exact ones, with `rnd := round32` they are
the binary32 computation as long as no result reaches `2 ^ 128`, where
binary32 overflows to an infinity (overflow is not modelled).  Comparisons,
`min`, `max`, negation and `fabs` are exact in binary32 and carry no rounding.
The sign of a zero is not modelled: it can only decide the sign of an infinite
quotient, and every quotient with a zero divisor is `none` here. -/

section Rounding32

variable {F : Type} [LinearOrderedField F] [FloorRing F]

/-- The integer nearest to `y`; of two nearest integers, the even one. -/
def roundEven (y : F) : ℤ :=
  if y - ⌊y⌋ < 1/2 then ⌊y⌋
  else if 1/2 < y - ⌊y⌋ then ⌊y⌋ + 1
  else if ⌊y⌋ % 2 = 0 then ⌊y⌋ else ⌊y⌋ + 1

/-- The exponent of the binary32 binade of `x`: `⌊log₂ |x|⌋`, and `-126` for zero
and in the subnormal range. -/
def binade32 (x : F) : ℤ := if x = 0 then -126 else max (Int.log 2 |x|) (-126)

/-- The spacing of the binary32 numbers around `x` (24 significant bits). -/
def ulp32 (x : F) : F := (2 : F) ^ (binade32 x - 23)

/-- Rounding to the nearest binary32 number, ties to even, with gradual
underflow; the exponent range is not bounded above. -/
def round32 (x : F) : F := (roundEven (x / ulp32 x) : F) * ulp32 x

end Rounding32

section FloatDefs

variable {F : Type} [LinearOrderedField F]

/-- The rounded division: `none` stands for the non-finite result of dividing by
zero, as in `fdiv`. -/
def fdivFl (rnd : F → F) (a b : F) : Option F := if b = 0 then none else some (rnd (a / b))

/-- The source's `quadraticBSpline<float>` (line 19) with every operation rounded. -/
def quadraticBSplineFl (rnd : F → F) (p0 p1 p2 t : F) : F :=
  rnd (rnd (rnd (rnd (rnd (rnd (rnd (1/2 * p0) - p1) + rnd (1/2 * p2)) * t) * t)
        + rnd (rnd (p1 - p0) * t))
    + rnd (1/2 * rnd (p0 + p1)))

/-- The source's `quadraticBSpline<Vec4f>` with every operation rounded. -/
def quadraticBSpline4Fl (rnd : F → F) (q0 q1 q2 : Vec4 F) (t : F) : Vec4 F :=
  ⟨quadraticBSplineFl rnd q0.x q1.x q2.x t, quadraticBSplineFl rnd q0.y q1.y q2.y t,
   quadraticBSplineFl rnd q0.z q1.z q2.z t, quadraticBSplineFl rnd q0.w q1.w q2.w t⟩

/-- The quotient `tFlat` of lines 37 and 71 with every operation rounded. -/
def tFlatFl (rnd : F → F) (p0 p1 p2 : F) : Option F :=
  fdivFl rnd (rnd (p0 - p1)) (rnd (rnd (p0 - rnd (2 * p1)) + p2))

/-- The source's `minMaxQuadratic` (line 30) with every operation rounded. -/
def minMaxQuadraticFl (rnd : F → F) (p0 p1 p2 : F) : F × F :=
  let xMin := rnd (rnd (p0 + p1) * (1/2))
  let xMax := rnd (rnd (p1 + p2) * (1/2))
  let (xMin, xMax) := if xMin > xMax then (xMax, xMin) else (xMin, xMax)
  match tFlatFl rnd p0 p1 p2 with
  | some tFlat =>
    if tFlat > 0 ∧ tFlat < 1 then
      let xFlat := quadraticBSplineFl rnd p0 p1 p2 tFlat
      (min xMin xFlat, max xMax xFlat)
    else (xMin, xMax)
  | none => (xMin, xMax)

/-- The source's `curveBox` (line 150) with every operation rounded. -/
def curveBoxFl (rnd : F → F) (q0 q1 q2 : Vec4 F) : Box3 F :=
  let xMinMax := minMaxQuadraticFl rnd q0.x q1.x q2.x
  let yMinMax := minMaxQuadraticFl rnd q0.y q1.y q2.y
  let zMinMax := minMaxQuadraticFl rnd q0.z q1.z q2.z
  let maxW := max (max q0.w q1.w) q2.w
  ⟨⟨rnd (xMinMax.1 - maxW), rnd (yMinMax.1 - maxW), rnd (zMinMax.1 - maxW)⟩,
   ⟨rnd (xMinMax.2 + maxW), rnd (yMinMax.2 + maxW), rnd (zMinMax.2 + maxW)⟩⟩

/-- The source's `Vec2f::dot` with every operation rounded. -/
def Vec2.dotFl (rnd : F → F) (a b : Vec2 F) : F := rnd (rnd (a.x * b.x) + rnd (a.y * b.y))

/-- The source's `Vec2f::lengthSq` with every operation rounded. -/
def Vec2.lengthSqFl (rnd : F → F) (a : Vec2 F) : F := rnd (rnd (a.x * a.x) + rnd (a.y * a.y))

/-- The source's `Vec2f::length`: the correctly rounded square root of `lengthSq`;
`sqrt` is the exact square root. -/
def Vec2.lengthFl (rnd sqrt : F → F) (a : Vec2 F) : F := rnd (sqrt (a.lengthSqFl rnd))

/-- One axis of the culling bound (lines 86-95) in rounded arithmetic; `hi` is
the rounded sum `cur.tMin + cur.tSpan`. -/
def cullAxisFl (rnd : F → F) (p0 p1 p2 a b lo hi : F) : F × F :=
  match tFlatFl rnd p0 p1 p2 with
  | some tFlat =>
    if tFlat > lo ∧ tFlat < hi then
      let xFlat := quadraticBSplineFl rnd p0 p1 p2 tFlat
      (min (min a b) xFlat, max (max a b) xFlat)
    else (min a b, max a b)
  | none => (min a b, max a b)

/-- The bound test of lines 86-98 in rounded arithmetic. -/
def cullPassFl (rnd : F → F) (q0 q1 q2 : Vec4 F) (cur : StackNode F) : Prop :=
  let bx := cullAxisFl rnd q0.x q1.x q2.x cur.p0.x cur.p1.x cur.tMin (rnd (cur.tMin + cur.tSpan))
  let bndY :=
    cullAxisFl rnd q0.y q1.y q2.y cur.p0.y cur.p1.y cur.tMin (rnd (cur.tMin + cur.tSpan))
  let testWidth := max cur.w0 cur.w1
  bx.1 ≤ testWidth ∧ bndY.1 ≤ testWidth ∧ bx.2 ≥ -testWidth ∧ bndY.2 ≥ -testWidth

instance (rnd : F → F) (q0 q1 q2 : Vec4 F) (cur : StackNode F) :
    Decidable (cullPassFl rnd q0 q1 q2 cur) := by
  unfold cullPassFl; infer_instance

/-- The trim test of lines 100-103 in rounded arithmetic. -/
def trimPassFl (rnd : F → F) (q0 q1 q2 : Vec4 F) (cur : StackNode F) : Prop :=
  let d1x := rnd (rnd (q0.x - rnd (2 * q1.x)) + q2.x)
  let d1y := rnd (rnd (q0.y - rnd (2 * q1.y)) + q2.y)
  let d2x := rnd (q1.x - q0.x)
  let d2y := rnd (q1.y - q0.y)
  let tangent0 : Vec2 F := ⟨rnd (d2x + rnd (d1x * cur.tMin)), rnd (d2y + rnd (d1y * cur.tMin))⟩
  let tangent1 : Vec2 F :=
    ⟨rnd (d2x + rnd (d1x * rnd (cur.tMin + cur.tSpan))),
     rnd (d2y + rnd (d1y * rnd (cur.tMin + cur.tSpan)))⟩
  tangent0.dotFl rnd cur.p0 ≤ 0 ∧ tangent1.dotFl rnd cur.p1 ≥ 0

instance (rnd : F → F) (q0 q1 q2 : Vec4 F) (cur : StackNode F) :
    Decidable (trimPassFl rnd q0 q1 q2 cur) := by
  unfold trimPassFl; infer_instance

/-- The chord direction `v` of line 104 in rounded arithmetic. -/
def chordDirFl (rnd : F → F) (cur : StackNode F) : Vec2 F :=
  ⟨rnd (cur.p1.x - cur.p0.x), rnd (cur.p1.y - cur.p0.y)⟩

/-- The closest-approach fraction `segmentT` of line 106 in rounded arithmetic. -/
def segmentTFl (rnd : F → F) (cur : StackNode F) : Option F :=
  fdivFl rnd (-(cur.p0.dotFl rnd (chordDirFl rnd cur))) ((chordDirFl rnd cur).lengthSqFl rnd)

/-- The 2D cross product `signedUnnormalized` of line 108 in rounded arithmetic. -/
def signedUnnormalizedFl (rnd : F → F) (cur : StackNode F) : F :=
  rnd (rnd (cur.p0.x * (chordDirFl rnd cur).y) - rnd (cur.p0.y * (chordDirFl rnd cur).x))

/-- The silhouette distance of lines 107-114 in rounded arithmetic. -/
def chordDistanceFl (rnd sqrt : F → F) (cur : StackNode F) (segT : F) : Option F :=
  if segT ≤ 0 then some (cur.p0.lengthFl rnd sqrt)
  else if segT ≥ 1 then some (cur.p1.lengthFl rnd sqrt)
  else fdivFl rnd |signedUnnormalizedFl rnd cur|
    (rnd (sqrt ((chordDirFl rnd cur).lengthSqFl rnd)))

/-- Lines 116-125 in rounded arithmetic. -/
def acceptHitFl (rnd : F → F) (q0 q1 q2 : Vec4 F) (tMin tMax : F) (cur : StackNode F)
    (segT distance : F) : Option (Hit F) :=
  let newT := rnd (rnd (segT * cur.tSpan) + cur.tMin)
  let currentWidth := quadraticBSplineFl rnd q0.w q1.w q2.w newT
  let currentDepth := quadraticBSplineFl rnd q0.z q1.z q2.z newT
  if currentDepth < tMax ∧ currentDepth > tMin ∧ distance < currentWidth ∧
      newT ≥ 0 ∧ newT ≤ 1 then
    let halfDistance := rnd (rnd (1/2 * distance) / currentWidth)
    some ⟨currentDepth,
          ⟨newT, if signedUnnormalizedFl rnd cur < 0 then rnd (1/2 - halfDistance)
                 else rnd (halfDistance + 1/2)⟩,
          currentWidth⟩
  else none

/-- The leaf test of lines 100-126 in rounded arithmetic; a non-finite
`segmentT` or `distance` never accepts, as in `leafTest`. -/
def leafTestFl (rnd sqrt : F → F) (q0 q1 q2 : Vec4 F) (tMin tMax : F) (cur : StackNode F) :
    Option (Hit F) :=
  if trimPassFl rnd q0 q1 q2 cur then
    match segmentTFl rnd cur with
    | none => none
    | some segT =>
      match chordDistanceFl rnd sqrt cur segT with
      | none => none
      | some distance => acceptHitFl rnd q0 q1 q2 tMin tMax cur segT distance
  else none

/-- One pass through the body of the `while (true)` loop (lines 86-138) in
rounded arithmetic. -/
def loopBodyFl (rnd sqrt : F → F) (q0 q1 q2 : Vec4 F) (tMin tMax : F) (s : LoopState F) :
    Control F :=
  let cur := s.cur
  if cullPassFl rnd q0 q1 q2 cur then
    if cur.depth ≥ MaxDepth then
      match leafTestFl rnd sqrt q0 q1 q2 tMin tMax cur with
      | some h => popOrBreak { s with out := h, closestDepth := h.t }
      | none => popOrBreak s
    else
      let newSpan := rnd (cur.tSpan * (1/2))
      let splitT := rnd (cur.tMin + newSpan)
      let qSplit := quadraticBSpline4Fl rnd q0 q1 q2 splitT
      Control.next
        { s with
          stack := ⟨cur.p0, qSplit.xy, cur.w0, qSplit.w, cur.tMin, newSpan, cur.depth + 1⟩
                    :: s.stack
          cur := ⟨qSplit.xy, cur.p1, qSplit.w, cur.w1, splitT, newSpan, cur.depth + 1⟩ }
  else popOrBreak s

/-- The `while (true)` loop in rounded arithmetic, run for at most `fuel` passes. -/
def loopFl (rnd sqrt : F → F) (q0 q1 q2 : Vec4 F) (tMin tMax : F) :
    Nat → LoopState F → Option (LoopState F)
  | 0, _ => none
  | fuel + 1, s =>
    match loopBodyFl rnd sqrt q0 q1 q2 tMin tMax s with
    | Control.next s' => loopFl rnd sqrt q0 q1 q2 tMin tMax fuel s'
    | Control.done s' => some s'

/-- The state on entry to the loop (lines 70-83) in rounded arithmetic. -/
def initStateFl (rnd : F → F) (q0 q1 q2 : Vec4 F) (tMax : F) (out : Hit F) : LoopState F :=
  { cur := ⟨⟨rnd (rnd (q0.x + q1.x) * (1/2)), rnd (rnd (q0.y + q1.y) * (1/2))⟩,
            ⟨rnd (rnd (q1.x + q2.x) * (1/2)), rnd (rnd (q1.y + q2.y) * (1/2))⟩,
            rnd (rnd (q0.w + q1.w) * (1/2)), rnd (rnd (q1.w + q2.w) * (1/2)), 0, 1, 0⟩
    stack := []
    out := out
    closestDepth := tMax }

/-- The source's `pointOnSpline` (line 46) in rounded arithmetic. -/
def pointOnSplineFl (rnd sqrt : F → F) (q0 q1 q2 : Vec4 F) (tMin tMax : F) (out : Hit F) :
    Option (Bool × Hit F) :=
  match loopFl rnd sqrt q0 q1 q2 tMin tMax loopFuel (initStateFl rnd q0 q1 q2 tMax out) with
  | some s => some (decide (s.closestDepth < tMax), s.out)
  | none => none

/-- The state in which pass number `n` of the loop in rounded arithmetic begins. -/
def stateAfterFl (rnd sqrt : F → F) (q0 q1 q2 : Vec4 F) (tMin tMax : F) :
    Nat → LoopState F → Option (LoopState F)
  | 0, s => some s
  | n + 1, s =>
    match loopBodyFl rnd sqrt q0 q1 q2 tMin tMax s with
    | Control.next s' => stateAfterFl rnd sqrt q0 q1 q2 tMin tMax n s'
    | Control.done _ => none

end FloatDefs

section Defs

variable {F : Type} [LinearOrderedField F]

/-- What the error analysis of the rounded spline functions uses of a
rounding `rnd`: it is monotone and odd, keeps `0` and `1`, moves a number of
magnitude at most `8 * R` by at most `ε` and a number of magnitude at most `1`
by at most `η`, where `ε` and `η` are small against `R`. -/
structure RoundsWithin (rnd : F → F) (R ε η : F) : Prop where
  mono : ∀ x y, x ≤ y → rnd x ≤ rnd y
  zero : rnd 0 = 0
  one : rnd 1 = 1
  neg : ∀ x, rnd (-x) = -rnd x
  err : ∀ x, |x| ≤ 8 * R → |rnd x - x| ≤ ε
  unit : ∀ x, |x| ≤ 1 → |rnd x - x| ≤ η
  eps_nonneg : 0 ≤ ε
  eps_le : 16 * ε ≤ R
  eta : 4 * R * η ^ 2 ≤ ε

end Defs

section Defs

variable {F : Type} [LinearOrderedField F]

/-- The box `b` grown by `δ` on every side. -/
def Box3.widen (b : Box3 F) (δ : F) : Box3 F :=
  ⟨⟨b.min.x - δ, b.min.y - δ, b.min.z - δ⟩, ⟨b.max.x + δ, b.max.y + δ, b.max.z + δ⟩⟩

end Defs

section Defs

variable {F : Type} [LinearOrderedField F]

/-- A control node whose coordinates have magnitude at most `R` and whose
radius lies in `[0, R]`. -/
def NodeWithin (R : F) (q : Vec4 F) : Prop :=
  |q.x| ≤ R ∧ |q.y| ≤ R ∧ |q.z| ≤ R ∧ 0 ≤ q.w ∧ q.w ≤ R

end Defs

section Defs

variable {F : Type} [LinearOrderedField F]

/-- The outputs after one pass in rounded arithmetic: untouched, or written by
the leaf test of the current node. -/
def StepOutFl (rnd sqrt : F → F) (q0 q1 q2 : Vec4 F) (tMin tMax : F) (s s' : LoopState F) :
    Prop :=
  (s'.out = s.out ∧ s'.closestDepth = s.closestDepth) ∨
  (cullPassFl rnd q0 q1 q2 s.cur ∧ MaxDepth ≤ s.cur.depth ∧
    leafTestFl rnd sqrt q0 q1 q2 tMin tMax s.cur = some s'.out ∧ s'.closestDepth = s'.out.t)

/-- A node that the loop in rounded arithmetic processes as a leaf and whose
leaf test writes `h`. -/
def AcceptingLeafFl (rnd sqrt : F → F) (q0 q1 q2 : Vec4 F) (tMin tMax : F) (out : Hit F)
    (leaf : StackNode F) (h : Hit F) : Prop :=
  (∃ k sl, stateAfterFl rnd sqrt q0 q1 q2 tMin tMax k (initStateFl rnd q0 q1 q2 tMax out)
      = some sl ∧ sl.cur = leaf) ∧
  leaf.depth = MaxDepth ∧ cullPassFl rnd q0 q1 q2 leaf ∧
  leafTestFl rnd sqrt q0 q1 q2 tMin tMax leaf = some h

end Defs

section Defs

variable {F : Type} [LinearOrderedField F]

/-- A straight projected segment that passes the ray at the distance
`1 - 2^-24`, the largest binary32 number below its radius `1`: `x = 1 - 2^-24`,
`y(u) = 128 u - 126`, depth `10`. -/
def edgeQ0 : Vec4 F := ⟨16777215 / 16777216, -190, 10, 1⟩

/-- Second control point of the segment at distance `1 - 2^-24`. -/
def edgeQ1 : Vec4 F := ⟨16777215 / 16777216, -62, 10, 1⟩

/-- Third control point of the segment at distance `1 - 2^-24`. -/
def edgeQ2 : Vec4 F := ⟨16777215 / 16777216, 66, 10, 1⟩

/-- A straight projected segment in the subnormal range, with `s = 2^-149`
the smallest positive binary32 number: `x(u) = (60 - 64 u) s`,
`y(u) = 128 u - 126`, depth `10`, radius `4 s`. -/
def tinyQ0 : Vec4 F := ⟨92 / 2 ^ 149, -190, 10, 4 / 2 ^ 149⟩

/-- Second control point of the segment in the subnormal range. -/
def tinyQ1 : Vec4 F := ⟨28 / 2 ^ 149, -62, 10, 4 / 2 ^ 149⟩

/-- Third control point of the segment in the subnormal range. -/
def tinyQ2 : Vec4 F := ⟨-36 / 2 ^ 149, 66, 10, 4 / 2 ^ 149⟩

end Defs

/-! # Theorems -/

section Geometry

variable {F : Type} [LinearOrderedField F]

/-! ## Segment geometry -/

theorem swap_eq_min_max (a b : F) :
    (if a > b then (b, a) else (a, b)) = (min a b, max a b) := by
  by_cases h : a > b
  · simp [h, min_eq_right h.le, max_eq_left h.le]
  · have h2 : a ≤ b := not_lt.mp h
    simp [h, min_eq_left h2, max_eq_right h2]

theorem quadraticBSpline_zero (p0 p1 p2 : F) :
    quadraticBSpline p0 p1 p2 0 = (p0 + p1) * (1/2) := by
  simp only [quadraticBSpline]; ring

theorem quadraticBSpline_one (p0 p1 p2 : F) :
    quadraticBSpline p0 p1 p2 1 = (p1 + p2) * (1/2) := by
  simp only [quadraticBSpline]; ring

/-- The result of `minMaxQuadratic` with the swap and the division made explicit. -/
theorem minMaxQuadratic_eq (p0 p1 p2 : F) :
    minMaxQuadratic p0 p1 p2 =
      if p0 - 2 * p1 + p2 ≠ 0 ∧ 0 < (p0 - p1) / (p0 - 2 * p1 + p2) ∧
          (p0 - p1) / (p0 - 2 * p1 + p2) < 1 then
        (min (min (quadraticBSpline p0 p1 p2 0) (quadraticBSpline p0 p1 p2 1))
            (quadraticBSpline p0 p1 p2 ((p0 - p1) / (p0 - 2 * p1 + p2))),
         max (max (quadraticBSpline p0 p1 p2 0) (quadraticBSpline p0 p1 p2 1))
            (quadraticBSpline p0 p1 p2 ((p0 - p1) / (p0 - 2 * p1 + p2))))
      else
        (min (quadraticBSpline p0 p1 p2 0) (quadraticBSpline p0 p1 p2 1),
         max (quadraticBSpline p0 p1 p2 0) (quadraticBSpline p0 p1 p2 1)) := by
  rw [quadraticBSpline_zero, quadraticBSpline_one]
  unfold minMaxQuadratic
  simp only [swap_eq_min_max, fdiv]
  by_cases hD : p0 - 2 * p1 + p2 = 0
  · simp [hD]
  · by_cases h : 0 < (p0 - p1) / (p0 - 2 * p1 + p2) ∧ (p0 - p1) / (p0 - 2 * p1 + p2) < 1
    · simp [hD, h]
    · simp [hD, h]


theorem quadraticBSpline_linear (p0 p1 p2 u : F) (hD : p0 - 2 * p1 + p2 = 0) :
    quadraticBSpline p0 p1 p2 u =
      (1 - u) * quadraticBSpline p0 p1 p2 0 + u * quadraticBSpline p0 p1 p2 1 := by
  have h2 : p2 = 2 * p1 - p0 := by linarith
  subst h2
  simp only [quadraticBSpline]; ring

theorem quadraticBSpline_chord (p0 p1 p2 u : F) :
    (1 - u) * quadraticBSpline p0 p1 p2 0 + u * quadraticBSpline p0 p1 p2 1
      - quadraticBSpline p0 p1 p2 u = (p0 - 2 * p1 + p2) / 2 * (u * (1 - u)) := by
  simp only [quadraticBSpline]; ring

theorem quadraticBSpline_flat (p0 p1 p2 tf u : F) (htf : tf * (p0 - 2 * p1 + p2) = p0 - p1) :
    quadraticBSpline p0 p1 p2 u - quadraticBSpline p0 p1 p2 tf
      = (p0 - 2 * p1 + p2) / 2 * ((u - tf) * (u - tf)) := by
  have h : p1 - p0 = - (tf * (p0 - 2 * p1 + p2)) := by linarith
  simp only [quadraticBSpline, h]; ring

theorem quadraticBSpline_sub_zero (p0 p1 p2 tf u : F)
    (htf : tf * (p0 - 2 * p1 + p2) = p0 - p1) :
    quadraticBSpline p0 p1 p2 u - quadraticBSpline p0 p1 p2 0
      = (p0 - 2 * p1 + p2) * (u * (u / 2 - tf)) := by
  have h : p1 - p0 = - (tf * (p0 - 2 * p1 + p2)) := by linarith
  simp only [quadraticBSpline, h]; ring

theorem quadraticBSpline_one_sub (p0 p1 p2 tf u : F)
    (htf : tf * (p0 - 2 * p1 + p2) = p0 - p1) :
    quadraticBSpline p0 p1 p2 1 - quadraticBSpline p0 p1 p2 u
      = (p0 - 2 * p1 + p2) * ((1 - u) * ((1 + u) / 2 - tf)) := by
  have h : p1 - p0 = - (tf * (p0 - 2 * p1 + p2)) := by linarith
  simp only [quadraticBSpline, h]; ring

/-- Every spline value on `[0,1]` lies between the two values returned by
`minMaxQuadratic`. -/
theorem minMaxQuadratic_bounds (p0 p1 p2 u : F) (hu0 : 0 ≤ u) (hu1 : u ≤ 1) :
    (minMaxQuadratic p0 p1 p2).1 ≤ quadraticBSpline p0 p1 p2 u ∧
      quadraticBSpline p0 p1 p2 u ≤ (minMaxQuadratic p0 p1 p2).2 := by
  rw [minMaxQuadratic_eq]
  set D := p0 - 2 * p1 + p2 with hDdef
  set B0 := quadraticBSpline p0 p1 p2 0
  set B1 := quadraticBSpline p0 p1 p2 1
  set Bu := quadraticBSpline p0 p1 p2 u
  have hchord := quadraticBSpline_chord p0 p1 p2 u
  have hu' : 0 ≤ 1 - u := by linarith
  have huu : 0 ≤ u * (1 - u) := mul_nonneg hu0 hu'
  -- the chord value lies between the end values
  have hmix_le : (1 - u) * B0 + u * B1 ≤ max B0 B1 := by
    have h0 : B0 ≤ max B0 B1 := le_max_left _ _
    have h1 : B1 ≤ max B0 B1 := le_max_right _ _
    nlinarith [mul_le_mul_of_nonneg_left h0 hu', mul_le_mul_of_nonneg_left h1 hu0]
  have hmix_ge : min B0 B1 ≤ (1 - u) * B0 + u * B1 := by
    have h0 : min B0 B1 ≤ B0 := min_le_left _ _
    have h1 : min B0 B1 ≤ B1 := min_le_right _ _
    nlinarith [mul_le_mul_of_nonneg_left h0 hu', mul_le_mul_of_nonneg_left h1 hu0]
  by_cases hD : D = 0
  · have hlin : Bu = (1 - u) * B0 + u * B1 := quadraticBSpline_linear p0 p1 p2 u hD
    simp only [hD, ne_eq, not_true_eq_false, false_and, if_false]
    rw [hlin]; exact ⟨hmix_ge, hmix_le⟩
  · set tf := (p0 - p1) / D with htfdef
    have htf : tf * D = p0 - p1 := div_mul_cancel₀ _ hD
    have hflat := quadraticBSpline_flat p0 p1 p2 tf u htf
    have hz := quadraticBSpline_sub_zero p0 p1 p2 tf u htf
    have ho := quadraticBSpline_one_sub p0 p1 p2 tf u htf
    have hsq : 0 ≤ (u - tf) * (u - tf) := mul_self_nonneg _
    rcases lt_or_gt_of_ne hD with hneg | hpos
    · -- concave
      have hlow : min B0 B1 ≤ Bu := by
        have : 0 ≤ -(D / 2 * (u * (1 - u))) := by
          have : D / 2 * (u * (1 - u)) ≤ 0 :=
            mul_nonpos_of_nonpos_of_nonneg (by linarith) huu
          linarith
        linarith
      by_cases hc : 0 < tf ∧ tf < 1
      · simp only [ne_eq, hD, not_false_eq_true, hc, and_self, if_true]
        refine ⟨le_trans (min_le_left _ _) hlow, le_trans ?_ (le_max_right _ _)⟩
        have : D / 2 * ((u - tf) * (u - tf)) ≤ 0 :=
          mul_nonpos_of_nonpos_of_nonneg (by linarith) hsq
        linarith
      · have hc' : ¬ (¬ D = 0 ∧ 0 < tf ∧ tf < 1) := fun h => hc h.2
        simp only [ne_eq, hc', if_false]
        refine ⟨hlow, ?_⟩
        rcases not_and_or.mp hc with h0 | h1
        · have h0' : tf ≤ 0 := not_lt.mp h0
          have : D * (u * (u / 2 - tf)) ≤ 0 :=
            mul_nonpos_of_nonpos_of_nonneg hneg.le (mul_nonneg hu0 (by linarith))
          exact le_trans (by linarith) (le_max_left _ _)
        · have h1' : 1 ≤ tf := not_lt.mp h1
          have : 0 ≤ D * ((1 - u) * ((1 + u) / 2 - tf)) :=
            mul_nonneg_of_nonpos_of_nonpos hneg.le
              (mul_nonpos_of_nonneg_of_nonpos hu' (by linarith))
          exact le_trans (by linarith) (le_max_right _ _)
    · -- convex
      have hup : Bu ≤ max B0 B1 := by
        have : 0 ≤ D / 2 * (u * (1 - u)) := mul_nonneg (by linarith) huu
        linarith
      by_cases hc : 0 < tf ∧ tf < 1
      · simp only [ne_eq, hD, not_false_eq_true, hc, and_self, if_true]
        refine ⟨le_trans (min_le_right _ _) ?_, le_trans hup (le_max_left _ _)⟩
        have : 0 ≤ D / 2 * ((u - tf) * (u - tf)) := mul_nonneg (by linarith) hsq
        linarith
      · have hc' : ¬ (¬ D = 0 ∧ 0 < tf ∧ tf < 1) := fun h => hc h.2
        simp only [ne_eq, hc', if_false]
        refine ⟨?_, hup⟩
        rcases not_and_or.mp hc with h0 | h1
        · have h0' : tf ≤ 0 := not_lt.mp h0
          have : 0 ≤ D * (u * (u / 2 - tf)) :=
            mul_nonneg hpos.le (mul_nonneg hu0 (by linarith))
          exact le_trans (min_le_left _ _) (by linarith)
        · have h1' : 1 ≤ tf := not_lt.mp h1
          have : D * ((1 - u) * ((1 + u) / 2 - tf)) ≤ 0 :=
            mul_nonpos_of_nonneg_of_nonpos hpos.le
              (mul_nonpos_of_nonneg_of_nonpos hu' (by linarith))
          exact le_trans (min_le_right _ _) (by linarith)


theorem quadraticBSplineDeriv_flat (p0 p1 p2 : F) (hD : p0 - 2 * p1 + p2 ≠ 0) :
    quadraticBSplineDeriv p0 p1 p2 ((p0 - p1) / (p0 - 2 * p1 + p2)) = 0 := by
  unfold quadraticBSplineDeriv
  rw [mul_div_cancel₀ _ hD]; ring

theorem minMaxQuadratic_attained (p0 p1 p2 : F) :
    (∃ u, 0 ≤ u ∧ u ≤ 1 ∧ IsSamplePoint p0 p1 p2 u ∧
      quadraticBSpline p0 p1 p2 u = (minMaxQuadratic p0 p1 p2).1) ∧
    (∃ u, 0 ≤ u ∧ u ≤ 1 ∧ IsSamplePoint p0 p1 p2 u ∧
      quadraticBSpline p0 p1 p2 u = (minMaxQuadratic p0 p1 p2).2) := by
  rw [minMaxQuadratic_eq]
  set B0 := quadraticBSpline p0 p1 p2 0
  set B1 := quadraticBSpline p0 p1 p2 1
  have e0 : ∃ u, 0 ≤ u ∧ u ≤ 1 ∧ IsSamplePoint p0 p1 p2 u ∧ quadraticBSpline p0 p1 p2 u = B0 :=
    ⟨0, le_refl _, zero_le_one, Or.inl rfl, rfl⟩
  have e1 : ∃ u, 0 ≤ u ∧ u ≤ 1 ∧ IsSamplePoint p0 p1 p2 u ∧ quadraticBSpline p0 p1 p2 u = B1 :=
    ⟨1, zero_le_one, le_refl _, Or.inr (Or.inl rfl), rfl⟩
  have emin : ∃ u, 0 ≤ u ∧ u ≤ 1 ∧ IsSamplePoint p0 p1 p2 u ∧
      quadraticBSpline p0 p1 p2 u = min B0 B1 := by
    rcases min_choice B0 B1 with h | h <;> rw [h] <;> assumption
  have emax : ∃ u, 0 ≤ u ∧ u ≤ 1 ∧ IsSamplePoint p0 p1 p2 u ∧
      quadraticBSpline p0 p1 p2 u = max B0 B1 := by
    rcases max_choice B0 B1 with h | h <;> rw [h] <;> assumption
  by_cases hc : p0 - 2 * p1 + p2 ≠ 0 ∧ 0 < (p0 - p1) / (p0 - 2 * p1 + p2) ∧
      (p0 - p1) / (p0 - 2 * p1 + p2) < 1
  · rw [if_pos hc]
    have ef : ∃ u, 0 ≤ u ∧ u ≤ 1 ∧ IsSamplePoint p0 p1 p2 u ∧
        quadraticBSpline p0 p1 p2 u =
          quadraticBSpline p0 p1 p2 ((p0 - p1) / (p0 - 2 * p1 + p2)) :=
      ⟨_, hc.2.1.le, hc.2.2.le,
        Or.inr (Or.inr ⟨hc.2.1, hc.2.2, hc.1, rfl, quadraticBSplineDeriv_flat p0 p1 p2 hc.1⟩), rfl⟩
    constructor
    · rcases min_choice (min B0 B1)
        (quadraticBSpline p0 p1 p2 ((p0 - p1) / (p0 - 2 * p1 + p2))) with h | h
      · simp only [h]; exact emin
      · simp only [h]; exact ef
    · rcases max_choice (max B0 B1)
        (quadraticBSpline p0 p1 p2 ((p0 - p1) / (p0 - 2 * p1 + p2))) with h | h
      · simp only [h]; exact emax
      · simp only [h]; exact ef
  · rw [if_neg hc]
    exact ⟨emin, emax⟩

/-- In exact arithmetic, for all control values, `minMaxQuadratic` returns exactly the minimum
and the maximum of the spline `quadraticBSpline p0 p1 p2` over `[0,1]`: every
value on `[0,1]` lies between the two returned numbers, and each of them is the
spline value at `0`, at `1`, or at the flat point `(p0-p1)/(p0-2p1+p2)` when
that lies strictly inside `(0,1)`, where the derivative vanishes. -/
theorem minMaxQuadratic_exact (p0 p1 p2 : F) :
    (∀ u, 0 ≤ u → u ≤ 1 →
      (minMaxQuadratic p0 p1 p2).1 ≤ quadraticBSpline p0 p1 p2 u ∧
        quadraticBSpline p0 p1 p2 u ≤ (minMaxQuadratic p0 p1 p2).2) ∧
    (∃ u, 0 ≤ u ∧ u ≤ 1 ∧ IsSamplePoint p0 p1 p2 u ∧
      quadraticBSpline p0 p1 p2 u = (minMaxQuadratic p0 p1 p2).1) ∧
    (∃ u, 0 ≤ u ∧ u ≤ 1 ∧ IsSamplePoint p0 p1 p2 u ∧
      quadraticBSpline p0 p1 p2 u = (minMaxQuadratic p0 p1 p2).2) :=
  ⟨fun u h0 h1 => minMaxQuadratic_bounds p0 p1 p2 u h0 h1,
    (minMaxQuadratic_attained p0 p1 p2).1, (minMaxQuadratic_attained p0 p1 p2).2⟩

/-- The spline as a combination of its control values with weights
`(1-u)²/2`, `1/2 + u(1-u)`, `u²/2`. -/
theorem quadraticBSpline_weights (p0 p1 p2 u : F) :
    quadraticBSpline p0 p1 p2 u =
      (1 - u) * (1 - u) / 2 * p0 + (1 / 2 + u * (1 - u)) * p1 + u * u / 2 * p2 := by
  simp only [quadraticBSpline]; ring

/-- On `[0,1]` the spline stays below any common upper bound of the control
values. -/
theorem quadraticBSpline_le (p0 p1 p2 u m : F) (hu0 : 0 ≤ u) (hu1 : u ≤ 1)
    (h0 : p0 ≤ m) (h1 : p1 ≤ m) (h2 : p2 ≤ m) : quadraticBSpline p0 p1 p2 u ≤ m := by
  rw [quadraticBSpline_weights]
  have hu' : 0 ≤ 1 - u := by linarith
  have a0 : 0 ≤ (1 - u) * (1 - u) / 2 := by positivity
  have a1 : 0 ≤ 1 / 2 + u * (1 - u) := by positivity
  have a2 : 0 ≤ u * u / 2 := by positivity
  have e : m = (1 - u) * (1 - u) / 2 * m + (1 / 2 + u * (1 - u)) * m + u * u / 2 * m := by ring
  rw [e]
  exact add_le_add (add_le_add (mul_le_mul_of_nonneg_left h0 a0)
    (mul_le_mul_of_nonneg_left h1 a1)) (mul_le_mul_of_nonneg_left h2 a2)

/-- On `[0,1]` the spline stays above any common lower bound of the control
values. -/
theorem le_quadraticBSpline (p0 p1 p2 u m : F) (hu0 : 0 ≤ u) (hu1 : u ≤ 1)
    (h0 : m ≤ p0) (h1 : m ≤ p1) (h2 : m ≤ p2) : m ≤ quadraticBSpline p0 p1 p2 u := by
  rw [quadraticBSpline_weights]
  have hu' : 0 ≤ 1 - u := by linarith
  have a0 : 0 ≤ (1 - u) * (1 - u) / 2 := by positivity
  have a1 : 0 ≤ 1 / 2 + u * (1 - u) := by positivity
  have a2 : 0 ≤ u * u / 2 := by positivity
  have e : m = (1 - u) * (1 - u) / 2 * m + (1 / 2 + u * (1 - u)) * m + u * u / 2 * m := by ring
  rw [e]
  exact add_le_add (add_le_add (mul_le_mul_of_nonneg_left h0 a0)
    (mul_le_mul_of_nonneg_left h1 a1)) (mul_le_mul_of_nonneg_left h2 a2)

theorem abs_bound_of_sq_le (a r : F) (hr : 0 ≤ r) (h : a * a ≤ r * r) : -r ≤ a ∧ a ≤ r := by
  constructor
  · by_contra hc
    have : r < -a := by linarith [not_le.mp hc]
    nlinarith [mul_lt_mul'' this this hr hr]
  · by_contra hc
    have : r < a := not_le.mp hc
    nlinarith [mul_lt_mul'' this this hr hr]

/-- In exact arithmetic: for control nodes with non-negative radii, a parameter `u` in `[0,1]`
and a point `x` whose distance from the spline position at `u` is at most the
spline radius at `u` (stated with squares: the squared distance is at most the
squared radius), `x` lies inside `curveBox`; and the spline radius at `u` is at
most the largest of the three control radii. -/
theorem curveBox_contains_surface (q0 q1 q2 : Vec4 F)
    (hw0 : 0 ≤ q0.w) (hw1 : 0 ≤ q1.w) (hw2 : 0 ≤ q2.w)
    (u : F) (hu0 : 0 ≤ u) (hu1 : u ≤ 1) (x : Vec3 F)
    (hx : (x.sub (quadraticBSpline4 q0 q1 q2 u).xyz).dot
            (x.sub (quadraticBSpline4 q0 q1 q2 u).xyz)
          ≤ (quadraticBSpline4 q0 q1 q2 u).w * (quadraticBSpline4 q0 q1 q2 u).w) :
    (curveBox q0 q1 q2).contains x ∧
      (quadraticBSpline4 q0 q1 q2 u).w ≤ max (max q0.w q1.w) q2.w := by
  have hR0 : 0 ≤ quadraticBSpline q0.w q1.w q2.w u :=
    le_quadraticBSpline _ _ _ _ _ hu0 hu1 hw0 hw1 hw2
  have hRm : quadraticBSpline q0.w q1.w q2.w u ≤ max (max q0.w q1.w) q2.w :=
    quadraticBSpline_le _ _ _ _ _ hu0 hu1
      (le_trans (le_max_left _ _) (le_max_left _ _))
      (le_trans (le_max_right _ _) (le_max_left _ _)) (le_max_right _ _)
  simp only [quadraticBSpline4, Vec4.xyz, Vec3.sub, Vec3.dot] at hx
  have bx := minMaxQuadratic_bounds q0.x q1.x q2.x u hu0 hu1
  have by' := minMaxQuadratic_bounds q0.y q1.y q2.y u hu0 hu1
  have bz := minMaxQuadratic_bounds q0.z q1.z q2.z u hu0 hu1
  have sx := mul_self_nonneg (x.x - quadraticBSpline q0.x q1.x q2.x u)
  have sy := mul_self_nonneg (x.y - quadraticBSpline q0.y q1.y q2.y u)
  have sz := mul_self_nonneg (x.z - quadraticBSpline q0.z q1.z q2.z u)
  have ax := abs_bound_of_sq_le _ _ hR0 (by linarith :
    (x.x - quadraticBSpline q0.x q1.x q2.x u) * (x.x - quadraticBSpline q0.x q1.x q2.x u)
      ≤ quadraticBSpline q0.w q1.w q2.w u * quadraticBSpline q0.w q1.w q2.w u)
  have ay := abs_bound_of_sq_le _ _ hR0 (by linarith :
    (x.y - quadraticBSpline q0.y q1.y q2.y u) * (x.y - quadraticBSpline q0.y q1.y q2.y u)
      ≤ quadraticBSpline q0.w q1.w q2.w u * quadraticBSpline q0.w q1.w q2.w u)
  have az := abs_bound_of_sq_le _ _ hR0 (by linarith :
    (x.z - quadraticBSpline q0.z q1.z q2.z u) * (x.z - quadraticBSpline q0.z q1.z q2.z u)
      ≤ quadraticBSpline q0.w q1.w q2.w u * quadraticBSpline q0.w q1.w q2.w u)
  refine ⟨?_, hRm⟩
  simp only [Box3.contains, curveBox]
  refine ⟨?_, ?_, ?_, ?_, ?_, ?_⟩ <;> linarith [bx.1, bx.2, by'.1, by'.2, bz.1, bz.2, ax.1, ax.2,
    ay.1, ay.2, az.1, az.2]

/-- The exact box of a straight segment of radius `1` along `z` contains the
point `(1, 0, 1)` of its surface. -/
theorem curveBox_contains_surface_example :
    (curveBox (⟨0, 0, 0, 1⟩ : Vec4 ℚ) ⟨0, 0, 1, 1⟩ ⟨0, 0, 2, 1⟩).contains ⟨1, 0, 1⟩ ∧
      (quadraticBSpline4 (⟨0, 0, 0, 1⟩ : Vec4 ℚ) ⟨0, 0, 1, 1⟩ ⟨0, 0, 2, 1⟩ (1/2)).w
        ≤ max (max 1 1) 1 :=
  curveBox_contains_surface ⟨0, 0, 0, 1⟩ ⟨0, 0, 1, 1⟩ ⟨0, 0, 2, 1⟩
    (by norm_num) (by norm_num) (by norm_num) (1/2) (by norm_num) (by norm_num) ⟨1, 0, 1⟩
    (by norm_num [quadraticBSpline4, quadraticBSpline, Vec4.xyz, Vec3.sub, Vec3.dot])

end Geometry

section Intersector

variable {F : Type} [LinearOrderedField F]

/-! ## The adaptive intersector -/

theorem fdiv_eq_some {a b c : F} (h : fdiv a b = some c) : b ≠ 0 ∧ c = a / b := by
  unfold fdiv at h
  by_cases hb : b = 0
  · simp [hb] at h
  · simp only [hb, if_false, Option.some.injEq] at h
    exact ⟨hb, h.symm⟩

theorem Vec2.lengthSq_nonneg (a : Vec2 F) : 0 ≤ a.lengthSq := by
  unfold Vec2.lengthSq
  exact add_nonneg (mul_self_nonneg _) (mul_self_nonneg _)

/-- The silhouette distance is non-negative when `sqrt` is. -/
theorem chordDistance_nonneg (sqrt : F → F) (hs : ∀ x, 0 ≤ x → 0 ≤ sqrt x)
    (cur : StackNode F) (segT d : F) (h : chordDistance sqrt cur segT = some d) : 0 ≤ d := by
  unfold chordDistance at h
  split_ifs at h with h1 h2
  · simp only [Option.some.injEq] at h
    rw [← h]; exact hs _ (Vec2.lengthSq_nonneg _)
  · simp only [Option.some.injEq] at h
    rw [← h]; exact hs _ (Vec2.lengthSq_nonneg _)
  · obtain ⟨_, hd⟩ := fdiv_eq_some h
    rw [hd]
    exact div_nonneg (abs_nonneg _) (hs _ (Vec2.lengthSq_nonneg _))

theorem acceptHit_eq_some (q0 q1 q2 : Vec4 F) (tMin tMax : F) (cur : StackNode F)
    (segT distance : F) (h : Hit F)
    (hl : acceptHit q0 q1 q2 tMin tMax cur segT distance = some h) :
    h.uv.x = segT * cur.tSpan + cur.tMin ∧
      h.t = quadraticBSpline q0.z q1.z q2.z h.uv.x ∧
      h.width = quadraticBSpline q0.w q1.w q2.w h.uv.x ∧
      h.uv.y = (if signedUnnormalized cur < 0 then 1/2 - 1/2 * distance / h.width
                else 1/2 * distance / h.width + 1/2) ∧
      tMin < h.t ∧ h.t < tMax ∧ distance < h.width ∧ 0 ≤ h.uv.x ∧ h.uv.x ≤ 1 := by
  unfold acceptHit at hl
  simp only at hl
  by_cases hacc : quadraticBSpline q0.z q1.z q2.z (segT * cur.tSpan + cur.tMin) < tMax ∧
      quadraticBSpline q0.z q1.z q2.z (segT * cur.tSpan + cur.tMin) > tMin ∧
      distance < quadraticBSpline q0.w q1.w q2.w (segT * cur.tSpan + cur.tMin) ∧
      segT * cur.tSpan + cur.tMin ≥ 0 ∧ segT * cur.tSpan + cur.tMin ≤ 1
  · rw [if_pos hacc, Option.some.injEq] at hl
    subst hl
    exact ⟨rfl, rfl, rfl, rfl, hacc.2.1, hacc.1, hacc.2.2.1, hacc.2.2.2.1, hacc.2.2.2.2⟩
  · rw [if_neg hacc] at hl
    exact absurd hl (by simp)

/-- What a leaf that accepts has checked and written. -/
theorem leafTest_eq_some (sqrt : F → F) (q0 q1 q2 : Vec4 F) (tMin tMax : F)
    (cur : StackNode F) (h : Hit F) (hl : leafTest sqrt q0 q1 q2 tMin tMax cur = some h) :
    trimPass q0 q1 q2 cur ∧
    ∃ segT distance, segmentT cur = some segT ∧ chordDistance sqrt cur segT = some distance ∧
      acceptHit q0 q1 q2 tMin tMax cur segT distance = some h := by
  unfold leafTest at hl
  by_cases htrim : trimPass q0 q1 q2 cur
  · rw [if_pos htrim] at hl
    refine ⟨htrim, ?_⟩
    cases hseg : segmentT cur with
    | none => simp [hseg] at hl
    | some segT =>
      cases hdist : chordDistance sqrt cur segT with
      | none => simp [hseg, hdist] at hl
      | some distance =>
        simp only [hseg, hdist] at hl
        exact ⟨segT, distance, rfl, hdist, hl⟩
  · rw [if_neg htrim] at hl
    exact absurd hl (by simp)

theorem loop_succ (sqrt : F → F) (q0 q1 q2 : Vec4 F) (tMin tMax : F) (n : Nat)
    (s : LoopState F) :
    loop sqrt q0 q1 q2 tMin tMax (n + 1) s =
      match loopBody sqrt q0 q1 q2 tMin tMax s with
      | Control.next s' => loop sqrt q0 q1 q2 tMin tMax n s'
      | Control.done s' => some s' := rfl

omit [LinearOrderedField F] in
theorem popOrBreak_out (s : LoopState F) :
    (popOrBreak s).state.out = s.out ∧ (popOrBreak s).state.closestDepth = s.closestDepth := by
  unfold popOrBreak
  cases s.stack <;> simp [Control.state]

theorem loopBody_out (sqrt : F → F) (q0 q1 q2 : Vec4 F) (tMin tMax : F) (s : LoopState F) :
    StepOut sqrt q0 q1 q2 tMin tMax s (loopBody sqrt q0 q1 q2 tMin tMax s).state := by
  unfold loopBody
  simp only
  split_ifs with hcull hdepth
  · cases hleaf : leafTest sqrt q0 q1 q2 tMin tMax s.cur with
    | none =>
      simp only
      exact Or.inl (popOrBreak_out s)
    | some h =>
      simp only
      have hp := popOrBreak_out { s with out := h, closestDepth := h.t }
      refine Or.inr ⟨hcull, hdepth, ?_, ?_⟩
      · rw [hp.1, hleaf]
      · rw [hp.2, hp.1]
  · exact Or.inl ⟨rfl, rfl⟩
  · exact Or.inl (popOrBreak_out s)


theorem stateAfter_succ_of_next (sqrt : F → F) (q0 q1 q2 : Vec4 F) (tMin tMax : F) (k : Nat)
    (s s1 : LoopState F) (hb : loopBody sqrt q0 q1 q2 tMin tMax s = Control.next s1) :
    stateAfter sqrt q0 q1 q2 tMin tMax (k + 1) s = stateAfter sqrt q0 q1 q2 tMin tMax k s1 := by
  simp only [stateAfter, hb]

/-- The outputs after the loop: untouched, or written by the leaf test of a node
that the loop processed. -/
theorem loop_out (sqrt : F → F) (q0 q1 q2 : Vec4 F) (tMin tMax : F) :
    ∀ (n : Nat) (s s' : LoopState F), loop sqrt q0 q1 q2 tMin tMax n s = some s' →
      (s'.out = s.out ∧ s'.closestDepth = s.closestDepth) ∨
      ∃ k sl, stateAfter sqrt q0 q1 q2 tMin tMax k s = some sl ∧
        cullPass q0 q1 q2 sl.cur ∧ MaxDepth ≤ sl.cur.depth ∧
        leafTest sqrt q0 q1 q2 tMin tMax sl.cur = some s'.out ∧
        s'.closestDepth = s'.out.t := by
  intro n
  induction n with
  | zero => intro s s' h; simp [loop] at h
  | succ n ih =>
    intro s s' h
    rw [loop_succ] at h
    have hstep := loopBody_out sqrt q0 q1 q2 tMin tMax s
    cases hb : loopBody sqrt q0 q1 q2 tMin tMax s with
    | next s1 =>
      rw [hb] at h hstep
      simp only [Control.state] at hstep
      simp only at h
      rcases ih s1 s' h with ⟨ho, hc⟩ | ⟨k, sl, hk, hrest⟩
      · rcases hstep with ⟨ho1, hc1⟩ | ⟨hcull, hdep, hleaf, hcd⟩
        · exact Or.inl ⟨ho.trans ho1, hc.trans hc1⟩
        · refine Or.inr ⟨0, s, rfl, hcull, hdep, ?_, ?_⟩
          · rw [ho]; exact hleaf
          · rw [hc, ho]; exact hcd
      · exact Or.inr ⟨k + 1, sl,
          (stateAfter_succ_of_next sqrt q0 q1 q2 tMin tMax k s s1 hb).trans hk, hrest⟩
    | done s1 =>
      rw [hb] at h hstep
      simp only [Control.state] at hstep
      simp only [Option.some.injEq] at h
      subst h
      rcases hstep with h1 | ⟨hcull, hdep, hleaf, hcd⟩
      · exact Or.inl h1
      · exact Or.inr ⟨0, s, rfl, hcull, hdep, hleaf, hcd⟩

/-! ### Termination -/

omit [LinearOrderedField F] in
theorem nodeWork_pos (f : StackNode F) (h : f.depth ≤ MaxDepth) : 1 ≤ nodeWork f := by
  unfold nodeWork
  unfold MaxDepth at h
  have : 2 ^ 1 ≤ 2 ^ (6 - f.depth) := Nat.pow_le_pow_right (by norm_num) (by omega)
  omega

omit [LinearOrderedField F] in
theorem popOrBreak_next (s s' : LoopState F) (h : popOrBreak s = Control.next s')
    (hd : DepthOK s) :
    DepthOK s' ∧ workLeft s' < workLeft s ∧ s'.stack.length < s.stack.length := by
  unfold popOrBreak at h
  cases hs : s.stack with
  | nil => simp [hs] at h
  | cons top rest =>
    simp only [hs, Control.next.injEq] at h
    subst h
    have hcur := nodeWork_pos s.cur hd.1
    refine ⟨⟨hd.2 top (by simp [hs]), fun f hf => hd.2 f (by simp [hs, hf])⟩, ?_, ?_⟩
    · simp only [workLeft, hs, List.map_cons, List.sum_cons]
      omega
    · simp

theorem loopBody_next (sqrt : F → F) (q0 q1 q2 : Vec4 F) (tMin tMax : F)
    (s s' : LoopState F) (h : loopBody sqrt q0 q1 q2 tMin tMax s = Control.next s')
    (hd : DepthOK s) : DepthOK s' ∧ workLeft s' < workLeft s := by
  unfold loopBody at h
  simp only at h
  split_ifs at h with hcull hdepth
  · cases hleaf : leafTest sqrt q0 q1 q2 tMin tMax s.cur with
    | none =>
      rw [hleaf] at h
      exact ⟨(popOrBreak_next s s' h hd).1, (popOrBreak_next s s' h hd).2.1⟩
    | some hit =>
      rw [hleaf] at h
      have := popOrBreak_next { s with out := hit, closestDepth := hit.t } s' h hd
      exact ⟨this.1, this.2.1⟩
  · simp only [Control.next.injEq] at h
    subst h
    have hlt : s.cur.depth < 5 := by
      unfold MaxDepth at hdepth; omega
    refine ⟨⟨?_, ?_⟩, ?_⟩
    · show s.cur.depth + 1 ≤ MaxDepth
      unfold MaxDepth; omega
    · intro f hf
      simp only [List.mem_cons] at hf
      rcases hf with rfl | hf
      · show s.cur.depth + 1 ≤ MaxDepth
        unfold MaxDepth; omega
      · exact hd.2 f hf
    · simp only [workLeft, nodeWork, List.map_cons, List.sum_cons]
      have e : 2 ^ (6 - s.cur.depth) = 2 * 2 ^ (6 - (s.cur.depth + 1)) := by
        have : 6 - s.cur.depth = (6 - (s.cur.depth + 1)) + 1 := by omega
        rw [this, pow_succ]; ring
      have p : 1 ≤ 2 ^ (6 - (s.cur.depth + 1)) := Nat.one_le_two_pow
      omega
  · exact ⟨(popOrBreak_next s s' h hd).1, (popOrBreak_next s s' h hd).2.1⟩

/-- The loop ends within as many passes as `workLeft` counts. -/
theorem loop_terminates (sqrt : F → F) (q0 q1 q2 : Vec4 F) (tMin tMax : F) :
    ∀ (n : Nat) (s : LoopState F), DepthOK s → workLeft s ≤ n →
      ∃ s', loop sqrt q0 q1 q2 tMin tMax n s = some s' := by
  intro n
  induction n with
  | zero =>
    intro s hd hw
    have := nodeWork_pos s.cur hd.1
    unfold workLeft at hw
    omega
  | succ n ih =>
    intro s hd hw
    rw [loop_succ]
    cases hb : loopBody sqrt q0 q1 q2 tMin tMax s with
    | next s1 =>
      have := loopBody_next sqrt q0 q1 q2 tMin tMax s s1 hb hd
      exact ih s1 this.1 (by omega)
    | done s1 => exact ⟨s1, rfl⟩

theorem initState_depthOK (q0 q1 q2 : Vec4 F) (tMax : F) (out : Hit F) :
    DepthOK (initState q0 q1 q2 tMax out) := by
  constructor
  · show 0 ≤ MaxDepth
    exact Nat.zero_le _
  · intro f hf
    simp [initState] at hf

theorem initState_workLeft (q0 q1 q2 : Vec4 F) (tMax : F) (out : Hit F) :
    workLeft (initState q0 q1 q2 tMax out) = loopFuel := by
  simp [workLeft, nodeWork, initState, loopFuel]

/-- The function `pointOnSpline` returns on every input, and its result is one of two: false
with the output parameters untouched, or true with the output parameters
written by the leaf test of a node that the loop processed. -/
theorem pointOnSpline_result (sqrt : F → F) (q0 q1 q2 : Vec4 F) (tMin tMax : F) (out : Hit F) :
    ∃ b out', pointOnSpline sqrt q0 q1 q2 tMin tMax out = some (b, out') ∧
      ((b = false ∧ out' = out) ∨
       (b = true ∧ ∃ k sl,
          stateAfter sqrt q0 q1 q2 tMin tMax k (initState q0 q1 q2 tMax out) = some sl ∧
          cullPass q0 q1 q2 sl.cur ∧ MaxDepth ≤ sl.cur.depth ∧
          leafTest sqrt q0 q1 q2 tMin tMax sl.cur = some out')) := by
  obtain ⟨s', hs'⟩ := loop_terminates sqrt q0 q1 q2 tMin tMax loopFuel
    (initState q0 q1 q2 tMax out) (initState_depthOK q0 q1 q2 tMax out)
    (le_of_eq (initState_workLeft q0 q1 q2 tMax out))
  refine ⟨decide (s'.closestDepth < tMax), s'.out, ?_, ?_⟩
  · simp only [pointOnSpline, hs']
  · rcases loop_out sqrt q0 q1 q2 tMin tMax _ _ _ hs' with ⟨ho, hc⟩ | ⟨k, sl, hk, hcull, hdep, hleaf, hcd⟩
    · left
      refine ⟨?_, ho⟩
      rw [hc]
      simp [initState]
    · right
      refine ⟨?_, k, sl, hk, hcull, hdep, hleaf⟩
      obtain ⟨_, segT, distance, _, _, hacc⟩ := leafTest_eq_some sqrt q0 q1 q2 tMin tMax _ _ hleaf
      have := acceptHit_eq_some q0 q1 q2 tMin tMax _ _ _ _ hacc
      rw [hcd]
      simpa using this.2.2.2.2.2.1

theorem stateAfter_succ (sqrt : F → F) (q0 q1 q2 : Vec4 F) (tMin tMax : F) (n : Nat)
    (s : LoopState F) :
    stateAfter sqrt q0 q1 q2 tMin tMax (n + 1) s =
      match loopBody sqrt q0 q1 q2 tMin tMax s with
      | Control.next s' => stateAfter sqrt q0 q1 q2 tMin tMax n s'
      | Control.done _ => none := rfl

/-- A property that every pass hands on holds in every state the loop reaches. -/
theorem stateAfter_invariant (sqrt : F → F) (q0 q1 q2 : Vec4 F) (tMin tMax : F)
    (P : LoopState F → Prop)
    (hP : ∀ s s', P s → loopBody sqrt q0 q1 q2 tMin tMax s = Control.next s' → P s') :
    ∀ (k : Nat) (s sl : LoopState F), P s →
      stateAfter sqrt q0 q1 q2 tMin tMax k s = some sl → P sl := by
  intro k
  induction k with
  | zero =>
    intro s sl hs h
    simp only [stateAfter, Option.some.injEq] at h
    exact h ▸ hs
  | succ k ih =>
    intro s sl hs h
    rw [stateAfter_succ] at h
    cases hb : loopBody sqrt q0 q1 q2 tMin tMax s with
    | next s1 =>
      rw [hb] at h
      exact ih s1 sl (hP s s1 hs hb) h
    | done s1 =>
      rw [hb] at h
      exact absurd h (by simp)

/-- Every node the loop processes has depth at most `MaxDepth`. -/
theorem stateAfter_depthOK (sqrt : F → F) (q0 q1 q2 : Vec4 F) (tMin tMax : F) (out : Hit F)
    (k : Nat) (sl : LoopState F)
    (h : stateAfter sqrt q0 q1 q2 tMin tMax k (initState q0 q1 q2 tMax out) = some sl) :
    DepthOK sl :=
  stateAfter_invariant sqrt q0 q1 q2 tMin tMax DepthOK
    (fun s s' hs hb => (loopBody_next sqrt q0 q1 q2 tMin tMax s s' hb hs).1)
    k _ sl (initState_depthOK q0 q1 q2 tMax out) h

/-- A call that returns true reports the hit of an accepting leaf. -/
theorem pointOnSpline_true (sqrt : F → F) (q0 q1 q2 : Vec4 F) (tMin tMax : F)
    (out out' : Hit F)
    (h : pointOnSpline sqrt q0 q1 q2 tMin tMax out = some (true, out')) :
    ∃ leaf, AcceptingLeaf sqrt q0 q1 q2 tMin tMax out leaf out' := by
  obtain ⟨b, o, hres, hcase⟩ := pointOnSpline_result sqrt q0 q1 q2 tMin tMax out
  rw [h, Option.some.injEq, Prod.mk.injEq] at hres
  obtain ⟨hb, ho⟩ := hres
  subst hb; subst ho
  rcases hcase with ⟨hf, _⟩ | ⟨_, k, sl, hk, hcull, hdep, hleaf⟩
  · exact absurd hf (by simp)
  · have hd := (stateAfter_depthOK sqrt q0 q1 q2 tMin tMax out k sl hk).1
    exact ⟨sl.cur, ⟨k, sl, hk, rfl⟩, le_antisymm hd hdep, hcull, hleaf⟩

/-- A reported depth lies strictly between `tMin` and `tMax`. -/
theorem pointOnSpline_depth_bounds (sqrt : F → F) (q0 q1 q2 : Vec4 F) (tMin tMax : F)
    (out out' : Hit F)
    (h : pointOnSpline sqrt q0 q1 q2 tMin tMax out = some (true, out')) :
    tMin < out'.t ∧ out'.t < tMax := by
  obtain ⟨leaf, _, _, _, hleaf⟩ := pointOnSpline_true sqrt q0 q1 q2 tMin tMax out out' h
  obtain ⟨_, segT, distance, _, _, hacc⟩ := leafTest_eq_some sqrt q0 q1 q2 tMin tMax _ _ hleaf
  have := acceptHit_eq_some q0 q1 q2 tMin tMax _ _ _ _ hacc
  exact ⟨this.2.2.2.2.1, this.2.2.2.2.2.1⟩

/-- C1: if `pointOnSpline` returns true, the reported depth lies strictly between
`tMin` and `tMax`; and a second call on the same segment with `tMax` set to that
depth returns false or reports a strictly smaller depth. -/
theorem pointOnSpline_depth_strict (sqrt : F → F) (q0 q1 q2 : Vec4 F) (tMin tMax : F)
    (out out' : Hit F)
    (h : pointOnSpline sqrt q0 q1 q2 tMin tMax out = some (true, out')) :
    (tMin < out'.t ∧ out'.t < tMax) ∧
    ∀ out2 : Hit F, ∃ b out3,
      pointOnSpline sqrt q0 q1 q2 tMin out'.t out2 = some (b, out3) ∧
        (b = false ∨ out3.t < out'.t) := by
  constructor
  · exact pointOnSpline_depth_bounds sqrt q0 q1 q2 tMin tMax out out' h
  · intro out2
    obtain ⟨b, out3, hres, _⟩ := pointOnSpline_result sqrt q0 q1 q2 tMin out'.t out2
    refine ⟨b, out3, hres, ?_⟩
    cases b with
    | false => exact Or.inl rfl
    | true =>
      exact Or.inr (pointOnSpline_depth_bounds sqrt q0 q1 q2 tMin out'.t out2 out3 hres).2

/-- C3: for every hit that `pointOnSpline` reports, the returned width is the
radius spline at the returned curve parameter `uv.x`, the silhouette distance
that the accepting leaf computed for its chord is non-negative and strictly
below that width, and so the width is strictly positive.  `sqrt` is assumed to
return non-negative values. -/
theorem pointOnSpline_width_distance (sqrt : F → F) (hs : ∀ x, 0 ≤ x → 0 ≤ sqrt x)
    (q0 q1 q2 : Vec4 F) (tMin tMax : F) (out out' : Hit F)
    (h : pointOnSpline sqrt q0 q1 q2 tMin tMax out = some (true, out')) :
    out'.width = quadraticBSpline q0.w q1.w q2.w out'.uv.x ∧
    (∃ leaf segT distance, AcceptingLeaf sqrt q0 q1 q2 tMin tMax out leaf out' ∧
      segmentT leaf = some segT ∧ chordDistance sqrt leaf segT = some distance ∧
      0 ≤ distance ∧ distance < out'.width) ∧
    0 < out'.width := by
  obtain ⟨leaf, hacc⟩ := pointOnSpline_true sqrt q0 q1 q2 tMin tMax out out' h
  obtain ⟨_, segT, distance, hseg, hdist, ha⟩ :=
    leafTest_eq_some sqrt q0 q1 q2 tMin tMax _ _ hacc.2.2.2
  have hp := acceptHit_eq_some q0 q1 q2 tMin tMax _ _ _ _ ha
  have hd0 := chordDistance_nonneg sqrt hs leaf segT distance hdist
  exact ⟨hp.2.2.1, ⟨leaf, segT, distance, hacc, hseg, hdist, hd0, hp.2.2.2.2.2.2.1⟩,
    lt_of_le_of_lt hd0 hp.2.2.2.2.2.2.1⟩

/-- In exact arithmetic, for every hit that `pointOnSpline` reports, `uv.x` is the curve parameter
`newT = segmentT * tSpan + tMin` of the accepting leaf and lies in `[0,1]`, and
`uv.y` is `1/2 - 1/2 * (distance / width)` when the cross product
`signedUnnormalized` is negative and `1/2 + 1/2 * (distance / width)`
otherwise, so that `0 < uv.y < 1`.  `sqrt` is assumed to return non-negative
values. -/
theorem pointOnSpline_uv (sqrt : F → F) (hs : ∀ x, 0 ≤ x → 0 ≤ sqrt x)
    (q0 q1 q2 : Vec4 F) (tMin tMax : F) (out out' : Hit F)
    (h : pointOnSpline sqrt q0 q1 q2 tMin tMax out = some (true, out')) :
    (0 ≤ out'.uv.x ∧ out'.uv.x ≤ 1) ∧ (0 < out'.uv.y ∧ out'.uv.y < 1) ∧
    ∃ leaf segT distance, AcceptingLeaf sqrt q0 q1 q2 tMin tMax out leaf out' ∧
      segmentT leaf = some segT ∧ chordDistance sqrt leaf segT = some distance ∧
      out'.uv.x = segT * leaf.tSpan + leaf.tMin ∧
      out'.uv.y = (if leaf.p0.x * (chordDir leaf).y - leaf.p0.y * (chordDir leaf).x < 0
                   then 1/2 - 1/2 * (distance / out'.width)
                   else 1/2 + 1/2 * (distance / out'.width)) := by
  obtain ⟨leaf, hacc⟩ := pointOnSpline_true sqrt q0 q1 q2 tMin tMax out out' h
  obtain ⟨_, segT, distance, hseg, hdist, ha⟩ :=
    leafTest_eq_some sqrt q0 q1 q2 tMin tMax _ _ hacc.2.2.2
  obtain ⟨hx, _, _, hy, _, _, hdw, hx0, hx1⟩ := acceptHit_eq_some q0 q1 q2 tMin tMax _ _ _ _ ha
  have hd0 := chordDistance_nonneg sqrt hs leaf segT distance hdist
  have hw : 0 < out'.width := lt_of_le_of_lt hd0 hdw
  have hr0 : 0 ≤ distance / out'.width := div_nonneg hd0 hw.le
  have hr1 : distance / out'.width < 1 := (div_lt_one hw).mpr hdw
  have hy' : out'.uv.y = (if leaf.p0.x * (chordDir leaf).y - leaf.p0.y * (chordDir leaf).x < 0
                   then 1/2 - 1/2 * (distance / out'.width)
                   else 1/2 + 1/2 * (distance / out'.width)) := by
    rw [hy]
    unfold signedUnnormalized
    split_ifs <;> ring
  refine ⟨⟨hx0, hx1⟩, ?_, leaf, segT, distance, hacc, hseg, hdist, hx, hy'⟩
  rw [hy']
  split_ifs <;> constructor <;> linarith


/-! ### A segment that crosses the ray twice -/

set_option maxHeartbeats 4000000 in
set_option maxRecDepth 100000 in
/-- The call on the segment that crosses the ray twice, traced pass by pass. -/
theorem twice_pointOnSpline (sqrt : F → F) (h0 : sqrt 0 = 0) :
    pointOnSpline sqrt twiceQ0 twiceQ1 twiceQ2 0 100 hit0
      = some (true, ⟨17/2, ⟨1/4, 1/2⟩, 1/8⟩) := by
  unfold pointOnSpline
  simp only [loopFuel, initState, twiceQ0, twiceQ1, twiceQ2, hit0]
  norm_num
  iterate 40
    (first
     | done
     | (rw [loop_succ]
        norm_num [loopBody, cullPass, cullAxis,
          fdiv, quadraticBSpline, quadraticBSpline4, MaxDepth, popOrBreak, leafTest, trimPass,
          segmentT, chordDir, chordDistance, acceptHit, signedUnnormalized, Vec2.dot,
          Vec2.lengthSq, Vec2.length, Vec4.xy, h0]))

set_option maxHeartbeats 4000000 in
set_option maxRecDepth 100000 in
/-- The ninth pass of that call processes the leaf `[3/4, 25/32]`. -/
theorem twice_leaf_reached (sqrt : F → F) (h0 : sqrt 0 = 0) :
    ∃ sl, stateAfter sqrt twiceQ0 twiceQ1 twiceQ2 0 100 8
        (initState twiceQ0 twiceQ1 twiceQ2 100 hit0) = some sl ∧ sl.cur = twiceLeaf := by
  simp only [initState, twiceQ0, twiceQ1, twiceQ2, hit0]
  norm_num
  iterate 8
    (rw [stateAfter_succ]
     norm_num [loopBody, cullPass, cullAxis,
          fdiv, quadraticBSpline, quadraticBSpline4, MaxDepth, popOrBreak, leafTest, trimPass,
          segmentT, chordDir, chordDistance, acceptHit, signedUnnormalized, Vec2.dot,
          Vec2.lengthSq, Vec2.length, Vec4.xy, h0])
  simp only [stateAfter, twiceLeaf]
  norm_num

/-- The leaf `[3/4, 25/32]` passes the bound test and accepts a hit at depth
`15/2`. -/
theorem twice_leaf_accepts (sqrt : F → F) (h0 : sqrt 0 = 0) :
    cullPass twiceQ0 twiceQ1 twiceQ2 (twiceLeaf : StackNode F) ∧
    leafTest sqrt twiceQ0 twiceQ1 twiceQ2 0 100 twiceLeaf
      = some ⟨15/2, ⟨3/4, 1/2⟩, 1/8⟩ := by
  constructor
  · norm_num [cullPass, cullAxis, fdiv, quadraticBSpline, twiceQ0, twiceQ1, twiceQ2, twiceLeaf]
  · norm_num [leafTest, trimPass, segmentT, chordDir, chordDistance, acceptHit,
      signedUnnormalized, Vec2.dot, Vec2.lengthSq, Vec2.length, fdiv, quadraticBSpline,
      twiceQ0, twiceQ1, twiceQ2, twiceLeaf, h0]

end Intersector

/-! ### The example over the reals -/

/-- C1 at the segment that crosses the ray twice: the call returns true with
depth `17/2`, inside `(0, 100)`, and a second call with `tMax = 17/2` returns
false or a smaller depth. -/
theorem pointOnSpline_depth_strict_witness :
    pointOnSpline Real.sqrt twiceQ0 twiceQ1 twiceQ2 0 100 hit0
        = some (true, ⟨17/2, ⟨1/4, 1/2⟩, 1/8⟩) ∧
    ((0 : ℝ) < 17/2 ∧ (17/2 : ℝ) < 100) ∧
    ∀ out2 : Hit ℝ, ∃ b out3,
      pointOnSpline Real.sqrt twiceQ0 twiceQ1 twiceQ2 0 (17/2) out2 = some (b, out3) ∧
        (b = false ∨ out3.t < 17/2) :=
  ⟨twice_pointOnSpline Real.sqrt Real.sqrt_zero,
    pointOnSpline_depth_strict Real.sqrt twiceQ0 twiceQ1 twiceQ2 0 100 hit0
      ⟨17/2, ⟨1/4, 1/2⟩, 1/8⟩ (twice_pointOnSpline Real.sqrt Real.sqrt_zero)⟩

/-- C3 at the segment that crosses the ray twice. -/
theorem pointOnSpline_width_distance_witness :
    pointOnSpline Real.sqrt twiceQ0 twiceQ1 twiceQ2 0 100 hit0
        = some (true, ⟨17/2, ⟨1/4, 1/2⟩, 1/8⟩) ∧
    (1/8 : ℝ) = quadraticBSpline (twiceQ0 : Vec4 ℝ).w twiceQ1.w twiceQ2.w (1/4) ∧
    (∃ leaf segT distance,
      AcceptingLeaf Real.sqrt twiceQ0 twiceQ1 twiceQ2 0 100 hit0 leaf
        ⟨17/2, ⟨1/4, 1/2⟩, 1/8⟩ ∧
      segmentT leaf = some segT ∧ chordDistance Real.sqrt leaf segT = some distance ∧
      0 ≤ distance ∧ distance < 1/8) ∧
    (0 : ℝ) < 1/8 :=
  ⟨twice_pointOnSpline Real.sqrt Real.sqrt_zero,
    pointOnSpline_width_distance Real.sqrt (fun x _ => Real.sqrt_nonneg x)
      twiceQ0 twiceQ1 twiceQ2 0 100 hit0 ⟨17/2, ⟨1/4, 1/2⟩, 1/8⟩
      (twice_pointOnSpline Real.sqrt Real.sqrt_zero)⟩

/-- The exact-arithmetic `uv` at the segment that crosses the ray twice. -/
theorem pointOnSpline_uv_example :
    pointOnSpline Real.sqrt twiceQ0 twiceQ1 twiceQ2 0 100 hit0
        = some (true, ⟨17/2, ⟨1/4, 1/2⟩, 1/8⟩) ∧
    ((0 : ℝ) ≤ 1/4 ∧ (1/4 : ℝ) ≤ 1) ∧ ((0 : ℝ) < 1/2 ∧ (1/2 : ℝ) < 1) ∧
    ∃ leaf segT distance,
      AcceptingLeaf Real.sqrt twiceQ0 twiceQ1 twiceQ2 0 100 hit0 leaf
        ⟨17/2, ⟨1/4, 1/2⟩, 1/8⟩ ∧
      segmentT leaf = some segT ∧ chordDistance Real.sqrt leaf segT = some distance ∧
      (1/4 : ℝ) = segT * leaf.tSpan + leaf.tMin ∧
      (1/2 : ℝ) = (if leaf.p0.x * (chordDir leaf).y - leaf.p0.y * (chordDir leaf).x < 0
                   then 1/2 - 1/2 * (distance / (1/8))
                   else 1/2 + 1/2 * (distance / (1/8))) :=
  ⟨twice_pointOnSpline Real.sqrt Real.sqrt_zero,
    pointOnSpline_uv Real.sqrt (fun x _ => Real.sqrt_nonneg x)
      twiceQ0 twiceQ1 twiceQ2 0 100 hit0 ⟨17/2, ⟨1/4, 1/2⟩, 1/8⟩
      (twice_pointOnSpline Real.sqrt Real.sqrt_zero)⟩

section Frame

variable {F : Type} [LinearOrderedField F]

/-! ## The ray frame -/

theorem fdiv_of_ne_zero (a b : F) (hb : b ≠ 0) : fdiv a b = some (a / b) := by
  simp [fdiv, hb]

/-- The frame of a unit direction: it exists, is orthonormal and right-handed,
and is the fixed one in the fallback branch. -/
theorem buildFrame_frame (sqrt : F → F) (lz : Vec3 F) (hunit : lz.dot lz = 1)
    (hsq : sqrt (lz.x * lz.x + lz.z * lz.z) * sqrt (lz.x * lz.x + lz.z * lz.z)
      = lz.x * lz.x + lz.z * lz.z) :
    ∃ lx ly, buildFrame sqrt lz = some (lx, ly) ∧
      lx.dot lx = 1 ∧ ly.dot ly = 1 ∧ lz.dot lz = 1 ∧
      lx.dot ly = 0 ∧ lx.dot lz = 0 ∧ ly.dot lz = 0 ∧
      lx.cross ly = lz ∧
      (lz.x * lz.x + lz.z * lz.z = 0 → lx = ⟨1, 0, 0⟩ ∧ ly = ⟨0, 0, -lz.y⟩) := by
  obtain ⟨x, y, z⟩ := lz
  simp only [Vec3.dot] at hunit
  simp only at hsq
  by_cases hd : sqrt (x * x + z * z) = 0
  · have hs : x * x + z * z = 0 := by rw [← hsq, hd, mul_zero]
    have hx : x = 0 := by
      have := mul_self_nonneg x; have := mul_self_nonneg z
      exact mul_self_eq_zero.mp (by linarith)
    have hz : z = 0 := by
      have := mul_self_nonneg x; have := mul_self_nonneg z
      exact mul_self_eq_zero.mp (by linarith)
    subst hx; subst hz
    refine ⟨⟨1, 0, 0⟩, ⟨0, 0, -y⟩, ?_, ?_, ?_, ?_, ?_, ?_, ?_, ?_, fun _ => ⟨rfl, rfl⟩⟩
    · simp only [buildFrame]
      rw [if_pos hd]
    · simp only [Vec3.dot]; ring
    · simp only [Vec3.dot]; linarith
    · simp only [Vec3.dot]; linarith
    · simp only [Vec3.dot]; ring
    · simp only [Vec3.dot]; ring
    · simp only [Vec3.dot]; ring
    · simp only [Vec3.cross, Vec3.mk.injEq]
      refine ⟨by ring, by ring, by ring⟩
  · set d := sqrt (x * x + z * z) with hddef
    refine ⟨⟨z / d, 0, -x / d⟩, ⟨-x / d * y, d, -y * (z / d)⟩, ?_, ?_⟩
    · simp only [buildFrame, ← hddef, hd, if_false, fdiv_of_ne_zero _ _ hd]
    · have hdd : d * d = x * x + z * z := hsq
      have hs0 : x * x + z * z ≠ 0 := by
        rw [← hdd]; exact mul_ne_zero hd hd
      simp only [Vec3.dot, Vec3.cross, Vec3.mk.injEq]
      refine ⟨?_, ?_, hunit, ?_, ?_, ?_, ⟨?_, ?_, ?_⟩, fun h => absurd h hs0⟩
      · field_simp; linarith
      · field_simp
        have : y * y = 1 - (x * x + z * z) := by linarith
        nlinarith [this, hdd]
      · field_simp; ring
      · field_simp; ring
      · field_simp
        linear_combination y * hdd
      · field_simp
      · field_simp
        linear_combination (-y) * hdd
      · field_simp

/-- C6: for a unit direction `lz`, the frame `(lx, ly, lz)` that
`Curves::intersect` builds exists (no quotient has a zero divisor), is
orthonormal and right-handed (`lx × ly = lz`), in the general branch and in
the fallback branch alike; in the fallback branch (`lz.x² + lz.z² = 0`) it is
`lx = (1,0,0)`, `ly = (0,0,-lz.y)`.  `sqrt` is assumed exact at the one
argument it is applied to. -/
theorem buildFrame_orthonormal (sqrt : F → F) (lz : Vec3 F) (hunit : lz.dot lz = 1)
    (hsq : sqrt (lz.x * lz.x + lz.z * lz.z) * sqrt (lz.x * lz.x + lz.z * lz.z)
      = lz.x * lz.x + lz.z * lz.z) :
    ∃ lx ly, buildFrame sqrt lz = some (lx, ly) ∧
      lx.dot lx = 1 ∧ ly.dot ly = 1 ∧ lz.dot lz = 1 ∧
      lx.dot ly = 0 ∧ lx.dot lz = 0 ∧ ly.dot lz = 0 ∧
      lx.cross ly = lz ∧
      (lz.x * lz.x + lz.z * lz.z = 0 → lx = ⟨1, 0, 0⟩ ∧ ly = ⟨0, 0, -lz.y⟩) :=
  buildFrame_frame sqrt lz hunit hsq

/-- C6 at the direction `(3/5, 0, 4/5)` over the reals. -/
theorem buildFrame_orthonormal_witness :
    ∃ lx ly : Vec3 ℝ, buildFrame Real.sqrt ⟨3/5, 0, 4/5⟩ = some (lx, ly) ∧
      lx.dot lx = 1 ∧ ly.dot ly = 1 ∧ (⟨3/5, 0, 4/5⟩ : Vec3 ℝ).dot ⟨3/5, 0, 4/5⟩ = 1 ∧
      lx.dot ly = 0 ∧ lx.dot ⟨3/5, 0, 4/5⟩ = 0 ∧ ly.dot ⟨3/5, 0, 4/5⟩ = 0 ∧
      lx.cross ly = ⟨3/5, 0, 4/5⟩ ∧
      ((3/5 : ℝ) * (3/5) + 4/5 * (4/5) = 0 → lx = ⟨1, 0, 0⟩ ∧ ly = ⟨0, 0, -0⟩) :=
  buildFrame_orthonormal Real.sqrt ⟨3/5, 0, 4/5⟩ (by norm_num [Vec3.dot])
    (Real.mul_self_sqrt (by norm_num))

/-- For the direction `+z` the frame is the standard basis. -/
theorem buildFrame_z (sqrt : F → F) (h1 : sqrt 1 = 1) :
    buildFrame sqrt (⟨0, 0, 1⟩ : Vec3 F) = some (⟨1, 0, 0⟩, ⟨0, 1, 0⟩) := by
  simp [buildFrame, fdiv, h1]


end Frame

section Facade

variable {F : Type} [LinearOrderedField F]

/-! ## The intersection facade -/

/-- The callback returns for every candidate whose three nodes exist. -/
theorem visit_total (sqrt : F → F) (nodeData : List (Vec4 F)) (o lx ly lz : Vec3 F) (nearT : F)
    (st : TraceState F) (id : Nat) (h2 : 2 ≤ id) (hlt : id < nodeData.length) :
    ∃ r, visit sqrt nodeData o lx ly lz nearT st id = some r := by
  obtain ⟨n0, h0⟩ : ∃ n, nodeData[id - 2]? = some n :=
    ⟨_, List.getElem?_eq_getElem (by omega)⟩
  obtain ⟨n1, h1⟩ : ∃ n, nodeData[id - 1]? = some n :=
    ⟨_, List.getElem?_eq_getElem (by omega)⟩
  obtain ⟨n2, h2'⟩ : ∃ n, nodeData[id]? = some n := ⟨_, List.getElem?_eq_getElem hlt⟩
  obtain ⟨b, out', hres, _⟩ := pointOnSpline_result sqrt (project o lx ly lz n0)
    (project o lx ly lz n1) (project o lx ly lz n2) nearT st.farT st.isect
  unfold visit
  rw [if_pos h2]
  simp only [h0, h1, h2', hres]
  cases b <;> exact ⟨_, rfl⟩

/-- What one call of the callback does to the traversal state. -/
theorem visit_spec (sqrt : F → F) (nodeData : List (Vec4 F)) (o lx ly lz : Vec3 F) (nearT : F)
    (st st' : TraceState F) (id : Nat) (acc : Bool)
    (h : visit sqrt nodeData o lx ly lz nearT st id = some (acc, st')) :
    (acc = false → st' = st) ∧
    (acc = true → st'.didIntersect = true ∧ st'.farT = st'.isect.t ∧
      nearT < st'.isect.t ∧ st'.isect.t < st.farT) := by
  unfold visit at h
  by_cases h2 : 2 ≤ id
  · rw [if_pos h2] at h
    cases h0 : nodeData[id - 2]? with
    | none => simp [h0] at h
    | some n0 =>
      cases h1 : nodeData[id - 1]? with
      | none => simp [h0, h1] at h
      | some n1 =>
        cases h2' : nodeData[id]? with
        | none => simp [h0, h1, h2'] at h
        | some n2 =>
          simp only [h0, h1, h2'] at h
          obtain ⟨b, out', hres, hcase⟩ := pointOnSpline_result sqrt (project o lx ly lz n0)
            (project o lx ly lz n1) (project o lx ly lz n2) nearT st.farT st.isect
          rw [hres] at h
          cases b with
          | false =>
            simp only [Option.some.injEq, Prod.mk.injEq] at h
            obtain ⟨hacc, hst⟩ := h
            subst hacc; subst hst
            rcases hcase with ⟨_, ho⟩ | ⟨hb, _⟩
            · refine ⟨fun _ => ?_, fun hc => absurd hc (by simp)⟩
              rw [ho]
            · exact absurd hb (by simp)
          | true =>
            simp only [Option.some.injEq, Prod.mk.injEq] at h
            obtain ⟨hacc, hst⟩ := h
            subst hacc; subst hst
            have hd := (pointOnSpline_depth_bounds sqrt _ _ _ nearT st.farT st.isect out' hres)
            exact ⟨fun hc => absurd hc (by simp), fun _ => ⟨rfl, rfl, hd.1, hd.2⟩⟩
  · rw [if_neg h2] at h
    exact absurd h (by simp)


theorem buildFrame_total (sqrt : F → F) (lz : Vec3 F) :
    ∃ fr, buildFrame sqrt lz = some fr := by
  unfold buildFrame
  simp only
  by_cases hd : sqrt (lz.x * lz.x + lz.z * lz.z) = 0
  · rw [if_pos hd]; exact ⟨_, rfl⟩
  · rw [if_neg hd]
    simp only [fdiv, hd, if_false]
    exact ⟨_, rfl⟩

/-- The traversal returns; the far bound has not grown; without an accepted hit
the state is untouched, and otherwise the record holds the last accepted hit,
whose depth is the far bound and the least accepted depth. -/
theorem traverse_spec (sqrt : F → F) (nodeData : List (Vec4 F)) (o lx ly lz : Vec3 F)
    (nearT : F) :
    ∀ (ids : List Nat) (st : TraceState F), ValidIds nodeData ids →
      ∃ st', traverse sqrt nodeData o lx ly lz nearT st ids = some st' ∧
        st'.farT ≤ st.farT ∧
        (acceptedHits sqrt nodeData o lx ly lz nearT st ids = [] → st' = st) ∧
        (acceptedHits sqrt nodeData o lx ly lz nearT st ids ≠ [] →
          st'.didIntersect = true ∧
          (acceptedHits sqrt nodeData o lx ly lz nearT st ids).getLast? = some st'.isect ∧
          st'.farT = st'.isect.t ∧
          ∀ h ∈ acceptedHits sqrt nodeData o lx ly lz nearT st ids,
            st'.isect.t ≤ h.t ∧ nearT < h.t ∧ h.t < st.farT) := by
  intro ids
  induction ids with
  | nil =>
    intro st _
    exact ⟨st, rfl, le_refl _, fun _ => rfl, fun h => absurd rfl h⟩
  | cons id rest ih =>
    intro st hv
    have hvr : ValidIds nodeData rest := fun i hi => hv i (List.mem_cons_of_mem _ hi)
    obtain ⟨⟨acc, st1⟩, hvis⟩ := visit_total sqrt nodeData o lx ly lz nearT st id
      (hv id (List.mem_cons_self _ _)).1 (hv id (List.mem_cons_self _ _)).2
    have hspec := visit_spec sqrt nodeData o lx ly lz nearT st st1 id acc hvis
    obtain ⟨st', htr, hfar, hnil, hcons⟩ := ih st1 hvr
    cases acc with
    | false =>
      have hst : st1 = st := hspec.1 rfl
      subst hst
      refine ⟨st', ?_, hfar, ?_, ?_⟩
      · simp only [traverse, hvis]; exact htr
      · simp only [acceptedHits, hvis]; exact hnil
      · simp only [acceptedHits, hvis]; exact hcons
    | true =>
      obtain ⟨hdid, hft, hnear, hlt⟩ := hspec.2 rfl
      have hfar1 : st1.farT < st.farT := by rw [hft]; exact hlt
      refine ⟨st', ?_, le_trans hfar hfar1.le, ?_, ?_⟩
      · simp only [traverse, hvis]; exact htr
      · simp only [acceptedHits, hvis]
        intro h; exact absurd h (by simp)
      · simp only [acceptedHits, hvis]
        intro _
        by_cases hA : acceptedHits sqrt nodeData o lx ly lz nearT st1 rest = []
        · have hst : st' = st1 := hnil hA
          subst hst
          rw [hA]
          refine ⟨hdid, rfl, hft, ?_⟩
          intro h hh
          simp only [List.mem_singleton] at hh
          subst hh
          exact ⟨le_refl _, hnear, hlt⟩
        · obtain ⟨hd', hlast, hft', hall⟩ := hcons hA
          refine ⟨hd', ?_, hft', ?_⟩
          · rw [List.getLast?_cons, hlast]; rfl
          · intro h hh
            simp only [List.mem_cons] at hh
            rcases hh with rfl | hh
            · refine ⟨?_, hnear, hlt⟩
              rw [← hft', ← hft]; exact hfar
            · obtain ⟨h1, h2, h3⟩ := hall h hh
              exact ⟨h1, h2, lt_trans h3 hfar1⟩


theorem traverse_append (sqrt : F → F) (nodeData : List (Vec4 F)) (o lx ly lz : Vec3 F)
    (nearT : F) :
    ∀ (pre suf : List Nat) (st st1 : TraceState F),
      traverse sqrt nodeData o lx ly lz nearT st pre = some st1 →
      traverse sqrt nodeData o lx ly lz nearT st (pre ++ suf) =
        traverse sqrt nodeData o lx ly lz nearT st1 suf := by
  intro pre
  induction pre with
  | nil =>
    intro suf st st1 h
    simp only [traverse, Option.some.injEq] at h
    subst h; rfl
  | cons id rest ih =>
    intro suf st st1 h
    simp only [traverse, List.cons_append] at h ⊢
    cases hv : visit sqrt nodeData o lx ly lz nearT st id with
    | none => rw [hv] at h; exact absurd h (by simp)
    | some r =>
      rw [hv] at h
      simp only at h ⊢
      exact ih suf r.2 st1 h

/-- Each call of the callback leaves the far bound where it is or moves it down
to the depth of the hit it accepts. -/
theorem traverse_step (sqrt : F → F) (nodeData : List (Vec4 F)) (o lx ly lz : Vec3 F)
    (nearT : F) (st : TraceState F) (pre suf : List Nat) (id : Nat)
    (hv : ValidIds nodeData (pre ++ id :: suf)) :
    ∃ st1 acc st2, traverse sqrt nodeData o lx ly lz nearT st pre = some st1 ∧
      visit sqrt nodeData o lx ly lz nearT st1 id = some (acc, st2) ∧
      traverse sqrt nodeData o lx ly lz nearT st (pre ++ [id]) = some st2 ∧
      st2.farT ≤ st1.farT ∧ st1.farT ≤ st.farT ∧
      (acc = false → st2 = st1) ∧
      (acc = true → st2.farT = st2.isect.t ∧ st2.isect.t < st1.farT) := by
  have hpre : ValidIds nodeData pre := fun i hi => hv i (List.mem_append_left _ hi)
  have hid := hv id (List.mem_append_right _ (List.mem_cons_self _ _))
  obtain ⟨st1, htr, hfar, _, _⟩ := traverse_spec sqrt nodeData o lx ly lz nearT pre st hpre
  obtain ⟨⟨acc, st2⟩, hvis⟩ := visit_total sqrt nodeData o lx ly lz nearT st1 id hid.1 hid.2
  have hspec := visit_spec sqrt nodeData o lx ly lz nearT st1 st2 id acc hvis
  refine ⟨st1, acc, st2, htr, hvis, ?_, ?_, hfar, hspec.1, ?_⟩
  · rw [traverse_append sqrt nodeData o lx ly lz nearT pre [id] st st1 htr]
    simp only [traverse, hvis]
  · cases acc with
    | false => rw [hspec.1 rfl]
    | true =>
      obtain ⟨_, h1, _, h2⟩ := hspec.2 rfl
      rw [h1]; exact h2.le
  · intro ha
    obtain ⟨_, h1, _, h2⟩ := hspec.2 ha
    exact ⟨h1, h2⟩

/-- The callback is `pointOnSpline` on the three projected nodes of the
candidate, called with the current far bound and the current record: its
flag is the returned `bool`, and the state afterwards is the accepted hit
with the far bound at its depth, or the state before. -/
theorem visit_pointOnSpline (sqrt : F → F) (nodeData : List (Vec4 F)) (o lx ly lz : Vec3 F)
    (nearT : F) (st st' : TraceState F) (id : Nat) (acc : Bool)
    (h : visit sqrt nodeData o lx ly lz nearT st id = some (acc, st')) :
    2 ≤ id ∧ ∃ n0 n1 n2 hit,
      nodeData[id - 2]? = some n0 ∧ nodeData[id - 1]? = some n1 ∧ nodeData[id]? = some n2 ∧
      pointOnSpline sqrt (project o lx ly lz n0) (project o lx ly lz n1)
        (project o lx ly lz n2) nearT st.farT st.isect = some (acc, hit) ∧
      (acc = true → st' = ⟨hit.t, hit, true⟩) ∧ (acc = false → st' = st) := by
  have hspec := visit_spec sqrt nodeData o lx ly lz nearT st st' id acc h
  unfold visit at h
  by_cases h2 : 2 ≤ id
  · rw [if_pos h2] at h
    refine ⟨h2, ?_⟩
    cases h0 : nodeData[id - 2]? with
    | none => simp [h0] at h
    | some n0 =>
      cases h1 : nodeData[id - 1]? with
      | none => simp [h0, h1] at h
      | some n1 =>
        cases h2' : nodeData[id]? with
        | none => simp [h0, h1, h2'] at h
        | some n2 =>
          simp only [h0, h1, h2'] at h
          cases hres : pointOnSpline sqrt (project o lx ly lz n0) (project o lx ly lz n1)
              (project o lx ly lz n2) nearT st.farT st.isect with
          | none => rw [hres] at h; exact absurd h (by simp)
          | some r =>
            obtain ⟨b, hit⟩ := r
            rw [hres] at h
            cases b with
            | false =>
              simp only [Option.some.injEq, Prod.mk.injEq] at h
              obtain ⟨hacc, _⟩ := h
              subst hacc
              exact ⟨n0, n1, n2, hit, rfl, rfl, rfl, hres, fun hc => absurd hc (by simp),
                fun _ => hspec.1 rfl⟩
            | true =>
              simp only [Option.some.injEq, Prod.mk.injEq] at h
              obtain ⟨hacc, hst⟩ := h
              subst hacc
              exact ⟨n0, n1, n2, hit, rfl, rfl, rfl, hres, fun _ => hst.symm,
                fun hc => absurd hc (by simp)⟩
  · rw [if_neg h2] at h
    exact absurd h (by simp)

/-- The accepted hits are exactly the records written by the calls of the
callback that returned true. -/
theorem mem_acceptedHits (sqrt : F → F) (nodeData : List (Vec4 F)) (o lx ly lz : Vec3 F)
    (nearT : F) (hit : Hit F) :
    ∀ (ids : List Nat) (st : TraceState F),
      hit ∈ acceptedHits sqrt nodeData o lx ly lz nearT st ids ↔
        ∃ pre id suf st1 st2, ids = pre ++ id :: suf ∧
          traverse sqrt nodeData o lx ly lz nearT st pre = some st1 ∧
          visit sqrt nodeData o lx ly lz nearT st1 id = some (true, st2) ∧
          st2.isect = hit := by
  intro ids
  induction ids with
  | nil =>
    intro st
    simp only [acceptedHits, List.not_mem_nil, false_iff]
    rintro ⟨pre, id, suf, _, _, he, _⟩
    exact absurd he (by simp)
  | cons i rest ih =>
    intro st
    cases hv : visit sqrt nodeData o lx ly lz nearT st i with
    | none =>
      simp only [acceptedHits, hv, List.not_mem_nil, false_iff]
      rintro ⟨pre, id, suf, st1, st2, he, htr, hvis, _⟩
      cases pre with
      | nil =>
        simp only [List.nil_append, List.cons.injEq] at he
        simp only [traverse, Option.some.injEq] at htr
        subst htr
        rw [← he.1, hv] at hvis
        exact absurd hvis (by simp)
      | cons p pre' =>
        simp only [List.cons_append, List.cons.injEq] at he
        rw [← he.1] at htr
        simp only [traverse, hv] at htr
        exact absurd htr (by simp)
    | some r =>
      obtain ⟨b, st0⟩ := r
      have key : (∃ pre id suf st1 st2, i :: rest = pre ++ id :: suf ∧
            traverse sqrt nodeData o lx ly lz nearT st pre = some st1 ∧
            visit sqrt nodeData o lx ly lz nearT st1 id = some (true, st2) ∧
            st2.isect = hit) ↔
          ((b = true ∧ st0.isect = hit) ∨
            ∃ pre id suf st1 st2, rest = pre ++ id :: suf ∧
              traverse sqrt nodeData o lx ly lz nearT st0 pre = some st1 ∧
              visit sqrt nodeData o lx ly lz nearT st1 id = some (true, st2) ∧
              st2.isect = hit) := by
        constructor
        · rintro ⟨pre, id, suf, st1, st2, he, htr, hvis, hh⟩
          cases pre with
          | nil =>
            simp only [List.nil_append, List.cons.injEq] at he
            simp only [traverse, Option.some.injEq] at htr
            subst htr
            rw [← he.1, hv] at hvis
            simp only [Option.some.injEq, Prod.mk.injEq] at hvis
            left
            exact ⟨hvis.1, by rw [hvis.2]; exact hh⟩
          | cons p pre' =>
            simp only [List.cons_append, List.cons.injEq] at he
            rw [← he.1] at htr
            simp only [traverse, hv] at htr
            right
            exact ⟨pre', id, suf, st1, st2, he.2, htr, hvis, hh⟩
        · rintro (⟨hb, hh⟩ | ⟨pre, id, suf, st1, st2, he, htr, hvis, hh⟩)
          · subst hb
            exact ⟨[], i, rest, st, st0, rfl, rfl, hv, hh⟩
          · refine ⟨i :: pre, id, suf, st1, st2, by rw [he]; rfl, ?_, hvis, hh⟩
            simp only [traverse, hv]
            exact htr
      rw [key, ← ih st0]
      cases b with
      | false => simp [acceptedHits, hv]
      | true =>
        simp only [acceptedHits, hv, List.mem_cons, true_and]
        constructor
        · rintro (h | h)
          · exact Or.inl h.symm
          · exact Or.inr h
        · rintro (h | h)
          · exact Or.inl h.symm
          · exact Or.inr h

/-- C7: with the BVH traversal taken as a visit of any finite sequence of
candidate segments (each with its three nodes in `_nodeData`),
`Curves::intersect` returns.  Every visit is the call of `pointOnSpline` on the
three projected nodes of the candidate with the current far bound and record;
it accepts exactly when that call returns true, and then the record is the
reported hit and the far bound its depth, else the state is untouched.  The far
bound never grows; the call returns true exactly when some visited segment
was accepted, and then the record `isect` is the last accepted hit, its depth
is the final far bound, lies strictly between `nearT` and the initial `farT`,
and is the least depth among the accepted hits; when the call returns false
the far bound and the record are unchanged. -/
theorem intersect_spec (sqrt : F → F) (nodeData : List (Vec4 F)) (ray : Ray F)
    (ids : List Nat) (isect : Hit F) (hids : ValidIds nodeData ids) :
    ∃ lx ly b ray' isect',
      buildFrame sqrt ray.dir = some (lx, ly) ∧
      intersect sqrt nodeData ray ids isect = some (b, ray', isect') ∧
      ray'.farT ≤ ray.farT ∧
      (∀ pre id suf, ids = pre ++ id :: suf →
        ∃ st1 acc st2 n0 n1 n2 hit,
          traverse sqrt nodeData ray.pos lx ly ray.dir ray.nearT ⟨ray.farT, isect, false⟩ pre
            = some st1 ∧
          nodeData[id - 2]? = some n0 ∧ nodeData[id - 1]? = some n1 ∧
          nodeData[id]? = some n2 ∧
          pointOnSpline sqrt (project ray.pos lx ly ray.dir n0) (project ray.pos lx ly ray.dir n1)
            (project ray.pos lx ly ray.dir n2) ray.nearT st1.farT st1.isect = some (acc, hit) ∧
          visit sqrt nodeData ray.pos lx ly ray.dir ray.nearT st1 id = some (acc, st2) ∧
          traverse sqrt nodeData ray.pos lx ly ray.dir ray.nearT ⟨ray.farT, isect, false⟩
            (pre ++ [id]) = some st2 ∧
          st2.farT ≤ st1.farT ∧ st1.farT ≤ ray.farT ∧
          (acc = false → st2 = st1) ∧
          (acc = true → st2 = ⟨hit.t, hit, true⟩ ∧ st2.farT = st2.isect.t ∧
            st2.isect.t < st1.farT ∧
            hit ∈ acceptedHits sqrt nodeData ray.pos lx ly ray.dir ray.nearT
              ⟨ray.farT, isect, false⟩ ids)) ∧
      (∀ hit ∈ acceptedHits sqrt nodeData ray.pos lx ly ray.dir ray.nearT
          ⟨ray.farT, isect, false⟩ ids,
        ∃ pre id suf st1 n0 n1 n2, ids = pre ++ id :: suf ∧
          traverse sqrt nodeData ray.pos lx ly ray.dir ray.nearT ⟨ray.farT, isect, false⟩ pre
            = some st1 ∧
          nodeData[id - 2]? = some n0 ∧ nodeData[id - 1]? = some n1 ∧
          nodeData[id]? = some n2 ∧
          pointOnSpline sqrt (project ray.pos lx ly ray.dir n0) (project ray.pos lx ly ray.dir n1)
            (project ray.pos lx ly ray.dir n2) ray.nearT st1.farT st1.isect = some (true, hit)) ∧
      (b = true ↔
        acceptedHits sqrt nodeData ray.pos lx ly ray.dir ray.nearT ⟨ray.farT, isect, false⟩ ids
          ≠ []) ∧
      (b = true →
        (acceptedHits sqrt nodeData ray.pos lx ly ray.dir ray.nearT
            ⟨ray.farT, isect, false⟩ ids).getLast? = some isect' ∧
        isect'.t = ray'.farT ∧ ray.nearT < isect'.t ∧ isect'.t < ray.farT ∧
        ∀ h ∈ acceptedHits sqrt nodeData ray.pos lx ly ray.dir ray.nearT
            ⟨ray.farT, isect, false⟩ ids, isect'.t ≤ h.t) ∧
      (b = false → ray'.farT = ray.farT ∧ isect' = isect) := by
  obtain ⟨⟨lx, ly⟩, hfr⟩ := buildFrame_total sqrt ray.dir
  obtain ⟨st', htr, hfar, hnil, hcons⟩ := traverse_spec sqrt nodeData ray.pos lx ly ray.dir
    ray.nearT ids ⟨ray.farT, isect, false⟩ hids
  refine ⟨lx, ly, st'.didIntersect, { ray with farT := st'.farT }, st'.isect, hfr, ?_, hfar,
    ?_, ?_, ?_, ?_, ?_⟩
  · simp only [intersect, hfr, htr]
  · intro pre id suf he
    obtain ⟨st1, acc, st2, h1, h2, h3, h4, h5, h6, h7⟩ :=
      traverse_step sqrt nodeData ray.pos lx ly ray.dir ray.nearT _ pre suf id (he ▸ hids)
    obtain ⟨_, n0, n1, n2, hit, hn0, hn1, hn2, hp, ht, _⟩ :=
      visit_pointOnSpline sqrt nodeData ray.pos lx ly ray.dir ray.nearT st1 st2 id acc h2
    refine ⟨st1, acc, st2, n0, n1, n2, hit, h1, hn0, hn1, hn2, hp, h2, h3, h4, h5, h6, ?_⟩
    intro ha
    refine ⟨ht ha, (h7 ha).1, (h7 ha).2, ?_⟩
    rw [mem_acceptedHits]
    refine ⟨pre, id, suf, st1, st2, he, h1, ?_, ?_⟩
    · rw [h2, ha]
    · rw [ht ha]
  · intro hit hh
    rw [mem_acceptedHits] at hh
    obtain ⟨pre, id, suf, st1, st2, he, h1, h2, h3⟩ := hh
    obtain ⟨_, n0, n1, n2, hit', hn0, hn1, hn2, hp, ht, _⟩ :=
      visit_pointOnSpline sqrt nodeData ray.pos lx ly ray.dir ray.nearT st1 st2 id true h2
    refine ⟨pre, id, suf, st1, n0, n1, n2, he, h1, hn0, hn1, hn2, ?_⟩
    have e : hit' = hit := by rw [← h3, ht rfl]
    rw [← e]; exact hp
  · constructor
    · intro hb hA
      rw [hnil hA] at hb
      exact absurd hb (by simp)
    · intro hA
      exact (hcons hA).1
  · intro hb
    have hA : acceptedHits sqrt nodeData ray.pos lx ly ray.dir ray.nearT
        ⟨ray.farT, isect, false⟩ ids ≠ [] := by
      intro hA
      rw [hnil hA] at hb
      exact absurd hb (by simp)
    obtain ⟨_, hlast, hft, hall⟩ := hcons hA
    have hmem := List.mem_of_getLast?_eq_some hlast
    exact ⟨hlast, hft.symm, (hall _ hmem).2.1, (hall _ hmem).2.2, fun h hh => (hall h hh).1⟩
  · intro hb
    by_cases hA : acceptedHits sqrt nodeData ray.pos lx ly ray.dir ray.nearT
        ⟨ray.farT, isect, false⟩ ids = []
    · rw [hnil hA]; exact ⟨rfl, rfl⟩
    · rw [(hcons hA).1] at hb
      exact absurd hb (by simp)

/-- Seen from the origin along `+z`, a node projects to itself. -/
theorem project_origin_z (q : Vec4 F) :
    project (⟨0, 0, 0⟩ : Vec3 F) ⟨1, 0, 0⟩ ⟨0, 1, 0⟩ ⟨0, 0, 1⟩ q = q := by
  obtain ⟨x, y, z, w⟩ := q
  simp only [project, Vec4.xyz, Vec3.sub, Vec3.dot]
  congr 1 <;> ring

/-- The result of `Curves::intersect` on the segment that crosses the ray twice. -/
theorem twice_intersect (sqrt : F → F) (h0 : sqrt 0 = 0) (h1 : sqrt 1 = 1) :
    intersect sqrt twiceNodes zRay [2] hit0
      = some (true, { (zRay : Ray F) with farT := 17/2 }, ⟨17/2, ⟨1/4, 1/2⟩, 1/8⟩) := by
  have hp := twice_pointOnSpline sqrt h0
  simp only [intersect, zRay, buildFrame_z sqrt h1, traverse, visit, twiceNodes, le_refl,
    if_true, Nat.sub_self, List.getElem?_cons_zero, List.getElem?_cons_succ, project_origin_z,
    hp]

set_option maxHeartbeats 4000000 in
set_option maxRecDepth 100000 in
/-- A second call on the segment that crosses the ray twice, with the far bound
at the depth `17/2` reported by the first: it reports the nearer crossing. -/
theorem twice_pointOnSpline_second (sqrt : F → F) (h0 : sqrt 0 = 0) :
    pointOnSpline sqrt twiceQ0 twiceQ1 twiceQ2 0 (17/2) ⟨17/2, ⟨1/4, 1/2⟩, 1/8⟩
      = some (true, ⟨15/2, ⟨3/4, 1/2⟩, 1/8⟩) := by
  unfold pointOnSpline
  simp only [loopFuel, initState, twiceQ0, twiceQ1, twiceQ2]
  norm_num
  iterate 40
    (first
     | done
     | (rw [loop_succ]
        norm_num [loopBody, cullPass, cullAxis,
          fdiv, quadraticBSpline, quadraticBSpline4, MaxDepth, popOrBreak, leafTest, trimPass,
          segmentT, chordDir, chordDistance, acceptHit, signedUnnormalized, Vec2.dot,
          Vec2.lengthSq, Vec2.length, Vec4.xy, h0]))

set_option maxHeartbeats 4000000 in
set_option maxRecDepth 100000 in
/-- A third call, with the far bound at `15/2`: no leaf accepts. -/
theorem twice_pointOnSpline_third (sqrt : F → F) (h0 : sqrt 0 = 0) :
    pointOnSpline sqrt twiceQ0 twiceQ1 twiceQ2 0 (15/2) ⟨15/2, ⟨3/4, 1/2⟩, 1/8⟩
      = some (false, ⟨15/2, ⟨3/4, 1/2⟩, 1/8⟩) := by
  unfold pointOnSpline
  simp only [loopFuel, initState, twiceQ0, twiceQ1, twiceQ2]
  norm_num
  iterate 40
    (first
     | done
     | (rw [loop_succ]
        norm_num [loopBody, cullPass, cullAxis,
          fdiv, quadraticBSpline, quadraticBSpline4, MaxDepth, popOrBreak, leafTest, trimPass,
          segmentT, chordDir, chordDistance, acceptHit, signedUnnormalized, Vec2.dot,
          Vec2.lengthSq, Vec2.length, Vec4.xy, h0]))

/-- Three visits of the segment that crosses the ray twice: the first reports
the farther crossing, the second the nearer one, the third misses. -/
theorem twice_intersect_thrice (sqrt : F → F) (h0 : sqrt 0 = 0) (h1 : sqrt 1 = 1) :
    intersect sqrt twiceNodes zRay [2, 2, 2] hit0
        = some (true, { (zRay : Ray F) with farT := 15/2 }, ⟨15/2, ⟨3/4, 1/2⟩, 1/8⟩) ∧
    acceptedHits sqrt twiceNodes (zRay : Ray F).pos ⟨1, 0, 0⟩ ⟨0, 1, 0⟩ (zRay : Ray F).dir
        (zRay : Ray F).nearT ⟨(zRay : Ray F).farT, hit0, false⟩ [2, 2, 2]
      = [⟨17/2, ⟨1/4, 1/2⟩, 1/8⟩, ⟨15/2, ⟨3/4, 1/2⟩, 1/8⟩] := by
  have hp := twice_pointOnSpline sqrt h0
  have hp2 := twice_pointOnSpline_second sqrt h0
  have hp3 := twice_pointOnSpline_third sqrt h0
  constructor
  · simp only [intersect, zRay, buildFrame_z sqrt h1, traverse, visit, twiceNodes, le_refl,
      if_true, Nat.sub_self, List.getElem?_cons_zero, List.getElem?_cons_succ, project_origin_z,
      hp, hp2, hp3]
  · simp only [acceptedHits, zRay, visit, twiceNodes, le_refl,
      if_true, Nat.sub_self, List.getElem?_cons_zero, List.getElem?_cons_succ, project_origin_z,
      hp, hp2, hp3]

end Facade

/-- C7 at the segment that crosses the ray twice, visited three times: the
first visit accepts the crossing at depth `17/2`, the second the nearer one at
depth `15/2`, the third misses; the call returns true with the record of the
second visit and the far bound `15/2`. -/
theorem intersect_spec_witness :
    ValidIds (twiceNodes : List (Vec4 ℝ)) [2, 2, 2] ∧
    intersect Real.sqrt twiceNodes zRay [2, 2, 2] hit0
      = some (true, { (zRay : Ray ℝ) with farT := 15/2 }, ⟨15/2, ⟨3/4, 1/2⟩, 1/8⟩) ∧
    acceptedHits Real.sqrt twiceNodes (zRay : Ray ℝ).pos ⟨1, 0, 0⟩ ⟨0, 1, 0⟩ (zRay : Ray ℝ).dir
        (zRay : Ray ℝ).nearT ⟨(zRay : Ray ℝ).farT, hit0, false⟩ [2, 2, 2]
      = [⟨17/2, ⟨1/4, 1/2⟩, 1/8⟩, ⟨15/2, ⟨3/4, 1/2⟩, 1/8⟩] ∧
    ∃ lx ly b ray' isect',
      buildFrame Real.sqrt (zRay : Ray ℝ).dir = some (lx, ly) ∧
      intersect Real.sqrt (twiceNodes : List (Vec4 ℝ)) (zRay : Ray ℝ) [2, 2, 2] hit0 = some (b, ray', isect') ∧
      ray'.farT ≤ (zRay : Ray ℝ).farT ∧
      (∀ pre id suf, [2, 2, 2] = pre ++ id :: suf →
        ∃ st1 acc st2 n0 n1 n2 hit,
          traverse Real.sqrt (twiceNodes : List (Vec4 ℝ)) (zRay : Ray ℝ).pos lx ly (zRay : Ray ℝ).dir (zRay : Ray ℝ).nearT ⟨(zRay : Ray ℝ).farT, hit0, false⟩ pre
            = some st1 ∧
          (twiceNodes : List (Vec4 ℝ))[id - 2]? = some n0 ∧ (twiceNodes : List (Vec4 ℝ))[id - 1]? = some n1 ∧
          (twiceNodes : List (Vec4 ℝ))[id]? = some n2 ∧
          pointOnSpline Real.sqrt (project (zRay : Ray ℝ).pos lx ly (zRay : Ray ℝ).dir n0) (project (zRay : Ray ℝ).pos lx ly (zRay : Ray ℝ).dir n1)
            (project (zRay : Ray ℝ).pos lx ly (zRay : Ray ℝ).dir n2) (zRay : Ray ℝ).nearT st1.farT st1.isect = some (acc, hit) ∧
          visit Real.sqrt (twiceNodes : List (Vec4 ℝ)) (zRay : Ray ℝ).pos lx ly (zRay : Ray ℝ).dir (zRay : Ray ℝ).nearT st1 id = some (acc, st2) ∧
          traverse Real.sqrt (twiceNodes : List (Vec4 ℝ)) (zRay : Ray ℝ).pos lx ly (zRay : Ray ℝ).dir (zRay : Ray ℝ).nearT ⟨(zRay : Ray ℝ).farT, hit0, false⟩
            (pre ++ [id]) = some st2 ∧
          st2.farT ≤ st1.farT ∧ st1.farT ≤ (zRay : Ray ℝ).farT ∧
          (acc = false → st2 = st1) ∧
          (acc = true → st2 = ⟨hit.t, hit, true⟩ ∧ st2.farT = st2.isect.t ∧
            st2.isect.t < st1.farT ∧
            hit ∈ acceptedHits Real.sqrt (twiceNodes : List (Vec4 ℝ)) (zRay : Ray ℝ).pos lx ly (zRay : Ray ℝ).dir (zRay : Ray ℝ).nearT
              ⟨(zRay : Ray ℝ).farT, hit0, false⟩ [2, 2, 2])) ∧
      (∀ hit ∈ acceptedHits Real.sqrt (twiceNodes : List (Vec4 ℝ)) (zRay : Ray ℝ).pos lx ly (zRay : Ray ℝ).dir (zRay : Ray ℝ).nearT
          ⟨(zRay : Ray ℝ).farT, hit0, false⟩ [2, 2, 2],
        ∃ pre id suf st1 n0 n1 n2, [2, 2, 2] = pre ++ id :: suf ∧
          traverse Real.sqrt (twiceNodes : List (Vec4 ℝ)) (zRay : Ray ℝ).pos lx ly (zRay : Ray ℝ).dir (zRay : Ray ℝ).nearT ⟨(zRay : Ray ℝ).farT, hit0, false⟩ pre
            = some st1 ∧
          (twiceNodes : List (Vec4 ℝ))[id - 2]? = some n0 ∧ (twiceNodes : List (Vec4 ℝ))[id - 1]? = some n1 ∧
          (twiceNodes : List (Vec4 ℝ))[id]? = some n2 ∧
          pointOnSpline Real.sqrt (project (zRay : Ray ℝ).pos lx ly (zRay : Ray ℝ).dir n0) (project (zRay : Ray ℝ).pos lx ly (zRay : Ray ℝ).dir n1)
            (project (zRay : Ray ℝ).pos lx ly (zRay : Ray ℝ).dir n2) (zRay : Ray ℝ).nearT st1.farT st1.isect = some (true, hit)) ∧
      (b = true ↔
        acceptedHits Real.sqrt (twiceNodes : List (Vec4 ℝ)) (zRay : Ray ℝ).pos lx ly (zRay : Ray ℝ).dir (zRay : Ray ℝ).nearT ⟨(zRay : Ray ℝ).farT, hit0, false⟩ [2, 2, 2]
          ≠ []) ∧
      (b = true →
        (acceptedHits Real.sqrt (twiceNodes : List (Vec4 ℝ)) (zRay : Ray ℝ).pos lx ly (zRay : Ray ℝ).dir (zRay : Ray ℝ).nearT
            ⟨(zRay : Ray ℝ).farT, hit0, false⟩ [2, 2, 2]).getLast? = some isect' ∧
        isect'.t = ray'.farT ∧ (zRay : Ray ℝ).nearT < isect'.t ∧ isect'.t < (zRay : Ray ℝ).farT ∧
        ∀ h ∈ acceptedHits Real.sqrt (twiceNodes : List (Vec4 ℝ)) (zRay : Ray ℝ).pos lx ly (zRay : Ray ℝ).dir (zRay : Ray ℝ).nearT
            ⟨(zRay : Ray ℝ).farT, hit0, false⟩ [2, 2, 2], isect'.t ≤ h.t) ∧
      (b = false → ray'.farT = (zRay : Ray ℝ).farT ∧ isect' = hit0) :=
  have hv : ValidIds (twiceNodes : List (Vec4 ℝ)) [2, 2, 2] := by
    intro id hid
    simp only [List.mem_cons, List.mem_singleton, List.not_mem_nil, or_false, or_self] at hid
    subst hid
    exact ⟨le_refl _, by simp [twiceNodes]⟩
  ⟨hv, (twice_intersect_thrice Real.sqrt Real.sqrt_zero Real.sqrt_one).1,
    (twice_intersect_thrice Real.sqrt Real.sqrt_zero Real.sqrt_one).2,
    intersect_spec Real.sqrt twiceNodes zRay [2, 2, 2] hit0 hv⟩


/-- C2 fails on the code: for the nodes `(11,0,10)`, `(-5,0,8)`, `(11,0,6)` of
radius `1/8` and the ray from the origin along `+z`, `Curves::intersect`
reports the depth `17/2`; the nodes project to themselves, `pointOnSpline`
reports that depth, although the leaf `[3/4, 25/32]`, processed earlier in the
same call, passed every acceptance test with the smaller depth `15/2`. -/
theorem pointOnSpline_reports_last_not_closest :
    intersect Real.sqrt twiceNodes zRay [2] hit0
        = some (true, { (zRay : Ray ℝ) with farT := 17/2 }, ⟨17/2, ⟨1/4, 1/2⟩, 1/8⟩) ∧
    pointOnSpline Real.sqrt twiceQ0 twiceQ1 twiceQ2 0 100 hit0
        = some (true, ⟨17/2, ⟨1/4, 1/2⟩, 1/8⟩) ∧
    AcceptingLeaf Real.sqrt twiceQ0 twiceQ1 twiceQ2 0 100 hit0 twiceLeaf
        ⟨15/2, ⟨3/4, 1/2⟩, 1/8⟩ ∧
    (15/2 : ℝ) < 17/2 := by
  refine ⟨twice_intersect Real.sqrt Real.sqrt_zero Real.sqrt_one,
    twice_pointOnSpline Real.sqrt Real.sqrt_zero, ⟨?_, rfl, ?_, ?_⟩, by norm_num⟩
  · obtain ⟨sl, h, hc⟩ := twice_leaf_reached Real.sqrt Real.sqrt_zero
    exact ⟨8, sl, h, hc⟩
  · exact (twice_leaf_accepts Real.sqrt Real.sqrt_zero).1
  · exact (twice_leaf_accepts Real.sqrt Real.sqrt_zero).2

section Cylinder

variable {F : Type} [LinearOrderedField F]

/-! ## The straight-cylinder scenario -/

omit [LinearOrderedField F] in
theorem popOrBreak_next_stack (s s' : LoopState F) (h : popOrBreak s = Control.next s') :
    s.stack = s'.cur :: s'.stack := by
  unfold popOrBreak at h
  cases hs : s.stack with
  | nil => simp [hs] at h
  | cons top rest =>
    simp only [hs, Control.next.injEq] at h
    subst h; rfl

/-- A pass that does not leave the loop either pops the stack or splits the
current node, keeping the right half and pushing the left half. -/
theorem loopBody_next_cases (sqrt : F → F) (q0 q1 q2 : Vec4 F) (tMin tMax : F)
    (s s' : LoopState F) (h : loopBody sqrt q0 q1 q2 tMin tMax s = Control.next s') :
    s.stack = s'.cur :: s'.stack ∨
    (cullPass q0 q1 q2 s.cur ∧ s.cur.depth < MaxDepth ∧
      s'.cur = rightHalf q0 q1 q2 s.cur ∧ s'.stack = leftHalf q0 q1 q2 s.cur :: s.stack ∧
      s'.out = s.out ∧ s'.closestDepth = s.closestDepth) := by
  unfold loopBody at h
  simp only at h
  split_ifs at h with hcull hdepth
  · cases hleaf : leafTest sqrt q0 q1 q2 tMin tMax s.cur with
    | none =>
      rw [hleaf] at h
      exact Or.inl (popOrBreak_next_stack s s' h)
    | some hit =>
      rw [hleaf] at h
      exact Or.inl (popOrBreak_next_stack { s with out := hit, closestDepth := hit.t } s' h)
  · simp only [Control.next.injEq] at h
    subst h
    exact Or.inr ⟨hcull, not_le.mp hdepth, rfl, rfl, rfl, rfl⟩
  · exact Or.inl (popOrBreak_next_stack s s' h)

theorem quadraticBSpline_const (p t : F) : quadraticBSpline p p p t = p := by
  simp only [quadraticBSpline]; ring

/-- When the three projected control points coincide in the plane, no leaf
accepts: every chord has zero length, so `segmentT` is not finite. -/
theorem pointOnSpline_degenerate (sqrt : F → F) (q0 q1 q2 : Vec4 F) (tMin tMax : F)
    (out : Hit F) (h01 : q0.xy = q1.xy) (h12 : q1.xy = q2.xy) :
    pointOnSpline sqrt q0 q1 q2 tMin tMax out = some (false, out) := by
  obtain ⟨b, out', hres, hcase⟩ := pointOnSpline_result sqrt q0 q1 q2 tMin tMax out
  rcases hcase with ⟨hb, ho⟩ | ⟨_, k, sl, hk, _, _, hleaf⟩
  · rw [hres, hb, ho]
  · exfalso
    simp only [Vec4.xy, Vec2.mk.injEq] at h01 h12
    have hsplit : ∀ t, (quadraticBSpline4 q0 q1 q2 t).xy = q0.xy := by
      intro t
      simp only [quadraticBSpline4, Vec4.xy, ← h12.1, ← h12.2, ← h01.1, ← h01.2,
        quadraticBSpline_const]
    have hinv : AllAt q0.xy sl :=
      stateAfter_invariant sqrt q0 q1 q2 tMin tMax (AllAt q0.xy)
        (fun s s' hs hb => by
          rcases loopBody_next_cases sqrt q0 q1 q2 tMin tMax s s' hb with hpop | hsp
          · exact ⟨hs.2 s'.cur (by rw [hpop]; exact List.mem_cons_self _ _),
              fun f hf => hs.2 f (by rw [hpop]; exact List.mem_cons_of_mem _ hf)⟩
          · obtain ⟨_, _, hc, hst, _, _⟩ := hsp
            refine ⟨?_, ?_⟩
            · rw [hc]; exact ⟨hsplit _, hs.1.2⟩
            · intro f hf
              rw [hst, List.mem_cons] at hf
              rcases hf with rfl | hf
              · exact ⟨hs.1.1, hsplit _⟩
              · exact hs.2 f hf)
        k _ sl
        (by
          refine ⟨⟨?_, ?_⟩, fun f hf => by simp [initState] at hf⟩
          · simp only [initState, Vec4.xy, ← h01.1, ← h01.2, Vec2.mk.injEq]
            constructor <;> ring
          · simp only [initState, Vec4.xy, ← h12.1, ← h12.2, ← h01.1, ← h01.2, Vec2.mk.injEq]
            constructor <;> ring)
        hk
    obtain ⟨_, segT, _, hseg, _, _⟩ := leafTest_eq_some sqrt q0 q1 q2 tMin tMax _ _ hleaf
    have hne := (fdiv_eq_some hseg).1
    apply hne
    simp only [chordDir, Vec2.lengthSq, hinv.1.1, hinv.1.2]
    ring

/-- When the bound test fails for the whole segment, the call returns false at
once and leaves the output parameters alone. -/
theorem pointOnSpline_root_culled (sqrt : F → F) (q0 q1 q2 : Vec4 F) (tMin tMax : F)
    (out : Hit F) (hc : ¬ cullPass q0 q1 q2 (initState q0 q1 q2 tMax out).cur) :
    pointOnSpline sqrt q0 q1 q2 tMin tMax out = some (false, out) := by
  have hb : loopBody sqrt q0 q1 q2 tMin tMax (initState q0 q1 q2 tMax out)
      = Control.done (initState q0 q1 q2 tMax out) := by
    unfold loopBody
    simp only
    rw [if_neg hc]
    rfl
  unfold pointOnSpline loopFuel
  rw [loop_succ, hb]
  simp [initState]

/-- A ray along `+z` sees the straight cylinder end-on: the three projected
control points coincide in the plane. -/
theorem cyl_project (r x z : F) :
    project (⟨x, 0, -5⟩ : Vec3 F) ⟨1, 0, 0⟩ ⟨0, 1, 0⟩ ⟨0, 0, 1⟩ ⟨0, 0, z, r⟩
      = ⟨-x, 0, z + 5, r⟩ := by
  simp only [project, Vec4.xyz, Vec3.sub, Vec3.dot]
  congr 1 <;> ring

/-- A ray along `+z` reports no hit on the straight cylinder, whatever its
offset `x`. -/
theorem cyl_no_hit (sqrt : F → F) (h1 : sqrt 1 = 1) (r x nearT farT : F) (out : Hit F) :
    intersect sqrt (cylNodes r) (cylRay x nearT farT) [2] out
      = some (false, cylRay x nearT farT, out) := by
  have hp : pointOnSpline sqrt (⟨-x, 0, 0 + 5, r⟩ : Vec4 F) ⟨-x, 0, 1 + 5, r⟩ ⟨-x, 0, 2 + 5, r⟩
      nearT farT out = some (false, out) :=
    pointOnSpline_degenerate sqrt _ _ _ nearT farT out rfl rfl
  simp only [intersect, cylRay, buildFrame_z sqrt h1, traverse, visit, cylNodes, le_refl,
    if_true, Nat.sub_self, List.getElem?_cons_zero, List.getElem?_cons_succ, cyl_project, hp]

/-- With three equal control values the flat parameter is `0/0` and the bound
is that of the chord ends. -/
theorem cullAxis_const (p a b lo hi : F) : cullAxis p p p a b lo hi = (min a b, max a b) := by
  have h : p - 2 * p + p = 0 := by ring
  simp only [cullAxis, fdiv, h, if_true]

/-- The bound test at the root of the straight cylinder seen along `+z` from the
offset `x`: it passes exactly when `-r ≤ x ≤ r`. -/
theorem cyl_root_cullPass (r x farT : F) (out : Hit F) :
    cullPass (⟨-x, 0, 5, r⟩ : Vec4 F) ⟨-x, 0, 6, r⟩ ⟨-x, 0, 7, r⟩
        (initState (⟨-x, 0, 5, r⟩ : Vec4 F) ⟨-x, 0, 6, r⟩ ⟨-x, 0, 7, r⟩ farT out).cur
      ↔ (-r ≤ x ∧ x ≤ r) := by
  have e1 : (-x + -x) * (1 / 2) = -x := by ring
  have e2 : (r + r) * (1 / 2) = r := by ring
  have e3 : ((0 : F) + 0) * (1 / 2) = 0 := by ring
  simp only [cullPass, cullAxis_const, initState, e1, e2, e3, min_self, max_self]
  constructor
  · rintro ⟨h1, h2, h3, _⟩
    exact ⟨by linarith, by linarith⟩
  · rintro ⟨h1, h2⟩
    have : 0 ≤ r := by linarith
    exact ⟨by linarith, this, by linarith, by linarith⟩

/-- C9 as the code has it: for every radius `r > 0` the frame of a ray along
`+z` is the standard basis, the three control nodes of the straight cylinder
project to `(-x, 0, 5, r)`, `(-x, 0, 6, r)`, `(-x, 0, 7, r)` for a ray that
starts at `(x, 0, -5)`; for the start `(r/2, 0, -5)` the segment passes the
bound test, yet `Curves::intersect` reports no hit and leaves the ray and the
hit record alone; for the start `(2r, 0, -5)` the segment fails the bound test
at the root and no hit is reported either.  `sqrt` is assumed to map `1` to
`1`. -/
theorem cylinder_parallel_ray_no_hit (sqrt : F → F) (h1 : sqrt 1 = 1) (r : F) (hr : 0 < r)
    (nearT farT : F) (out : Hit F) :
    buildFrame sqrt (cylRay (r / 2) nearT farT).dir = some (⟨1, 0, 0⟩, ⟨0, 1, 0⟩) ∧
    (cylNodes r).map (project (cylRay (r / 2) nearT farT).pos ⟨1, 0, 0⟩ ⟨0, 1, 0⟩ ⟨0, 0, 1⟩)
      = [⟨-(r / 2), 0, 5, r⟩, ⟨-(r / 2), 0, 6, r⟩, ⟨-(r / 2), 0, 7, r⟩] ∧
    cullPass (⟨-(r / 2), 0, 5, r⟩ : Vec4 F) ⟨-(r / 2), 0, 6, r⟩ ⟨-(r / 2), 0, 7, r⟩
      (initState (⟨-(r / 2), 0, 5, r⟩ : Vec4 F) ⟨-(r / 2), 0, 6, r⟩ ⟨-(r / 2), 0, 7, r⟩
        farT out).cur ∧
    intersect sqrt (cylNodes r) (cylRay (r / 2) nearT farT) [2] out
      = some (false, cylRay (r / 2) nearT farT, out) ∧
    (cylNodes r).map (project (cylRay (2 * r) nearT farT).pos ⟨1, 0, 0⟩ ⟨0, 1, 0⟩ ⟨0, 0, 1⟩)
      = [⟨-(2 * r), 0, 5, r⟩, ⟨-(2 * r), 0, 6, r⟩, ⟨-(2 * r), 0, 7, r⟩] ∧
    ¬ cullPass (⟨-(2 * r), 0, 5, r⟩ : Vec4 F) ⟨-(2 * r), 0, 6, r⟩ ⟨-(2 * r), 0, 7, r⟩
      (initState (⟨-(2 * r), 0, 5, r⟩ : Vec4 F) ⟨-(2 * r), 0, 6, r⟩ ⟨-(2 * r), 0, 7, r⟩
        farT out).cur ∧
    intersect sqrt (cylNodes r) (cylRay (2 * r) nearT farT) [2] out
      = some (false, cylRay (2 * r) nearT farT, out) := by
  refine ⟨buildFrame_z sqrt h1, ?_, ?_, cyl_no_hit sqrt h1 r _ nearT farT out, ?_, ?_,
    cyl_no_hit sqrt h1 r _ nearT farT out⟩
  · simp only [cylNodes, cylRay, List.map, cyl_project, List.cons.injEq, Vec4.mk.injEq,
      and_true, true_and]
    norm_num
  · rw [cyl_root_cullPass]
    constructor <;> linarith
  · simp only [cylNodes, cylRay, List.map, cyl_project, List.cons.injEq, Vec4.mk.injEq,
      and_true, true_and]
    norm_num
  · rw [cyl_root_cullPass]
    intro h
    linarith [h.2]

/-- C9 as stated fails: for `r = 1`, `nearT = 0`, `farT = 100` the ray that
starts at `(1/2, 0, -5)` reports no hit. -/
theorem cylinder_inside_ray_reports_no_hit :
    intersect Real.sqrt (cylNodes (1 : ℝ)) (cylRay (1 / 2) 0 100) [2] hit0
      = some (false, cylRay (1 / 2) 0 100, hit0) :=
  cyl_no_hit Real.sqrt Real.sqrt_one 1 (1 / 2) 0 100 hit0

/-- C9 as the code has it, at `r = 2` over the reals. -/
theorem cylinder_parallel_ray_no_hit_witness :
    Real.sqrt 1 = 1 ∧ (0 : ℝ) < 2 ∧
    intersect Real.sqrt (cylNodes (2 : ℝ)) (cylRay (2 / 2) 0 100) [2] hit0
      = some (false, cylRay (2 / 2) 0 100, hit0) ∧
    intersect Real.sqrt (cylNodes (2 : ℝ)) (cylRay (2 * 2) 0 100) [2] hit0
      = some (false, cylRay (2 * 2) 0 100, hit0) :=
  ⟨Real.sqrt_one, by norm_num,
    (cylinder_parallel_ray_no_hit Real.sqrt Real.sqrt_one 2 (by norm_num) 0 100 hit0).2.2.2.1,
    (cylinder_parallel_ray_no_hit Real.sqrt Real.sqrt_one 2 (by norm_num) 0 100
      hit0).2.2.2.2.2.2⟩

end Cylinder

section Load

/-! ## Curve boundaries in `loadCurves` -/

theorem u32_add_u32 (a b : Nat) : u32 (a + u32 b) = u32 (a + b) := by
  unfold u32; omega

theorem u32_of_lt (n : Nat) (h : n < 2 ^ 32) : u32 n = n := Nat.mod_eq_of_lt h

theorem curveEndsFromSegments_length (store : Nat → Nat) (prev : Nat) (segs : List Nat) :
    (curveEndsFromSegments store prev segs).length = segs.length := by
  induction segs generalizing prev with
  | nil => rfl
  | cons s rest ih => simp [curveEndsFromSegments, ih]

/-- Every boundary is the cumulative sum, as long as the entries hold the sums
unchanged. -/
theorem curveEndsFromSegments_get (store : Nat → Nat) (segs : List Nat) :
    ∀ (prev i : Nat), (∀ v, v ≤ (segs.map (· + 1)).sum + prev → store v = v) →
      i < segs.length →
      (curveEndsFromSegments store prev segs)[i]? = some (nodesUpTo segs i + prev) := by
  induction segs with
  | nil => intro prev i _ h; simp at h
  | cons s rest ih =>
    intro prev i hst h
    have h0 : store (s + 1 + prev) = s + 1 + prev := by
      apply hst
      simp only [List.map_cons, List.sum_cons]
      omega
    cases i with
    | zero =>
      simp [curveEndsFromSegments, nodesUpTo, h0]
    | succ i =>
      have hi : i < rest.length := by simpa using h
      simp only [curveEndsFromSegments, List.getElem?_cons_succ]
      rw [h0, ih (s + 1 + prev) i ?_ hi]
      · congr 1
        simp only [nodesUpTo, List.take_succ_cons, List.map_cons, List.sum_cons]
        omega
      · intro v hv
        apply hst
        simp only [List.map_cons, List.sum_cons]
        omega

theorem nodesUpTo_le_total (segs : List Nat) (i : Nat) :
    nodesUpTo segs i ≤ (segs.map (· + 1)).sum := by
  unfold nodesUpTo
  have h : segs.map (· + 1) = (segs.take (i + 1)).map (· + 1) ++ (segs.drop (i + 1)).map (· + 1) := by
    rw [← List.map_append, List.take_append_drop]
  rw [h, List.sum_append]
  omega

theorem nodesUpTo_succ_lt (segs : List Nat) (i : Nat) (h : i + 1 < segs.length) :
    nodesUpTo segs i < nodesUpTo segs (i + 1) := by
  unfold nodesUpTo
  have e : segs.take (i + 1 + 1) = segs.take (i + 1) ++ [segs[i + 1]] := by
    rw [List.take_succ, List.getElem?_eq_getElem h]; rfl
  rw [e, List.map_append, List.sum_append]
  simp


theorem nodesUpTo_strictMono (segs : List Nat) (i j : Nat) (hij : i < j) (hj : j < segs.length) :
    nodesUpTo segs i < nodesUpTo segs j := by
  induction j with
  | zero => omega
  | succ j ih =>
    have hstep := nodesUpTo_succ_lt segs j hj
    rcases Nat.lt_succ_iff_lt_or_eq.mp hij with h | h
    · exact lt_trans (ih h (by omega)) hstep
    · rw [h]; exact hstep

theorem curveEndsDefault_get (store : Nat → Nat) (curveCount d i : Nat) (h : i < curveCount) :
    (curveEndsDefault store curveCount d)[i]? = some (store ((i + 1) * d)) := by
  simp [curveEndsDefault, List.getElem?_range h]

/-- C10: boundary reconstruction in `loadCurves`, for entries of `_curveEnds`
that hold the computed values unchanged (`store v = v` up to the last
boundary).  When the segment-count flag is set, the boundary of curve `i` is
the cumulative sum over `j ≤ i` of `segmentCount[j] + 1`, the boundaries are
strictly increasing, and the counts `[3,5]` give the boundaries `[4,10]`; when
the flag is not set, the boundary of curve `i` is `(i + 1) * defaultSegments`. -/
theorem curveEnds_spec (store : Nat → Nat) (curveCount defaultSegments : Nat) (segs : List Nat)
    (hseg : ∀ v, v ≤ (segs.map (· + 1)).sum → store v = v)
    (hten : ∀ v, v ≤ 10 → store v = v)
    (hdef : ∀ v, v ≤ curveCount * defaultSegments → store v = v) :
    (curveEnds store true curveCount segs defaultSegments).length = segs.length ∧
    (∀ i, i < segs.length →
      (curveEnds store true curveCount segs defaultSegments)[i]? = some (nodesUpTo segs i)) ∧
    List.Pairwise (· < ·) (curveEnds store true curveCount segs defaultSegments) ∧
    curveEnds store true 2 [3, 5] defaultSegments = [4, 10] ∧
    (curveEnds store false curveCount segs defaultSegments).length = curveCount ∧
    (∀ i, i < curveCount →
      (curveEnds store false curveCount segs defaultSegments)[i]?
        = some ((i + 1) * defaultSegments)) := by
  have hget : ∀ i, i < segs.length →
      (curveEndsFromSegments store 0 segs)[i]? = some (nodesUpTo segs i) := by
    intro i hi
    rw [curveEndsFromSegments_get store segs 0 i (by simpa using hseg) hi, Nat.add_zero]
  refine ⟨?_, ?_, ?_, ?_, ?_, ?_⟩
  · simp [curveEnds, curveEndsFromSegments_length]
  · intro i hi
    simp only [curveEnds, if_true]
    exact hget i hi
  · simp only [curveEnds, if_true]
    rw [List.pairwise_iff_getElem]
    intro i j hi hj hij
    rw [curveEndsFromSegments_length] at hi hj
    have e1 := hget i hi
    have e2 := hget j hj
    rw [List.getElem?_eq_getElem (by rw [curveEndsFromSegments_length]; exact hi),
      Option.some.injEq] at e1
    rw [List.getElem?_eq_getElem (by rw [curveEndsFromSegments_length]; exact hj),
      Option.some.injEq] at e2
    rw [e1, e2]
    exact nodesUpTo_strictMono segs i j hij hj
  · simp [curveEnds, curveEndsFromSegments, hten 4 (by norm_num), hten 10 (by norm_num)]
  · simp [curveEnds, curveEndsDefault]
  · intro i hi
    simp only [curveEnds, Bool.false_eq_true, if_false]
    rw [curveEndsDefault_get store curveCount defaultSegments i hi, hdef]
    exact Nat.mul_le_mul_right _ hi

/-- C10 at the counts `[3,5]` with two curves of seven default segments and
unsigned 32-bit entries. -/
theorem curveEnds_spec_witness :
    (∀ v, v ≤ (([3, 5] : List Nat).map (· + 1)).sum → u32 v = v) ∧
    (∀ v, v ≤ 10 → u32 v = v) ∧ (∀ v, v ≤ 2 * 7 → u32 v = v) ∧
    (curveEnds u32 true 2 [3, 5] 7).length = 2 ∧
    (∀ i, i < 2 → (curveEnds u32 true 2 [3, 5] 7)[i]? = some (nodesUpTo [3, 5] i)) ∧
    List.Pairwise (· < ·) (curveEnds u32 true 2 [3, 5] 7) ∧
    curveEnds u32 true 2 [3, 5] 7 = [4, 10] ∧
    (curveEnds u32 false 2 [3, 5] 7).length = 2 ∧
    (∀ i, i < 2 → (curveEnds u32 false 2 [3, 5] 7)[i]? = some ((i + 1) * 7)) :=
  have h1 : ∀ v, v ≤ (([3, 5] : List Nat).map (· + 1)).sum → u32 v = v := by
    intro v hv
    simp only [List.map_cons, List.map_nil, List.sum_cons, List.sum_nil] at hv
    exact u32_of_lt v (by omega)
  have h2 : ∀ v, v ≤ 10 → u32 v = v := fun v hv => u32_of_lt v (by omega)
  have h3 : ∀ v, v ≤ 2 * 7 → u32 v = v := fun v hv => u32_of_lt v (by omega)
  ⟨h1, h2, h3, curveEnds_spec u32 2 7 [3, 5] h1 h2 h3⟩

end Load

section Stack
variable {F : Type} [LinearOrderedField F]

/-! ### The explicit stack -/

theorem loopBody_next_stackOK (sqrt : F → F) (q0 q1 q2 : Vec4 F) (tMin tMax : F)
    (s s' : LoopState F) (h : loopBody sqrt q0 q1 q2 tMin tMax s = Control.next s')
    (hs : StackOK s) : StackOK s' := by
  rcases loopBody_next_cases sqrt q0 q1 q2 tMin tMax s s' h with hpop | ⟨_, _, hc, hst, _, _⟩
  · have hb : StackBound (s'.cur :: s'.stack) := hpop ▸ hs.1
    exact ⟨hb.2, hb.1.le⟩
  · refine ⟨?_, ?_⟩
    · rw [hst]
      exact ⟨Nat.lt_succ_of_le hs.2, hs.1⟩
    · rw [hst, hc]
      exact Nat.succ_le_succ hs.2

theorem initState_stackOK (q0 q1 q2 : Vec4 F) (tMax : F) (out : Hit F) :
    StackOK (initState q0 q1 q2 tMax out) :=
  ⟨trivial, Nat.le_refl _⟩

/-- The passes made so far and the passes still possible stay within the work
of the starting state. -/
theorem stateAfter_workLeft (sqrt : F → F) (q0 q1 q2 : Vec4 F) (tMin tMax : F) :
    ∀ (k : Nat) (s sl : LoopState F), DepthOK s →
      stateAfter sqrt q0 q1 q2 tMin tMax k s = some sl → k + workLeft sl ≤ workLeft s := by
  intro k
  induction k with
  | zero =>
    intro s sl _ h
    simp only [stateAfter, Option.some.injEq] at h
    subst h; omega
  | succ k ih =>
    intro s sl hd h
    rw [stateAfter_succ] at h
    cases hb : loopBody sqrt q0 q1 q2 tMin tMax s with
    | next s1 =>
      rw [hb] at h
      have hn := loopBody_next sqrt q0 q1 q2 tMin tMax s s1 hb hd
      have := ih s1 sl hn.1 h
      omega
    | done s1 =>
      rw [hb] at h
      exact absurd h (by simp)

/-- C15: for every input the loop of `pointOnSpline` ends, so the call returns;
in every pass the current node has depth at most `MaxDepth = 5`, the stack holds
at most `MaxDepth` nodes, all of depth at most `MaxDepth`, and the pass has an
index below `63` (at most 63 nodes are processed); a pass that does not leave
the loop either pushes onto a stack of fewer than `MaxDepth` nodes (the write
goes to `stackBuf[length]` with `length < 5`) or pops from a stack that is not
empty. -/
theorem pointOnSpline_stack_bounded (sqrt : F → F) (q0 q1 q2 : Vec4 F) (tMin tMax : F)
    (out : Hit F) :
    (∃ r, pointOnSpline sqrt q0 q1 q2 tMin tMax out = some r) ∧
    ∀ k s, stateAfter sqrt q0 q1 q2 tMin tMax k (initState q0 q1 q2 tMax out) = some s →
      k < 63 ∧ s.cur.depth ≤ MaxDepth ∧ s.stack.length ≤ MaxDepth ∧
      (∀ f ∈ s.stack, f.depth ≤ MaxDepth) ∧
      ∀ s', loopBody sqrt q0 q1 q2 tMin tMax s = Control.next s' →
        (s'.stack = leftHalf q0 q1 q2 s.cur :: s.stack ∧ s.stack.length < MaxDepth ∧
          s'.cur = rightHalf q0 q1 q2 s.cur) ∨
        (s.stack = s'.cur :: s'.stack) := by
  constructor
  · obtain ⟨b, out', h, _⟩ := pointOnSpline_result sqrt q0 q1 q2 tMin tMax out
    exact ⟨_, h⟩
  · intro k s hk
    have hd := stateAfter_depthOK sqrt q0 q1 q2 tMin tMax out k s hk
    have hso : StackOK s :=
      stateAfter_invariant sqrt q0 q1 q2 tMin tMax StackOK
        (fun a b ha hb => loopBody_next_stackOK sqrt q0 q1 q2 tMin tMax a b hb ha)
        k _ s (initState_stackOK q0 q1 q2 tMax out) hk
    have hw := stateAfter_workLeft sqrt q0 q1 q2 tMin tMax k _ s
      (initState_depthOK q0 q1 q2 tMax out) hk
    rw [initState_workLeft] at hw
    have hpos : 1 ≤ workLeft s := le_trans (nodeWork_pos s.cur hd.1) (Nat.le_add_right _ _)
    refine ⟨?_, hd.1, le_trans hso.2 hd.1, hd.2, ?_⟩
    · unfold loopFuel at hw; omega
    · intro s' hb
      rcases loopBody_next_cases sqrt q0 q1 q2 tMin tMax s s' hb with hpop | ⟨_, hlt, hc, hst, _, _⟩
      · exact Or.inr hpop
      · exact Or.inl ⟨hst, lt_of_le_of_lt hso.2 hlt, hc⟩

end Stack

section Frame19
variable {F : Type} [LinearOrderedField F]

/-! ### When the call returns true -/

/-- A leaf whose test accepts sets `closestDepth` to the accepted depth. -/
theorem loopBody_leaf_accept (sqrt : F → F) (q0 q1 q2 : Vec4 F) (tMin tMax : F)
    (s : LoopState F) (h : Hit F) (hcull : cullPass q0 q1 q2 s.cur)
    (hdep : MaxDepth ≤ s.cur.depth)
    (hleaf : leafTest sqrt q0 q1 q2 tMin tMax s.cur = some h) :
    (loopBody sqrt q0 q1 q2 tMin tMax s).state.closestDepth = h.t ∧
    (loopBody sqrt q0 q1 q2 tMin tMax s).state.out = h := by
  unfold loopBody
  simp only
  rw [if_pos hcull, if_pos hdep, hleaf]
  simp only
  have hp := popOrBreak_out { s with out := h, closestDepth := h.t }
  exact ⟨hp.2, hp.1⟩

theorem leafTest_depth_lt (sqrt : F → F) (q0 q1 q2 : Vec4 F) (tMin tMax : F)
    (cur : StackNode F) (h : Hit F) (hl : leafTest sqrt q0 q1 q2 tMin tMax cur = some h) :
    h.t < tMax := by
  obtain ⟨_, segT, distance, _, _, hacc⟩ := leafTest_eq_some sqrt q0 q1 q2 tMin tMax _ _ hl
  exact (acceptHit_eq_some q0 q1 q2 tMin tMax _ _ _ _ hacc).2.2.2.2.2.1

/-- Once `closestDepth` is below `tMax` it stays below. -/
theorem loop_keeps_lt (sqrt : F → F) (q0 q1 q2 : Vec4 F) (tMin tMax : F) (n : Nat)
    (s s' : LoopState F) (hlt : s.closestDepth < tMax)
    (h : loop sqrt q0 q1 q2 tMin tMax n s = some s') : s'.closestDepth < tMax := by
  rcases loop_out sqrt q0 q1 q2 tMin tMax n s s' h with ⟨_, hc⟩ | ⟨k, sl, _, _, _, hleaf, hcd⟩
  · rw [hc]; exact hlt
  · rw [hcd]; exact leafTest_depth_lt sqrt q0 q1 q2 tMin tMax _ _ hleaf

/-- If some pass of the loop is an accepting leaf, the loop ends with
`closestDepth` below `tMax`. -/
theorem loop_accept_lt (sqrt : F → F) (q0 q1 q2 : Vec4 F) (tMin tMax : F) :
    ∀ (k n : Nat) (s sl s' : LoopState F) (h : Hit F),
      loop sqrt q0 q1 q2 tMin tMax n s = some s' →
      stateAfter sqrt q0 q1 q2 tMin tMax k s = some sl →
      cullPass q0 q1 q2 sl.cur → MaxDepth ≤ sl.cur.depth →
      leafTest sqrt q0 q1 q2 tMin tMax sl.cur = some h → s'.closestDepth < tMax := by
  intro k
  induction k with
  | zero =>
    intro n s sl s' h hloop hk hcull hdep hleaf
    simp only [stateAfter, Option.some.injEq] at hk
    subst hk
    have hacc := (loopBody_leaf_accept sqrt q0 q1 q2 tMin tMax s h hcull hdep hleaf).1
    have hlt := leafTest_depth_lt sqrt q0 q1 q2 tMin tMax _ _ hleaf
    cases n with
    | zero => simp [loop] at hloop
    | succ n =>
      rw [loop_succ] at hloop
      cases hb : loopBody sqrt q0 q1 q2 tMin tMax s with
      | next s1 =>
        rw [hb] at hloop hacc
        simp only [Control.state] at hacc
        exact loop_keeps_lt sqrt q0 q1 q2 tMin tMax n s1 s' (hacc ▸ hlt) hloop
      | done s1 =>
        rw [hb] at hloop hacc
        simp only [Control.state] at hacc
        simp only [Option.some.injEq] at hloop
        subst hloop
        rw [hacc]; exact hlt
  | succ k ih =>
    intro n s sl s' h hloop hk hcull hdep hleaf
    rw [stateAfter_succ] at hk
    cases hb : loopBody sqrt q0 q1 q2 tMin tMax s with
    | next s1 =>
      rw [hb] at hk
      cases n with
      | zero => simp [loop] at hloop
      | succ n =>
        rw [loop_succ, hb] at hloop
        exact ih n s1 sl s' h hloop hk hcull hdep hleaf
    | done s1 =>
      rw [hb] at hk
      exact absurd hk (by simp)

/-- C19: `pointOnSpline` returns true exactly when some leaf of depth `MaxDepth`
that the loop processed passed the bound test and all acceptance tests; when it
returns false the output parameters `t`, `uv`, `width` have the values they had
before the call, so a miss in the callback of `Curves::intersect` leaves the
traversal state (far bound, hit record, flag) as it was. -/
theorem pointOnSpline_true_iff (sqrt : F → F) (q0 q1 q2 : Vec4 F) (tMin tMax : F)
    (out : Hit F) :
    (∃ b out', pointOnSpline sqrt q0 q1 q2 tMin tMax out = some (b, out') ∧
      (b = true ↔ ∃ leaf h, AcceptingLeaf sqrt q0 q1 q2 tMin tMax out leaf h) ∧
      (b = false → out' = out)) ∧
    ∀ (nodeData : List (Vec4 F)) (o lx ly lz : Vec3 F) (nearT : F) (st st' : TraceState F)
      (id : Nat),
      visit sqrt nodeData o lx ly lz nearT st id = some (false, st') → st' = st := by
  constructor
  · obtain ⟨b, out', hres, hcase⟩ := pointOnSpline_result sqrt q0 q1 q2 tMin tMax out
    refine ⟨b, out', hres, ?_, ?_⟩
    · constructor
      · intro hb
        subst hb
        obtain ⟨leaf, hl⟩ := pointOnSpline_true sqrt q0 q1 q2 tMin tMax out out' hres
        exact ⟨leaf, out', hl⟩
      · rintro ⟨leaf, h, ⟨k, sl, hk, hcur⟩, hdep, hcull, hleaf⟩
        subst hcur
        unfold pointOnSpline at hres
        cases hloop : loop sqrt q0 q1 q2 tMin tMax loopFuel (initState q0 q1 q2 tMax out) with
        | none => rw [hloop] at hres; exact absurd hres (by simp)
        | some s' =>
          rw [hloop] at hres
          simp only [Option.some.injEq, Prod.mk.injEq] at hres
          rw [← hres.1]
          simpa using loop_accept_lt sqrt q0 q1 q2 tMin tMax k loopFuel _ sl s' h hloop hk
            hcull (le_of_eq hdep.symm) hleaf
    · intro hb
      rcases hcase with ⟨_, ho⟩ | ⟨ht, _⟩
      · exact ho
      · rw [hb] at ht; exact absurd ht (by simp)
  · intro nodeData o lx ly lz nearT st st' id hv
    exact (visit_spec sqrt nodeData o lx ly lz nearT st st' id false hv).1 rfl

end Frame19

section WF
variable {F : Type} [LinearOrderedField F]

/-! ### Sub-intervals and their order -/

theorem initState_loopWF (q0 q1 q2 : Vec4 F) (tMax : F) (out : Hit F) :
    LoopWF q0 q1 q2 (initState q0 q1 q2 tMax out) := by
  refine ⟨⟨le_refl _, zero_lt_one, by simp [initState], by simp [initState], ?_, ?_, ?_, ?_⟩,
    fun f hf => by simp [initState] at hf, trivial⟩
  · simp only [initState, quadraticBSpline4, Vec4.xy, quadraticBSpline_zero]
  · simp only [initState, quadraticBSpline4, Vec4.xy, zero_add, quadraticBSpline_one]
  · simp only [initState, quadraticBSpline4, quadraticBSpline_zero]
  · simp only [initState, quadraticBSpline4, zero_add, quadraticBSpline_one]

theorem leftHalf_wf (q0 q1 q2 : Vec4 F) (cur : StackNode F) (h : NodeWF q0 q1 q2 cur) :
    NodeWF q0 q1 q2 (leftHalf q0 q1 q2 cur) := by
  obtain ⟨h0, hs, h1, hp, hp0, _, hw0, _⟩ := h
  refine ⟨h0, by simp only [leftHalf]; linarith, by simp only [leftHalf]; linarith, ?_, hp0, rfl,
    hw0, rfl⟩
  simp only [leftHalf, hp, pow_succ]

theorem rightHalf_wf (q0 q1 q2 : Vec4 F) (cur : StackNode F) (h : NodeWF q0 q1 q2 cur) :
    NodeWF q0 q1 q2 (rightHalf q0 q1 q2 cur) := by
  obtain ⟨h0, hs, h1, hp, _, hp1, _, hw1⟩ := h
  have e : cur.tMin + cur.tSpan * (1 / 2) + cur.tSpan * (1 / 2) = cur.tMin + cur.tSpan := by ring
  refine ⟨by simp only [rightHalf]; linarith, by simp only [rightHalf]; linarith,
    by simp only [rightHalf]; linarith, ?_, rfl, ?_, rfl, ?_⟩
  · simp only [rightHalf, hp, pow_succ]
  · simp only [rightHalf, e]; exact hp1
  · simp only [rightHalf, e]; exact hw1

theorem loopBody_next_loopWF (sqrt : F → F) (q0 q1 q2 : Vec4 F) (tMin tMax : F)
    (s s' : LoopState F) (h : loopBody sqrt q0 q1 q2 tMin tMax s = Control.next s')
    (hs : LoopWF q0 q1 q2 s) : LoopWF q0 q1 q2 s' := by
  obtain ⟨hcur, hst, hch⟩ := hs
  rcases loopBody_next_cases sqrt q0 q1 q2 tMin tMax s s' h with hpop | ⟨_, _, hc, hstk, _, _⟩
  · rw [hpop] at hst hch
    exact ⟨hst _ (List.mem_cons_self _ _), fun f hf => hst f (List.mem_cons_of_mem _ hf), hch.2⟩
  · refine ⟨hc ▸ rightHalf_wf q0 q1 q2 s.cur hcur, ?_, ?_⟩
    · intro f hf
      rw [hstk, List.mem_cons] at hf
      rcases hf with rfl | hf
      · exact leftHalf_wf q0 q1 q2 s.cur hcur
      · exact hst f hf
    · rw [hstk, hc]
      exact ⟨rfl, hch⟩

/-- Every state the loop reaches from the initial state is well formed. -/
theorem stateAfter_loopWF (sqrt : F → F) (q0 q1 q2 : Vec4 F) (tMin tMax : F) (out : Hit F)
    (k : Nat) (sl : LoopState F)
    (h : stateAfter sqrt q0 q1 q2 tMin tMax k (initState q0 q1 q2 tMax out) = some sl) :
    LoopWF q0 q1 q2 sl :=
  stateAfter_invariant sqrt q0 q1 q2 tMin tMax (LoopWF q0 q1 q2)
    (fun a b ha hb => loopBody_next_loopWF sqrt q0 q1 q2 tMin tMax a b hb ha)
    k _ sl (initState_loopWF q0 q1 q2 tMax out) h

theorem stateAfter_add (sqrt : F → F) (q0 q1 q2 : Vec4 F) (tMin tMax : F) :
    ∀ (k m : Nat) (s s' : LoopState F),
      stateAfter sqrt q0 q1 q2 tMin tMax (k + m) s = some s' →
      ∃ sk, stateAfter sqrt q0 q1 q2 tMin tMax k s = some sk ∧
        stateAfter sqrt q0 q1 q2 tMin tMax m sk = some s' := by
  intro k
  induction k with
  | zero =>
    intro m s s' h
    rw [Nat.zero_add] at h
    exact ⟨s, rfl, h⟩
  | succ k ih =>
    intro m s s' h
    rw [Nat.succ_add, stateAfter_succ] at h
    rw [stateAfter_succ]
    cases hb : loopBody sqrt q0 q1 q2 tMin tMax s with
    | next s1 =>
      rw [hb] at h
      exact ih m s1 s' h
    | done s1 =>
      rw [hb] at h
      exact absurd h (by simp)

/-- The right end of the current node never moves to the right. -/
theorem stateAfter_end_le (sqrt : F → F) (q0 q1 q2 : Vec4 F) (tMin tMax : F) :
    ∀ (j : Nat) (s s' : LoopState F), LoopWF q0 q1 q2 s →
      stateAfter sqrt q0 q1 q2 tMin tMax j s = some s' →
      s'.cur.tMin + s'.cur.tSpan ≤ s.cur.tMin + s.cur.tSpan := by
  intro j
  induction j with
  | zero =>
    intro s s' _ h
    simp only [stateAfter, Option.some.injEq] at h
    subst h; exact le_refl _
  | succ j ih =>
    intro s s' hs h
    rw [stateAfter_succ] at h
    cases hb : loopBody sqrt q0 q1 q2 tMin tMax s with
    | next s1 =>
      rw [hb] at h
      have hwf := loopBody_next_loopWF sqrt q0 q1 q2 tMin tMax s s1 hb hs
      refine le_trans (ih s1 s' hwf h) ?_
      rcases loopBody_next_cases sqrt q0 q1 q2 tMin tMax s s1 hb with hpop | ⟨_, _, hc, _, _, _⟩
      · have hch := hs.2.2
        rw [hpop] at hch
        have := hs.1.2.1
        linarith [hch.1]
      · rw [hc]
        simp only [rightHalf]
        linarith
    | done s1 =>
      rw [hb] at h
      exact absurd h (by simp)

/-- After a leaf, every later node lies to the left of that leaf. -/
theorem stateAfter_after_leaf (sqrt : F → F) (q0 q1 q2 : Vec4 F) (tMin tMax : F)
    (j : Nat) (s s' : LoopState F) (hs : LoopWF q0 q1 q2 s) (hleaf : MaxDepth ≤ s.cur.depth)
    (h : stateAfter sqrt q0 q1 q2 tMin tMax (j + 1) s = some s') :
    s'.cur.tMin + s'.cur.tSpan ≤ s.cur.tMin := by
  rw [Nat.add_comm] at h
  obtain ⟨s1, h1, hj⟩ := stateAfter_add sqrt q0 q1 q2 tMin tMax 1 j s s' h
  rw [stateAfter_succ] at h1
  cases hb : loopBody sqrt q0 q1 q2 tMin tMax s with
  | next s2 =>
    rw [hb] at h1
    simp only [stateAfter, Option.some.injEq] at h1
    subst h1
    have hwf := loopBody_next_loopWF sqrt q0 q1 q2 tMin tMax s s2 hb hs
    refine le_trans (stateAfter_end_le sqrt q0 q1 q2 tMin tMax j s2 s' hwf hj) ?_
    rcases loopBody_next_cases sqrt q0 q1 q2 tMin tMax s s2 hb with hpop | ⟨_, hlt, _, _, _, _⟩
    · have hch := hs.2.2
      rw [hpop] at hch
      exact le_of_eq hch.1
    · exact absurd hleaf (not_le.mpr hlt)
  | done s2 =>
    rw [hb] at h1
    exact absurd h1 (by simp)

end WF

section Bend
variable {F : Type} [LinearOrderedField F]

/-! ### The curve parameter of a hit -/

/-- The loop run from the start is the loop run from any state it reaches. -/
theorem loop_of_stateAfter (sqrt : F → F) (q0 q1 q2 : Vec4 F) (tMin tMax : F) :
    ∀ (k n : Nat) (s sk : LoopState F),
      stateAfter sqrt q0 q1 q2 tMin tMax k s = some sk →
      loop sqrt q0 q1 q2 tMin tMax (k + n) s = loop sqrt q0 q1 q2 tMin tMax n sk := by
  intro k
  induction k with
  | zero =>
    intro n s sk h
    simp only [stateAfter, Option.some.injEq] at h
    subst h
    rw [Nat.zero_add]
  | succ k ih =>
    intro n s sk h
    rw [stateAfter_succ] at h
    rw [Nat.succ_add, loop_succ]
    cases hb : loopBody sqrt q0 q1 q2 tMin tMax s with
    | next s1 =>
      rw [hb] at h
      exact ih n s1 sk h
    | done s1 =>
      rw [hb] at h
      exact absurd h (by simp)

set_option maxHeartbeats 4000000 in
set_option maxRecDepth 100000 in
/-- Pass 20 on the bent segment processes the leaf `[15/32, 1/2]`. -/
theorem bend_state20 (sqrt : F → F) (h1 : sqrt 1 = 1) :
    stateAfter sqrt bendQ0 bendQ1 bendQ2 0 100 20 (initState bendQ0 bendQ1 bendQ2 100 hit0)
      = some bendState20 := by
  simp only [initState, bendQ0, bendQ1, bendQ2, hit0]
  norm_num
  iterate 20
    (rw [stateAfter_succ]
     norm_num [loopBody, cullPass, cullAxis,
          fdiv, quadraticBSpline, quadraticBSpline4, MaxDepth, popOrBreak, leafTest, trimPass,
          segmentT, chordDir, chordDistance, acceptHit, signedUnnormalized, Vec2.dot,
          Vec2.lengthSq, Vec2.length, Vec4.xy, h1])
  simp only [stateAfter, bendState20, bendLeaf]
  norm_num

set_option maxHeartbeats 4000000 in
set_option maxRecDepth 100000 in
/-- The rest of the loop on the bent segment, from pass 20 on. -/
theorem bend_loop_from20 (sqrt : F → F) (h1 : sqrt 1 = 1) :
    ∃ s', loop sqrt bendQ0 bendQ1 bendQ2 0 100 43 bendState20 = some s' ∧
      s'.closestDepth = 723/65 ∧ s'.out = ⟨723/65, ⟨81/130, 1/18⟩, 9/8⟩ := by
  simp only [bendState20, bendLeaf, bendQ0, bendQ1, bendQ2]
  iterate 11
    (rw [loop_succ]
     norm_num [loopBody, cullPass, cullAxis,
          fdiv, quadraticBSpline, quadraticBSpline4, MaxDepth, popOrBreak, leafTest, trimPass,
          segmentT, chordDir, chordDistance, acceptHit, signedUnnormalized, Vec2.dot,
          Vec2.lengthSq, Vec2.length, Vec4.xy, h1])

/-- The call on the bent segment. -/
theorem bend_pointOnSpline (sqrt : F → F) (h1 : sqrt 1 = 1) :
    pointOnSpline sqrt bendQ0 bendQ1 bendQ2 0 100 hit0
      = some (true, ⟨723/65, ⟨81/130, 1/18⟩, 9/8⟩) := by
  obtain ⟨s', hl, hcd, hout⟩ := bend_loop_from20 sqrt h1
  have h := loop_of_stateAfter sqrt bendQ0 bendQ1 bendQ2 0 100 20 43 _ _ (bend_state20 sqrt h1)
  have h63 : loop sqrt bendQ0 bendQ1 bendQ2 0 100 63 (initState bendQ0 bendQ1 bendQ2 100 hit0)
      = some s' := h.trans hl
  unfold pointOnSpline loopFuel
  rw [h63]
  simp only [hcd, hout]
  norm_num

/-- The leaf `[15/32, 1/2]` of the bent segment accepts, with the fraction
`321/65` along its chord. -/
theorem bend_leaf_accepts (sqrt : F → F) (h1 : sqrt 1 = 1) :
    cullPass bendQ0 bendQ1 bendQ2 (bendLeaf : StackNode F) ∧
    segmentT (bendLeaf : StackNode F) = some (321/65) ∧
    leafTest sqrt bendQ0 bendQ1 bendQ2 0 100 bendLeaf
      = some ⟨723/65, ⟨81/130, 1/18⟩, 9/8⟩ := by
  refine ⟨?_, ?_, ?_⟩
  · norm_num [cullPass, cullAxis, fdiv, quadraticBSpline, bendQ0, bendQ1, bendQ2, bendLeaf]
  · norm_num [segmentT, chordDir, Vec2.dot, Vec2.lengthSq, fdiv, bendLeaf]
  · norm_num [leafTest, trimPass, segmentT, chordDir, chordDistance, acceptHit,
      signedUnnormalized, Vec2.dot, Vec2.lengthSq, Vec2.length, fdiv, quadraticBSpline,
      bendQ0, bendQ1, bendQ2, bendLeaf, h1]

end Bend

section Param
variable {F : Type} [LinearOrderedField F]

/-- C14 as the code has it: the closest-approach fraction `segmentT` is not
clamped before line 116; for every hit that `pointOnSpline` reports, `uv.x` is
`segmentT * tSpan + tMin` of the accepting leaf, a sub-interval
`[tMin, tMin + tSpan]` of `[0,1]` with `tSpan = 1/32`, it lies in `[0,1]`, the
reported depth and width are the depth and radius splines at `uv.x`, and
`uv.x` lies inside the sub-interval of the leaf whenever the fraction lies in
`[0,1]`. -/
theorem pointOnSpline_parameter (sqrt : F → F) (q0 q1 q2 : Vec4 F) (tMin tMax : F)
    (out out' : Hit F)
    (h : pointOnSpline sqrt q0 q1 q2 tMin tMax out = some (true, out')) :
    ∃ leaf segT, AcceptingLeaf sqrt q0 q1 q2 tMin tMax out leaf out' ∧
      segmentT leaf = some segT ∧
      0 ≤ leaf.tMin ∧ leaf.tMin + leaf.tSpan ≤ 1 ∧ leaf.tSpan = 1 / 32 ∧
      out'.uv.x = segT * leaf.tSpan + leaf.tMin ∧
      0 ≤ out'.uv.x ∧ out'.uv.x ≤ 1 ∧
      out'.t = quadraticBSpline q0.z q1.z q2.z out'.uv.x ∧
      out'.width = quadraticBSpline q0.w q1.w q2.w out'.uv.x ∧
      (0 ≤ segT → segT ≤ 1 →
        leaf.tMin ≤ out'.uv.x ∧ out'.uv.x ≤ leaf.tMin + leaf.tSpan) := by
  obtain ⟨leaf, hacc⟩ := pointOnSpline_true sqrt q0 q1 q2 tMin tMax out out' h
  obtain ⟨⟨k, sl, hk, hcur⟩, hdep, _, hleaf⟩ := hacc
  obtain ⟨_, segT, distance, hseg, _, ha⟩ := leafTest_eq_some sqrt q0 q1 q2 tMin tMax _ _ hleaf
  obtain ⟨hx, ht, hw, _, _, _, _, hx0, hx1⟩ := acceptHit_eq_some q0 q1 q2 tMin tMax _ _ _ _ ha
  have hwf := (stateAfter_loopWF sqrt q0 q1 q2 tMin tMax out k sl hk).1
  rw [hcur] at hwf
  obtain ⟨h0, hs, h1, hp, _⟩ := hwf
  have hspan : leaf.tSpan = 1 / 32 := by
    rw [hp, hdep]; norm_num [MaxDepth]
  refine ⟨leaf, segT, ⟨⟨k, sl, hk, hcur⟩, hdep, by assumption, hleaf⟩, hseg, h0, h1, hspan, hx,
    hx0, hx1, ht, hw, ?_⟩
  intro hs0 hs1
  rw [hx]
  constructor
  · nlinarith [mul_nonneg hs0 hs.le]
  · nlinarith [mul_le_mul_of_nonneg_right hs1 hs.le]

end Param

/-- C14 at the segment that crosses the ray twice. -/
theorem pointOnSpline_parameter_witness :
    pointOnSpline Real.sqrt twiceQ0 twiceQ1 twiceQ2 0 100 hit0
        = some (true, ⟨17/2, ⟨1/4, 1/2⟩, 1/8⟩) ∧
    ∃ leaf segT,
      AcceptingLeaf Real.sqrt twiceQ0 twiceQ1 twiceQ2 0 100 hit0 leaf
        ⟨17/2, ⟨1/4, 1/2⟩, 1/8⟩ ∧
      segmentT leaf = some segT ∧
      0 ≤ leaf.tMin ∧ leaf.tMin + leaf.tSpan ≤ 1 ∧ leaf.tSpan = 1 / 32 ∧
      (1/4 : ℝ) = segT * leaf.tSpan + leaf.tMin ∧
      (0 : ℝ) ≤ 1/4 ∧ (1/4 : ℝ) ≤ 1 ∧
      (17/2 : ℝ) = quadraticBSpline (twiceQ0 : Vec4 ℝ).z twiceQ1.z twiceQ2.z (1/4) ∧
      (1/8 : ℝ) = quadraticBSpline (twiceQ0 : Vec4 ℝ).w twiceQ1.w twiceQ2.w (1/4) ∧
      (0 ≤ segT → segT ≤ 1 → leaf.tMin ≤ 1/4 ∧ 1/4 ≤ leaf.tMin + leaf.tSpan) :=
  ⟨twice_pointOnSpline Real.sqrt Real.sqrt_zero,
    pointOnSpline_parameter Real.sqrt twiceQ0 twiceQ1 twiceQ2 0 100 hit0
      ⟨17/2, ⟨1/4, 1/2⟩, 1/8⟩ (twice_pointOnSpline Real.sqrt Real.sqrt_zero)⟩

/-- C14 as stated fails: on the bent segment the call reports the hit of the
leaf `[15/32, 1/2]`, whose fraction along the chord is `321/65`, unclamped, so
that the reported curve parameter `81/130` lies to the right of the leaf; the
reported depth is the depth spline at `81/130`. -/
theorem pointOnSpline_parameter_outside_leaf :
    pointOnSpline Real.sqrt bendQ0 bendQ1 bendQ2 0 100 hit0
        = some (true, ⟨723/65, ⟨81/130, 1/18⟩, 9/8⟩) ∧
    AcceptingLeaf Real.sqrt bendQ0 bendQ1 bendQ2 0 100 hit0 bendLeaf
        ⟨723/65, ⟨81/130, 1/18⟩, 9/8⟩ ∧
    segmentT (bendLeaf : StackNode ℝ) = some (321/65) ∧
    (bendLeaf : StackNode ℝ).tMin = 15/32 ∧ (bendLeaf : StackNode ℝ).tSpan = 1/32 ∧
    (bendLeaf : StackNode ℝ).tMin + (bendLeaf : StackNode ℝ).tSpan < 81/130 ∧
    (723/65 : ℝ) = quadraticBSpline (bendQ0 : Vec4 ℝ).z bendQ1.z bendQ2.z (81/130) := by
  refine ⟨bend_pointOnSpline Real.sqrt Real.sqrt_one,
    ⟨⟨20, bendState20, bend_state20 Real.sqrt Real.sqrt_one, rfl⟩, rfl,
      (bend_leaf_accepts Real.sqrt Real.sqrt_one).1,
      (bend_leaf_accepts Real.sqrt Real.sqrt_one).2.2⟩,
    (bend_leaf_accepts Real.sqrt Real.sqrt_one).2.1, rfl, rfl, ?_, ?_⟩
  · norm_num [bendLeaf]
  · norm_num [quadraticBSpline, bendQ0, bendQ1, bendQ2]

section Split
variable {F : Type} [LinearOrderedField F]

/-- A node that passes the bound test above `MaxDepth` is split: the loop goes on
with the right half and the left half is pushed. -/
theorem loopBody_split (sqrt : F → F) (q0 q1 q2 : Vec4 F) (tMin tMax : F) (s : LoopState F)
    (hcull : cullPass q0 q1 q2 s.cur) (hdep : s.cur.depth < MaxDepth) :
    loopBody sqrt q0 q1 q2 tMin tMax s =
      Control.next { s with cur := rightHalf q0 q1 q2 s.cur,
                            stack := leftHalf q0 q1 q2 s.cur :: s.stack } := by
  unfold loopBody
  simp only
  rw [if_pos hcull, if_neg (not_le.mpr hdep)]
  rfl

/-- C16 as the code has it: a node whose bound overlaps and whose depth is below
`MaxDepth` is split at its midpoint `tMin + tSpan/2` with the exact spline
value there; the left half `[tMin, mid]` is pushed on the stack and the loop
continues at once on the right half `[mid, tMin + tSpan]`; hence the leaves of
one call are tested in order of decreasing curve parameter: every node that is
processed after a leaf ends at or before the start of that leaf. -/
theorem split_pushes_left_continues_right (sqrt : F → F) (q0 q1 q2 : Vec4 F) (tMin tMax : F)
    (out : Hit F) :
    (∀ s : LoopState F, cullPass q0 q1 q2 s.cur → s.cur.depth < MaxDepth →
      ∃ s', loopBody sqrt q0 q1 q2 tMin tMax s = Control.next s' ∧
        s'.out = s.out ∧ s'.closestDepth = s.closestDepth ∧
        s'.stack.tail = s.stack ∧
        (∃ left, s'.stack.head? = some left ∧
          left.tMin = s.cur.tMin ∧ left.tSpan = s.cur.tSpan * (1/2) ∧
          left.depth = s.cur.depth + 1 ∧ left.p0 = s.cur.p0 ∧ left.w0 = s.cur.w0 ∧
          left.p1 = (quadraticBSpline4 q0 q1 q2 (s.cur.tMin + s.cur.tSpan * (1/2))).xy ∧
          left.w1 = (quadraticBSpline4 q0 q1 q2 (s.cur.tMin + s.cur.tSpan * (1/2))).w) ∧
        s'.cur.tMin = s.cur.tMin + s.cur.tSpan * (1/2) ∧
        s'.cur.tSpan = s.cur.tSpan * (1/2) ∧ s'.cur.depth = s.cur.depth + 1 ∧
        s'.cur.p0 = (quadraticBSpline4 q0 q1 q2 (s.cur.tMin + s.cur.tSpan * (1/2))).xy ∧
        s'.cur.w0 = (quadraticBSpline4 q0 q1 q2 (s.cur.tMin + s.cur.tSpan * (1/2))).w ∧
        s'.cur.p1 = s.cur.p1 ∧ s'.cur.w1 = s.cur.w1) ∧
    (∀ (k j : Nat) (s s' : LoopState F),
      stateAfter sqrt q0 q1 q2 tMin tMax k (initState q0 q1 q2 tMax out) = some s →
      s.cur.depth = MaxDepth →
      stateAfter sqrt q0 q1 q2 tMin tMax (k + (j + 1)) (initState q0 q1 q2 tMax out) = some s' →
      s'.cur.tMin + s'.cur.tSpan ≤ s.cur.tMin) := by
  constructor
  · intro s hcull hdep
    exact ⟨_, loopBody_split sqrt q0 q1 q2 tMin tMax s hcull hdep, rfl, rfl, rfl,
      ⟨leftHalf q0 q1 q2 s.cur, rfl, rfl, rfl, rfl, rfl, rfl, rfl, rfl⟩,
      rfl, rfl, rfl, rfl, rfl, rfl, rfl⟩
  · intro k j s s' hk hdep hkj
    obtain ⟨sk, hsk, hj⟩ := stateAfter_add sqrt q0 q1 q2 tMin tMax k (j + 1) _ s' hkj
    rw [hk, Option.some.injEq] at hsk
    subst hsk
    exact stateAfter_after_leaf sqrt q0 q1 q2 tMin tMax j s s'
      (stateAfter_loopWF sqrt q0 q1 q2 tMin tMax out k s hk) (le_of_eq hdep.symm) hj

end Split

/-- C16 as stated fails: on the segment that crosses the ray twice, the pass
after the split of the root `[0, 1]` works on the right half `[1/2, 1]`, and
the stack holds the left half `[0, 1/2]`. -/
theorem split_continues_on_right_half :
    ∃ s1 : LoopState ℝ,
      stateAfter Real.sqrt twiceQ0 twiceQ1 twiceQ2 0 100 1
        (initState twiceQ0 twiceQ1 twiceQ2 100 hit0) = some s1 ∧
      s1.cur.tMin = 1/2 ∧ s1.cur.tSpan = 1/2 ∧
      s1.stack.map (fun f => (f.tMin, f.tSpan)) = [(0, 1/2)] := by
  have hcull : cullPass (twiceQ0 : Vec4 ℝ) twiceQ1 twiceQ2
      (initState (twiceQ0 : Vec4 ℝ) twiceQ1 twiceQ2 100 hit0).cur := by
    norm_num [cullPass, cullAxis, fdiv, quadraticBSpline, twiceQ0, twiceQ1, twiceQ2, initState]
  have hdep : (initState (twiceQ0 : Vec4 ℝ) twiceQ1 twiceQ2 100 hit0).cur.depth < MaxDepth := by
    norm_num [initState, MaxDepth]
  refine ⟨{ (initState (twiceQ0 : Vec4 ℝ) twiceQ1 twiceQ2 100 hit0) with
      cur := rightHalf twiceQ0 twiceQ1 twiceQ2 (initState twiceQ0 twiceQ1 twiceQ2 100 hit0).cur,
      stack := leftHalf twiceQ0 twiceQ1 twiceQ2 (initState twiceQ0 twiceQ1 twiceQ2 100 hit0).cur
        :: (initState twiceQ0 twiceQ1 twiceQ2 100 hit0).stack }, ?_, ?_, ?_, ?_⟩
  · rw [stateAfter_succ, loopBody_split Real.sqrt _ _ _ 0 100 _ hcull hdep]
    rfl
  · norm_num [rightHalf, initState]
  · norm_num [rightHalf, initState]
  · norm_num [leftHalf, initState]

/-- C16 as the code has it, on the segment that crosses the ray twice: the leaf
`[3/4, 25/32]` is processed in pass 8, and every later node ends at or before
`3/4`. -/
theorem split_pushes_left_continues_right_witness :
    (∃ sl : LoopState ℝ,
      stateAfter Real.sqrt twiceQ0 twiceQ1 twiceQ2 0 100 8
        (initState twiceQ0 twiceQ1 twiceQ2 100 hit0) = some sl ∧ sl.cur = twiceLeaf) ∧
    ∀ (j : Nat) (s' : LoopState ℝ),
      stateAfter Real.sqrt twiceQ0 twiceQ1 twiceQ2 0 100 (8 + (j + 1))
        (initState twiceQ0 twiceQ1 twiceQ2 100 hit0) = some s' →
      s'.cur.tMin + s'.cur.tSpan ≤ 3/4 := by
  refine ⟨twice_leaf_reached Real.sqrt Real.sqrt_zero, ?_⟩
  intro j s' h
  obtain ⟨sl, hk, hc⟩ := twice_leaf_reached Real.sqrt Real.sqrt_zero
  have := (split_pushes_left_continues_right Real.sqrt twiceQ0 twiceQ1 twiceQ2 0 100 hit0).2
    8 j sl s' hk (by rw [hc]; rfl) h
  rw [hc] at this
  exact this

section Degenerate
variable {F : Type} [LinearOrderedField F]

/-! ### The flat point and the culling bound -/

/-- C13 fails on the code: the segment whose radius bulges has non-negative
control radii; its sub-interval `[0,1]`, processed in the first pass, fails the
culling test (`pMin.x = 5/8` exceeds `testWidth = 1/2`), so the call returns
false with the output parameters untouched; yet at `u = 1/2` the projected
spline point `(5/8, 0)` lies at distance `5/8` from the origin, less than the
spline radius `3/4` there. -/
theorem cull_discards_interval_with_intersection :
    (0 ≤ (bulgeQ0 : Vec4 ℝ).w ∧ 0 ≤ (bulgeQ1 : Vec4 ℝ).w ∧ 0 ≤ (bulgeQ2 : Vec4 ℝ).w) ∧
    (initState (bulgeQ0 : Vec4 ℝ) bulgeQ1 bulgeQ2 100 hit0).cur.tMin = 0 ∧
    (initState (bulgeQ0 : Vec4 ℝ) bulgeQ1 bulgeQ2 100 hit0).cur.tSpan = 1 ∧
    ¬ cullPass (bulgeQ0 : Vec4 ℝ) bulgeQ1 bulgeQ2
        (initState (bulgeQ0 : Vec4 ℝ) bulgeQ1 bulgeQ2 100 hit0).cur ∧
    pointOnSpline Real.sqrt bulgeQ0 bulgeQ1 bulgeQ2 0 100 hit0 = some (false, hit0) ∧
    (quadraticBSpline4 (bulgeQ0 : Vec4 ℝ) bulgeQ1 bulgeQ2 (1/2)).xy = ⟨5/8, 0⟩ ∧
    (quadraticBSpline4 (bulgeQ0 : Vec4 ℝ) bulgeQ1 bulgeQ2 (1/2)).w = 3/4 ∧
    (quadraticBSpline4 (bulgeQ0 : Vec4 ℝ) bulgeQ1 bulgeQ2 (1/2)).xy.lengthSq
      < (quadraticBSpline4 (bulgeQ0 : Vec4 ℝ) bulgeQ1 bulgeQ2 (1/2)).w ^ 2 ∧
    Real.sqrt (quadraticBSpline4 (bulgeQ0 : Vec4 ℝ) bulgeQ1 bulgeQ2 (1/2)).xy.lengthSq
      < (quadraticBSpline4 (bulgeQ0 : Vec4 ℝ) bulgeQ1 bulgeQ2 (1/2)).w := by
  have hc : ¬ cullPass (bulgeQ0 : Vec4 ℝ) bulgeQ1 bulgeQ2
      (initState (bulgeQ0 : Vec4 ℝ) bulgeQ1 bulgeQ2 100 hit0).cur := by
    norm_num [cullPass, cullAxis, fdiv, quadraticBSpline, bulgeQ0, bulgeQ1, bulgeQ2, initState]
  have hxy : (quadraticBSpline4 (bulgeQ0 : Vec4 ℝ) bulgeQ1 bulgeQ2 (1/2)).xy = ⟨5/8, 0⟩ := by
    norm_num [quadraticBSpline4, quadraticBSpline, Vec4.xy, bulgeQ0, bulgeQ1, bulgeQ2]
  have hw : (quadraticBSpline4 (bulgeQ0 : Vec4 ℝ) bulgeQ1 bulgeQ2 (1/2)).w = 3/4 := by
    norm_num [quadraticBSpline4, quadraticBSpline, bulgeQ0, bulgeQ1, bulgeQ2]
  refine ⟨⟨by norm_num [bulgeQ0], by norm_num [bulgeQ1], by norm_num [bulgeQ2]⟩, rfl, rfl, hc,
    pointOnSpline_root_culled Real.sqrt _ _ _ 0 100 hit0 hc, hxy, hw, ?_, ?_⟩
  · rw [hxy, hw]; norm_num [Vec2.lengthSq]
  · rw [hxy, hw]
    have : Vec2.lengthSq (⟨5/8, 0⟩ : Vec2 ℝ) = (5/8) ^ 2 := by norm_num [Vec2.lengthSq]
    rw [this, Real.sqrt_sq (by norm_num)]
    norm_num

end Degenerate

section Project
variable {F : Type} [LinearOrderedField F]

/-! ### Projection into the ray frame -/

end Project

section Bounds
variable {F : Type} [LinearOrderedField F]

/-! ## Segments and bounds -/

theorem Box3.containsBox_refl (a : Box3 F) : a.containsBox a :=
  ⟨⟨le_refl _, le_refl _, le_refl _⟩, ⟨le_refl _, le_refl _, le_refl _⟩⟩

theorem Box3.containsBox_trans (a b c : Box3 F) (hab : a.containsBox b)
    (hbc : b.containsBox c) : a.containsBox c :=
  ⟨⟨le_trans hab.1.1 hbc.1.1, le_trans hab.1.2.1 hbc.1.2.1, le_trans hab.1.2.2 hbc.1.2.2⟩,
    ⟨le_trans hbc.2.1 hab.2.1, le_trans hbc.2.2.1 hab.2.2.1, le_trans hbc.2.2.2 hab.2.2.2⟩⟩

/-- Growing by `b` gives a box that covers `b`. -/
theorem Box3.grow_covers_new (acc : Option (Box3 F)) (b : Box3 F) :
    ∃ c, Box3.grow acc b = some c ∧ c.containsBox b := by
  cases acc with
  | none => exact ⟨b, rfl, Box3.containsBox_refl b⟩
  | some a =>
    exact ⟨_, rfl, ⟨⟨min_le_right _ _, min_le_right _ _, min_le_right _ _⟩,
      ⟨le_max_right _ _, le_max_right _ _, le_max_right _ _⟩⟩⟩

/-- Growing keeps what was covered. -/
theorem Box3.grow_covers_old (a b x : Box3 F) (h : a.containsBox x) :
    ∃ c, Box3.grow (some a) b = some c ∧ c.containsBox x :=
  ⟨_, rfl, ⟨⟨le_trans (min_le_left _ _) h.1.1, le_trans (min_le_left _ _) h.1.2.1,
      le_trans (min_le_left _ _) h.1.2.2⟩,
    ⟨le_trans h.2.1 (le_max_left _ _), le_trans h.2.2.1 (le_max_left _ _),
      le_trans h.2.2.2 (le_max_left _ _)⟩⟩⟩

theorem foldl_grow_keeps {α : Type} (f : α → Box3 F) :
    ∀ (l : List α) (a x : Box3 F), a.containsBox x →
      ∃ c, l.foldl (fun acc i => Box3.grow acc (f i)) (some a) = some c ∧ c.containsBox x := by
  intro l
  induction l with
  | nil => intro a x h; exact ⟨a, rfl, h⟩
  | cons i rest ih =>
    intro a x h
    obtain ⟨c, hc, hcx⟩ := Box3.grow_covers_old a (f i) x h
    simp only [List.foldl_cons, hc]
    exact ih c x hcx

/-- A fold of `grow` covers the box of every element of the list. -/
theorem foldl_grow_covers {α : Type} (f : α → Box3 F) :
    ∀ (l : List α) (acc : Option (Box3 F)) (i : α), i ∈ l →
      ∃ c, l.foldl (fun acc i => Box3.grow acc (f i)) acc = some c ∧ c.containsBox (f i) := by
  intro l
  induction l with
  | nil => intro acc i hi; simp at hi
  | cons j rest ih =>
    intro acc i hi
    simp only [List.foldl_cons]
    rcases List.mem_cons.mp hi with rfl | hi
    · obtain ⟨c, hc, hcx⟩ := Box3.grow_covers_new acc (f i)
      rw [hc]
      exact foldl_grow_keeps f rest c (f i) hcx
    · exact ih _ i hi

/-- The bounds cover the box of every triple `t` with `2 ≤ t < size`. -/
theorem computeBounds_covers_triple (nodeData : List (Vec4 F)) (t : Nat) (h2 : 2 ≤ t)
    (hlt : t < nodeData.length) :
    ∃ b, computeBounds nodeData = some b ∧ b.containsBox (segmentBox nodeData t) := by
  unfold computeBounds
  apply foldl_grow_covers (segmentBox nodeData)
  rw [List.mem_range'_1]
  omega

/-- C11: after `computeBounds`, for every curve `i` whose boundary lies within
`_nodeData` and every segment `t` of it (`start + 2 ≤ t < end`), the overall
bounds are a box that covers `curveBox(nodes[t-2], nodes[t-1], nodes[t])`. -/
theorem computeBounds_covers_segments (nodeData : List (Vec4 F)) (curveEnds : List Nat)
    (i t : Nat) (hend : curveEnds.getD i 0 ≤ nodeData.length)
    (h1 : curveStart curveEnds i + 2 ≤ t) (h2 : t < curveEnds.getD i 0) :
    ∃ b, computeBounds nodeData = some b ∧
      b.containsBox (curveBox (nodeAt nodeData (t - 2)) (nodeAt nodeData (t - 1))
        (nodeAt nodeData t)) :=
  computeBounds_covers_triple nodeData t (by omega) (by omega)


/-- C11 at the two curves of three nodes each, for the segment `5` of the
second curve. -/
theorem computeBounds_covers_segments_witness :
    ((twoCurvesEnds.getD 1 0 ≤ (twoCurvesNodes : List (Vec4 ℚ)).length ∧
      curveStart twoCurvesEnds 1 + 2 ≤ 5) ∧ 5 < twoCurvesEnds.getD 1 0) ∧
    ∃ b, computeBounds (twoCurvesNodes : List (Vec4 ℚ)) = some b ∧
      b.containsBox (curveBox (nodeAt twoCurvesNodes (5 - 2)) (nodeAt twoCurvesNodes (5 - 1))
        (nodeAt twoCurvesNodes 5)) :=
  ⟨by decide,
    computeBounds_covers_segments twoCurvesNodes twoCurvesEnds 1 5 (by decide) (by decide)
      (by decide)⟩

theorem minMaxQuadratic_004 : minMaxQuadratic (0 : F) 0 4 = (0, 2) := by
  norm_num [minMaxQuadratic, fdiv, quadraticBSpline]

theorem minMaxQuadratic_044 : minMaxQuadratic (0 : F) 4 4 = (2, 4) := by
  norm_num [minMaxQuadratic, fdiv, quadraticBSpline]

theorem minMaxQuadratic_440 : minMaxQuadratic (4 : F) 4 0 = (2, 4) := by
  norm_num [minMaxQuadratic, fdiv, quadraticBSpline]

theorem minMaxQuadratic_400 : minMaxQuadratic (4 : F) 0 0 = (0, 2) := by
  norm_num [minMaxQuadratic, fdiv, quadraticBSpline]

theorem minMaxQuadratic_000 : minMaxQuadratic (0 : F) 0 0 = (0, 0) := by
  norm_num [minMaxQuadratic, fdiv, quadraticBSpline]

/-- The boxes of the four consecutive triples of the two curves. -/
theorem twoCurves_segmentBox :
    segmentBox (twoCurvesNodes : List (Vec4 F)) 2 = ⟨⟨-1, -1, -1⟩, ⟨3, 1, 1⟩⟩ ∧
    segmentBox (twoCurvesNodes : List (Vec4 F)) 3 = ⟨⟨1, -1, -1⟩, ⟨5, 1, 1⟩⟩ ∧
    segmentBox (twoCurvesNodes : List (Vec4 F)) 4 = ⟨⟨1, -1, -1⟩, ⟨5, 1, 1⟩⟩ ∧
    segmentBox (twoCurvesNodes : List (Vec4 F)) 5 = ⟨⟨-1, -1, -1⟩, ⟨3, 1, 1⟩⟩ := by
  refine ⟨?_, ?_, ?_, ?_⟩ <;>
  · simp only [segmentBox, nodeAt, twoCurvesNodes, curveBox, List.getD_cons_zero,
      List.getD_cons_succ, minMaxQuadratic_004, minMaxQuadratic_044, minMaxQuadratic_440,
      minMaxQuadratic_400, minMaxQuadratic_000]
    norm_num [minMaxQuadratic_004, minMaxQuadratic_044, minMaxQuadratic_440,
      minMaxQuadratic_400, minMaxQuadratic_000]

theorem twoCurves_segmentIds : segmentIds twoCurvesEnds = [2, 5] := by
  decide

/-- The overall bounds of the two curves and the union of their segment boxes. -/
theorem twoCurves_bounds :
    computeBounds (twoCurvesNodes : List (Vec4 F)) = some ⟨⟨-1, -1, -1⟩, ⟨5, 1, 1⟩⟩ ∧
    boxUnion (primBoxes (twoCurvesNodes : List (Vec4 F)) twoCurvesEnds)
      = some ⟨⟨-1, -1, -1⟩, ⟨3, 1, 1⟩⟩ := by
  obtain ⟨h2, h3, h4, h5⟩ := twoCurves_segmentBox (F := F)
  constructor
  · have hl : (twoCurvesNodes : List (Vec4 F)).length - 2 = 4 := rfl
    have hr : List.range' 2 4 = [2, 3, 4, 5] := by decide
    simp only [computeBounds, hl, hr, List.foldl_cons, List.foldl_nil, h2, h3, h4, h5,
      Box3.grow]
    norm_num
  · simp only [boxUnion, primBoxes, twoCurves_segmentIds, List.map_cons, List.map_nil,
      List.foldl_cons, List.foldl_nil, h2, h5, Box3.grow]
    norm_num

end Bounds

/-- C12 fails on the code: for two curves of three nodes each (boundaries
`[3, 6]`), `prepareForRender` hands the BVH the segments `2` and `5`, whose
boxes have the union `[-1,3] x [-1,1] x [-1,1]`, while `computeBounds` also
grows by the triples `3` and `4`, which straddle the two curves, and ends with
`[-1,5] x [-1,1] x [-1,1]`. -/
theorem computeBounds_includes_straddling_triples :
    segmentIds twoCurvesEnds = [2, 5] ∧
    computeBounds (twoCurvesNodes : List (Vec4 ℝ)) = some ⟨⟨-1, -1, -1⟩, ⟨5, 1, 1⟩⟩ ∧
    boxUnion (primBoxes (twoCurvesNodes : List (Vec4 ℝ)) twoCurvesEnds)
      = some ⟨⟨-1, -1, -1⟩, ⟨3, 1, 1⟩⟩ ∧
    computeBounds (twoCurvesNodes : List (Vec4 ℝ))
      ≠ boxUnion (primBoxes (twoCurvesNodes : List (Vec4 ℝ)) twoCurvesEnds) := by
  refine ⟨twoCurves_segmentIds, twoCurves_bounds.1, twoCurves_bounds.2, ?_⟩
  rw [twoCurves_bounds.1, twoCurves_bounds.2]
  intro h
  simp only [Option.some.injEq, Box3.mk.injEq, Vec3.mk.injEq] at h
  norm_num at h

section Segments

/-! ## Segment enumeration -/

theorem curveStart_succ (curveEnds : List Nat) (i : Nat) :
    curveStart curveEnds (i + 1) = curveEnds.getD i 0 := by
  simp [curveStart]

/-- Where every curve has at least two nodes and the boundaries fit in 32 bits,
the loop of line 364 runs over `start + 2, ..., end - 1`. -/
theorem curveSegmentIds_eq (curveEnds : List Nat) (i : Nat)
    (hfit : curveEnds.getD i 0 < 2 ^ 32)
    (hk : curveStart curveEnds i + 2 ≤ curveEnds.getD i 0) :
    curveSegmentIds curveEnds i =
      List.range' (curveStart curveEnds i + 2)
        (curveEnds.getD i 0 - (curveStart curveEnds i + 2)) := by
  unfold curveSegmentIds
  rw [u32_of_lt _ (lt_of_le_of_lt hk hfit)]

theorem segmentIds_prefix_length (curveEnds : List Nat)
    (hfit : ∀ i, i < curveEnds.length → curveEnds.getD i 0 < 2 ^ 32)
    (hk : ∀ i, i < curveEnds.length → curveStart curveEnds i + 2 ≤ curveEnds.getD i 0) :
    ∀ n, n ≤ curveEnds.length →
      ((List.range n).flatMap (curveSegmentIds curveEnds)).length + 2 * n
        = curveStart curveEnds n := by
  intro n
  induction n with
  | zero => intro _; simp [curveStart]
  | succ n ih =>
    intro hn
    have hlt : n < curveEnds.length := hn
    rw [List.range_succ, List.flatMap_append, List.length_append, curveStart_succ]
    simp only [List.flatMap_cons, List.flatMap_nil, List.append_nil]
    rw [curveSegmentIds_eq curveEnds n (hfit n hlt) (hk n hlt), List.length_range']
    have := ih (Nat.le_of_lt hlt)
    have := hk n hlt
    omega

/-- C17: for boundaries that fit in 32 bits and lie within `nodeCount`, with at
least two nodes in every curve (so the boundaries are monotone), the segment
ids that `prepareForRender` hands to the BVH for curve `i` are exactly the `t`
with `start + 2 ≤ t < end`, `end - start - 2` of them; the control triple
`t - 2, t - 1, t` of each lies inside the node range `[start, end)` of its own
curve and inside `_nodeData`; and the number of segments plus twice the number
of curves is the last boundary. -/
theorem segmentIds_spec (curveEnds : List Nat) (nodeCount : Nat)
    (hfit : ∀ i, i < curveEnds.length → curveEnds.getD i 0 < 2 ^ 32)
    (hk : ∀ i, i < curveEnds.length → curveStart curveEnds i + 2 ≤ curveEnds.getD i 0)
    (hN : ∀ i, i < curveEnds.length → curveEnds.getD i 0 ≤ nodeCount) :
    (∀ i, i < curveEnds.length → ∀ t,
      t ∈ curveSegmentIds curveEnds i ↔
        curveStart curveEnds i + 2 ≤ t ∧ t < curveEnds.getD i 0) ∧
    (∀ i, i < curveEnds.length →
      (curveSegmentIds curveEnds i).length
        = curveEnds.getD i 0 - curveStart curveEnds i - 2) ∧
    (∀ t, t ∈ segmentIds curveEnds ↔
      ∃ i, i < curveEnds.length ∧ curveStart curveEnds i + 2 ≤ t ∧
        t < curveEnds.getD i 0) ∧
    (∀ i, i < curveEnds.length → ∀ t, t ∈ curveSegmentIds curveEnds i →
      2 ≤ t ∧ curveStart curveEnds i ≤ t - 2 ∧ t - 2 < t - 1 ∧ t - 1 < t ∧
        t < curveEnds.getD i 0 ∧ t < nodeCount) ∧
    (segmentIds curveEnds).length + 2 * curveEnds.length = curveEnds.getLastD 0 := by
  have hmem : ∀ i, i < curveEnds.length → ∀ t,
      t ∈ curveSegmentIds curveEnds i ↔
        curveStart curveEnds i + 2 ≤ t ∧ t < curveEnds.getD i 0 := by
    intro i hi t
    rw [curveSegmentIds_eq curveEnds i (hfit i hi) (hk i hi), List.mem_range'_1]
    have := hk i hi
    constructor
    · rintro ⟨h1, h2⟩; exact ⟨h1, by omega⟩
    · rintro ⟨h1, h2⟩; exact ⟨h1, by omega⟩
  refine ⟨hmem, ?_, ?_, ?_, ?_⟩
  · intro i hi
    rw [curveSegmentIds_eq curveEnds i (hfit i hi) (hk i hi), List.length_range']
    omega
  · intro t
    simp only [segmentIds, List.mem_flatMap, List.mem_range]
    constructor
    · rintro ⟨i, hi, ht⟩
      exact ⟨i, hi, (hmem i hi t).mp ht⟩
    · rintro ⟨i, hi, ht⟩
      exact ⟨i, hi, (hmem i hi t).mpr ht⟩
  · intro i hi t ht
    obtain ⟨h1, h2⟩ := (hmem i hi t).mp ht
    have := hN i hi
    omega
  · have h := segmentIds_prefix_length curveEnds hfit hk curveEnds.length (le_refl _)
    unfold segmentIds
    rw [h]
    cases hl : curveEnds with
    | nil => rfl
    | cons e rest =>
      simp only [curveStart, List.length_cons, Nat.succ_pos, if_true, Nat.add_sub_cancel,
        gt_iff_lt, Nat.zero_lt_succ]
      rw [List.getD_eq_getElem?_getD, List.getLastD_eq_getLast?, List.getLast?_eq_getElem?]
      simp

/-- C17 at the two curves of three nodes each. -/
theorem segmentIds_spec_witness :
    ((∀ i, i < twoCurvesEnds.length → twoCurvesEnds.getD i 0 < 2 ^ 32) ∧
      (∀ i, i < twoCurvesEnds.length →
        curveStart twoCurvesEnds i + 2 ≤ twoCurvesEnds.getD i 0) ∧
      (∀ i, i < twoCurvesEnds.length → twoCurvesEnds.getD i 0 ≤ 6)) ∧
    segmentIds twoCurvesEnds = [2, 5] ∧
    (∀ t, t ∈ segmentIds twoCurvesEnds ↔
      ∃ i, i < twoCurvesEnds.length ∧ curveStart twoCurvesEnds i + 2 ≤ t ∧
        t < twoCurvesEnds.getD i 0) ∧
    (segmentIds twoCurvesEnds).length + 2 * twoCurvesEnds.length = twoCurvesEnds.getLastD 0 :=
  have h1 : ∀ i, i < twoCurvesEnds.length → twoCurvesEnds.getD i 0 < 2 ^ 32 := by
    intro i hi
    have : i = 0 ∨ i = 1 := by simp only [twoCurvesEnds, List.length] at hi; omega
    rcases this with rfl | rfl <;> simp [twoCurvesEnds]
  have h2 : ∀ i, i < twoCurvesEnds.length →
      curveStart twoCurvesEnds i + 2 ≤ twoCurvesEnds.getD i 0 := by
    intro i hi
    have : i = 0 ∨ i = 1 := by simp only [twoCurvesEnds, List.length] at hi; omega
    rcases this with rfl | rfl <;> simp [twoCurvesEnds, curveStart]
  have h3 : ∀ i, i < twoCurvesEnds.length → twoCurvesEnds.getD i 0 ≤ 6 := by
    intro i hi
    have : i = 0 ∨ i = 1 := by simp only [twoCurvesEnds, List.length] at hi; omega
    rcases this with rfl | rfl <;> simp [twoCurvesEnds]
  ⟨⟨h1, h2, h3⟩, twoCurves_segmentIds,
    (segmentIds_spec twoCurvesEnds 6 h1 h2 h3).2.2.1,
    (segmentIds_spec twoCurvesEnds 6 h1 h2 h3).2.2.2.2⟩

end Segments

/-! ## Rounding to binary32 -/

section Rounding

variable {F : Type} [LinearOrderedField F] [FloorRing F]

theorem roundEven_cases (y : F) : roundEven y = ⌊y⌋ ∨ roundEven y = ⌊y⌋ + 1 := by
  unfold roundEven
  split_ifs <;> simp

theorem roundEven_intCast (n : ℤ) : roundEven (n : F) = n := by
  unfold roundEven
  simp

theorem abs_roundEven_sub_le (y : F) : |(roundEven y : F) - y| ≤ 1/2 := by
  have h1 := Int.floor_le y
  have h2 := Int.lt_floor_add_one y
  unfold roundEven
  split_ifs with a b c
  · rw [abs_le]; constructor <;> linarith
  · push_cast; rw [abs_le]; constructor <;> linarith
  · rw [abs_le]; constructor <;> linarith
  · push_cast; rw [abs_le]; constructor <;> linarith

theorem roundEven_mono {y z : F} (h : y ≤ z) : roundEven y ≤ roundEven z := by
  have hf : ⌊y⌋ ≤ ⌊z⌋ := Int.floor_mono h
  rcases hf.lt_or_eq with hlt | heq
  · have hz : ⌊z⌋ ≤ roundEven z := by
      rcases roundEven_cases z with e | e <;> omega
    rcases roundEven_cases y with e | e <;> omega
  · unfold roundEven
    rw [heq]
    have hc : (⌊y⌋ : F) = ⌊z⌋ := by rw [heq]
    split_ifs <;> first | omega | (exfalso; linarith)

theorem roundEven_neg (y : F) : roundEven (-y) = -roundEven y := by
  by_cases hy : (⌊y⌋ : F) = y
  · rw [← hy, ← Int.cast_neg, roundEven_intCast, roundEven_intCast]
  · have hlt : (⌊y⌋ : F) < y := lt_of_le_of_ne (Int.floor_le y) hy
    have hfl : ⌊-y⌋ = -⌊y⌋ - 1 := by
      rw [Int.floor_eq_iff]
      push_cast
      constructor
      · linarith [Int.lt_floor_add_one y]
      · linarith
    unfold roundEven
    rw [hfl]
    push_cast
    split_ifs <;> first | omega | (exfalso; linarith)

theorem ulp32_pos (x : F) : 0 < ulp32 x := zpow_pos (by norm_num) _

theorem binade32_neg (x : F) : binade32 (-x) = binade32 x := by
  unfold binade32; simp only [abs_neg, neg_eq_zero]

theorem binade32_ge (x : F) : -126 ≤ binade32 x := by
  unfold binade32
  split_ifs
  · exact le_refl _
  · exact le_max_right _ _

theorem binade32_of_ne {x : F} (hx : x ≠ 0) : binade32 x = max (Int.log 2 |x|) (-126) := by
  unfold binade32; rw [if_neg hx]

theorem ulp32_neg (x : F) : ulp32 (-x) = ulp32 x := by
  unfold ulp32; rw [binade32_neg]

theorem round32_neg (x : F) : round32 (-x) = -round32 x := by
  unfold round32
  rw [ulp32_neg, neg_div, roundEven_neg]
  push_cast
  ring

theorem round32_zero : round32 (0 : F) = 0 := by
  unfold round32
  rw [zero_div]
  have : roundEven (0 : F) = 0 := by
    have := roundEven_intCast (F := F) 0
    simpa using this
  rw [this]; simp

/-- Rounding moves a number by at most half the spacing. -/
theorem abs_round32_sub_le (x : F) : |round32 x - x| ≤ ulp32 x / 2 := by
  have hu := ulp32_pos x
  have h := abs_roundEven_sub_le (x / ulp32 x)
  have e : round32 x - x = ((roundEven (x / ulp32 x) : F) - x / ulp32 x) * ulp32 x := by
    unfold round32
    field_simp
  rw [e, abs_mul, abs_of_pos hu]
  calc |(roundEven (x / ulp32 x) : F) - x / ulp32 x| * ulp32 x ≤ 1/2 * ulp32 x :=
        mul_le_mul_of_nonneg_right h hu.le
    _ = ulp32 x / 2 := by ring


theorem abs_lt_two_zpow_binade (x : F) : |x| < (2 : F) ^ (binade32 x + 1) := by
  by_cases h0 : x = 0
  · rw [h0, abs_zero]; exact zpow_pos (by norm_num) _
  have h := Int.lt_zpow_succ_log_self (b := 2) (by norm_num) |x|
  have hle : Int.log 2 |x| + 1 ≤ binade32 x + 1 := by
    rw [binade32_of_ne h0]
    have := le_max_left (Int.log 2 |x|) (-126)
    omega
  calc |x| < ((2 : ℕ) : F) ^ (Int.log 2 |x| + 1) := h
    _ = (2 : F) ^ (Int.log 2 |x| + 1) := by norm_num
    _ ≤ (2 : F) ^ (binade32 x + 1) := zpow_le_zpow_right₀ (by norm_num) hle

theorem two_zpow_binade_le (x : F) (hx : x ≠ 0) (h : -126 < binade32 x) :
    (2 : F) ^ binade32 x ≤ |x| := by
  have hb : binade32 x = Int.log 2 |x| := by
    rw [binade32_of_ne hx] at h ⊢
    rcases max_cases (Int.log 2 |x|) (-126) with ⟨e, _⟩ | ⟨e, _⟩
    · exact e
    · rw [e] at h; omega
  rw [hb]
  have := Int.zpow_log_le_self (b := 2) (r := |x|) (by norm_num) (abs_pos.mpr hx)
  calc (2 : F) ^ Int.log 2 |x| = ((2 : ℕ) : F) ^ Int.log 2 |x| := by norm_num
    _ ≤ |x| := this

theorem binade32_mono {x y : F} (hx : 0 < x) (h : x ≤ y) : binade32 x ≤ binade32 y := by
  rw [binade32_of_ne hx.ne', binade32_of_ne (lt_of_lt_of_le hx h).ne']
  rw [abs_of_pos hx, abs_of_pos (lt_of_lt_of_le hx h)]
  exact max_le_max (Int.log_mono_right hx h) (le_refl _)

theorem round32_nonneg {x : F} (hx : 0 ≤ x) : 0 ≤ round32 x := by
  unfold round32
  have h : roundEven (0 : F) ≤ roundEven (x / ulp32 x) :=
    roundEven_mono (div_nonneg hx (ulp32_pos x).le)
  have h0 : roundEven (0 : F) = 0 := by
    have := roundEven_intCast (F := F) 0
    simpa using this
  rw [h0] at h
  exact mul_nonneg (by exact_mod_cast h) (ulp32_pos x).le

omit [FloorRing F] in
theorem two_zpow_cast (n : ℕ) : (((2 : ℤ) ^ n : ℤ) : F) = (2 : F) ^ (n : ℤ) := by
  push_cast
  rw [zpow_natCast]

/-- A positive number is not rounded beyond the end of its binade. -/
theorem round32_le_binade_end {x : F} (hx : 0 < x) : round32 x ≤ (2 : F) ^ (binade32 x + 1) := by
  have hu := ulp32_pos x
  have hlt : x / ulp32 x ≤ (((2 : ℤ) ^ 24 : ℤ) : F) := by
    rw [div_le_iff₀ hu, two_zpow_cast]
    have := abs_lt_two_zpow_binade x
    rw [abs_of_pos hx] at this
    have e : (2 : F) ^ ((24 : ℕ) : ℤ) * ulp32 x = (2 : F) ^ (binade32 x + 1) := by
      unfold ulp32
      rw [← zpow_add₀ (by norm_num : (2 : F) ≠ 0)]
      congr 1
      push_cast
      ring
    rw [e]
    exact this.le
  have h := roundEven_mono hlt
  rw [roundEven_intCast] at h
  unfold round32
  have e : (2 : F) ^ (binade32 x + 1) = (((2 : ℤ) ^ 24 : ℤ) : F) * ulp32 x := by
    rw [two_zpow_cast]
    unfold ulp32
    rw [← zpow_add₀ (by norm_num : (2 : F) ≠ 0)]
    congr 1
    push_cast
    ring
  rw [e]
  exact mul_le_mul_of_nonneg_right (by exact_mod_cast h) hu.le

/-- A positive normal number is not rounded below the start of its binade. -/
theorem binade_start_le_round32 {x : F} (hx : 0 < x) (hb : -126 < binade32 x) :
    (2 : F) ^ binade32 x ≤ round32 x := by
  have hu := ulp32_pos x
  have hlt : (((2 : ℤ) ^ 23 : ℤ) : F) ≤ x / ulp32 x := by
    rw [le_div_iff₀ hu, two_zpow_cast]
    have := two_zpow_binade_le x hx.ne' hb
    rw [abs_of_pos hx] at this
    have e : (2 : F) ^ ((23 : ℕ) : ℤ) * ulp32 x = (2 : F) ^ binade32 x := by
      unfold ulp32
      rw [← zpow_add₀ (by norm_num : (2 : F) ≠ 0)]
      congr 1
      push_cast
      ring
    rw [e]
    exact this
  have h := roundEven_mono hlt
  rw [roundEven_intCast] at h
  unfold round32
  have e : (2 : F) ^ binade32 x = (((2 : ℤ) ^ 23 : ℤ) : F) * ulp32 x := by
    rw [two_zpow_cast]
    unfold ulp32
    rw [← zpow_add₀ (by norm_num : (2 : F) ≠ 0)]
    congr 1
    push_cast
    ring
  rw [e]
  exact mul_le_mul_of_nonneg_right (by exact_mod_cast h) hu.le

theorem round32_mono_pos {x y : F} (hx : 0 < x) (h : x ≤ y) : round32 x ≤ round32 y := by
  have hy : 0 < y := lt_of_lt_of_le hx h
  rcases (binade32_mono hx h).lt_or_eq with hlt | heq
  · calc round32 x ≤ (2 : F) ^ (binade32 x + 1) := round32_le_binade_end hx
      _ ≤ (2 : F) ^ binade32 y := zpow_le_zpow_right₀ (by norm_num) (by omega)
      _ ≤ round32 y := binade_start_le_round32 hy (by
          have : -126 ≤ binade32 x := binade32_ge x
          omega)
  · have hu : ulp32 x = ulp32 y := by unfold ulp32; rw [heq]
    unfold round32
    rw [hu]
    have : roundEven (x / ulp32 y) ≤ roundEven (y / ulp32 y) :=
      roundEven_mono (div_le_div_of_nonneg_right h (ulp32_pos y).le)
    exact mul_le_mul_of_nonneg_right (by exact_mod_cast this) (ulp32_pos y).le

/-- Rounding is monotone. -/
theorem round32_mono {x y : F} (h : x ≤ y) : round32 x ≤ round32 y := by
  rcases lt_trichotomy 0 x with hx | hx | hx
  · exact round32_mono_pos hx h
  · rw [← hx, round32_zero]
    exact round32_nonneg (hx ▸ h)
  · rcases lt_or_le y 0 with hy | hy
    · have := round32_mono_pos (neg_pos.mpr hy) (neg_le_neg h)
      rw [round32_neg, round32_neg] at this
      linarith
    · have h1 : 0 ≤ round32 (-x) := round32_nonneg (by linarith)
      rw [round32_neg] at h1
      have h2 := round32_nonneg hy
      linarith


theorem binade32_le_of_abs_lt {x : F} {k : ℤ} (hk : -126 ≤ k) (hx : |x| < (2 : F) ^ (k + 1)) :
    binade32 x ≤ k := by
  by_cases h0 : x = 0
  · unfold binade32; rw [if_pos h0]; exact hk
  · rw [binade32_of_ne h0]
    apply max_le _ hk
    have hpos : 0 < |x| := abs_pos.mpr h0
    have := (Int.lt_zpow_iff_log_lt (b := 2) (by norm_num) hpos (x := k + 1)).mp (by
      push_cast; exact hx)
    omega

/-- A number with at most 24 significant bits above the least binary32
exponent is left alone. -/
theorem round32_of_rep (m e : ℤ) (hm : |m| < 2 ^ 24) (he : -149 ≤ e) :
    round32 ((m : F) * (2 : F) ^ e) = (m : F) * (2 : F) ^ e := by
  have h2 : (2 : F) ≠ 0 := by norm_num
  have hb : binade32 ((m : F) * (2 : F) ^ e) ≤ e + 23 := by
    apply binade32_le_of_abs_lt (by omega)
    rw [abs_mul, abs_of_pos (zpow_pos (by norm_num : (0 : F) < 2) e)]
    have hm' : |(m : F)| < (2 : F) ^ (24 : ℤ) := by
      have : ((|m| : ℤ) : F) < (((2 : ℤ) ^ 24 : ℤ) : F) := by exact_mod_cast hm
      rw [Int.cast_abs] at this
      rw [show ((24 : ℤ)) = ((24 : ℕ) : ℤ) from rfl, ← two_zpow_cast]
      exact this
    calc |(m : F)| * (2 : F) ^ e < (2 : F) ^ (24 : ℤ) * (2 : F) ^ e :=
          mul_lt_mul_of_pos_right hm' (zpow_pos (by norm_num) e)
      _ = (2 : F) ^ (e + 23 + 1) := by
          rw [← zpow_add₀ h2]; congr 1; ring
  obtain ⟨k, hk⟩ : ∃ k : ℕ, (k : ℤ) = e + 23 - binade32 ((m : F) * (2 : F) ^ e) :=
    ⟨(e + 23 - binade32 ((m : F) * (2 : F) ^ e)).toNat, Int.toNat_of_nonneg (by omega)⟩
  have hq : (m : F) * (2 : F) ^ e / ulp32 ((m : F) * (2 : F) ^ e) = ((m * 2 ^ k : ℤ) : F) := by
    unfold ulp32
    rw [div_eq_iff (zpow_ne_zero _ h2)]
    push_cast
    rw [mul_assoc, ← zpow_natCast, ← zpow_add₀ h2, hk]
    congr 2
    ring
  unfold round32
  rw [hq, roundEven_intCast, ← hq]
  exact div_mul_cancel₀ _ (ulp32_pos _).ne'

theorem round32_two_zpow (e : ℤ) (he : -149 ≤ e) : round32 ((2 : F) ^ e) = (2 : F) ^ e := by
  have := round32_of_rep (F := F) 1 e (by norm_num) he
  simpa using this

/-- A rounded number is a binary32 number: rounding it again changes nothing. -/
theorem round32_idem (x : F) : round32 (round32 x) = round32 x := by
  have h2 : (2 : F) ≠ 0 := by norm_num
  have hu := ulp32_pos x
  have hbd : -126 ≤ binade32 x := binade32_ge x
  have habs := abs_lt_two_zpow_binade x
  have hend : (2 : F) ^ (binade32 x + 1) = (((2 : ℤ) ^ 24 : ℤ) : F) * ulp32 x := by
    rw [two_zpow_cast]
    unfold ulp32
    rw [← zpow_add₀ h2]
    congr 1
    push_cast
    ring
  have hup : x / ulp32 x ≤ (((2 : ℤ) ^ 24 : ℤ) : F) := by
    rw [div_le_iff₀ hu, ← hend]
    exact (lt_of_le_of_lt (le_abs_self x) habs).le
  have hlo : ((-(2 : ℤ) ^ 24 : ℤ) : F) ≤ x / ulp32 x := by
    rw [le_div_iff₀ hu]
    have : -(2 : F) ^ (binade32 x + 1) ≤ x := by
      have := neg_abs_le x
      linarith
    calc ((-(2 : ℤ) ^ 24 : ℤ) : F) * ulp32 x = -((((2 : ℤ) ^ 24 : ℤ) : F) * ulp32 x) := by
          push_cast; ring
      _ = -(2 : F) ^ (binade32 x + 1) := by rw [hend]
      _ ≤ x := this
  have h1 := roundEven_mono hup
  have h2' := roundEven_mono hlo
  rw [roundEven_intCast] at h1 h2'
  have hr : round32 x = (roundEven (x / ulp32 x) : F) * (2 : F) ^ (binade32 x - 23) := rfl
  rcases h1.lt_or_eq with hlt | heq
  · rcases h2'.lt_or_eq with hgt | heq'
    · rw [hr]
      exact round32_of_rep _ _ (abs_lt.mpr ⟨by omega, by omega⟩) (by omega)
    · have e : round32 x = -(2 : F) ^ (binade32 x + 1) := by
        rw [hr, ← heq', hend]; unfold ulp32; push_cast; ring
      rw [e, round32_neg, round32_two_zpow _ (by omega)]
  · have e : round32 x = (2 : F) ^ (binade32 x + 1) := by
      rw [hr, heq, hend]; rfl
    rw [e, round32_two_zpow _ (by omega)]

/-- The rounding error of a number of magnitude at most `2 ^ k`. -/
theorem abs_round32_sub_le_of_abs_le {x : F} {k : ℤ} (hk : -125 ≤ k) (hx : |x| ≤ (2 : F) ^ k) :
    |round32 x - x| ≤ (2 : F) ^ (k - 25) := by
  have h2 : (2 : F) ≠ 0 := by norm_num
  rcases hx.lt_or_eq with hlt | heq
  · have hb : binade32 x ≤ k - 1 := binade32_le_of_abs_lt (by omega) (by
      rw [show k - 1 + 1 = k by ring]; exact hlt)
    calc |round32 x - x| ≤ ulp32 x / 2 := abs_round32_sub_le x
      _ = (2 : F) ^ (binade32 x - 23 - 1) := by
          unfold ulp32
          rw [zpow_sub₀ h2 _ 1, zpow_one]
      _ ≤ (2 : F) ^ (k - 25) := zpow_le_zpow_right₀ (by norm_num) (by omega)
  · have hfix : round32 x = x := by
      rcases abs_cases x with ⟨e, _⟩ | ⟨e, _⟩
      · rw [e] at heq
        rw [heq, round32_two_zpow _ (by omega)]
      · have : x = -(2 : F) ^ k := by rw [← heq, e]; ring
        rw [this, round32_neg, round32_two_zpow _ (by omega)]
    rw [hfix, sub_self, abs_zero]
    exact (zpow_pos (by norm_num) _).le

end Rounding

/-! ## The rounded definitions without rounding -/

section FlSanity
variable {F : Type} [LinearOrderedField F]

/-- Without rounding the rounded spline is the exact one. -/
theorem quadraticBSplineFl_id (p0 p1 p2 t : F) :
    quadraticBSplineFl id p0 p1 p2 t = quadraticBSpline p0 p1 p2 t := rfl

theorem minMaxQuadraticFl_id (p0 p1 p2 : F) :
    minMaxQuadraticFl id p0 p1 p2 = minMaxQuadratic p0 p1 p2 := rfl

theorem curveBoxFl_id (q0 q1 q2 : Vec4 F) : curveBoxFl id q0 q1 q2 = curveBox q0 q1 q2 := rfl

theorem loopBodyFl_id (sqrt : F → F) (q0 q1 q2 : Vec4 F) (tMin tMax : F) (s : LoopState F) :
    loopBodyFl id sqrt q0 q1 q2 tMin tMax s = loopBody sqrt q0 q1 q2 tMin tMax s := rfl

theorem loopFl_id (sqrt : F → F) (q0 q1 q2 : Vec4 F) (tMin tMax : F) :
    ∀ (n : Nat) (s : LoopState F),
      loopFl id sqrt q0 q1 q2 tMin tMax n s = loop sqrt q0 q1 q2 tMin tMax n s := by
  intro n
  induction n with
  | zero => intro s; rfl
  | succ n ih =>
    intro s
    simp only [loopFl, loop, loopBodyFl_id]
    cases loopBody sqrt q0 q1 q2 tMin tMax s with
    | next s1 => exact ih s1
    | done s1 => rfl

/-- Without rounding the rounded intersector is the exact one. -/
theorem pointOnSplineFl_id (sqrt : F → F) (q0 q1 q2 : Vec4 F) (tMin tMax : F) (out : Hit F) :
    pointOnSplineFl id sqrt q0 q1 q2 tMin tMax out = pointOnSpline sqrt q0 q1 q2 tMin tMax out := by
  unfold pointOnSplineFl pointOnSpline
  rw [loopFl_id]
  rfl

end FlSanity

/-! ## Error analysis of the rounded spline functions -/

section Core
variable {F : Type} [LinearOrderedField F]

/-- One rounded operation: the error of the operand plus one rounding. -/
theorem RoundsWithin.step {rnd : F → F} {R ε η : F} (hr : RoundsWithin rnd R ε η)
    {x y δ : F} (hx : |x - y| ≤ δ) (hy : |y| + δ ≤ 8 * R) : |rnd x - y| ≤ δ + ε := by
  have h1 : |x| ≤ 8 * R := by
    have := abs_sub_abs_le_abs_sub x y
    linarith
  have h2 := hr.err x h1
  calc |rnd x - y| = |(rnd x - x) + (x - y)| := by ring_nf
    _ ≤ |rnd x - x| + |x - y| := abs_add _ _
    _ ≤ δ + ε := by linarith

theorem abs_mul_unit_le {x t : F} (ht0 : 0 ≤ t) (ht1 : t ≤ 1) : |x * t| ≤ |x| := by
  rw [abs_mul, abs_of_nonneg ht0]
  exact mul_le_of_le_one_right (abs_nonneg x) ht1

/-- The rounded spline is within twelve roundings of the exact one. -/
theorem quadraticBSplineFl_close {rnd : F → F} {R ε η : F} (hr : RoundsWithin rnd R ε η)
    (p0 p1 p2 t : F) (h0 : |p0| ≤ R) (h1 : |p1| ≤ R) (h2 : |p2| ≤ R)
    (ht0 : 0 ≤ t) (ht1 : t ≤ 1) :
    |quadraticBSplineFl rnd p0 p1 p2 t - quadraticBSpline p0 p1 p2 t| ≤ 12 * ε := by
  have hε := hr.eps_nonneg
  have hεR := hr.eps_le
  obtain ⟨h0l, h0u⟩ := abs_le.mp h0
  obtain ⟨h1l, h1u⟩ := abs_le.mp h1
  obtain ⟨h2l, h2u⟩ := abs_le.mp h2
  -- the magnitudes of the exact intermediate values
  have hP0 : |1/2 * p0| ≤ R := by rw [abs_le]; constructor <;> linarith only [h0l, h0u]
  have hP2 : |1/2 * p2| ≤ R := by rw [abs_le]; constructor <;> linarith only [h2l, h2u]
  have hA1 : |1/2 * p0 - p1| ≤ 2 * R := by
    rw [abs_le]; constructor <;> linarith only [h0l, h0u, h1l, h1u]
  have hA : |1/2 * p0 - p1 + 1/2 * p2| ≤ 2 * R := by
    rw [abs_le]; constructor <;> linarith only [h0l, h0u, h1l, h1u, h2l, h2u]
  have hAt : |(1/2 * p0 - p1 + 1/2 * p2) * t| ≤ 2 * R :=
    le_trans (abs_mul_unit_le ht0 ht1) hA
  have hAtt : |(1/2 * p0 - p1 + 1/2 * p2) * t * t| ≤ 2 * R :=
    le_trans (abs_mul_unit_le ht0 ht1) hAt
  have hB : |p1 - p0| ≤ 2 * R := by
    rw [abs_le]; constructor <;> linarith only [h0l, h0u, h1l, h1u]
  have hBt : |(p1 - p0) * t| ≤ 2 * R := le_trans (abs_mul_unit_le ht0 ht1) hB
  have hS : |(1/2 * p0 - p1 + 1/2 * p2) * t * t + (p1 - p0) * t| ≤ 4 * R :=
    le_trans (abs_add _ _) (by linarith only [hAtt, hBt])
  have hC : |p0 + p1| ≤ 2 * R := by
    rw [abs_le]; constructor <;> linarith only [h0l, h0u, h1l, h1u]
  have hC2 : |1/2 * (p0 + p1)| ≤ R := by
    rw [abs_le]; constructor <;> linarith only [h0l, h0u, h1l, h1u]
  have hT : |(1/2 * p0 - p1 + 1/2 * p2) * t * t + (p1 - p0) * t + 1/2 * (p0 + p1)| ≤ 5 * R :=
    le_trans (abs_add _ _) (by linarith only [hS, hC2])
  -- the quadratic coefficient
  have a1 : |rnd (1/2 * p0) - 1/2 * p0| ≤ 0 + ε :=
    hr.step (by simp) (by linarith only [hP0, hεR, hε])
  have a2 : |rnd (rnd (1/2 * p0) - p1) - (1/2 * p0 - p1)| ≤ (0 + ε) + ε :=
    hr.step (by
      rw [show rnd (1/2 * p0) - p1 - (1/2 * p0 - p1) = rnd (1/2 * p0) - 1/2 * p0 by ring]
      exact a1) (by linarith only [hA1, hεR, hε])
  have a3 : |rnd (1/2 * p2) - 1/2 * p2| ≤ 0 + ε :=
    hr.step (by simp) (by linarith only [hP2, hεR, hε])
  have a4 : |rnd (rnd (rnd (1/2 * p0) - p1) + rnd (1/2 * p2)) - (1/2 * p0 - p1 + 1/2 * p2)|
      ≤ 3 * ε + ε :=
    hr.step (by
      rw [show rnd (rnd (1/2 * p0) - p1) + rnd (1/2 * p2) - (1/2 * p0 - p1 + 1/2 * p2)
          = (rnd (rnd (1/2 * p0) - p1) - (1/2 * p0 - p1)) + (rnd (1/2 * p2) - 1/2 * p2) by ring]
      exact le_trans (abs_add _ _) (by linarith only [a2, a3]))
      (by linarith only [hA, hεR, hε])
  have a5 : |rnd (rnd (rnd (rnd (1/2 * p0) - p1) + rnd (1/2 * p2)) * t)
      - (1/2 * p0 - p1 + 1/2 * p2) * t| ≤ 4 * ε + ε :=
    hr.step (by
      rw [← sub_mul]
      exact le_trans (abs_mul_unit_le ht0 ht1) (by linarith only [a4]))
      (by linarith only [hAt, hεR, hε])
  have a6 : |rnd (rnd (rnd (rnd (rnd (1/2 * p0) - p1) + rnd (1/2 * p2)) * t) * t)
      - (1/2 * p0 - p1 + 1/2 * p2) * t * t| ≤ 5 * ε + ε :=
    hr.step (by
      rw [← sub_mul]
      exact le_trans (abs_mul_unit_le ht0 ht1) (by linarith only [a5]))
      (by linarith only [hAtt, hεR, hε])
  -- the linear coefficient
  have b1 : |rnd (p1 - p0) - (p1 - p0)| ≤ 0 + ε :=
    hr.step (by simp) (by linarith only [hB, hεR, hε])
  have b2 : |rnd (rnd (p1 - p0) * t) - (p1 - p0) * t| ≤ ε + ε :=
    hr.step (by
      rw [← sub_mul]
      exact le_trans (abs_mul_unit_le ht0 ht1) (by linarith only [b1]))
      (by linarith only [hBt, hεR, hε])
  have s1 : |rnd (rnd (rnd (rnd (rnd (rnd (1/2 * p0) - p1) + rnd (1/2 * p2)) * t) * t)
        + rnd (rnd (p1 - p0) * t))
      - ((1/2 * p0 - p1 + 1/2 * p2) * t * t + (p1 - p0) * t)| ≤ 8 * ε + ε :=
    hr.step (by
      rw [show rnd (rnd (rnd (rnd (rnd (1/2 * p0) - p1) + rnd (1/2 * p2)) * t) * t)
            + rnd (rnd (p1 - p0) * t)
            - ((1/2 * p0 - p1 + 1/2 * p2) * t * t + (p1 - p0) * t)
          = (rnd (rnd (rnd (rnd (rnd (1/2 * p0) - p1) + rnd (1/2 * p2)) * t) * t)
              - (1/2 * p0 - p1 + 1/2 * p2) * t * t)
            + (rnd (rnd (p1 - p0) * t) - (p1 - p0) * t) by ring]
      exact le_trans (abs_add _ _) (by linarith only [a6, b2]))
      (by linarith only [hS, hεR, hε])
  -- the constant coefficient
  have c1 : |rnd (p0 + p1) - (p0 + p1)| ≤ 0 + ε :=
    hr.step (by simp) (by linarith only [hC, hεR, hε])
  have c2 : |rnd (1/2 * rnd (p0 + p1)) - 1/2 * (p0 + p1)| ≤ ε + ε :=
    hr.step (by
      rw [← mul_sub, abs_mul, abs_of_pos (by norm_num : (0 : F) < 1/2)]
      linarith only [c1, abs_nonneg (rnd (p0 + p1) - (p0 + p1))])
      (by linarith only [hC2, hεR, hε])
  have res : |quadraticBSplineFl rnd p0 p1 p2 t - quadraticBSpline p0 p1 p2 t| ≤ 11 * ε + ε := by
    unfold quadraticBSplineFl quadraticBSpline
    refine hr.step ?_ (by linarith only [hT, hεR, hε])
    rw [show rnd (rnd (rnd (rnd (rnd (rnd (1/2 * p0) - p1) + rnd (1/2 * p2)) * t) * t)
              + rnd (rnd (p1 - p0) * t)) + rnd (1/2 * rnd (p0 + p1))
            - ((1/2 * p0 - p1 + 1/2 * p2) * t * t + (p1 - p0) * t + 1/2 * (p0 + p1))
          = (rnd (rnd (rnd (rnd (rnd (rnd (1/2 * p0) - p1) + rnd (1/2 * p2)) * t) * t)
                + rnd (rnd (p1 - p0) * t))
              - ((1/2 * p0 - p1 + 1/2 * p2) * t * t + (p1 - p0) * t))
            + (rnd (1/2 * rnd (p0 + p1)) - 1/2 * (p0 + p1)) by ring]
    exact le_trans (abs_add _ _) (by linarith only [s1, c2])
  linarith only [res]

/-- The exact spline in powers of `u`. -/
theorem quadraticBSpline_poly (p0 p1 p2 u : F) :
    quadraticBSpline p0 p1 p2 u
      = (p0 + p1) / 2 - (p0 - p1) * u + (p0 - 2 * p1 + p2) / 2 * u ^ 2 := by
  unfold quadraticBSpline; ring

/-- The rounded value at an end of the segment. -/
theorem RoundsWithin.endValue {rnd : F → F} {R ε η : F} (hr : RoundsWithin rnd R ε η)
    (a b : F) (ha : |a| ≤ R) (hb : |b| ≤ R) :
    |rnd (rnd (a + b) * (1/2)) - (a + b) / 2| ≤ 2 * ε := by
  have hε := hr.eps_nonneg
  have hεR := hr.eps_le
  obtain ⟨hal, hau⟩ := abs_le.mp ha
  obtain ⟨hbl, hbu⟩ := abs_le.mp hb
  have hs : |a + b| ≤ 2 * R := by rw [abs_le]; constructor <;> linarith
  have c1 : |rnd (a + b) - (a + b)| ≤ 0 + ε := hr.step (by simp) (by linarith)
  have c2 : |rnd (rnd (a + b) * (1/2)) - (a + b) / 2| ≤ ε + ε :=
    hr.step (by
      have : rnd (a + b) * (1/2) - (a + b) / 2 = (rnd (a + b) - (a + b)) * (1/2) := by ring
      rw [this, abs_mul, abs_of_pos (by norm_num : (0 : F) < 1/2)]
      linarith [abs_nonneg (rnd (a + b) - (a + b))]) (by
      have : |(a + b) / 2| ≤ R := by rw [abs_le]; constructor <;> linarith
      linarith)
  linarith

/-- The rounded numerator and divisor of `tFlat`. -/
theorem RoundsWithin.flatParts {rnd : F → F} {R ε η : F} (hr : RoundsWithin rnd R ε η)
    (p0 p1 p2 : F) (h0 : |p0| ≤ R) (h1 : |p1| ≤ R) (h2 : |p2| ≤ R) :
    |rnd (p0 - p1) - (p0 - p1)| ≤ ε ∧
    |rnd (rnd (p0 - rnd (2 * p1)) + p2) - (p0 - 2 * p1 + p2)| ≤ 3 * ε := by
  have hε := hr.eps_nonneg
  have hεR := hr.eps_le
  obtain ⟨h0l, h0u⟩ := abs_le.mp h0
  obtain ⟨h1l, h1u⟩ := abs_le.mp h1
  obtain ⟨h2l, h2u⟩ := abs_le.mp h2
  have n1 : |rnd (p0 - p1) - (p0 - p1)| ≤ 0 + ε :=
    hr.step (by simp) (by
      have : |p0 - p1| ≤ 2 * R := by rw [abs_le]; constructor <;> linarith
      linarith)
  have d1 : |rnd (2 * p1) - 2 * p1| ≤ 0 + ε :=
    hr.step (by simp) (by
      have : |2 * p1| ≤ 2 * R := by rw [abs_le]; constructor <;> linarith
      linarith)
  have d2 : |rnd (p0 - rnd (2 * p1)) - (p0 - 2 * p1)| ≤ ε + ε :=
    hr.step (by
      have : p0 - rnd (2 * p1) - (p0 - 2 * p1) = -(rnd (2 * p1) - 2 * p1) := by ring
      rw [this, abs_neg]; linarith) (by
      have : |p0 - 2 * p1| ≤ 3 * R := by rw [abs_le]; constructor <;> linarith
      linarith)
  have d3 : |rnd (rnd (p0 - rnd (2 * p1)) + p2) - (p0 - 2 * p1 + p2)| ≤ 2 * ε + ε :=
    hr.step (by
      have : rnd (p0 - rnd (2 * p1)) + p2 - (p0 - 2 * p1 + p2)
          = rnd (p0 - rnd (2 * p1)) - (p0 - 2 * p1) := by ring
      rw [this]; linarith) (by
      have : |p0 - 2 * p1 + p2| ≤ 4 * R := by rw [abs_le]; constructor <;> linarith
      linarith)
  exact ⟨by linarith, by linarith⟩

/-- The three shapes of the result of the rounded `minMaxQuadratic`. -/
theorem minMaxQuadraticFl_cases (rnd : F → F) (p0 p1 p2 : F) :
    (minMaxQuadraticFl rnd p0 p1 p2
        = (min (rnd (rnd (p0 + p1) * (1/2))) (rnd (rnd (p1 + p2) * (1/2))),
           max (rnd (rnd (p0 + p1) * (1/2))) (rnd (rnd (p1 + p2) * (1/2)))) ∧
      ∀ t, tFlatFl rnd p0 p1 p2 = some t → ¬(t > 0 ∧ t < 1)) ∨
    (∃ t, tFlatFl rnd p0 p1 p2 = some t ∧ 0 < t ∧ t < 1 ∧
      minMaxQuadraticFl rnd p0 p1 p2
        = (min (min (rnd (rnd (p0 + p1) * (1/2))) (rnd (rnd (p1 + p2) * (1/2))))
              (quadraticBSplineFl rnd p0 p1 p2 t),
           max (max (rnd (rnd (p0 + p1) * (1/2))) (rnd (rnd (p1 + p2) * (1/2))))
              (quadraticBSplineFl rnd p0 p1 p2 t))) := by
  have hswap : (if rnd (rnd (p0 + p1) * (1/2)) > rnd (rnd (p1 + p2) * (1/2))
        then (rnd (rnd (p1 + p2) * (1/2)), rnd (rnd (p0 + p1) * (1/2)))
        else (rnd (rnd (p0 + p1) * (1/2)), rnd (rnd (p1 + p2) * (1/2))))
      = (min (rnd (rnd (p0 + p1) * (1/2))) (rnd (rnd (p1 + p2) * (1/2))),
         max (rnd (rnd (p0 + p1) * (1/2))) (rnd (rnd (p1 + p2) * (1/2)))) := by
    split_ifs with h
    · rw [min_eq_right h.le, max_eq_left h.le]
    · rw [min_eq_left (not_lt.mp h), max_eq_right (not_lt.mp h)]
  unfold minMaxQuadraticFl
  simp only [hswap]
  cases ht : tFlatFl rnd p0 p1 p2 with
  | none => left; exact ⟨rfl, fun t h => absurd h (by simp)⟩
  | some t =>
    by_cases hc : t > 0 ∧ t < 1
    · right
      refine ⟨t, rfl, hc.1, hc.2, ?_⟩
      simp only [if_pos hc]
    · left
      refine ⟨?_, fun t' h => ?_⟩
      · simp only [if_neg hc]
      · simp only [Option.some.injEq] at h
        rw [← h]; exact hc

end Core

section Core
variable {F : Type} [LinearOrderedField F]

theorem RoundsWithin.eta_nonneg {rnd : F → F} {R ε η : F} (hr : RoundsWithin rnd R ε η) :
    0 ≤ η := by
  have := hr.unit 0 (by simp)
  rw [hr.zero] at this
  simpa using this

/-- The gap that a misplaced flat point leaves: for a convex spline with
second difference `D > 8 ε` and a parameter within `η + γ` of the flat point,
where `γ` is the error `4 ε / d` of the rounded quotient. -/
theorem RoundsWithin.flatGap {rnd : F → F} {R ε η : F} (hr : RoundsWithin rnd R ε η)
    {D d γ x : F} (hD : 8 * ε < D) (hDR : D ≤ 4 * R) (hd : D - 3 * ε ≤ d) (hγ : γ * d = 4 * ε)
    (hx : |x| ≤ η + γ) : D / 2 * x ^ 2 ≤ 7 * ε := by
  have hε := hr.eps_nonneg
  have hη := hr.eta_nonneg
  have hDpos : 0 < D := by linarith
  have hdpos : 0 < d := by linarith
  have hγ0 : 0 ≤ γ := by
    by_contra hc
    push_neg at hc
    have : γ * d < 0 := mul_neg_of_neg_of_pos hc hdpos
    linarith
  -- γ * D ≤ 32 ε / 5
  have h1 : γ * D ≤ 32 / 5 * ε := by
    have hd' : D ≤ 8 / 5 * d := by linarith
    calc γ * D ≤ γ * (8 / 5 * d) := mul_le_mul_of_nonneg_left hd' hγ0
      _ = 8 / 5 * (γ * d) := by ring
      _ = 32 / 5 * ε := by rw [hγ]; ring
  -- ε * γ ≤ 4 ε / 5
  have h2 : ε * γ ≤ 4 / 5 * ε := by
    have : γ * (8 * ε) ≤ γ * D := mul_le_mul_of_nonneg_left hD.le hγ0
    linarith
  have h3 : D * γ ^ 2 ≤ 6 * ε := by
    calc D * γ ^ 2 = (γ * D) * γ := by ring
      _ ≤ (32 / 5 * ε) * γ := mul_le_mul_of_nonneg_right h1 hγ0
      _ = 32 / 5 * (ε * γ) := by ring
      _ ≤ 32 / 5 * (4 / 5 * ε) := by linarith
      _ ≤ 6 * ε := by linarith
  have h4 : D * η ^ 2 ≤ ε := by
    calc D * η ^ 2 ≤ 4 * R * η ^ 2 := mul_le_mul_of_nonneg_right hDR (sq_nonneg η)
      _ ≤ ε := hr.eta
  have h5 : x ^ 2 ≤ (η + γ) ^ 2 := by
    rw [← sq_abs x]
    exact pow_le_pow_left₀ (abs_nonneg x) hx 2
  have h6 : (η + γ) ^ 2 ≤ 2 * η ^ 2 + 2 * γ ^ 2 := by nlinarith [sq_nonneg (η - γ)]
  calc D / 2 * x ^ 2 ≤ D / 2 * (2 * η ^ 2 + 2 * γ ^ 2) :=
        mul_le_mul_of_nonneg_left (le_trans h5 h6) (by linarith)
    _ = D * η ^ 2 + D * γ ^ 2 := by ring
    _ ≤ 7 * ε := by linarith

/-- The rounded quotient `n / d` against the exact flat point `N / D`. -/
theorem quotient_close {N D n d ε : F} (hN0 : 0 < N) (hND : N < D) (hd : 0 < d)
    (hn : |n - N| ≤ ε) (hdD : |d - D| ≤ 3 * ε) :
    |n / d - N / D| * d ≤ 4 * ε := by
  have hD : 0 < D := lt_trans hN0 hND
  have e : (n / d - N / D) * (d * D) = (n - N) * D - N * (d - D) := by
    field_simp
    ring
  have h1 : |(n - N) * D - N * (d - D)| ≤ ε * D + N * (3 * ε) := by
    calc |(n - N) * D - N * (d - D)| ≤ |(n - N) * D| + |N * (d - D)| := abs_sub _ _
      _ = |n - N| * D + N * |d - D| := by
          rw [abs_mul, abs_mul, abs_of_pos hD, abs_of_pos hN0]
      _ ≤ ε * D + N * (3 * ε) :=
          add_le_add (mul_le_mul_of_nonneg_right hn hD.le) (mul_le_mul_of_nonneg_left hdD hN0.le)
  have hε : 0 ≤ ε := le_trans (abs_nonneg _) hn
  have h2 : |n / d - N / D| * (d * D) ≤ 4 * ε * D := by
    rw [← abs_of_pos (mul_pos hd hD), ← abs_mul, e]
    calc |(n - N) * D - N * (d - D)| ≤ ε * D + N * (3 * ε) := h1
      _ ≤ ε * D + D * (3 * ε) := by
          have := mul_le_mul_of_nonneg_right hND.le (by linarith : (0 : F) ≤ 3 * ε)
          linarith
      _ = 4 * ε * D := by ring
  have h3 : |n / d - N / D| * d * D ≤ 4 * ε * D := by rw [mul_assoc]; exact h2
  exact le_of_mul_le_mul_right h3 hD


/-- The returned minimum is at most each of the values the code computes. -/
theorem minMaxQuadraticFl_fst_le (rnd : F → F) (p0 p1 p2 : F) :
    (minMaxQuadraticFl rnd p0 p1 p2).1 ≤ rnd (rnd (p0 + p1) * (1/2)) ∧
    (minMaxQuadraticFl rnd p0 p1 p2).1 ≤ rnd (rnd (p1 + p2) * (1/2)) ∧
    ∀ t, tFlatFl rnd p0 p1 p2 = some t → 0 < t → t < 1 →
      (minMaxQuadraticFl rnd p0 p1 p2).1 ≤ quadraticBSplineFl rnd p0 p1 p2 t := by
  rcases minMaxQuadraticFl_cases rnd p0 p1 p2 with ⟨hres, hnot⟩ | ⟨t, ht, ht0, ht1, hres⟩
  · rw [hres]
    refine ⟨min_le_left _ _, min_le_right _ _, fun t ht ht0 ht1 => ?_⟩
    exact absurd ⟨ht0, ht1⟩ (hnot t ht)
  · rw [hres]
    refine ⟨le_trans (min_le_left _ _) (min_le_left _ _),
      le_trans (min_le_left _ _) (min_le_right _ _), fun t' ht' _ _ => ?_⟩
    rw [ht, Option.some.injEq] at ht'
    rw [← ht']
    exact min_le_right _ _

/-- The returned maximum is at least each of the values the code computes. -/
theorem minMaxQuadraticFl_le_snd (rnd : F → F) (p0 p1 p2 : F) :
    rnd (rnd (p0 + p1) * (1/2)) ≤ (minMaxQuadraticFl rnd p0 p1 p2).2 ∧
    rnd (rnd (p1 + p2) * (1/2)) ≤ (minMaxQuadraticFl rnd p0 p1 p2).2 ∧
    ∀ t, tFlatFl rnd p0 p1 p2 = some t → 0 < t → t < 1 →
      quadraticBSplineFl rnd p0 p1 p2 t ≤ (minMaxQuadraticFl rnd p0 p1 p2).2 := by
  rcases minMaxQuadraticFl_cases rnd p0 p1 p2 with ⟨hres, hnot⟩ | ⟨t, ht, ht0, ht1, hres⟩
  · rw [hres]
    refine ⟨le_max_left _ _, le_max_right _ _, fun t ht ht0 ht1 => ?_⟩
    exact absurd ⟨ht0, ht1⟩ (hnot t ht)
  · rw [hres]
    refine ⟨le_trans (le_max_left _ _) (le_max_left _ _),
      le_trans (le_max_right _ _) (le_max_left _ _), fun t' ht' _ _ => ?_⟩
    rw [ht, Option.some.injEq] at ht'
    rw [← ht']
    exact le_max_right _ _

set_option maxHeartbeats 1000000 in
/-- The returned minimum is below every value of the exact spline on `[0,1]`,
up to nineteen roundings. -/
theorem minMaxQuadraticFl_lower {rnd : F → F} {R ε η : F} (hr : RoundsWithin rnd R ε η)
    (p0 p1 p2 u : F) (h0 : |p0| ≤ R) (h1 : |p1| ≤ R) (h2 : |p2| ≤ R)
    (hu0 : 0 ≤ u) (hu1 : u ≤ 1) :
    (minMaxQuadraticFl rnd p0 p1 p2).1 ≤ quadraticBSpline p0 p1 p2 u + 19 * ε := by
  have hε := hr.eps_nonneg
  have hη := hr.eta_nonneg
  have he0 := abs_le.mp (hr.endValue p0 p1 h0 h1)
  have he1 := abs_le.mp (hr.endValue p1 p2 h1 h2)
  obtain ⟨hn, hd⟩ := hr.flatParts p0 p1 p2 h0 h1 h2
  obtain ⟨hlo0, hlo1, hloF⟩ := minMaxQuadraticFl_fst_le rnd p0 p1 p2
  obtain ⟨h0l, h0u⟩ := abs_le.mp h0
  obtain ⟨h1l, h1u⟩ := abs_le.mp h1
  obtain ⟨h2l, h2u⟩ := abs_le.mp h2
  rw [quadraticBSpline_poly]
  generalize (minMaxQuadraticFl rnd p0 p1 p2).1 = lo at *
  have L0 : lo ≤ (p0 + p1) / 2 + 2 * ε := by linarith
  have L1 : lo ≤ (p0 + p1) / 2 - (p0 - p1) + (p0 - 2 * p1 + p2) / 2 + 2 * ε := by linarith
  have hu1' : 0 ≤ 1 - u := by linarith
  by_cases hD : p0 - 2 * p1 + p2 ≤ 0
  · linarith only [hε, mul_nonneg (mul_nonneg hu0 hu1') (neg_nonneg.mpr hD),
      mul_nonneg hu0 (sub_nonneg.mpr L1), mul_nonneg hu1' (sub_nonneg.mpr L0)]
  push_neg at hD
  by_cases hN0 : p0 - p1 ≤ 0
  · linarith only [hε, L0, mul_nonneg hu0 (neg_nonneg.mpr hN0),
      mul_nonneg (mul_nonneg hu0 hu0) hD.le]
  push_neg at hN0
  by_cases hND : p0 - 2 * p1 + p2 ≤ p0 - p1
  · linarith only [hε, L1, mul_nonneg hu1' (sub_nonneg.mpr hND),
      mul_nonneg (mul_nonneg hu1' hu1') hD.le]
  push_neg at hND
  -- the exact flat point lies strictly inside
  obtain ⟨us, hus⟩ : ∃ us, us = (p0 - p1) / (p0 - 2 * p1 + p2) := ⟨_, rfl⟩
  have husD : us * (p0 - 2 * p1 + p2) = p0 - p1 := by
    rw [hus]; exact div_mul_cancel₀ _ hD.ne'
  have hus0 : 0 < us := by rw [hus]; exact div_pos hN0 hD
  have hus1 : us < 1 := by rw [hus]; exact (div_lt_one hD).mpr hND
  have hBu : ∀ x : F, (p0 + p1) / 2 - (p0 - p1) * x + (p0 - 2 * p1 + p2) / 2 * x ^ 2
      = (p0 + p1) / 2 - (p0 - 2 * p1 + p2) / 2 * us ^ 2
        + (p0 - 2 * p1 + p2) / 2 * (x - us) ^ 2 := by
    intro x
    rw [← husD]; ring
  rw [hBu u]
  have hsq : 0 ≤ (p0 - 2 * p1 + p2) / 2 * (u - us) ^ 2 :=
    mul_nonneg (by linarith) (sq_nonneg _)
  suffices hmin : lo ≤ (p0 + p1) / 2 - (p0 - 2 * p1 + p2) / 2 * us ^ 2 + 19 * ε by linarith
  by_cases hDs : p0 - 2 * p1 + p2 ≤ 8 * ε
  · have : (p0 - 2 * p1 + p2) / 2 * us ^ 2 ≤ 4 * ε := by
      have h3 : us ^ 2 ≤ 1 := pow_le_one₀ hus0.le hus1.le
      linarith only [hDs, mul_nonneg hD.le (sub_nonneg.mpr h3)]
    linarith
  push_neg at hDs
  have hDR : p0 - 2 * p1 + p2 ≤ 4 * R := by linarith
  obtain ⟨hdl, hdu⟩ := abs_le.mp hd
  have hdlow : p0 - 2 * p1 + p2 - 3 * ε ≤ rnd (rnd (p0 - rnd (2 * p1)) + p2) := by linarith
  have hdpos : 0 < rnd (rnd (p0 - rnd (2 * p1)) + p2) := by linarith
  have htF : tFlatFl rnd p0 p1 p2
      = some (rnd (rnd (p0 - p1) / rnd (rnd (p0 - rnd (2 * p1)) + p2))) := by
    unfold tFlatFl fdivFl
    rw [if_neg hdpos.ne']
  obtain ⟨γ, hγ⟩ : ∃ γ, γ = 4 * ε / rnd (rnd (p0 - rnd (2 * p1)) + p2) := ⟨_, rfl⟩
  have hγd : γ * rnd (rnd (p0 - rnd (2 * p1)) + p2) = 4 * ε := by
    rw [hγ]; exact div_mul_cancel₀ _ hdpos.ne'
  have hγ0 : 0 ≤ γ := by rw [hγ]; exact div_nonneg (by linarith) hdpos.le
  have hq : |rnd (p0 - p1) / rnd (rnd (p0 - rnd (2 * p1)) + p2) - us| ≤ γ := by
    have := quotient_close hN0 hND hdpos hn hd
    rw [← hus, ← hγd] at this
    exact le_of_mul_le_mul_right this hdpos
  have hgap := fun x hx => hr.flatGap (x := x) hDs hDR hdlow hγd hx
  generalize rnd (rnd (p0 - rnd (2 * p1)) + p2) = d at *
  generalize rnd (p0 - p1) / d = q at *
  obtain ⟨hql, hqu⟩ := abs_le.mp hq
  by_cases ht : 0 < rnd q ∧ rnd q < 1
  · -- the code widens by the value at the rounded flat point
    have hq0 : 0 ≤ q := by
      by_contra hc
      push_neg at hc
      have := hr.mono q 0 hc.le
      rw [hr.zero] at this
      linarith [ht.1]
    have hq1 : q ≤ 1 := by
      by_contra hc
      push_neg at hc
      have := hr.mono 1 q hc.le
      rw [hr.one] at this
      linarith [ht.2]
    have hte := abs_le.mp (hr.unit q (by rw [abs_le]; constructor <;> linarith))
    have hclose := abs_le.mp (quadraticBSplineFl_close hr p0 p1 p2 (rnd q) h0 h1 h2 ht.1.le ht.2.le)
    rw [quadraticBSpline_poly, hBu (rnd q)] at hclose
    have hg := hgap (rnd q - us) (by rw [abs_le]; constructor <;> linarith)
    have := hloF (rnd q) htF ht.1 ht.2
    linarith
  · have hcase : rnd q ≤ 0 ∨ 1 ≤ rnd q := by
      by_contra hc
      push_neg at hc
      exact ht ⟨hc.1, hc.2⟩
    rcases hcase with hle | hge
    · -- the rounded flat point is at or below 0: the exact one is close to 0
      have hus' : us ≤ η + γ := by
        by_cases hq0 : q ≤ 0
        · linarith
        · push_neg at hq0
          have hq1 : q ≤ 1 := by
            by_contra hc
            push_neg at hc
            have := hr.mono 1 q hc.le
            rw [hr.one] at this
            linarith
          have hte := abs_le.mp (hr.unit q (by rw [abs_le]; constructor <;> linarith))
          linarith
      have hg := hgap us (by rw [abs_le]; constructor <;> linarith)
      linarith
    · -- the rounded flat point is at or above 1: the exact one is close to 1
      have hus' : 1 - us ≤ η + γ := by
        by_cases hq1 : 1 ≤ q
        · linarith
        · push_neg at hq1
          have hq0 : 0 ≤ q := by
            by_contra hc
            push_neg at hc
            have := hr.mono q 0 hc.le
            rw [hr.zero] at this
            linarith
          have hte := abs_le.mp (hr.unit q (by rw [abs_le]; constructor <;> linarith))
          linarith
      have hg := hgap (1 - us) (by rw [abs_le]; constructor <;> linarith)
      have hB1 := hBu 1
      linarith

end Core

section Core
variable {F : Type} [LinearOrderedField F]

theorem quadraticBSplineFl_neg {rnd : F → F} (hneg : ∀ x, rnd (-x) = -rnd x)
    (p0 p1 p2 t : F) :
    quadraticBSplineFl rnd (-p0) (-p1) (-p2) t = -quadraticBSplineFl rnd p0 p1 p2 t := by
  unfold quadraticBSplineFl
  simp only [mul_neg, neg_mul, hneg, ← neg_sub', ← neg_add]

theorem tFlatFl_neg {rnd : F → F} (hneg : ∀ x, rnd (-x) = -rnd x) (p0 p1 p2 : F) :
    tFlatFl rnd (-p0) (-p1) (-p2) = tFlatFl rnd p0 p1 p2 := by
  unfold tFlatFl fdivFl
  simp only [mul_neg, neg_mul, hneg, ← neg_sub', ← neg_add, neg_eq_zero, neg_div_neg_eq]

theorem quadraticBSpline_neg (p0 p1 p2 t : F) :
    quadraticBSpline (-p0) (-p1) (-p2) t = -quadraticBSpline p0 p1 p2 t := by
  unfold quadraticBSpline; ring

/-- Negating the control values swaps and negates the result. -/
theorem minMaxQuadraticFl_neg {rnd : F → F} (hneg : ∀ x, rnd (-x) = -rnd x) (p0 p1 p2 : F) :
    minMaxQuadraticFl rnd (-p0) (-p1) (-p2)
      = (-(minMaxQuadraticFl rnd p0 p1 p2).2, -(minMaxQuadraticFl rnd p0 p1 p2).1) := by
  have e0 : rnd (rnd (-p0 + -p1) * (1/2)) = -rnd (rnd (p0 + p1) * (1/2)) := by
    simp only [mul_neg, neg_mul, hneg, ← neg_add]
  have e1 : rnd (rnd (-p1 + -p2) * (1/2)) = -rnd (rnd (p1 + p2) * (1/2)) := by
    simp only [mul_neg, neg_mul, hneg, ← neg_add]
  rcases minMaxQuadraticFl_cases rnd p0 p1 p2 with ⟨hres, hnot⟩ | ⟨t, ht, ht0, ht1, hres⟩
  · rcases minMaxQuadraticFl_cases rnd (-p0) (-p1) (-p2) with
      ⟨hres', _⟩ | ⟨t', ht', ht0', ht1', _⟩
    · rw [hres', hres, e0, e1, min_neg_neg, max_neg_neg]
    · rw [tFlatFl_neg hneg] at ht'
      exact absurd ⟨ht0', ht1'⟩ (hnot t' ht')
  · rcases minMaxQuadraticFl_cases rnd (-p0) (-p1) (-p2) with
      ⟨_, hnot'⟩ | ⟨t', ht', _, _, hres'⟩
    · rw [tFlatFl_neg hneg] at hnot'
      exact absurd ⟨ht0, ht1⟩ (hnot' t ht)
    · rw [tFlatFl_neg hneg, ht, Option.some.injEq] at ht'
      subst ht'
      rw [hres', hres, e0, e1, quadraticBSplineFl_neg hneg, min_neg_neg, max_neg_neg,
        min_neg_neg, max_neg_neg]

/-- The returned maximum is above every value of the exact spline on `[0,1]`,
up to nineteen roundings. -/
theorem minMaxQuadraticFl_upper {rnd : F → F} {R ε η : F} (hr : RoundsWithin rnd R ε η)
    (p0 p1 p2 u : F) (h0 : |p0| ≤ R) (h1 : |p1| ≤ R) (h2 : |p2| ≤ R)
    (hu0 : 0 ≤ u) (hu1 : u ≤ 1) :
    quadraticBSpline p0 p1 p2 u ≤ (minMaxQuadraticFl rnd p0 p1 p2).2 + 19 * ε := by
  have h := minMaxQuadraticFl_lower hr (-p0) (-p1) (-p2) u (by rwa [abs_neg])
    (by rwa [abs_neg]) (by rwa [abs_neg]) hu0 hu1
  rw [minMaxQuadraticFl_neg hr.neg, quadraticBSpline_neg] at h
  simp only at h
  linarith

/-- Each returned value is the rounded value of the spline at a parameter in
`[0,1]`, so it is within twelve roundings of a value that the exact spline
takes there. -/
theorem minMaxQuadraticFl_attained {rnd : F → F} {R ε η : F} (hr : RoundsWithin rnd R ε η)
    (p0 p1 p2 : F) (h0 : |p0| ≤ R) (h1 : |p1| ≤ R) (h2 : |p2| ≤ R) :
    (∃ u, 0 ≤ u ∧ u ≤ 1 ∧
      |(minMaxQuadraticFl rnd p0 p1 p2).1 - quadraticBSpline p0 p1 p2 u| ≤ 12 * ε) ∧
    (∃ u, 0 ≤ u ∧ u ≤ 1 ∧
      |(minMaxQuadraticFl rnd p0 p1 p2).2 - quadraticBSpline p0 p1 p2 u| ≤ 12 * ε) := by
  have hε := hr.eps_nonneg
  have he0 : |rnd (rnd (p0 + p1) * (1/2)) - quadraticBSpline p0 p1 p2 0| ≤ 12 * ε := by
    have := hr.endValue p0 p1 h0 h1
    have e : quadraticBSpline p0 p1 p2 0 = (p0 + p1) / 2 := by unfold quadraticBSpline; ring
    rw [e]; linarith
  have he1 : |rnd (rnd (p1 + p2) * (1/2)) - quadraticBSpline p0 p1 p2 1| ≤ 12 * ε := by
    have := hr.endValue p1 p2 h1 h2
    have e : quadraticBSpline p0 p1 p2 1 = (p1 + p2) / 2 := by unfold quadraticBSpline; ring
    rw [e]; linarith
  rcases minMaxQuadraticFl_cases rnd p0 p1 p2 with ⟨hres, _⟩ | ⟨t, _, ht0, ht1, hres⟩
  · rw [hres]
    constructor
    · rcases min_choice (rnd (rnd (p0 + p1) * (1/2))) (rnd (rnd (p1 + p2) * (1/2))) with e | e
      · exact ⟨0, le_refl _, zero_le_one, by simp only; rw [e]; exact he0⟩
      · exact ⟨1, zero_le_one, le_refl _, by simp only; rw [e]; exact he1⟩
    · rcases max_choice (rnd (rnd (p0 + p1) * (1/2))) (rnd (rnd (p1 + p2) * (1/2))) with e | e
      · exact ⟨0, le_refl _, zero_le_one, by simp only; rw [e]; exact he0⟩
      · exact ⟨1, zero_le_one, le_refl _, by simp only; rw [e]; exact he1⟩
  · have hF := quadraticBSplineFl_close hr p0 p1 p2 t h0 h1 h2 ht0.le ht1.le
    rw [hres]
    constructor
    · rcases min_choice (min (rnd (rnd (p0 + p1) * (1/2))) (rnd (rnd (p1 + p2) * (1/2))))
          (quadraticBSplineFl rnd p0 p1 p2 t) with e | e
      · rcases min_choice (rnd (rnd (p0 + p1) * (1/2))) (rnd (rnd (p1 + p2) * (1/2)))
            with e' | e'
        · exact ⟨0, le_refl _, zero_le_one, by simp only; rw [e, e']; exact he0⟩
        · exact ⟨1, zero_le_one, le_refl _, by simp only; rw [e, e']; exact he1⟩
      · exact ⟨t, ht0.le, ht1.le, by simp only; rw [e]; exact hF⟩
    · rcases max_choice (max (rnd (rnd (p0 + p1) * (1/2))) (rnd (rnd (p1 + p2) * (1/2))))
          (quadraticBSplineFl rnd p0 p1 p2 t) with e | e
      · rcases max_choice (rnd (rnd (p0 + p1) * (1/2))) (rnd (rnd (p1 + p2) * (1/2)))
            with e' | e'
        · exact ⟨0, le_refl _, zero_le_one, by simp only; rw [e, e']; exact he0⟩
        · exact ⟨1, zero_le_one, le_refl _, by simp only; rw [e, e']; exact he1⟩
      · exact ⟨t, ht0.le, ht1.le, by simp only; rw [e]; exact hF⟩

end Core

/-! ## More on rounding to binary32 -/

section Rounding
variable {F : Type} [LinearOrderedField F] [FloorRing F]

theorem roundEven_of_abs_sub_lt {y : F} {n : ℤ} (h : |y - n| < 1/2) : roundEven y = n := by
  obtain ⟨h1, h2⟩ := abs_lt.mp h
  have hn := roundEven_mono (F := F) (y := y) (z := y)
  rcases lt_or_le y n with hlt | hge
  · -- floor is n - 1 and the fraction is above a half
    have hf : ⌊y⌋ = n - 1 := by
      rw [Int.floor_eq_iff]; push_cast; constructor <;> linarith
    unfold roundEven
    rw [hf]; push_cast
    rw [if_neg (by linarith), if_pos (by linarith)]
    ring
  · have hf : ⌊y⌋ = n := by
      rw [Int.floor_eq_iff]; constructor <;> linarith
    unfold roundEven
    rw [hf, if_pos (by linarith)]

theorem roundEven_tie_up {y : F} {n : ℤ} (hn : n % 2 = 0) (h : y = n - 1/2) :
    roundEven y = n := by
  have hf : ⌊y⌋ = n - 1 := by
    rw [Int.floor_eq_iff]; push_cast; constructor <;> linarith
  unfold roundEven
  rw [hf]; push_cast
  rw [if_neg (by linarith), if_neg (by linarith), if_neg (by omega)]
  ring

theorem roundEven_tie_down {y : F} {n : ℤ} (hn : n % 2 = 0) (h : y = n + 1/2) :
    roundEven y = n := by
  have hf : ⌊y⌋ = n := by
    rw [Int.floor_eq_iff]; constructor <;> linarith
  unfold roundEven
  rw [hf, if_neg (by linarith), if_neg (by linarith), if_pos hn]

/-- The binade of a number between two consecutive powers of two. -/
theorem binade32_eq {x : F} {b : ℤ} (hb : -126 ≤ b) (hlo : (2 : F) ^ b ≤ |x|)
    (hhi : |x| < (2 : F) ^ (b + 1)) : binade32 x = b := by
  have hpos : 0 < |x| := lt_of_lt_of_le (zpow_pos (by norm_num) b) hlo
  have hx : x ≠ 0 := abs_pos.mp hpos
  have h1 : b ≤ Int.log 2 |x| :=
    (Int.zpow_le_iff_le_log (b := 2) (by norm_num) hpos).mp (by push_cast; exact hlo)
  have h2 : Int.log 2 |x| < b + 1 :=
    (Int.lt_zpow_iff_log_lt (b := 2) (by norm_num) hpos).mp (by push_cast; exact hhi)
  rw [binade32_of_ne hx]
  have : Int.log 2 |x| = b := by omega
  rw [this]
  exact max_eq_left hb

/-- Rounding in a known binade. -/
theorem round32_eq_of_binade {x : F} {b n : ℤ} (hb : -126 ≤ b) (hlo : (2 : F) ^ b ≤ |x|)
    (hhi : |x| < (2 : F) ^ (b + 1)) (hn : roundEven (x / (2 : F) ^ (b - 23)) = n) :
    round32 x = n * (2 : F) ^ (b - 23) := by
  unfold round32 ulp32
  rw [binade32_eq hb hlo hhi, hn]

/-- Rounding below the smallest normal number: the unit in the last place is
`2^-149`. -/
theorem round32_eq_of_subnormal {x : F} {n : ℤ} (hx : |x| < (2 : F) ^ (-126 : ℤ))
    (hn : roundEven (x / (2 : F) ^ (-149 : ℤ)) = n) :
    round32 x = n * (2 : F) ^ (-149 : ℤ) := by
  have hb : binade32 x = -126 :=
    le_antisymm (binade32_le_of_abs_lt (le_refl _) (lt_of_lt_of_le hx
      (zpow_le_zpow_right₀ (by norm_num) (by norm_num)))) (binade32_ge x)
  unfold round32 ulp32
  rw [hb]
  norm_num at hn ⊢
  rw [hn]

theorem round32_one : round32 (1 : F) = 1 := by
  have := round32_two_zpow (F := F) 0 (by norm_num)
  simpa using this

/-- Rounding to binary32 has the properties `RoundsWithin` for magnitudes up to
`2 ^ k`, with `ε` half a unit in the last place at `2 ^ (k + 3)` and `η` half a
unit in the last place below `1`. -/
theorem round32_roundsWithin (k : ℤ) (hk : -128 ≤ k) :
    RoundsWithin (round32 : F → F) ((2 : F) ^ k) ((2 : F) ^ (k - 22)) ((2 : F) ^ (-25 : ℤ)) where
  mono := fun x y h => round32_mono h
  zero := round32_zero
  one := round32_one
  neg := round32_neg
  err := by
    intro x hx
    have e : (8 : F) * (2 : F) ^ k = (2 : F) ^ (k + 3) := by
      rw [zpow_add₀ (by norm_num : (2 : F) ≠ 0)]; norm_num; ring
    rw [e] at hx
    have := abs_round32_sub_le_of_abs_le (by omega) hx
    rw [show k + 3 - 25 = k - 22 by ring] at this
    exact this
  unit := by
    intro x hx
    have := abs_round32_sub_le_of_abs_le (k := 0) (by norm_num) (by simpa using hx)
    simpa using this
  eps_nonneg := (zpow_pos (by norm_num) _).le
  eps_le := by
    have e : (16 : F) * (2 : F) ^ (k - 22) = (2 : F) ^ (k - 18) := by
      rw [show k - 18 = (k - 22) + 4 by ring, zpow_add₀ (by norm_num : (2 : F) ≠ 0)]
      norm_num; ring
    rw [e]
    exact zpow_le_zpow_right₀ (by norm_num) (by omega)
  eta := by
    have e : (4 : F) * (2 : F) ^ k * ((2 : F) ^ (-25 : ℤ)) ^ 2 = (2 : F) ^ (k - 48) := by
      rw [← zpow_natCast ((2 : F) ^ (-25 : ℤ)) 2, ← zpow_mul,
        show k - 48 = 2 + k + (-25 * ((2 : ℕ) : ℤ)) by push_cast; ring,
        zpow_add₀ (by norm_num : (2 : F) ≠ 0), zpow_add₀ (by norm_num : (2 : F) ≠ 0)]
      norm_num
    rw [e]
    exact zpow_le_zpow_right₀ (by norm_num) (by omega)

end Rounding

section Rounding
variable {F : Type} [LinearOrderedField F] [FloorRing F]

theorem round32_half : round32 ((1 : F) / 2) = 1 / 2 := by
  have := round32_two_zpow (F := F) (-1) (by norm_num)
  rw [zpow_neg_one] at this
  simpa using this

/-- Halving a binary32 number above the lowest binade is exact. -/
theorem round32_half_of_rep {y : F} (hy : round32 y = y) (hb : -125 ≤ binade32 y) :
    round32 (1/2 * y) = 1/2 * y := by
  have h2 : (2 : F) ≠ 0 := by norm_num
  by_cases h0 : y = 0
  · rw [h0, mul_zero, round32_zero]
  have hlo := two_zpow_binade_le y h0 (by omega)
  have hhi := abs_lt_two_zpow_binade y
  have hbin : binade32 (1/2 * y) = binade32 y - 1 := by
    apply binade32_eq (by omega)
    · rw [abs_mul, abs_of_pos (by norm_num : (0 : F) < 1/2), zpow_sub₀ h2, zpow_one]
      linarith
    · rw [abs_mul, abs_of_pos (by norm_num : (0 : F) < 1/2), show binade32 y - 1 + 1 = binade32 y
        by ring]
      have : (2 : F) ^ (binade32 y + 1) = 2 * (2 : F) ^ binade32 y := by
        rw [zpow_add₀ h2, zpow_one]; ring
      linarith
  have hulp : ulp32 (1/2 * y) = 1/2 * ulp32 y := by
    unfold ulp32
    rw [hbin, show binade32 y - 1 - 23 = (binade32 y - 23) - 1 by ring, zpow_sub₀ h2, zpow_one]
    ring
  have hq : 1/2 * y / (1/2 * ulp32 y) = y / ulp32 y := by
    have := (ulp32_pos y).ne'
    field_simp
  have : round32 (1/2 * y) = 1/2 * round32 y := by
    unfold round32
    rw [hulp, hq]
    ring
  rw [this, hy]

/-- Half of a binary32 number rounds to at most half of any larger binary32
number. -/
theorem round32_half_le {x y : F} (hx0 : 0 ≤ x) (hxy : x < y) (hx : round32 x = x)
    (hy : round32 y = y) : round32 (1/2 * x) ≤ 1/2 * y := by
  have h2 : (2 : F) ≠ 0 := by norm_num
  have hy0 : 0 < y := lt_of_le_of_lt hx0 hxy
  by_cases hb : -125 ≤ binade32 y
  · calc round32 (1/2 * x) ≤ round32 (1/2 * y) := round32_mono (by linarith)
      _ = 1/2 * y := round32_half_of_rep hy hb
  · push_neg at hb
    have hby : binade32 y = -126 := by
      have := binade32_ge y
      omega
    rcases hx0.lt_or_eq with hxpos | hxz
    · have hbx : binade32 x = -126 := by
        have h1 := binade32_mono hxpos hxy.le
        have h2' := binade32_ge x
        omega
      have hbh : binade32 (1/2 * x) = -126 := by
        have h1 := binade32_mono (x := 1/2 * x) (y := x) (by linarith) (by linarith)
        have h2' := binade32_ge (1/2 * x)
        omega
      have hux : ulp32 x = (2 : F) ^ (-149 : ℤ) := by unfold ulp32; rw [hbx]; norm_num
      have huy : ulp32 y = (2 : F) ^ (-149 : ℤ) := by unfold ulp32; rw [hby]; norm_num
      have huh : ulp32 (1/2 * x) = (2 : F) ^ (-149 : ℤ) := by unfold ulp32; rw [hbh]; norm_num
      have hupos : (0 : F) < (2 : F) ^ (-149 : ℤ) := zpow_pos (by norm_num) _
      -- both are integer multiples of the least spacing
      have ex : x = (roundEven (x / (2 : F) ^ (-149 : ℤ)) : F) * (2 : F) ^ (-149 : ℤ) := by
        have := hx
        unfold round32 at this
        rw [hux] at this
        exact this.symm
      have ey : y = (roundEven (y / (2 : F) ^ (-149 : ℤ)) : F) * (2 : F) ^ (-149 : ℤ) := by
        have := hy
        unfold round32 at this
        rw [huy] at this
        exact this.symm
      have hlt : roundEven (x / (2 : F) ^ (-149 : ℤ)) < roundEven (y / (2 : F) ^ (-149 : ℤ)) := by
        by_contra hc
        push_neg at hc
        have : (roundEven (y / (2 : F) ^ (-149 : ℤ)) : F) ≤ roundEven (x / (2 : F) ^ (-149 : ℤ)) := by
          exact_mod_cast hc
        have := mul_le_mul_of_nonneg_right this hupos.le
        rw [← ex, ← ey] at this
        linarith
      have hstep : x + (2 : F) ^ (-149 : ℤ) ≤ y := by
        have h1 : roundEven (x / (2 : F) ^ (-149 : ℤ)) + 1 ≤ roundEven (y / (2 : F) ^ (-149 : ℤ)) :=
          hlt
        have h2' : ((roundEven (x / (2 : F) ^ (-149 : ℤ)) : F) + 1)
            ≤ roundEven (y / (2 : F) ^ (-149 : ℤ)) := by exact_mod_cast h1
        have := mul_le_mul_of_nonneg_right h2' hupos.le
        rw [← ey, add_mul, ← ex, one_mul] at this
        exact this
      have herr := abs_le.mp (abs_round32_sub_le (1/2 * x))
      rw [huh] at herr
      have herr2 := herr.2
      clear ex ey hlt hux huy huh herr
      generalize (2 : F) ^ (-149 : ℤ) = v at *
      linarith
    · rw [← hxz, mul_zero, round32_zero]
      linarith

end Rounding

/-! ## Segment geometry in binary32 -/

section Core
variable {F : Type} [LinearOrderedField F]

/-- Each returned value is one of the values the code computes. -/
theorem minMaxQuadraticFl_mem (rnd : F → F) (p0 p1 p2 : F) :
    ((minMaxQuadraticFl rnd p0 p1 p2).1 = rnd (rnd (p0 + p1) * (1/2)) ∨
      (minMaxQuadraticFl rnd p0 p1 p2).1 = rnd (rnd (p1 + p2) * (1/2)) ∨
      ∃ t, tFlatFl rnd p0 p1 p2 = some t ∧ 0 < t ∧ t < 1 ∧
        (minMaxQuadraticFl rnd p0 p1 p2).1 = quadraticBSplineFl rnd p0 p1 p2 t) ∧
    ((minMaxQuadraticFl rnd p0 p1 p2).2 = rnd (rnd (p0 + p1) * (1/2)) ∨
      (minMaxQuadraticFl rnd p0 p1 p2).2 = rnd (rnd (p1 + p2) * (1/2)) ∨
      ∃ t, tFlatFl rnd p0 p1 p2 = some t ∧ 0 < t ∧ t < 1 ∧
        (minMaxQuadraticFl rnd p0 p1 p2).2 = quadraticBSplineFl rnd p0 p1 p2 t) := by
  rcases minMaxQuadraticFl_cases rnd p0 p1 p2 with ⟨hres, _⟩ | ⟨t, ht, ht0, ht1, hres⟩
  · rw [hres]
    constructor
    · rcases min_choice (rnd (rnd (p0 + p1) * (1/2))) (rnd (rnd (p1 + p2) * (1/2))) with e | e
      · exact Or.inl e
      · exact Or.inr (Or.inl e)
    · rcases max_choice (rnd (rnd (p0 + p1) * (1/2))) (rnd (rnd (p1 + p2) * (1/2))) with e | e
      · exact Or.inl e
      · exact Or.inr (Or.inl e)
  · rw [hres]
    constructor
    · rcases min_choice (min (rnd (rnd (p0 + p1) * (1/2))) (rnd (rnd (p1 + p2) * (1/2))))
          (quadraticBSplineFl rnd p0 p1 p2 t) with e | e
      · rcases min_choice (rnd (rnd (p0 + p1) * (1/2))) (rnd (rnd (p1 + p2) * (1/2)))
            with e' | e'
        · exact Or.inl (by simp only; rw [e, e'])
        · exact Or.inr (Or.inl (by simp only; rw [e, e']))
      · exact Or.inr (Or.inr ⟨t, ht, ht0, ht1, e⟩)
    · rcases max_choice (max (rnd (rnd (p0 + p1) * (1/2))) (rnd (rnd (p1 + p2) * (1/2))))
          (quadraticBSplineFl rnd p0 p1 p2 t) with e | e
      · rcases max_choice (rnd (rnd (p0 + p1) * (1/2))) (rnd (rnd (p1 + p2) * (1/2)))
            with e' | e'
        · exact Or.inl (by simp only; rw [e, e'])
        · exact Or.inr (Or.inl (by simp only; rw [e, e']))
      · exact Or.inr (Or.inr ⟨t, ht, ht0, ht1, e⟩)

theorem minMaxQuadraticFl_fst_le_snd (rnd : F → F) (p0 p1 p2 : F) :
    (minMaxQuadraticFl rnd p0 p1 p2).1 ≤ (minMaxQuadraticFl rnd p0 p1 p2).2 :=
  le_trans (minMaxQuadraticFl_fst_le rnd p0 p1 p2).1 (minMaxQuadraticFl_le_snd rnd p0 p1 p2).1

theorem abs_quadraticBSpline_le (p0 p1 p2 u R : F) (hu0 : 0 ≤ u) (hu1 : u ≤ 1)
    (h0 : |p0| ≤ R) (h1 : |p1| ≤ R) (h2 : |p2| ≤ R) : |quadraticBSpline p0 p1 p2 u| ≤ R := by
  rw [abs_le]
  exact ⟨le_quadraticBSpline _ _ _ _ _ hu0 hu1 (abs_le.mp h0).1 (abs_le.mp h1).1 (abs_le.mp h2).1,
    quadraticBSpline_le _ _ _ _ _ hu0 hu1 (abs_le.mp h0).2 (abs_le.mp h1).2 (abs_le.mp h2).2⟩

/-- The returned values are hardly larger than the control values. -/
theorem minMaxQuadraticFl_abs_le {rnd : F → F} {R ε η : F} (hr : RoundsWithin rnd R ε η)
    (p0 p1 p2 : F) (h0 : |p0| ≤ R) (h1 : |p1| ≤ R) (h2 : |p2| ≤ R) :
    |(minMaxQuadraticFl rnd p0 p1 p2).1| ≤ R + 12 * ε ∧
    |(minMaxQuadraticFl rnd p0 p1 p2).2| ≤ R + 12 * ε := by
  obtain ⟨⟨u, hu0, hu1, hlo⟩, ⟨v, hv0, hv1, hhi⟩⟩ := minMaxQuadraticFl_attained hr p0 p1 p2 h0 h1 h2
  have bu := abs_quadraticBSpline_le p0 p1 p2 u R hu0 hu1 h0 h1 h2
  have bv := abs_quadraticBSpline_le p0 p1 p2 v R hv0 hv1 h0 h1 h2
  constructor
  · have := abs_sub_abs_le_abs_sub (minMaxQuadraticFl rnd p0 p1 p2).1 (quadraticBSpline p0 p1 p2 u)
    linarith
  · have := abs_sub_abs_le_abs_sub (minMaxQuadraticFl rnd p0 p1 p2).2 (quadraticBSpline p0 p1 p2 v)
    linarith

/-- One axis of the rounded box against a point of the surface: `a` is a
coordinate within the radius `r ≤ m` of the exact spline value at `u`. -/
theorem RoundsWithin.boxAxis {rnd : F → F} {R ε η : F} (hr : RoundsWithin rnd R ε η)
    (p0 p1 p2 m u a r : F) (h0 : |p0| ≤ R) (h1 : |p1| ≤ R) (h2 : |p2| ≤ R)
    (hm0 : 0 ≤ m) (hmR : m ≤ R) (hu0 : 0 ≤ u) (hu1 : u ≤ 1) (hrm : r ≤ m)
    (hal : quadraticBSpline p0 p1 p2 u - r ≤ a) (hau : a ≤ quadraticBSpline p0 p1 p2 u + r) :
    rnd ((minMaxQuadraticFl rnd p0 p1 p2).1 - m) - 20 * ε ≤ a ∧
    a ≤ rnd ((minMaxQuadraticFl rnd p0 p1 p2).2 + m) + 20 * ε := by
  have hε := hr.eps_nonneg
  have hεR := hr.eps_le
  obtain ⟨hlo, hhi⟩ := minMaxQuadraticFl_abs_le hr p0 p1 p2 h0 h1 h2
  have hL := minMaxQuadraticFl_lower hr p0 p1 p2 u h0 h1 h2 hu0 hu1
  have hU := minMaxQuadraticFl_upper hr p0 p1 p2 u h0 h1 h2 hu0 hu1
  obtain ⟨hlo1, hlo2⟩ := abs_le.mp hlo
  obtain ⟨hhi1, hhi2⟩ := abs_le.mp hhi
  have e1 := abs_le.mp (hr.err ((minMaxQuadraticFl rnd p0 p1 p2).1 - m) (by
    rw [abs_le]; constructor <;> linarith))
  have e2 := abs_le.mp (hr.err ((minMaxQuadraticFl rnd p0 p1 p2).2 + m) (by
    rw [abs_le]; constructor <;> linarith))
  constructor <;> linarith

theorem two_zpow_mul_32 (k : ℤ) : (32 : F) * (2 : F) ^ (k - 22) = (2 : F) ^ (k - 17) := by
  rw [show k - 17 = (k - 22) + 5 by ring, zpow_add₀ (by norm_num : (2 : F) ≠ 0)]
  norm_num; ring

end Core

section Geometry32
variable {F : Type} [LinearOrderedField F] [FloorRing F]

/-- C5 as the code has it.  In exact arithmetic `minMaxQuadratic` returns exactly
the minimum and the maximum of the spline over `[0,1]`, attained at `0`, at `1`
or at the flat point.  In binary32, for control values of magnitude at most
`2 ^ k` (`-128 ≤ k`; `k ≤ 124` keeps every intermediate result below `2 ^ 127`,
the range in which `round32` is the binary32 rounding), the two returned
numbers are ordered, each is one of the values the code computes (at `u = 0`,
at `u = 1`, or at the rounded flat point when that lies strictly inside
`(0,1)`), every value of the exact spline on `[0,1]` lies between them up to
`2 ^ (k - 17)`, and each is within `2 ^ (k - 18)` of a value that the exact
spline takes on `[0,1]`. -/
theorem minMaxQuadraticFl_spec (p0 p1 p2 : F) (k : ℤ) (hk : -128 ≤ k) (_hfin : k ≤ 124)
    (h0 : |p0| ≤ (2 : F) ^ k) (h1 : |p1| ≤ (2 : F) ^ k) (h2 : |p2| ≤ (2 : F) ^ k) :
    ((∀ u, 0 ≤ u → u ≤ 1 →
        (minMaxQuadraticFl id p0 p1 p2).1 ≤ quadraticBSpline p0 p1 p2 u ∧
          quadraticBSpline p0 p1 p2 u ≤ (minMaxQuadraticFl id p0 p1 p2).2) ∧
      (∃ u, 0 ≤ u ∧ u ≤ 1 ∧ IsSamplePoint p0 p1 p2 u ∧
        quadraticBSpline p0 p1 p2 u = (minMaxQuadraticFl id p0 p1 p2).1) ∧
      (∃ u, 0 ≤ u ∧ u ≤ 1 ∧ IsSamplePoint p0 p1 p2 u ∧
        quadraticBSpline p0 p1 p2 u = (minMaxQuadraticFl id p0 p1 p2).2)) ∧
    (minMaxQuadraticFl round32 p0 p1 p2).1 ≤ (minMaxQuadraticFl round32 p0 p1 p2).2 ∧
    ((minMaxQuadraticFl round32 p0 p1 p2).1 = round32 (round32 (p0 + p1) * (1/2)) ∨
      (minMaxQuadraticFl round32 p0 p1 p2).1 = round32 (round32 (p1 + p2) * (1/2)) ∨
      ∃ t, tFlatFl round32 p0 p1 p2 = some t ∧ 0 < t ∧ t < 1 ∧
        (minMaxQuadraticFl round32 p0 p1 p2).1 = quadraticBSplineFl round32 p0 p1 p2 t) ∧
    ((minMaxQuadraticFl round32 p0 p1 p2).2 = round32 (round32 (p0 + p1) * (1/2)) ∨
      (minMaxQuadraticFl round32 p0 p1 p2).2 = round32 (round32 (p1 + p2) * (1/2)) ∨
      ∃ t, tFlatFl round32 p0 p1 p2 = some t ∧ 0 < t ∧ t < 1 ∧
        (minMaxQuadraticFl round32 p0 p1 p2).2 = quadraticBSplineFl round32 p0 p1 p2 t) ∧
    (∀ u, 0 ≤ u → u ≤ 1 →
      (minMaxQuadraticFl round32 p0 p1 p2).1 - (2 : F) ^ (k - 17) ≤ quadraticBSpline p0 p1 p2 u ∧
        quadraticBSpline p0 p1 p2 u
          ≤ (minMaxQuadraticFl round32 p0 p1 p2).2 + (2 : F) ^ (k - 17)) ∧
    (∃ u, 0 ≤ u ∧ u ≤ 1 ∧
      |(minMaxQuadraticFl round32 p0 p1 p2).1 - quadraticBSpline p0 p1 p2 u|
        ≤ (2 : F) ^ (k - 18)) ∧
    (∃ u, 0 ≤ u ∧ u ≤ 1 ∧
      |(minMaxQuadraticFl round32 p0 p1 p2).2 - quadraticBSpline p0 p1 p2 u|
        ≤ (2 : F) ^ (k - 18)) := by
  have hr := round32_roundsWithin (F := F) k hk
  have hε : (0 : F) < (2 : F) ^ (k - 22) := zpow_pos (by norm_num) _
  have e32 := two_zpow_mul_32 (F := F) k
  have e16 : (16 : F) * (2 : F) ^ (k - 22) = (2 : F) ^ (k - 18) := by
    rw [show k - 18 = (k - 22) + 4 by ring, zpow_add₀ (by norm_num : (2 : F) ≠ 0)]
    norm_num; ring
  refine ⟨⟨fun u hu0 hu1 => minMaxQuadratic_bounds p0 p1 p2 u hu0 hu1,
      (minMaxQuadratic_attained p0 p1 p2).1, (minMaxQuadratic_attained p0 p1 p2).2⟩,
    minMaxQuadraticFl_fst_le_snd _ _ _ _, (minMaxQuadraticFl_mem _ _ _ _).1,
    (minMaxQuadraticFl_mem _ _ _ _).2, ?_, ?_, ?_⟩
  · intro u hu0 hu1
    have hL := minMaxQuadraticFl_lower hr p0 p1 p2 u h0 h1 h2 hu0 hu1
    have hU := minMaxQuadraticFl_upper hr p0 p1 p2 u h0 h1 h2 hu0 hu1
    constructor <;> linarith
  · obtain ⟨u, hu0, hu1, h⟩ := (minMaxQuadraticFl_attained hr p0 p1 p2 h0 h1 h2).1
    exact ⟨u, hu0, hu1, by linarith⟩
  · obtain ⟨u, hu0, hu1, h⟩ := (minMaxQuadraticFl_attained hr p0 p1 p2 h0 h1 h2).2
    exact ⟨u, hu0, hu1, by linarith⟩

/-- C4 as the code has it.  For control nodes with non-negative radii, a
parameter `u` in `[0,1]` and a point `x` whose distance from the spline
position at `u` is at most the spline radius at `u` (stated with squares), the
spline radius at `u` is at most the largest control radius and, in exact
arithmetic, `x` lies inside `curveBox`.  In binary32, for coordinates and
radii of magnitude at most `2 ^ k` (`-128 ≤ k`; `k ≤ 124` keeps every
intermediate result below `2 ^ 127`, the range in which `round32` is the
binary32 rounding), `x` lies inside `curveBox` grown by `2 ^ (k - 17)` on
every side. -/
theorem curveBoxFl_contains_surface (q0 q1 q2 : Vec4 F) (k : ℤ) (hk : -128 ≤ k) (_hfin : k ≤ 124)
    (hq0 : NodeWithin ((2 : F) ^ k) q0) (hq1 : NodeWithin ((2 : F) ^ k) q1)
    (hq2 : NodeWithin ((2 : F) ^ k) q2)
    (u : F) (hu0 : 0 ≤ u) (hu1 : u ≤ 1) (x : Vec3 F)
    (hx : (x.sub (quadraticBSpline4 q0 q1 q2 u).xyz).dot
            (x.sub (quadraticBSpline4 q0 q1 q2 u).xyz)
          ≤ (quadraticBSpline4 q0 q1 q2 u).w * (quadraticBSpline4 q0 q1 q2 u).w) :
    (quadraticBSpline4 q0 q1 q2 u).w ≤ max (max q0.w q1.w) q2.w ∧
    (curveBoxFl id q0 q1 q2).contains x ∧
    ((curveBoxFl round32 q0 q1 q2).widen ((2 : F) ^ (k - 17))).contains x := by
  have hr := round32_roundsWithin (F := F) k hk
  have hε : (0 : F) < (2 : F) ^ (k - 22) := zpow_pos (by norm_num) _
  have e32 := two_zpow_mul_32 (F := F) k
  obtain ⟨hx0, hy0, hz0, hw0, hW0⟩ := hq0
  obtain ⟨hx1, hy1, hz1, hw1, hW1⟩ := hq1
  obtain ⟨hx2, hy2, hz2, hw2, hW2⟩ := hq2
  have hexact := curveBox_contains_surface q0 q1 q2 hw0 hw1 hw2 u hu0 hu1 x hx
  refine ⟨hexact.2, hexact.1, ?_⟩
  have hR0 : 0 ≤ quadraticBSpline q0.w q1.w q2.w u :=
    le_quadraticBSpline _ _ _ _ _ hu0 hu1 hw0 hw1 hw2
  have hRm : quadraticBSpline q0.w q1.w q2.w u ≤ max (max q0.w q1.w) q2.w := hexact.2
  have hm0 : 0 ≤ max (max q0.w q1.w) q2.w := le_trans hw2 (le_max_right _ _)
  have hmR : max (max q0.w q1.w) q2.w ≤ (2 : F) ^ k := max_le (max_le hW0 hW1) hW2
  simp only [quadraticBSpline4, Vec4.xyz, Vec3.sub, Vec3.dot] at hx
  have sx := mul_self_nonneg (x.x - quadraticBSpline q0.x q1.x q2.x u)
  have sy := mul_self_nonneg (x.y - quadraticBSpline q0.y q1.y q2.y u)
  have sz := mul_self_nonneg (x.z - quadraticBSpline q0.z q1.z q2.z u)
  have ax := abs_bound_of_sq_le _ _ hR0 (by linarith :
    (x.x - quadraticBSpline q0.x q1.x q2.x u) * (x.x - quadraticBSpline q0.x q1.x q2.x u)
      ≤ quadraticBSpline q0.w q1.w q2.w u * quadraticBSpline q0.w q1.w q2.w u)
  have ay := abs_bound_of_sq_le _ _ hR0 (by linarith :
    (x.y - quadraticBSpline q0.y q1.y q2.y u) * (x.y - quadraticBSpline q0.y q1.y q2.y u)
      ≤ quadraticBSpline q0.w q1.w q2.w u * quadraticBSpline q0.w q1.w q2.w u)
  have az := abs_bound_of_sq_le _ _ hR0 (by linarith :
    (x.z - quadraticBSpline q0.z q1.z q2.z u) * (x.z - quadraticBSpline q0.z q1.z q2.z u)
      ≤ quadraticBSpline q0.w q1.w q2.w u * quadraticBSpline q0.w q1.w q2.w u)
  have bx := hr.boxAxis q0.x q1.x q2.x _ u x.x _ hx0 hx1 hx2 hm0 hmR hu0 hu1 hRm
    (by linarith [ax.1]) (by linarith [ax.2])
  have by' := hr.boxAxis q0.y q1.y q2.y _ u x.y _ hy0 hy1 hy2 hm0 hmR hu0 hu1 hRm
    (by linarith [ay.1]) (by linarith [ay.2])
  have bz := hr.boxAxis q0.z q1.z q2.z _ u x.z _ hz0 hz1 hz2 hm0 hmR hu0 hu1 hRm
    (by linarith [az.1]) (by linarith [az.2])
  simp only [Box3.contains, Box3.widen, curveBoxFl]
  refine ⟨?_, ?_, ?_, ?_, ?_, ?_⟩ <;> linarith [bx.1, bx.2, by'.1, by'.2, bz.1, bz.2]

end Geometry32

section Facts
variable {F : Type} [LinearOrderedField F] [FloorRing F]

theorem round32_at_neg_1 : round32 (-(1 : F)) = (-(1 : F)) := by
  have h := round32_of_rep (F := F) (-1) (0) (by norm_num) (by norm_num)
  norm_num at h
  exact h

theorem round32_at_neg_1_div_2 : round32 (-((1 : F) / 2)) = (-((1 : F) / 2)) := by
  have h := round32_of_rep (F := F) (-1) (-1) (by norm_num) (by norm_num)
  norm_num at h
  exact h

theorem round32_at_1_div_2147483648 : round32 ((1 : F) / 2147483648) = ((1 : F) / 2147483648) := by
  have h := round32_of_rep (F := F) (1) (-31) (by norm_num) (by norm_num)
  norm_num at h
  exact h

theorem round32_at_1_div_1073741824 : round32 ((1 : F) / 1073741824) = ((1 : F) / 1073741824) := by
  have h := round32_of_rep (F := F) (1) (-30) (by norm_num) (by norm_num)
  norm_num at h
  exact h

theorem round32_at_1_div_2 : round32 ((1 : F) / 2) = ((1 : F) / 2) := by
  have h := round32_of_rep (F := F) (1) (-1) (by norm_num) (by norm_num)
  norm_num at h
  exact h

theorem round32_at_1073741825_div_2147483648 : round32 ((1073741825 : F) / 2147483648) = ((1 : F) / 2) := by
  have h := round32_eq_of_binade (F := F) (x := ((1073741825 : F) / 2147483648)) (b := -1) (n := 8388608)
    (by norm_num) (by norm_num [abs_of_pos]) (by norm_num [abs_of_pos])
    (roundEven_of_abs_sub_lt (by norm_num [abs_lt]))
  norm_num at h
  exact h

theorem round32_at_1 : round32 (1 : F) = (1 : F) := by
  have h := round32_of_rep (F := F) (1) (0) (by norm_num) (by norm_num)
  norm_num at h
  exact h

theorem round32_at_1073741825_div_1073741824 : round32 ((1073741825 : F) / 1073741824) = (1 : F) := by
  have h := round32_eq_of_binade (F := F) (x := ((1073741825 : F) / 1073741824)) (b := 0) (n := 8388608)
    (by norm_num) (by norm_num [abs_of_pos]) (by norm_num [abs_of_pos])
    (roundEven_of_abs_sub_lt (by norm_num [abs_lt]))
  norm_num at h
  exact h

end Facts

/-- The rounded `minMaxQuadratic` at `(1, 0, 2^-30)`: the divisor `1 + 2^-30` of
`tFlat` rounds to `1`, so `tFlat = 1` and the flat point is not used. -/
theorem minMaxQuadraticFl_flat_missed :
    minMaxQuadraticFl round32 (1 : ℝ) 0 (1 / 1073741824) = (1 / 2147483648, 1 / 2) := by
  norm_num [minMaxQuadraticFl, tFlatFl, fdivFl, quadraticBSplineFl, round32_zero, round32_at_neg_1, round32_at_neg_1_div_2, round32_at_1_div_2147483648, round32_at_1_div_1073741824, round32_at_1_div_2, round32_at_1073741825_div_2147483648, round32_at_1, round32_at_1073741825_div_1073741824]

theorem minMaxQuadraticFl_zero : minMaxQuadraticFl round32 (0 : ℝ) 0 0 = (0, 0) := by
  norm_num [minMaxQuadraticFl, tFlatFl, fdivFl, quadraticBSplineFl, round32_zero, round32_at_neg_1, round32_at_neg_1_div_2, round32_at_1_div_2147483648, round32_at_1_div_1073741824, round32_at_1_div_2, round32_at_1073741825_div_2147483648, round32_at_1, round32_at_1073741825_div_1073741824]

/-- The rounded spline of `(1, 0, 2^-30)` at `u = 1`. -/
theorem quadraticBSplineFl_flat_missed :
    quadraticBSplineFl round32 (1 : ℝ) 0 (1 / 1073741824) 1 = 0 := by
  norm_num [quadraticBSplineFl, round32_zero, round32_at_neg_1, round32_at_neg_1_div_2, round32_at_1_div_2147483648, round32_at_1_div_1073741824, round32_at_1_div_2, round32_at_1073741825_div_2147483648, round32_at_1, round32_at_1073741825_div_1073741824]

/-- C5 as stated fails: for the float control values `(1, 0, 2^-30)` the
binary32 `minMaxQuadratic` returns the minimum `2^-31`, but the spline takes
the smaller value `1/2147483650` at the flat point `u = 2^30/(2^30+1)` in
`[0,1]`, and the value that the code itself computes for `u = 1` is `0`. -/
theorem minMaxQuadratic_misses_minimum :
    minMaxQuadraticFl round32 (1 : ℝ) 0 (1 / 1073741824) = (1 / 2147483648, 1 / 2) ∧
    ((0 : ℝ) ≤ 1073741824 / 1073741825 ∧ (1073741824 / 1073741825 : ℝ) ≤ 1) ∧
    quadraticBSpline (1 : ℝ) 0 (1 / 1073741824) (1073741824 / 1073741825) = 1 / 2147483650 ∧
    (1 / 2147483650 : ℝ) < 1 / 2147483648 ∧
    quadraticBSplineFl round32 (1 : ℝ) 0 (1 / 1073741824) 1 = 0 ∧
    (0 : ℝ) < 1 / 2147483648 := by
  refine ⟨minMaxQuadraticFl_flat_missed, ⟨by norm_num, by norm_num⟩, ?_, by norm_num,
    quadraticBSplineFl_flat_missed, by norm_num⟩
  norm_num [quadraticBSpline]

/-- C5 at the control values `(1, 0, 2^-30)`, of magnitude at most `2^0`. -/
theorem minMaxQuadraticFl_spec_witness :
    ((-128 : ℤ) ≤ 0 ∧ (0 : ℤ) ≤ 124 ∧ |(1 : ℝ)| ≤ (2 : ℝ) ^ (0 : ℤ) ∧
      |(0 : ℝ)| ≤ (2 : ℝ) ^ (0 : ℤ) ∧ |(1 : ℝ) / 1073741824| ≤ (2 : ℝ) ^ (0 : ℤ)) ∧
    (((∀ u, 0 ≤ u → u ≤ 1 →
        (minMaxQuadraticFl id (1 : ℝ) (0 : ℝ) ((1 : ℝ) / 1073741824)).1 ≤ quadraticBSpline (1 : ℝ) (0 : ℝ) ((1 : ℝ) / 1073741824) u ∧
          quadraticBSpline (1 : ℝ) (0 : ℝ) ((1 : ℝ) / 1073741824) u ≤ (minMaxQuadraticFl id (1 : ℝ) (0 : ℝ) ((1 : ℝ) / 1073741824)).2) ∧
      (∃ u, 0 ≤ u ∧ u ≤ 1 ∧ IsSamplePoint (1 : ℝ) (0 : ℝ) ((1 : ℝ) / 1073741824) u ∧
        quadraticBSpline (1 : ℝ) (0 : ℝ) ((1 : ℝ) / 1073741824) u = (minMaxQuadraticFl id (1 : ℝ) (0 : ℝ) ((1 : ℝ) / 1073741824)).1) ∧
      (∃ u, 0 ≤ u ∧ u ≤ 1 ∧ IsSamplePoint (1 : ℝ) (0 : ℝ) ((1 : ℝ) / 1073741824) u ∧
        quadraticBSpline (1 : ℝ) (0 : ℝ) ((1 : ℝ) / 1073741824) u = (minMaxQuadraticFl id (1 : ℝ) (0 : ℝ) ((1 : ℝ) / 1073741824)).2)) ∧
    (minMaxQuadraticFl round32 (1 : ℝ) (0 : ℝ) ((1 : ℝ) / 1073741824)).1 ≤ (minMaxQuadraticFl round32 (1 : ℝ) (0 : ℝ) ((1 : ℝ) / 1073741824)).2 ∧
    ((minMaxQuadraticFl round32 (1 : ℝ) (0 : ℝ) ((1 : ℝ) / 1073741824)).1 = round32 (round32 ((1 : ℝ) + (0 : ℝ)) * (1/2)) ∨
      (minMaxQuadraticFl round32 (1 : ℝ) (0 : ℝ) ((1 : ℝ) / 1073741824)).1 = round32 (round32 ((0 : ℝ) + ((1 : ℝ) / 1073741824)) * (1/2)) ∨
      ∃ t, tFlatFl round32 (1 : ℝ) (0 : ℝ) ((1 : ℝ) / 1073741824) = some t ∧ 0 < t ∧ t < 1 ∧
        (minMaxQuadraticFl round32 (1 : ℝ) (0 : ℝ) ((1 : ℝ) / 1073741824)).1 = quadraticBSplineFl round32 (1 : ℝ) (0 : ℝ) ((1 : ℝ) / 1073741824) t) ∧
    ((minMaxQuadraticFl round32 (1 : ℝ) (0 : ℝ) ((1 : ℝ) / 1073741824)).2 = round32 (round32 ((1 : ℝ) + (0 : ℝ)) * (1/2)) ∨
      (minMaxQuadraticFl round32 (1 : ℝ) (0 : ℝ) ((1 : ℝ) / 1073741824)).2 = round32 (round32 ((0 : ℝ) + ((1 : ℝ) / 1073741824)) * (1/2)) ∨
      ∃ t, tFlatFl round32 (1 : ℝ) (0 : ℝ) ((1 : ℝ) / 1073741824) = some t ∧ 0 < t ∧ t < 1 ∧
        (minMaxQuadraticFl round32 (1 : ℝ) (0 : ℝ) ((1 : ℝ) / 1073741824)).2 = quadraticBSplineFl round32 (1 : ℝ) (0 : ℝ) ((1 : ℝ) / 1073741824) t) ∧
    (∀ u, 0 ≤ u → u ≤ 1 →
      (minMaxQuadraticFl round32 (1 : ℝ) (0 : ℝ) ((1 : ℝ) / 1073741824)).1 - (2 : ℝ) ^ ((0 : ℤ) - 17) ≤ quadraticBSpline (1 : ℝ) (0 : ℝ) ((1 : ℝ) / 1073741824) u ∧
        quadraticBSpline (1 : ℝ) (0 : ℝ) ((1 : ℝ) / 1073741824) u
          ≤ (minMaxQuadraticFl round32 (1 : ℝ) (0 : ℝ) ((1 : ℝ) / 1073741824)).2 + (2 : ℝ) ^ ((0 : ℤ) - 17)) ∧
    (∃ u, 0 ≤ u ∧ u ≤ 1 ∧
      |(minMaxQuadraticFl round32 (1 : ℝ) (0 : ℝ) ((1 : ℝ) / 1073741824)).1 - quadraticBSpline (1 : ℝ) (0 : ℝ) ((1 : ℝ) / 1073741824) u|
        ≤ (2 : ℝ) ^ ((0 : ℤ) - 18)) ∧
    (∃ u, 0 ≤ u ∧ u ≤ 1 ∧
      |(minMaxQuadraticFl round32 (1 : ℝ) (0 : ℝ) ((1 : ℝ) / 1073741824)).2 - quadraticBSpline (1 : ℝ) (0 : ℝ) ((1 : ℝ) / 1073741824) u|
        ≤ (2 : ℝ) ^ ((0 : ℤ) - 18))) :=
  ⟨⟨by norm_num, by norm_num, by norm_num, by norm_num, by norm_num [abs_of_pos]⟩,
    minMaxQuadraticFl_spec (1 : ℝ) 0 (1 / 1073741824) 0 (by norm_num) (by norm_num)
      (by norm_num) (by norm_num) (by norm_num [abs_of_pos])⟩

/-- The rounded box of the nodes `(1,0,0)`, `(0,0,0)`, `(2^-30,0,0)` of radius `0`. -/
theorem curveBoxFl_flat_missed :
    curveBoxFl round32 (⟨1, 0, 0, 0⟩ : Vec4 ℝ) ⟨0, 0, 0, 0⟩ ⟨1 / 1073741824, 0, 0, 0⟩
      = ⟨⟨1 / 2147483648, 0, 0⟩, ⟨1 / 2, 0, 0⟩⟩ := by
  simp only [curveBoxFl, minMaxQuadraticFl_flat_missed, minMaxQuadraticFl_zero]
  norm_num [round32_zero, round32_at_neg_1, round32_at_neg_1_div_2, round32_at_1_div_2147483648, round32_at_1_div_1073741824, round32_at_1_div_2, round32_at_1073741825_div_2147483648, round32_at_1, round32_at_1073741825_div_1073741824]

/-- C4 as stated fails: for the float nodes `(1,0,0)`, `(0,0,0)`, `(2^-30,0,0)`
of radius `0`, the point of the spline at `u = 2^30/(2^30+1)` is
`(1/2147483650, 0, 0)`; it is on the surface (distance `0` from the spline,
radius `0`), and it is outside the binary32 `curveBox`, whose least `x` is
`2^-31`. -/
theorem curveBox_misses_surface_point :
    ((0 : ℝ) ≤ (⟨1, 0, 0, 0⟩ : Vec4 ℝ).w ∧ (0 : ℝ) ≤ (⟨0, 0, 0, 0⟩ : Vec4 ℝ).w ∧
      (0 : ℝ) ≤ (⟨1 / 1073741824, 0, 0, 0⟩ : Vec4 ℝ).w) ∧
    ((0 : ℝ) ≤ 1073741824 / 1073741825 ∧ (1073741824 / 1073741825 : ℝ) ≤ 1) ∧
    quadraticBSpline4 (⟨1, 0, 0, 0⟩ : Vec4 ℝ) ⟨0, 0, 0, 0⟩ ⟨1 / 1073741824, 0, 0, 0⟩
        (1073741824 / 1073741825) = ⟨1 / 2147483650, 0, 0, 0⟩ ∧
    ((⟨1 / 2147483650, 0, 0⟩ : Vec3 ℝ).sub (⟨1 / 2147483650, 0, 0, 0⟩ : Vec4 ℝ).xyz).dot
        ((⟨1 / 2147483650, 0, 0⟩ : Vec3 ℝ).sub (⟨1 / 2147483650, 0, 0, 0⟩ : Vec4 ℝ).xyz)
      ≤ (⟨1 / 2147483650, 0, 0, 0⟩ : Vec4 ℝ).w * (⟨1 / 2147483650, 0, 0, 0⟩ : Vec4 ℝ).w ∧
    (curveBoxFl round32 (⟨1, 0, 0, 0⟩ : Vec4 ℝ) ⟨0, 0, 0, 0⟩ ⟨1 / 1073741824, 0, 0, 0⟩).min.x
      = 1 / 2147483648 ∧
    ¬ (curveBoxFl round32 (⟨1, 0, 0, 0⟩ : Vec4 ℝ) ⟨0, 0, 0, 0⟩
        ⟨1 / 1073741824, 0, 0, 0⟩).contains ⟨1 / 2147483650, 0, 0⟩ := by
  refine ⟨⟨le_refl _, le_refl _, le_refl _⟩, ⟨by norm_num, by norm_num⟩, ?_, ?_, ?_, ?_⟩
  · norm_num [quadraticBSpline4, quadraticBSpline]
  · norm_num [Vec3.sub, Vec3.dot, Vec4.xyz]
  · rw [curveBoxFl_flat_missed]
  · rw [curveBoxFl_flat_missed]
    norm_num [Box3.contains]

/-- C4 at the nodes `(1,0,0)`, `(0,0,0)`, `(2^-30,0,0)` of radius `0` and the
point of the spline at `u = 2^30/(2^30+1)`. -/
theorem curveBoxFl_contains_surface_witness :
    ((-128 : ℤ) ≤ 0 ∧ (0 : ℤ) ≤ 124 ∧
      NodeWithin ((2 : ℝ) ^ (0 : ℤ)) (⟨1, 0, 0, 0⟩ : Vec4 ℝ) ∧
      NodeWithin ((2 : ℝ) ^ (0 : ℤ)) (⟨0, 0, 0, 0⟩ : Vec4 ℝ) ∧
      NodeWithin ((2 : ℝ) ^ (0 : ℤ)) (⟨1 / 1073741824, 0, 0, 0⟩ : Vec4 ℝ) ∧
      (0 : ℝ) ≤ 1073741824 / 1073741825 ∧ (1073741824 / 1073741825 : ℝ) ≤ 1) ∧
    ((quadraticBSpline4 (⟨1, 0, 0, 0⟩ : Vec4 ℝ) (⟨0, 0, 0, 0⟩ : Vec4 ℝ) (⟨1 / 1073741824, 0, 0, 0⟩ : Vec4 ℝ) (1073741824 / 1073741825 : ℝ)).w ≤ max (max (⟨1, 0, 0, 0⟩ : Vec4 ℝ).w (⟨0, 0, 0, 0⟩ : Vec4 ℝ).w) (⟨1 / 1073741824, 0, 0, 0⟩ : Vec4 ℝ).w ∧
    (curveBoxFl id (⟨1, 0, 0, 0⟩ : Vec4 ℝ) (⟨0, 0, 0, 0⟩ : Vec4 ℝ) (⟨1 / 1073741824, 0, 0, 0⟩ : Vec4 ℝ)).contains (⟨1 / 2147483650, 0, 0⟩ : Vec3 ℝ) ∧
    ((curveBoxFl round32 (⟨1, 0, 0, 0⟩ : Vec4 ℝ) (⟨0, 0, 0, 0⟩ : Vec4 ℝ) (⟨1 / 1073741824, 0, 0, 0⟩ : Vec4 ℝ)).widen ((2 : ℝ) ^ ((0 : ℤ) - 17))).contains (⟨1 / 2147483650, 0, 0⟩ : Vec3 ℝ)) :=
  have h0 : NodeWithin ((2 : ℝ) ^ (0 : ℤ)) (⟨1, 0, 0, 0⟩ : Vec4 ℝ) := by
    norm_num [NodeWithin]
  have h1 : NodeWithin ((2 : ℝ) ^ (0 : ℤ)) (⟨0, 0, 0, 0⟩ : Vec4 ℝ) := by
    norm_num [NodeWithin]
  have h2 : NodeWithin ((2 : ℝ) ^ (0 : ℤ)) (⟨1 / 1073741824, 0, 0, 0⟩ : Vec4 ℝ) := by
    norm_num [NodeWithin, abs_of_pos]
  ⟨⟨by norm_num, by norm_num, h0, h1, h2, by norm_num, by norm_num⟩,
    curveBoxFl_contains_surface ⟨1, 0, 0, 0⟩ ⟨0, 0, 0, 0⟩ ⟨1 / 1073741824, 0, 0, 0⟩ 0
      (by norm_num) (by norm_num) h0 h1 h2 (1073741824 / 1073741825) (by norm_num)
      (by norm_num) ⟨1 / 2147483650, 0, 0⟩
      (by norm_num [quadraticBSpline4, quadraticBSpline, Vec3.sub, Vec3.dot, Vec4.xyz])⟩

section IntersectorFl
variable {F : Type} [LinearOrderedField F]

/-! ## The adaptive intersector in rounded arithmetic -/

theorem fdivFl_eq_some {rnd : F → F} {a b c : F} (h : fdivFl rnd a b = some c) :
    b ≠ 0 ∧ c = rnd (a / b) := by
  unfold fdivFl at h
  by_cases hb : b = 0
  · simp [hb] at h
  · simp only [hb, if_false, Option.some.injEq] at h
    exact ⟨hb, h.symm⟩

theorem acceptHitFl_eq_some (rnd : F → F) (q0 q1 q2 : Vec4 F) (tMin tMax : F)
    (cur : StackNode F) (segT distance : F) (h : Hit F)
    (hl : acceptHitFl rnd q0 q1 q2 tMin tMax cur segT distance = some h) :
    h.uv.x = rnd (rnd (segT * cur.tSpan) + cur.tMin) ∧
      h.t = quadraticBSplineFl rnd q0.z q1.z q2.z h.uv.x ∧
      h.width = quadraticBSplineFl rnd q0.w q1.w q2.w h.uv.x ∧
      h.uv.y = (if signedUnnormalizedFl rnd cur < 0
                then rnd (1/2 - rnd (rnd (1/2 * distance) / h.width))
                else rnd (rnd (rnd (1/2 * distance) / h.width) + 1/2)) ∧
      tMin < h.t ∧ h.t < tMax ∧ distance < h.width ∧ 0 ≤ h.uv.x ∧ h.uv.x ≤ 1 := by
  unfold acceptHitFl at hl
  simp only at hl
  by_cases hacc :
      quadraticBSplineFl rnd q0.z q1.z q2.z (rnd (rnd (segT * cur.tSpan) + cur.tMin)) < tMax ∧
      quadraticBSplineFl rnd q0.z q1.z q2.z (rnd (rnd (segT * cur.tSpan) + cur.tMin)) > tMin ∧
      distance < quadraticBSplineFl rnd q0.w q1.w q2.w (rnd (rnd (segT * cur.tSpan) + cur.tMin)) ∧
      rnd (rnd (segT * cur.tSpan) + cur.tMin) ≥ 0 ∧ rnd (rnd (segT * cur.tSpan) + cur.tMin) ≤ 1
  · rw [if_pos hacc, Option.some.injEq] at hl
    subst hl
    exact ⟨rfl, rfl, rfl, rfl, hacc.2.1, hacc.1, hacc.2.2.1, hacc.2.2.2.1, hacc.2.2.2.2⟩
  · rw [if_neg hacc] at hl
    exact absurd hl (by simp)

/-- What a leaf that accepts has checked and written, in rounded arithmetic. -/
theorem leafTestFl_eq_some (rnd sqrt : F → F) (q0 q1 q2 : Vec4 F) (tMin tMax : F)
    (cur : StackNode F) (h : Hit F)
    (hl : leafTestFl rnd sqrt q0 q1 q2 tMin tMax cur = some h) :
    trimPassFl rnd q0 q1 q2 cur ∧
    ∃ segT distance, segmentTFl rnd cur = some segT ∧
      chordDistanceFl rnd sqrt cur segT = some distance ∧
      acceptHitFl rnd q0 q1 q2 tMin tMax cur segT distance = some h := by
  unfold leafTestFl at hl
  by_cases htrim : trimPassFl rnd q0 q1 q2 cur
  · rw [if_pos htrim] at hl
    refine ⟨htrim, ?_⟩
    cases hseg : segmentTFl rnd cur with
    | none => simp [hseg] at hl
    | some segT =>
      cases hdist : chordDistanceFl rnd sqrt cur segT with
      | none => simp [hseg, hdist] at hl
      | some distance =>
        simp only [hseg, hdist] at hl
        exact ⟨segT, distance, rfl, hdist, hl⟩
  · rw [if_neg htrim] at hl
    exact absurd hl (by simp)

theorem loopFl_succ (rnd sqrt : F → F) (q0 q1 q2 : Vec4 F) (tMin tMax : F) (n : Nat)
    (s : LoopState F) :
    loopFl rnd sqrt q0 q1 q2 tMin tMax (n + 1) s =
      match loopBodyFl rnd sqrt q0 q1 q2 tMin tMax s with
      | Control.next s' => loopFl rnd sqrt q0 q1 q2 tMin tMax n s'
      | Control.done s' => some s' := rfl

theorem loopBodyFl_out (rnd sqrt : F → F) (q0 q1 q2 : Vec4 F) (tMin tMax : F) (s : LoopState F) :
    StepOutFl rnd sqrt q0 q1 q2 tMin tMax s (loopBodyFl rnd sqrt q0 q1 q2 tMin tMax s).state := by
  unfold loopBodyFl
  simp only
  split_ifs with hcull hdepth
  · cases hleaf : leafTestFl rnd sqrt q0 q1 q2 tMin tMax s.cur with
    | none =>
      simp only
      exact Or.inl (popOrBreak_out s)
    | some h =>
      simp only
      have hp := popOrBreak_out { s with out := h, closestDepth := h.t }
      refine Or.inr ⟨hcull, hdepth, ?_, ?_⟩
      · rw [hp.1, hleaf]
      · rw [hp.2, hp.1]
  · exact Or.inl ⟨rfl, rfl⟩
  · exact Or.inl (popOrBreak_out s)

theorem stateAfterFl_succ_of_next (rnd sqrt : F → F) (q0 q1 q2 : Vec4 F) (tMin tMax : F) (k : Nat)
    (s s1 : LoopState F) (hb : loopBodyFl rnd sqrt q0 q1 q2 tMin tMax s = Control.next s1) :
    stateAfterFl rnd sqrt q0 q1 q2 tMin tMax (k + 1) s = stateAfterFl rnd sqrt q0 q1 q2 tMin tMax k s1 := by
  simp only [stateAfterFl, hb]

/-- The outputs after the loopFl: untouched, or written by the leaf test of a node
that the loopFl processed. -/
theorem loopFl_out (rnd sqrt : F → F) (q0 q1 q2 : Vec4 F) (tMin tMax : F) :
    ∀ (n : Nat) (s s' : LoopState F), loopFl rnd sqrt q0 q1 q2 tMin tMax n s = some s' →
      (s'.out = s.out ∧ s'.closestDepth = s.closestDepth) ∨
      ∃ k sl, stateAfterFl rnd sqrt q0 q1 q2 tMin tMax k s = some sl ∧
        cullPassFl rnd q0 q1 q2 sl.cur ∧ MaxDepth ≤ sl.cur.depth ∧
        leafTestFl rnd sqrt q0 q1 q2 tMin tMax sl.cur = some s'.out ∧
        s'.closestDepth = s'.out.t := by
  intro n
  induction n with
  | zero => intro s s' h; simp [loopFl] at h
  | succ n ih =>
    intro s s' h
    rw [loopFl_succ] at h
    have hstep := loopBodyFl_out rnd sqrt q0 q1 q2 tMin tMax s
    cases hb : loopBodyFl rnd sqrt q0 q1 q2 tMin tMax s with
    | next s1 =>
      rw [hb] at h hstep
      simp only [Control.state] at hstep
      simp only at h
      rcases ih s1 s' h with ⟨ho, hc⟩ | ⟨k, sl, hk, hrest⟩
      · rcases hstep with ⟨ho1, hc1⟩ | ⟨hcull, hdep, hleaf, hcd⟩
        · exact Or.inl ⟨ho.trans ho1, hc.trans hc1⟩
        · refine Or.inr ⟨0, s, rfl, hcull, hdep, ?_, ?_⟩
          · rw [ho]; exact hleaf
          · rw [hc, ho]; exact hcd
      · exact Or.inr ⟨k + 1, sl,
          (stateAfterFl_succ_of_next rnd sqrt q0 q1 q2 tMin tMax k s s1 hb).trans hk, hrest⟩
    | done s1 =>
      rw [hb] at h hstep
      simp only [Control.state] at hstep
      simp only [Option.some.injEq] at h
      subst h
      rcases hstep with h1 | ⟨hcull, hdep, hleaf, hcd⟩
      · exact Or.inl h1
      · exact Or.inr ⟨0, s, rfl, hcull, hdep, hleaf, hcd⟩

theorem loopBodyFl_next (rnd sqrt : F → F) (q0 q1 q2 : Vec4 F) (tMin tMax : F)
    (s s' : LoopState F) (h : loopBodyFl rnd sqrt q0 q1 q2 tMin tMax s = Control.next s')
    (hd : DepthOK s) : DepthOK s' ∧ workLeft s' < workLeft s := by
  unfold loopBodyFl at h
  simp only at h
  split_ifs at h with hcull hdepth
  · cases hleaf : leafTestFl rnd sqrt q0 q1 q2 tMin tMax s.cur with
    | none =>
      rw [hleaf] at h
      exact ⟨(popOrBreak_next s s' h hd).1, (popOrBreak_next s s' h hd).2.1⟩
    | some hit =>
      rw [hleaf] at h
      have := popOrBreak_next { s with out := hit, closestDepth := hit.t } s' h hd
      exact ⟨this.1, this.2.1⟩
  · simp only [Control.next.injEq] at h
    subst h
    have hlt : s.cur.depth < 5 := by
      unfold MaxDepth at hdepth; omega
    refine ⟨⟨?_, ?_⟩, ?_⟩
    · show s.cur.depth + 1 ≤ MaxDepth
      unfold MaxDepth; omega
    · intro f hf
      simp only [List.mem_cons] at hf
      rcases hf with rfl | hf
      · show s.cur.depth + 1 ≤ MaxDepth
        unfold MaxDepth; omega
      · exact hd.2 f hf
    · simp only [workLeft, nodeWork, List.map_cons, List.sum_cons]
      have e : 2 ^ (6 - s.cur.depth) = 2 * 2 ^ (6 - (s.cur.depth + 1)) := by
        have : 6 - s.cur.depth = (6 - (s.cur.depth + 1)) + 1 := by omega
        rw [this, pow_succ]; ring
      have p : 1 ≤ 2 ^ (6 - (s.cur.depth + 1)) := Nat.one_le_two_pow
      omega
  · exact ⟨(popOrBreak_next s s' h hd).1, (popOrBreak_next s s' h hd).2.1⟩

/-- The loopFl ends within as many passes as `workLeft` counts. -/
theorem loopFl_terminates (rnd sqrt : F → F) (q0 q1 q2 : Vec4 F) (tMin tMax : F) :
    ∀ (n : Nat) (s : LoopState F), DepthOK s → workLeft s ≤ n →
      ∃ s', loopFl rnd sqrt q0 q1 q2 tMin tMax n s = some s' := by
  intro n
  induction n with
  | zero =>
    intro s hd hw
    have := nodeWork_pos s.cur hd.1
    unfold workLeft at hw
    omega
  | succ n ih =>
    intro s hd hw
    rw [loopFl_succ]
    cases hb : loopBodyFl rnd sqrt q0 q1 q2 tMin tMax s with
    | next s1 =>
      have := loopBodyFl_next rnd sqrt q0 q1 q2 tMin tMax s s1 hb hd
      exact ih s1 this.1 (by omega)
    | done s1 => exact ⟨s1, rfl⟩

theorem initStateFl_depthOK (rnd : F → F) (q0 q1 q2 : Vec4 F) (tMax : F) (out : Hit F) :
    DepthOK (initStateFl rnd q0 q1 q2 tMax out) := by
  constructor
  · show 0 ≤ MaxDepth
    exact Nat.zero_le _
  · intro f hf
    simp [initStateFl] at hf

theorem initStateFl_workLeft (rnd : F → F) (q0 q1 q2 : Vec4 F) (tMax : F) (out : Hit F) :
    workLeft (initStateFl rnd q0 q1 q2 tMax out) = loopFuel := by
  simp [workLeft, nodeWork, initStateFl, loopFuel]

/-- In rounded arithmetic, too, `pointOnSpline` returns on every input, and its result is one of two: false
with the output parameters untouched, or true with the output parameters
written by the leaf test of a node that the loopFl processed. -/
theorem pointOnSplineFl_result (rnd sqrt : F → F) (q0 q1 q2 : Vec4 F) (tMin tMax : F) (out : Hit F) :
    ∃ b out', pointOnSplineFl rnd sqrt q0 q1 q2 tMin tMax out = some (b, out') ∧
      ((b = false ∧ out' = out) ∨
       (b = true ∧ ∃ k sl,
          stateAfterFl rnd sqrt q0 q1 q2 tMin tMax k (initStateFl rnd q0 q1 q2 tMax out) = some sl ∧
          cullPassFl rnd q0 q1 q2 sl.cur ∧ MaxDepth ≤ sl.cur.depth ∧
          leafTestFl rnd sqrt q0 q1 q2 tMin tMax sl.cur = some out')) := by
  obtain ⟨s', hs'⟩ := loopFl_terminates rnd sqrt q0 q1 q2 tMin tMax loopFuel
    (initStateFl rnd q0 q1 q2 tMax out) (initStateFl_depthOK rnd q0 q1 q2 tMax out)
    (le_of_eq (initStateFl_workLeft rnd q0 q1 q2 tMax out))
  refine ⟨decide (s'.closestDepth < tMax), s'.out, ?_, ?_⟩
  · simp only [pointOnSplineFl, hs']
  · rcases loopFl_out rnd sqrt q0 q1 q2 tMin tMax _ _ _ hs' with ⟨ho, hc⟩ | ⟨k, sl, hk, hcull, hdep, hleaf, hcd⟩
    · left
      refine ⟨?_, ho⟩
      rw [hc]
      simp [initStateFl]
    · right
      refine ⟨?_, k, sl, hk, hcull, hdep, hleaf⟩
      obtain ⟨_, segT, distance, _, _, hacc⟩ := leafTestFl_eq_some rnd sqrt q0 q1 q2 tMin tMax _ _ hleaf
      have := acceptHitFl_eq_some rnd q0 q1 q2 tMin tMax _ _ _ _ hacc
      rw [hcd]
      simpa using this.2.2.2.2.2.1

theorem stateAfterFl_succ (rnd sqrt : F → F) (q0 q1 q2 : Vec4 F) (tMin tMax : F) (n : Nat)
    (s : LoopState F) :
    stateAfterFl rnd sqrt q0 q1 q2 tMin tMax (n + 1) s =
      match loopBodyFl rnd sqrt q0 q1 q2 tMin tMax s with
      | Control.next s' => stateAfterFl rnd sqrt q0 q1 q2 tMin tMax n s'
      | Control.done _ => none := rfl

/-- A property that every pass hands on holds in every state the loopFl reaches. -/
theorem stateAfterFl_invariant (rnd sqrt : F → F) (q0 q1 q2 : Vec4 F) (tMin tMax : F)
    (P : LoopState F → Prop)
    (hP : ∀ s s', P s → loopBodyFl rnd sqrt q0 q1 q2 tMin tMax s = Control.next s' → P s') :
    ∀ (k : Nat) (s sl : LoopState F), P s →
      stateAfterFl rnd sqrt q0 q1 q2 tMin tMax k s = some sl → P sl := by
  intro k
  induction k with
  | zero =>
    intro s sl hs h
    simp only [stateAfterFl, Option.some.injEq] at h
    exact h ▸ hs
  | succ k ih =>
    intro s sl hs h
    rw [stateAfterFl_succ] at h
    cases hb : loopBodyFl rnd sqrt q0 q1 q2 tMin tMax s with
    | next s1 =>
      rw [hb] at h
      exact ih s1 sl (hP s s1 hs hb) h
    | done s1 =>
      rw [hb] at h
      exact absurd h (by simp)

/-- Every node the loopFl processes has depth at most `MaxDepth`. -/
theorem stateAfterFl_depthOK (rnd sqrt : F → F) (q0 q1 q2 : Vec4 F) (tMin tMax : F) (out : Hit F)
    (k : Nat) (sl : LoopState F)
    (h : stateAfterFl rnd sqrt q0 q1 q2 tMin tMax k (initStateFl rnd q0 q1 q2 tMax out) = some sl) :
    DepthOK sl :=
  stateAfterFl_invariant rnd sqrt q0 q1 q2 tMin tMax DepthOK
    (fun s s' hs hb => (loopBodyFl_next rnd sqrt q0 q1 q2 tMin tMax s s' hb hs).1)
    k _ sl (initStateFl_depthOK rnd q0 q1 q2 tMax out) h

/-- A call that returns true reports the hit of an accepting leaf. -/
theorem pointOnSplineFl_true (rnd sqrt : F → F) (q0 q1 q2 : Vec4 F) (tMin tMax : F)
    (out out' : Hit F)
    (h : pointOnSplineFl rnd sqrt q0 q1 q2 tMin tMax out = some (true, out')) :
    ∃ leaf, AcceptingLeafFl rnd sqrt q0 q1 q2 tMin tMax out leaf out' := by
  obtain ⟨b, o, hres, hcase⟩ := pointOnSplineFl_result rnd sqrt q0 q1 q2 tMin tMax out
  rw [h, Option.some.injEq, Prod.mk.injEq] at hres
  obtain ⟨hb, ho⟩ := hres
  subst hb; subst ho
  rcases hcase with ⟨hf, _⟩ | ⟨_, k, sl, hk, hcull, hdep, hleaf⟩
  · exact absurd hf (by simp)
  · have hd := (stateAfterFl_depthOK rnd sqrt q0 q1 q2 tMin tMax out k sl hk).1
    exact ⟨sl.cur, ⟨k, sl, hk, rfl⟩, le_antisymm hd hdep, hcull, hleaf⟩

end IntersectorFl

section Intersector32
variable {F : Type} [LinearOrderedField F] [FloorRing F]

theorem Vec2.lengthSqFl_nonneg (a : Vec2 F) : 0 ≤ a.lengthSqFl round32 := by
  unfold Vec2.lengthSqFl
  exact round32_nonneg (add_nonneg (round32_nonneg (mul_self_nonneg _))
    (round32_nonneg (mul_self_nonneg _)))

/-- The binary32 silhouette distance is a non-negative binary32 number. -/
theorem chordDistanceFl_nonneg (sqrt : F → F) (hs : ∀ x, 0 ≤ x → 0 ≤ sqrt x)
    (cur : StackNode F) (segT d : F) (h : chordDistanceFl round32 sqrt cur segT = some d) :
    0 ≤ d ∧ round32 d = d := by
  unfold chordDistanceFl at h
  split_ifs at h with h1 h2
  · simp only [Option.some.injEq] at h
    rw [← h]
    exact ⟨round32_nonneg (hs _ (Vec2.lengthSqFl_nonneg _)), round32_idem _⟩
  · simp only [Option.some.injEq] at h
    rw [← h]
    exact ⟨round32_nonneg (hs _ (Vec2.lengthSqFl_nonneg _)), round32_idem _⟩
  · obtain ⟨_, hd⟩ := fdivFl_eq_some h
    rw [hd]
    exact ⟨round32_nonneg (div_nonneg (abs_nonneg _)
      (round32_nonneg (hs _ (Vec2.lengthSqFl_nonneg _)))), round32_idem _⟩

theorem quadraticBSplineFl_rep (p0 p1 p2 t : F) :
    round32 (quadraticBSplineFl round32 p0 p1 p2 t) = quadraticBSplineFl round32 p0 p1 p2 t := by
  unfold quadraticBSplineFl
  exact round32_idem _

/-- C8 as the code has it, in binary32: for every hit that `pointOnSpline`
reports, `uv.x` is the curve parameter `newT` of the accepting leaf and lies in
`[0,1]`; `uv.y` is the rounded `1/2 - h` when the cross product
`signedUnnormalized` is negative and the rounded `h + 1/2` otherwise, where
`h` is `0.5f*distance/width` as the code computes it; `h` lies in `[0, 1/2]`, so
`uv.y` lies in `[0, 1/2]` in the first case and in `[1/2, 1]` in the second.
`sqrt` is the exact square root, assumed to return non-negative values; its
result is rounded.  Overflow to an infinity is not modelled. -/
theorem pointOnSplineFl_uv (sqrt : F → F) (hs : ∀ x, 0 ≤ x → 0 ≤ sqrt x)
    (q0 q1 q2 : Vec4 F) (tMin tMax : F) (out out' : Hit F)
    (h : pointOnSplineFl round32 sqrt q0 q1 q2 tMin tMax out = some (true, out')) :
    (0 ≤ out'.uv.x ∧ out'.uv.x ≤ 1) ∧ (0 ≤ out'.uv.y ∧ out'.uv.y ≤ 1) ∧
    ∃ leaf segT distance, AcceptingLeafFl round32 sqrt q0 q1 q2 tMin tMax out leaf out' ∧
      segmentTFl round32 leaf = some segT ∧
      chordDistanceFl round32 sqrt leaf segT = some distance ∧
      out'.uv.x = round32 (round32 (segT * leaf.tSpan) + leaf.tMin) ∧
      0 ≤ distance ∧ distance < out'.width ∧
      0 ≤ round32 (round32 (1/2 * distance) / out'.width) ∧
      round32 (round32 (1/2 * distance) / out'.width) ≤ 1/2 ∧
      out'.uv.y = (if signedUnnormalizedFl round32 leaf < 0
                   then round32 (1/2 - round32 (round32 (1/2 * distance) / out'.width))
                   else round32 (round32 (round32 (1/2 * distance) / out'.width) + 1/2)) ∧
      (signedUnnormalizedFl round32 leaf < 0 → out'.uv.y ≤ 1/2) ∧
      (¬ signedUnnormalizedFl round32 leaf < 0 → 1/2 ≤ out'.uv.y) := by
  obtain ⟨leaf, hacc⟩ := pointOnSplineFl_true round32 sqrt q0 q1 q2 tMin tMax out out' h
  obtain ⟨_, segT, distance, hseg, hdist, ha⟩ :=
    leafTestFl_eq_some round32 sqrt q0 q1 q2 tMin tMax _ _ hacc.2.2.2
  obtain ⟨hx, _, hwid, hy, _, _, hdw, hx0, hx1⟩ :=
    acceptHitFl_eq_some round32 q0 q1 q2 tMin tMax _ _ _ _ ha
  obtain ⟨hd0, hdrep⟩ := chordDistanceFl_nonneg sqrt hs leaf segT distance hdist
  have hw : 0 < out'.width := lt_of_le_of_lt hd0 hdw
  have hwrep : round32 out'.width = out'.width := by
    rw [hwid]; exact quadraticBSplineFl_rep _ _ _ _
  have ha0 : 0 ≤ round32 (1/2 * distance) := round32_nonneg (by linarith)
  have ha1 : round32 (1/2 * distance) ≤ 1/2 * out'.width := round32_half_le hd0 hdw hdrep hwrep
  have hq0 : 0 ≤ round32 (1/2 * distance) / out'.width := div_nonneg ha0 hw.le
  have hq1 : round32 (1/2 * distance) / out'.width ≤ 1/2 := by
    rw [div_le_iff₀ hw]; exact ha1
  have hh0 : 0 ≤ round32 (round32 (1/2 * distance) / out'.width) := round32_nonneg hq0
  have hh1 : round32 (round32 (1/2 * distance) / out'.width) ≤ 1/2 := by
    have := round32_mono hq1
    rwa [round32_half] at this
  have hlow : 0 ≤ round32 (1/2 - round32 (round32 (1/2 * distance) / out'.width)) ∧
      round32 (1/2 - round32 (round32 (1/2 * distance) / out'.width)) ≤ 1/2 := by
    constructor
    · exact round32_nonneg (by linarith)
    · have := round32_mono (x := 1/2 - round32 (round32 (1/2 * distance) / out'.width))
        (y := 1/2) (by linarith)
      rwa [round32_half] at this
  have hhigh : 1/2 ≤ round32 (round32 (round32 (1/2 * distance) / out'.width) + 1/2) ∧
      round32 (round32 (round32 (1/2 * distance) / out'.width) + 1/2) ≤ 1 := by
    constructor
    · have := round32_mono (x := 1/2)
        (y := round32 (round32 (1/2 * distance) / out'.width) + 1/2) (by linarith)
      rwa [round32_half] at this
    · have := round32_mono (x := round32 (round32 (1/2 * distance) / out'.width) + 1/2)
        (y := 1) (by linarith)
      rwa [round32_one] at this
  refine ⟨⟨hx0, hx1⟩, ?_, leaf, segT, distance, hacc, hseg, hdist, hx, hd0, hdw, hh0, hh1, hy,
    ?_, ?_⟩
  · rw [hy]
    split_ifs
    · exact ⟨hlow.1, by linarith [hlow.2]⟩
    · exact ⟨by linarith [hhigh.1], hhigh.2⟩
  · intro hneg
    rw [hy, if_pos hneg]
    exact hlow.2
  · intro hneg
    rw [hy, if_neg hneg]
    exact hhigh.1

end Intersector32

section Facts
variable {F : Type} [LinearOrderedField F] [FloorRing F]

theorem round32_at_neg_256 : round32 (-(256 : F)) = (-(256 : F)) := by
  have h := round32_of_rep (F := F) (-1) (8) (by norm_num) (by norm_num)
  norm_num at h
  exact h

theorem round32_at_neg_252 : round32 (-(252 : F)) = (-(252 : F)) := by
  have h := round32_of_rep (F := F) (-63) (2) (by norm_num) (by norm_num)
  norm_num at h
  exact h

theorem round32_at_neg_128 : round32 (-(128 : F)) = (-(128 : F)) := by
  have h := round32_of_rep (F := F) (-1) (7) (by norm_num) (by norm_num)
  norm_num at h
  exact h

theorem round32_at_neg_126 : round32 (-(126 : F)) = (-(126 : F)) := by
  have h := round32_of_rep (F := F) (-63) (1) (by norm_num) (by norm_num)
  norm_num at h
  exact h

theorem round32_at_neg_124 : round32 (-(124 : F)) = (-(124 : F)) := by
  have h := round32_of_rep (F := F) (-31) (2) (by norm_num) (by norm_num)
  norm_num at h
  exact h

theorem round32_at_neg_95 : round32 (-(95 : F)) = (-(95 : F)) := by
  have h := round32_of_rep (F := F) (-95) (0) (by norm_num) (by norm_num)
  norm_num at h
  exact h

theorem round32_at_neg_66 : round32 (-(66 : F)) = (-(66 : F)) := by
  have h := round32_of_rep (F := F) (-33) (1) (by norm_num) (by norm_num)
  norm_num at h
  exact h

theorem round32_at_neg_62 : round32 (-(62 : F)) = (-(62 : F)) := by
  have h := round32_of_rep (F := F) (-31) (1) (by norm_num) (by norm_num)
  norm_num at h
  exact h

theorem round32_at_neg_33 : round32 (-(33 : F)) = (-(33 : F)) := by
  have h := round32_of_rep (F := F) (-33) (0) (by norm_num) (by norm_num)
  norm_num at h
  exact h

theorem round32_at_neg_30 : round32 (-(30 : F)) = (-(30 : F)) := by
  have h := round32_of_rep (F := F) (-15) (1) (by norm_num) (by norm_num)
  norm_num at h
  exact h

theorem round32_at_neg_14 : round32 (-(14 : F)) = (-(14 : F)) := by
  have h := round32_of_rep (F := F) (-7) (1) (by norm_num) (by norm_num)
  norm_num at h
  exact h

theorem round32_at_neg_8 : round32 (-(8 : F)) = (-(8 : F)) := by
  have h := round32_of_rep (F := F) (-1) (3) (by norm_num) (by norm_num)
  norm_num at h
  exact h

theorem round32_at_neg_6 : round32 (-(6 : F)) = (-(6 : F)) := by
  have h := round32_of_rep (F := F) (-3) (1) (by norm_num) (by norm_num)
  norm_num at h
  exact h

theorem round32_at_neg_5 : round32 (-(5 : F)) = (-(5 : F)) := by
  have h := round32_of_rep (F := F) (-5) (0) (by norm_num) (by norm_num)
  norm_num at h
  exact h

theorem round32_at_neg_2 : round32 (-(2 : F)) = (-(2 : F)) := by
  have h := round32_of_rep (F := F) (-1) (1) (by norm_num) (by norm_num)
  norm_num at h
  exact h

theorem round32_at_neg_16777215_div_16777216 : round32 (-((16777215 : F) / 16777216)) = (-((16777215 : F) / 16777216)) := by
  have h := round32_of_rep (F := F) (-16777215) (-24) (by norm_num) (by norm_num)
  norm_num at h
  exact h

theorem round32_at_neg_16777215_div_16777216_alt : round32 ((-16777215 : F) / 16777216) = ((-16777215 : F) / 16777216) := by
  have h := round32_of_rep (F := F) (-16777215) (-24) (by norm_num) (by norm_num)
  norm_num at h
  rw [neg_div]
  exact h

theorem round32_at_neg_1_div_2_alt : round32 ((-1 : F) / 2) = ((-1 : F) / 2) := by
  have h := round32_of_rep (F := F) (-1) (-1) (by norm_num) (by norm_num)
  norm_num at h
  rw [neg_div]
  exact h

theorem round32_at_neg_16777215_div_33554432 : round32 (-((16777215 : F) / 33554432)) = (-((16777215 : F) / 33554432)) := by
  have h := round32_of_rep (F := F) (-16777215) (-25) (by norm_num) (by norm_num)
  norm_num at h
  exact h

theorem round32_at_neg_16777215_div_33554432_alt : round32 ((-16777215 : F) / 33554432) = ((-16777215 : F) / 33554432) := by
  have h := round32_of_rep (F := F) (-16777215) (-25) (by norm_num) (by norm_num)
  norm_num at h
  rw [neg_div]
  exact h

theorem round32_at_1_div_64 : round32 ((1 : F) / 64) = ((1 : F) / 64) := by
  have h := round32_of_rep (F := F) (1) (-6) (by norm_num) (by norm_num)
  norm_num at h
  exact h

theorem round32_at_1_div_32 : round32 ((1 : F) / 32) = ((1 : F) / 32) := by
  have h := round32_of_rep (F := F) (1) (-5) (by norm_num) (by norm_num)
  norm_num at h
  exact h

theorem round32_at_1_div_16 : round32 ((1 : F) / 16) = ((1 : F) / 16) := by
  have h := round32_of_rep (F := F) (1) (-4) (by norm_num) (by norm_num)
  norm_num at h
  exact h

theorem round32_at_1_div_8 : round32 ((1 : F) / 8) = ((1 : F) / 8) := by
  have h := round32_of_rep (F := F) (1) (-3) (by norm_num) (by norm_num)
  norm_num at h
  exact h

theorem round32_at_1_div_4 : round32 ((1 : F) / 4) = ((1 : F) / 4) := by
  have h := round32_of_rep (F := F) (1) (-2) (by norm_num) (by norm_num)
  norm_num at h
  exact h

theorem round32_at_16777215_div_33554432 : round32 ((16777215 : F) / 33554432) = ((16777215 : F) / 33554432) := by
  have h := round32_of_rep (F := F) (16777215) (-25) (by norm_num) (by norm_num)
  norm_num at h
  exact h

theorem round32_at_3_div_4 : round32 ((3 : F) / 4) = ((3 : F) / 4) := by
  have h := round32_of_rep (F := F) (3) (-2) (by norm_num) (by norm_num)
  norm_num at h
  exact h

theorem round32_at_7_div_8 : round32 ((7 : F) / 8) = ((7 : F) / 8) := by
  have h := round32_of_rep (F := F) (7) (-3) (by norm_num) (by norm_num)
  norm_num at h
  exact h

theorem round32_at_15_div_16 : round32 ((15 : F) / 16) = ((15 : F) / 16) := by
  have h := round32_of_rep (F := F) (15) (-4) (by norm_num) (by norm_num)
  norm_num at h
  exact h

theorem round32_at_31_div_32 : round32 ((31 : F) / 32) = ((31 : F) / 32) := by
  have h := round32_of_rep (F := F) (31) (-5) (by norm_num) (by norm_num)
  norm_num at h
  exact h

theorem round32_at_63_div_64 : round32 ((63 : F) / 64) = ((63 : F) / 64) := by
  have h := round32_of_rep (F := F) (63) (-6) (by norm_num) (by norm_num)
  norm_num at h
  exact h

theorem round32_at_16777215_div_16777216 : round32 ((16777215 : F) / 16777216) = ((16777215 : F) / 16777216) := by
  have h := round32_of_rep (F := F) (16777215) (-24) (by norm_num) (by norm_num)
  norm_num at h
  exact h

theorem round32_at_33554431_div_33554432 : round32 ((33554431 : F) / 33554432) = (1 : F) := by
  have h := round32_eq_of_binade (F := F) (x := ((33554431 : F) / 33554432)) (b := -1) (n := 16777216)
    (by norm_num) (by norm_num [abs_of_pos]) (by norm_num [abs_of_pos])
    (roundEven_tie_up (by norm_num) (by norm_num))
  norm_num at h
  exact h

theorem round32_at_16777215_div_8388608 : round32 ((16777215 : F) / 8388608) = ((16777215 : F) / 8388608) := by
  have h := round32_of_rep (F := F) (16777215) (-23) (by norm_num) (by norm_num)
  norm_num at h
  exact h

theorem round32_at_2 : round32 (2 : F) = (2 : F) := by
  have h := round32_of_rep (F := F) (1) (1) (by norm_num) (by norm_num)
  norm_num at h
  exact h

theorem round32_at_16777215_div_4194304 : round32 ((16777215 : F) / 4194304) = ((16777215 : F) / 4194304) := by
  have h := round32_of_rep (F := F) (16777215) (-22) (by norm_num) (by norm_num)
  norm_num at h
  exact h

theorem round32_at_4 : round32 (4 : F) = (4 : F) := by
  have h := round32_of_rep (F := F) (1) (2) (by norm_num) (by norm_num)
  norm_num at h
  exact h

theorem round32_at_5 : round32 (5 : F) = (5 : F) := by
  have h := round32_of_rep (F := F) (5) (0) (by norm_num) (by norm_num)
  norm_num at h
  exact h

theorem round32_at_10 : round32 (10 : F) = (10 : F) := by
  have h := round32_of_rep (F := F) (5) (1) (by norm_num) (by norm_num)
  norm_num at h
  exact h

theorem round32_at_16 : round32 (16 : F) = (16 : F) := by
  have h := round32_of_rep (F := F) (1) (4) (by norm_num) (by norm_num)
  norm_num at h
  exact h

theorem round32_at_20 : round32 (20 : F) = (20 : F) := by
  have h := round32_of_rep (F := F) (5) (2) (by norm_num) (by norm_num)
  norm_num at h
  exact h

theorem round32_at_33 : round32 (33 : F) = (33 : F) := by
  have h := round32_of_rep (F := F) (33) (0) (by norm_num) (by norm_num)
  norm_num at h
  exact h

theorem round32_at_64 : round32 (64 : F) = (64 : F) := by
  have h := round32_of_rep (F := F) (1) (6) (by norm_num) (by norm_num)
  norm_num at h
  exact h

theorem round32_at_96 : round32 (96 : F) = (96 : F) := by
  have h := round32_of_rep (F := F) (3) (5) (by norm_num) (by norm_num)
  norm_num at h
  exact h

theorem round32_at_112 : round32 (112 : F) = (112 : F) := by
  have h := round32_of_rep (F := F) (7) (4) (by norm_num) (by norm_num)
  norm_num at h
  exact h

theorem round32_at_120 : round32 (120 : F) = (120 : F) := by
  have h := round32_of_rep (F := F) (15) (3) (by norm_num) (by norm_num)
  norm_num at h
  exact h

theorem round32_at_124 : round32 (124 : F) = (124 : F) := by
  have h := round32_of_rep (F := F) (31) (2) (by norm_num) (by norm_num)
  norm_num at h
  exact h

theorem round32_at_128 : round32 (128 : F) = (128 : F) := by
  have h := round32_of_rep (F := F) (1) (7) (by norm_num) (by norm_num)
  norm_num at h
  exact h

theorem round32_at_256 : round32 (256 : F) = (256 : F) := by
  have h := round32_of_rep (F := F) (1) (8) (by norm_num) (by norm_num)
  norm_num at h
  exact h


set_option maxHeartbeats 8000000 in
set_option maxRecDepth 100000 in
/-- The call in binary32 on the segment at distance `1 - 2^-24`, traced pass by
pass: the leaf `[31/32, 1]` accepts with `uv.y = 1`. -/
theorem edge_pointOnSplineFl (sqrt : F → F) (h16 : sqrt 16 = 4) :
    pointOnSplineFl round32 sqrt edgeQ0 edgeQ1 edgeQ2 0 100 hit0
      = some (true, ⟨10, ⟨63 / 64, 1⟩, 1⟩) := by
  unfold pointOnSplineFl
  simp only [loopFuel, initStateFl, edgeQ0, edgeQ1, edgeQ2, hit0]
  norm_num [round32_zero, round32_at_neg_256, round32_at_neg_252, round32_at_neg_128, round32_at_neg_126, round32_at_neg_124, round32_at_neg_95, round32_at_neg_66, round32_at_neg_62, round32_at_neg_33, round32_at_neg_30, round32_at_neg_14, round32_at_neg_8, round32_at_neg_6, round32_at_neg_5, round32_at_neg_2, round32_at_neg_16777215_div_16777216, round32_at_neg_16777215_div_16777216_alt, round32_at_neg_1_div_2, round32_at_neg_1_div_2_alt, round32_at_neg_16777215_div_33554432, round32_at_neg_16777215_div_33554432_alt, round32_at_1_div_64, round32_at_1_div_32, round32_at_1_div_16, round32_at_1_div_8, round32_at_1_div_4, round32_at_16777215_div_33554432, round32_at_1_div_2, round32_at_3_div_4, round32_at_7_div_8, round32_at_15_div_16, round32_at_31_div_32, round32_at_63_div_64, round32_at_16777215_div_16777216, round32_at_33554431_div_33554432, round32_at_1, round32_at_16777215_div_8388608, round32_at_2, round32_at_16777215_div_4194304, round32_at_4, round32_at_5, round32_at_10, round32_at_16, round32_at_20, round32_at_33, round32_at_64, round32_at_96, round32_at_112, round32_at_120, round32_at_124, round32_at_128, round32_at_256]
  iterate 12
    (first
     | done
     | (rw [loopFl_succ]
        norm_num [loopBodyFl, cullPassFl, cullAxisFl, tFlatFl, fdivFl, quadraticBSplineFl,
          quadraticBSpline4Fl, MaxDepth, popOrBreak, leafTestFl, trimPassFl, segmentTFl,
          chordDirFl, chordDistanceFl, acceptHitFl, signedUnnormalizedFl, Vec2.dotFl,
          Vec2.lengthSqFl, Vec2.lengthFl, Vec4.xy, h16, abs_div, Nat.abs_ofNat, round32_zero, round32_at_neg_256, round32_at_neg_252, round32_at_neg_128, round32_at_neg_126, round32_at_neg_124, round32_at_neg_95, round32_at_neg_66, round32_at_neg_62, round32_at_neg_33, round32_at_neg_30, round32_at_neg_14, round32_at_neg_8, round32_at_neg_6, round32_at_neg_5, round32_at_neg_2, round32_at_neg_16777215_div_16777216, round32_at_neg_16777215_div_16777216_alt, round32_at_neg_1_div_2, round32_at_neg_1_div_2_alt, round32_at_neg_16777215_div_33554432, round32_at_neg_16777215_div_33554432_alt, round32_at_1_div_64, round32_at_1_div_32, round32_at_1_div_16, round32_at_1_div_8, round32_at_1_div_4, round32_at_16777215_div_33554432, round32_at_1_div_2, round32_at_3_div_4, round32_at_7_div_8, round32_at_15_div_16, round32_at_31_div_32, round32_at_63_div_64, round32_at_16777215_div_16777216, round32_at_33554431_div_33554432, round32_at_1, round32_at_16777215_div_8388608, round32_at_2, round32_at_16777215_div_4194304, round32_at_4, round32_at_5, round32_at_10, round32_at_16, round32_at_20, round32_at_33, round32_at_64, round32_at_96, round32_at_112, round32_at_120, round32_at_124, round32_at_128, round32_at_256]))

theorem round32_at_neg_1_zpow_neg_143 : round32 (-((1 : F) / 11150372599265311570767859136324180752990208)) = (-((1 : F) / 11150372599265311570767859136324180752990208)) := by
  have h := round32_of_rep (F := F) (-1) (-143) (by norm_num) (by norm_num)
  norm_num at h
  exact h

theorem round32_at_neg_31_zpow_neg_148 : round32 (-((31 : F) / 356811923176489970264571492362373784095686656)) = (-((31 : F) / 356811923176489970264571492362373784095686656)) := by
  have h := round32_of_rep (F := F) (-31) (-148) (by norm_num) (by norm_num)
  norm_num at h
  exact h

theorem round32_at_neg_15_zpow_neg_147 : round32 (-((15 : F) / 178405961588244985132285746181186892047843328)) = (-((15 : F) / 178405961588244985132285746181186892047843328)) := by
  have h := round32_of_rep (F := F) (-15) (-147) (by norm_num) (by norm_num)
  norm_num at h
  exact h

theorem round32_at_neg_7_zpow_neg_146 : round32 (-((7 : F) / 89202980794122492566142873090593446023921664)) = (-((7 : F) / 89202980794122492566142873090593446023921664)) := by
  have h := round32_of_rep (F := F) (-7) (-146) (by norm_num) (by norm_num)
  norm_num at h
  exact h

theorem round32_at_neg_3_zpow_neg_145 : round32 (-((3 : F) / 44601490397061246283071436545296723011960832)) = (-((3 : F) / 44601490397061246283071436545296723011960832)) := by
  have h := round32_of_rep (F := F) (-3) (-145) (by norm_num) (by norm_num)
  norm_num at h
  exact h

theorem round32_at_neg_1_zpow_neg_144 : round32 (-((1 : F) / 22300745198530623141535718272648361505980416)) = (-((1 : F) / 22300745198530623141535718272648361505980416)) := by
  have h := round32_of_rep (F := F) (-1) (-144) (by norm_num) (by norm_num)
  norm_num at h
  exact h

theorem round32_at_neg_9_zpow_neg_148 : round32 (-((9 : F) / 356811923176489970264571492362373784095686656)) = (-((9 : F) / 356811923176489970264571492362373784095686656)) := by
  have h := round32_of_rep (F := F) (-9) (-148) (by norm_num) (by norm_num)
  norm_num at h
  exact h

theorem round32_at_neg_3_zpow_neg_147 : round32 (-((3 : F) / 178405961588244985132285746181186892047843328)) = (-((3 : F) / 178405961588244985132285746181186892047843328)) := by
  have h := round32_of_rep (F := F) (-3) (-147) (by norm_num) (by norm_num)
  norm_num at h
  exact h

theorem round32_at_neg_1_zpow_neg_146 : round32 (-((1 : F) / 89202980794122492566142873090593446023921664)) = (-((1 : F) / 89202980794122492566142873090593446023921664)) := by
  have h := round32_of_rep (F := F) (-1) (-146) (by norm_num) (by norm_num)
  norm_num at h
  exact h

theorem round32_at_neg_1_zpow_neg_147 : round32 (-((1 : F) / 178405961588244985132285746181186892047843328)) = (-((1 : F) / 178405961588244985132285746181186892047843328)) := by
  have h := round32_of_rep (F := F) (-1) (-147) (by norm_num) (by norm_num)
  norm_num at h
  exact h

theorem round32_at_neg_1_zpow_neg_148 : round32 (-((1 : F) / 356811923176489970264571492362373784095686656)) = (-((1 : F) / 356811923176489970264571492362373784095686656)) := by
  have h := round32_of_rep (F := F) (-1) (-148) (by norm_num) (by norm_num)
  norm_num at h
  exact h

theorem round32_at_1_zpow_neg_296 : round32 ((1 : F) / 127314748520905380391777855525586135065716774604121015664758778084648831235208544136462336) = (0 : F) := by
  have h := round32_eq_of_subnormal (F := F) (x := ((1 : F) / 127314748520905380391777855525586135065716774604121015664758778084648831235208544136462336)) (n := 0)
    (by norm_num [abs_of_pos])
    (roundEven_of_abs_sub_lt (by norm_num [abs_lt]))
  norm_num at h
  exact h

theorem round32_at_1_zpow_neg_291 : round32 ((1 : F) / 3978585891278293137243057985174566720803649206378781739523711815145275976100267004264448) = (0 : F) := by
  have h := round32_eq_of_subnormal (F := F) (x := ((1 : F) / 3978585891278293137243057985174566720803649206378781739523711815145275976100267004264448)) (n := 0)
    (by norm_num [abs_of_pos])
    (roundEven_of_abs_sub_lt (by norm_num [abs_lt]))
  norm_num at h
  exact h

theorem round32_at_1_zpow_neg_290 : round32 ((1 : F) / 1989292945639146568621528992587283360401824603189390869761855907572637988050133502132224) = (0 : F) := by
  have h := round32_eq_of_subnormal (F := F) (x := ((1 : F) / 1989292945639146568621528992587283360401824603189390869761855907572637988050133502132224)) (n := 0)
    (by norm_num [abs_of_pos])
    (roundEven_of_abs_sub_lt (by norm_num [abs_lt]))
  norm_num at h
  exact h

theorem round32_at_3_zpow_neg_150 : round32 ((3 : F) / 1427247692705959881058285969449495136382746624) = ((1 : F) / 356811923176489970264571492362373784095686656) := by
  have h := round32_eq_of_subnormal (F := F) (x := ((3 : F) / 1427247692705959881058285969449495136382746624)) (n := 2)
    (by norm_num [abs_of_pos])
    (roundEven_tie_up (by norm_num) (by norm_num))
  norm_num at h
  exact h

theorem round32_at_1_zpow_neg_148 : round32 ((1 : F) / 356811923176489970264571492362373784095686656) = ((1 : F) / 356811923176489970264571492362373784095686656) := by
  have h := round32_of_rep (F := F) (1) (-148) (by norm_num) (by norm_num)
  norm_num at h
  exact h

theorem round32_at_3_zpow_neg_149 : round32 ((3 : F) / 713623846352979940529142984724747568191373312) = ((3 : F) / 713623846352979940529142984724747568191373312) := by
  have h := round32_of_rep (F := F) (3) (-149) (by norm_num) (by norm_num)
  norm_num at h
  exact h

theorem round32_at_1_zpow_neg_147 : round32 ((1 : F) / 178405961588244985132285746181186892047843328) = ((1 : F) / 178405961588244985132285746181186892047843328) := by
  have h := round32_of_rep (F := F) (1) (-147) (by norm_num) (by norm_num)
  norm_num at h
  exact h

theorem round32_at_1_zpow_neg_146 : round32 ((1 : F) / 89202980794122492566142873090593446023921664) = ((1 : F) / 89202980794122492566142873090593446023921664) := by
  have h := round32_of_rep (F := F) (1) (-146) (by norm_num) (by norm_num)
  norm_num at h
  exact h

theorem round32_at_3_zpow_neg_147 : round32 ((3 : F) / 178405961588244985132285746181186892047843328) = ((3 : F) / 178405961588244985132285746181186892047843328) := by
  have h := round32_of_rep (F := F) (3) (-147) (by norm_num) (by norm_num)
  norm_num at h
  exact h

theorem round32_at_9_zpow_neg_148 : round32 ((9 : F) / 356811923176489970264571492362373784095686656) = ((9 : F) / 356811923176489970264571492362373784095686656) := by
  have h := round32_of_rep (F := F) (9) (-148) (by norm_num) (by norm_num)
  norm_num at h
  exact h

theorem round32_at_7_zpow_neg_147 : round32 ((7 : F) / 178405961588244985132285746181186892047843328) = ((7 : F) / 178405961588244985132285746181186892047843328) := by
  have h := round32_of_rep (F := F) (7) (-147) (by norm_num) (by norm_num)
  norm_num at h
  exact h

theorem round32_at_9_zpow_neg_147 : round32 ((9 : F) / 178405961588244985132285746181186892047843328) = ((9 : F) / 178405961588244985132285746181186892047843328) := by
  have h := round32_of_rep (F := F) (9) (-147) (by norm_num) (by norm_num)
  norm_num at h
  exact h

theorem round32_at_23_zpow_neg_148 : round32 ((23 : F) / 356811923176489970264571492362373784095686656) = ((23 : F) / 356811923176489970264571492362373784095686656) := by
  have h := round32_of_rep (F := F) (23) (-148) (by norm_num) (by norm_num)
  norm_num at h
  exact h

theorem round32_at_7_zpow_neg_146 : round32 ((7 : F) / 89202980794122492566142873090593446023921664) = ((7 : F) / 89202980794122492566142873090593446023921664) := by
  have h := round32_of_rep (F := F) (7) (-146) (by norm_num) (by norm_num)
  norm_num at h
  exact h

theorem round32_at_15_zpow_neg_147 : round32 ((15 : F) / 178405961588244985132285746181186892047843328) = ((15 : F) / 178405961588244985132285746181186892047843328) := by
  have h := round32_of_rep (F := F) (15) (-147) (by norm_num) (by norm_num)
  norm_num at h
  exact h

theorem round32_at_1_zpow_neg_143 : round32 ((1 : F) / 11150372599265311570767859136324180752990208) = ((1 : F) / 11150372599265311570767859136324180752990208) := by
  have h := round32_of_rep (F := F) (1) (-143) (by norm_num) (by norm_num)
  norm_num at h
  exact h

theorem round32_at_15_zpow_neg_146 : round32 ((15 : F) / 89202980794122492566142873090593446023921664) = ((15 : F) / 89202980794122492566142873090593446023921664) := by
  have h := round32_of_rep (F := F) (15) (-146) (by norm_num) (by norm_num)
  norm_num at h
  exact h

set_option maxHeartbeats 4000000 in
/-- In binary32 the segment in the subnormal range is accepted at the leaf
`[31/32, 1]` with distance `3 s` below the width `4 s`: `0.5f * distance`
rounds to `2 s`, the quotient is `1/2` and `uv.y = 0`. -/
theorem tiny_pointOnSplineFl (sqrt : F → F) (h16 : sqrt 16 = 4) :
    pointOnSplineFl round32 sqrt tinyQ0 tinyQ1 tinyQ2 0 100 hit0
      = some (true, ⟨10, ⟨63 / 64, 0⟩, 4 / 2 ^ 149⟩) := by
  unfold pointOnSplineFl
  simp only [loopFuel, initStateFl, tinyQ0, tinyQ1, tinyQ2, hit0]
  norm_num [round32_zero, round32_at_neg_256, round32_at_neg_252, round32_at_neg_128, round32_at_neg_126, round32_at_neg_124, round32_at_neg_95, round32_at_neg_66, round32_at_neg_62, round32_at_neg_33, round32_at_neg_30, round32_at_neg_14, round32_at_neg_8, round32_at_neg_6, round32_at_neg_5, round32_at_neg_2, round32_at_neg_1_zpow_neg_143, round32_at_neg_31_zpow_neg_148, round32_at_neg_15_zpow_neg_147, round32_at_neg_7_zpow_neg_146, round32_at_neg_3_zpow_neg_145, round32_at_neg_1_zpow_neg_144, round32_at_neg_9_zpow_neg_148, round32_at_neg_3_zpow_neg_147, round32_at_neg_1_zpow_neg_146, round32_at_neg_1_zpow_neg_147, round32_at_neg_1_zpow_neg_148, round32_at_1_zpow_neg_296, round32_at_1_zpow_neg_291, round32_at_1_zpow_neg_290, round32_at_3_zpow_neg_150, round32_at_1_zpow_neg_148, round32_at_3_zpow_neg_149, round32_at_1_zpow_neg_147, round32_at_1_zpow_neg_146, round32_at_3_zpow_neg_147, round32_at_9_zpow_neg_148, round32_at_7_zpow_neg_147, round32_at_9_zpow_neg_147, round32_at_23_zpow_neg_148, round32_at_7_zpow_neg_146, round32_at_15_zpow_neg_147, round32_at_1_zpow_neg_143, round32_at_15_zpow_neg_146, round32_at_1_div_64, round32_at_1_div_32, round32_at_1_div_16, round32_at_1_div_8, round32_at_1_div_4, round32_at_1_div_2, round32_at_3_div_4, round32_at_7_div_8, round32_at_15_div_16, round32_at_31_div_32, round32_at_63_div_64, round32_at_1, round32_at_2, round32_at_4, round32_at_5, round32_at_10, round32_at_16, round32_at_20, round32_at_33, round32_at_64, round32_at_96, round32_at_112, round32_at_120, round32_at_124, round32_at_128, round32_at_256]
  iterate 12
    (first
     | done
     | (rw [loopFl_succ]
        norm_num [loopBodyFl, cullPassFl, cullAxisFl, tFlatFl, fdivFl, quadraticBSplineFl,
          quadraticBSpline4Fl, MaxDepth, popOrBreak, leafTestFl, trimPassFl, segmentTFl,
          chordDirFl, chordDistanceFl, acceptHitFl, signedUnnormalizedFl, Vec2.dotFl,
          Vec2.lengthSqFl, Vec2.lengthFl, Vec4.xy, h16, abs_div, Nat.abs_ofNat, round32_zero, round32_at_neg_256, round32_at_neg_252, round32_at_neg_128, round32_at_neg_126, round32_at_neg_124, round32_at_neg_95, round32_at_neg_66, round32_at_neg_62, round32_at_neg_33, round32_at_neg_30, round32_at_neg_14, round32_at_neg_8, round32_at_neg_6, round32_at_neg_5, round32_at_neg_2, round32_at_neg_1_zpow_neg_143, round32_at_neg_31_zpow_neg_148, round32_at_neg_15_zpow_neg_147, round32_at_neg_7_zpow_neg_146, round32_at_neg_3_zpow_neg_145, round32_at_neg_1_zpow_neg_144, round32_at_neg_9_zpow_neg_148, round32_at_neg_3_zpow_neg_147, round32_at_neg_1_zpow_neg_146, round32_at_neg_1_zpow_neg_147, round32_at_neg_1_zpow_neg_148, round32_at_1_zpow_neg_296, round32_at_1_zpow_neg_291, round32_at_1_zpow_neg_290, round32_at_3_zpow_neg_150, round32_at_1_zpow_neg_148, round32_at_3_zpow_neg_149, round32_at_1_zpow_neg_147, round32_at_1_zpow_neg_146, round32_at_3_zpow_neg_147, round32_at_9_zpow_neg_148, round32_at_7_zpow_neg_147, round32_at_9_zpow_neg_147, round32_at_23_zpow_neg_148, round32_at_7_zpow_neg_146, round32_at_15_zpow_neg_147, round32_at_1_zpow_neg_143, round32_at_15_zpow_neg_146, round32_at_1_div_64, round32_at_1_div_32, round32_at_1_div_16, round32_at_1_div_8, round32_at_1_div_4, round32_at_1_div_2, round32_at_3_div_4, round32_at_7_div_8, round32_at_15_div_16, round32_at_31_div_32, round32_at_63_div_64, round32_at_1, round32_at_2, round32_at_4, round32_at_5, round32_at_10, round32_at_16, round32_at_20, round32_at_33, round32_at_64, round32_at_96, round32_at_112, round32_at_120, round32_at_124, round32_at_128, round32_at_256]))

end Facts

theorem sqrt_sixteen : Real.sqrt 16 = 4 := by
  rw [show (16 : ℝ) = 4 * 4 by norm_num]
  exact Real.sqrt_mul_self (by norm_num)

/-- The lower end `uv.y = 0` is reached: for the subnormal control points
`(92 s, -190, 10)`, `(28 s, -62, 10)`, `(-36 s, 66, 10)` of radius `4 s`,
`s = 2^-149`, the binary32 `pointOnSpline` accepts a leaf with distance
`3 s < 4 s` and reports `uv.y = 0`. -/
theorem pointOnSplineFl_uv_reaches_zero :
    pointOnSplineFl round32 Real.sqrt (tinyQ0 : Vec4 ℝ) tinyQ1 tinyQ2 0 100 hit0
      = some (true, ⟨10, ⟨63 / 64, 0⟩, 4 / 2 ^ 149⟩) ∧
    ¬ (0 < (⟨10, ⟨63 / 64, 0⟩, 4 / 2 ^ 149⟩ : Hit ℝ).uv.y) :=
  ⟨tiny_pointOnSplineFl Real.sqrt sqrt_sixteen, by norm_num⟩

/-- C8 as stated fails: for the float control points `(1 - 2^-24, -190, 10)`,
`(1 - 2^-24, -62, 10)`, `(1 - 2^-24, 66, 10)` of radius `1` the binary32
`pointOnSpline` accepts the leaf `[31/32, 1]` with distance `1 - 2^-24 < 1` and
reports `uv.y = 1`: the sum `(1/2 - 2^-25) + 1/2` rounds to `1`. -/
theorem pointOnSpline_uv_reaches_one :
    round32 ((16777215 : ℝ) / 16777216) = 16777215 / 16777216 ∧
    pointOnSplineFl round32 Real.sqrt (edgeQ0 : Vec4 ℝ) edgeQ1 edgeQ2 0 100 hit0
      = some (true, ⟨10, ⟨63 / 64, 1⟩, 1⟩) ∧
    ¬ ((⟨10, ⟨63 / 64, 1⟩, 1⟩ : Hit ℝ).uv.y < 1) :=
  ⟨round32_at_16777215_div_16777216, edge_pointOnSplineFl Real.sqrt sqrt_sixteen,
    by norm_num⟩

/-- C8 at the segment at distance `1 - 2^-24`. -/
theorem pointOnSplineFl_uv_witness :
    pointOnSplineFl round32 Real.sqrt (edgeQ0 : Vec4 ℝ) edgeQ1 edgeQ2 0 100 hit0
      = some (true, ⟨10, ⟨63 / 64, 1⟩, 1⟩) ∧
    ((0 ≤ (⟨10, ⟨63 / 64, 1⟩, 1⟩ : Hit ℝ).uv.x ∧ (⟨10, ⟨63 / 64, 1⟩, 1⟩ : Hit ℝ).uv.x ≤ 1) ∧ (0 ≤ (⟨10, ⟨63 / 64, 1⟩, 1⟩ : Hit ℝ).uv.y ∧ (⟨10, ⟨63 / 64, 1⟩, 1⟩ : Hit ℝ).uv.y ≤ 1) ∧
    ∃ leaf segT distance, AcceptingLeafFl round32 Real.sqrt edgeQ0 edgeQ1 edgeQ2 0 100 hit0 leaf (⟨10, ⟨63 / 64, 1⟩, 1⟩ : Hit ℝ) ∧
      segmentTFl round32 leaf = some segT ∧
      chordDistanceFl round32 Real.sqrt leaf segT = some distance ∧
      (⟨10, ⟨63 / 64, 1⟩, 1⟩ : Hit ℝ).uv.x = round32 (round32 (segT * leaf.tSpan) + leaf.tMin) ∧
      0 ≤ distance ∧ distance < (⟨10, ⟨63 / 64, 1⟩, 1⟩ : Hit ℝ).width ∧
      0 ≤ round32 (round32 (1/2 * distance) / (⟨10, ⟨63 / 64, 1⟩, 1⟩ : Hit ℝ).width) ∧
      round32 (round32 (1/2 * distance) / (⟨10, ⟨63 / 64, 1⟩, 1⟩ : Hit ℝ).width) ≤ 1/2 ∧
      (⟨10, ⟨63 / 64, 1⟩, 1⟩ : Hit ℝ).uv.y = (if signedUnnormalizedFl round32 leaf < 0
                   then round32 (1/2 - round32 (round32 (1/2 * distance) / (⟨10, ⟨63 / 64, 1⟩, 1⟩ : Hit ℝ).width))
                   else round32 (round32 (round32 (1/2 * distance) / (⟨10, ⟨63 / 64, 1⟩, 1⟩ : Hit ℝ).width) + 1/2)) ∧
      (signedUnnormalizedFl round32 leaf < 0 → (⟨10, ⟨63 / 64, 1⟩, 1⟩ : Hit ℝ).uv.y ≤ 1/2) ∧
      (¬ signedUnnormalizedFl round32 leaf < 0 → 1/2 ≤ (⟨10, ⟨63 / 64, 1⟩, 1⟩ : Hit ℝ).uv.y)) :=
  ⟨edge_pointOnSplineFl Real.sqrt sqrt_sixteen,
    pointOnSplineFl_uv Real.sqrt (fun x _ => Real.sqrt_nonneg x) edgeQ0 edgeQ1 edgeQ2 0 100 hit0
      ⟨10, ⟨63 / 64, 1⟩, 1⟩ (edge_pointOnSplineFl Real.sqrt sqrt_sixteen)⟩

end Tungsten
